import Mathlib

/-!
# MiniVideo: bitstream reader, EBML field decoder, WAVE indexer, track metrics

A shallow embedding of `minivideo/src/bitstream.c`, `bitstream_map.c`,
`demuxer/mkv/ebml.c` and `demuxer/wave/wave_convert.c`, with the properties
proved about it.

Conventions of the embedding:

* `unsigned int` / `uint32_t` values are `Nat`, reduced `% 2^32` where the C
  arithmetic can wrap; the `uint32_t` / `uint64_t` accumulators of the bit
  readers and of the sample loop are reduced `% 2^32` / `% 2^64` at every step.
* `int64_t` values are `Int`. Sums of file offsets and differences of
  timestamps are not reduced: they stay far below `2^63`.
* `double` values are modelled exactly (binary64, round to nearest, ties to
  even): a finite value is the integer number of units `2^-1074` it holds.
* A C function that mutates `*bitstr` returns the new reader state next to its
  return value (`Outcome.ret`). `exit(EXIT_FAILURE)` is `Outcome.terminated`
  and an access outside the allocated buffer is `Outcome.undefined`.
* A C function on a track or a media returns the new track or media in an
  `Option`; `none` is an access outside an array.
* The buffer is the list of its allocated bytes; `buffer_size` is the C field.
  A sample array is the list of its allocated entries.
* Memory allocation (`calloc`, `realloc`) is assumed to succeed, and so is a
  seek to a non-negative offset; `fread` delivers the bytes the source holds.
* The xml sink `FILE *xml` of `write_ebml_element`, `ebml_parse_void`,
  `read_ebml_data_uint2` and `read_ebml_data_int2` is the list of the lines
  printed to it, `none` for a null pointer; these functions return the sink
  next to their result.
* Constants, tables and types declared in headers outside the embedded files
  are parameters (`Build`, `WaveEnv`, `Platform`) or enumerations without
  numeric values.
-/

namespace MiniVideo

/-! ## Constants and build parameters -/

/-- Return code of a successful call ("1 if success, 0 otherwise"). -/
def SUCCESS : Nat := 1

/-- Return code of a failed call. -/
def FAILURE : Nat := 0

/-- Parameters of the build and of the platform that are fixed outside the
embedded files: the size of the continuous-mode window, the debug switch, and
the unspecified value the platform gives to a `double` to `uint32_t`
conversion whose operand is out of range (C Annex F). -/
structure Build where
  BITSTREAM_BUFFER_SIZE : Nat
  ENABLE_DEBUG : Bool
  invalid_uint32 : Nat
  deriving DecidableEq, Repr

/-- One octet of the buffer or of the source (`uint8_t`). -/
abbrev Byte := Fin 256

/-! ## `double` arithmetic (IEEE-754 binary64, round to nearest, ties to even) -/

/-- Number of binary digits of `n`, by halving (`fuel` bounds the halvings). -/
def bit_length_aux : Nat → Nat → Nat
  | 0, _ => 0
  | fuel + 1, n => if n = 0 then 0 else bit_length_aux fuel (n / 2) + 1

/-- Number of binary digits of `n`. -/
def bit_length (n : Nat) : Nat := bit_length_aux n n

/-- The non-negative rational `num / den` rounded to the nearest number with a
53-bit significand, ties to the even significand; below `2^53` the rounding
is to the nearest integer. -/
def round53 (num den : Nat) : Nat :=
  let q := num / den
  let shift := bit_length q - 53
  let d := den * 2 ^ shift
  let t := num / d
  let r := num % d
  if 2 * r < d ∨ (2 * r = d ∧ t % 2 = 0) then t * 2 ^ shift else (t + 1) * 2 ^ shift

/-- The value `1.0` counted in units of `2^-1074`, the spacing of the smallest
binary64 numbers: `2^1074`. -/
def dbl_unit : Nat := (2 ^ 179) ^ 6

/-- A `double`. `finite z` is the binary64 number `z * 2^-1074` (every finite
binary64 number is such a multiple), `infinite` is an infinity and `nan` a NaN.
The sign of a zero and of an infinity is not kept: the embedded code only
divides, multiplies, rounds, converts and compares with `0` and `1.0`, and
none of these tells the two zeros or the two infinities apart. -/
inductive Double where
  | finite (scaled : Int)
  | infinite
  | nan
  deriving DecidableEq, Repr

/-- The `double` nearest to `num / den` units of `2^-1074`; an infinity when
the rounded magnitude reaches `2^1024`. -/
def dbl_round (num : Int) (den : Nat) : Double :=
  let m := round53 num.natAbs den
  if (2 ^ 128) ^ 8 * dbl_unit ≤ m then Double.infinite
  else Double.finite (if num < 0 then -(m : Int) else (m : Int))

/-- The conversion `(double)z` of an integer. -/
def dbl_of_int (z : Int) : Double := dbl_round (z * dbl_unit) 1

/-- The quotient `a / b` of two `double`s. -/
def dbl_div : Double → Double → Double
  | Double.finite x, Double.finite y =>
    if y = 0 then (if x = 0 then Double.nan else Double.infinite)
    else dbl_round (if y < 0 then -(x * dbl_unit) else x * dbl_unit) y.natAbs
  | Double.finite _, Double.infinite => Double.finite 0
  | Double.infinite, Double.finite _ => Double.infinite
  | Double.infinite, Double.infinite => Double.nan
  | Double.nan, _ => Double.nan
  | _, Double.nan => Double.nan

/-- The product `a * b` of two `double`s. -/
def dbl_mul : Double → Double → Double
  | Double.finite x, Double.finite y => dbl_round (x * y) dbl_unit
  | Double.finite x, Double.infinite => if x = 0 then Double.nan else Double.infinite
  | Double.infinite, Double.finite y => if y = 0 then Double.nan else Double.infinite
  | Double.infinite, Double.infinite => Double.infinite
  | Double.nan, _ => Double.nan
  | _, Double.nan => Double.nan

/-- The conversion `(int64_t)a`: truncation toward zero. For an infinity, a
NaN or a value outside `int64_t` the result is the unspecified value `invalid`
of the platform (C Annex F). -/
def dbl_to_int64 (invalid : Int) : Double → Int
  | Double.finite x =>
    let z := Int.tdiv x dbl_unit
    if -(2 ^ 63) ≤ z ∧ z < 2 ^ 63 then z else invalid
  | Double.infinite => invalid
  | Double.nan => invalid

/-- The test `a == 0`. -/
def dbl_is_zero : Double → Bool
  | Double.finite x => decide (x = 0)
  | _ => false

/-- The library function `round`: the nearest integer, halfway cases away from
zero. The result is exact. -/
def dbl_round_half_away : Double → Double
  | Double.finite x =>
    let m := (x.natAbs + dbl_unit / 2) / dbl_unit * dbl_unit
    Double.finite (if x < 0 then -(m : Int) else (m : Int))
  | Double.infinite => Double.infinite
  | Double.nan => Double.nan

/-- The conversion `(unsigned int)a`: truncation toward zero. For an infinity,
a NaN or a value outside `unsigned int` the result is the unspecified value
`invalid` of the platform (C Annex F). -/
def dbl_to_uint32 (invalid : Nat) : Double → Nat
  | Double.finite x =>
    let z := Int.tdiv x dbl_unit
    if 0 ≤ z ∧ z < 2 ^ 32 then z.toNat else invalid
  | Double.infinite => invalid
  | Double.nan => invalid

/-! ## Data model -/

/-- `StreamType_e` (declared outside the embedded files): the enumerators the
embedded code names; the first one is the value of a zeroed field. -/
inductive StreamType_e where
  | stream_UNKNOWN
  | stream_AUDIO
  | stream_VIDEO
  deriving DecidableEq, Repr

/-- `SampleType_e` (declared outside the embedded files). -/
inductive SampleType_e where
  | sample_UNKNOWN
  | sample_AUDIO
  | sample_RAW
  deriving DecidableEq, Repr

/-- `BitrateMode_e` (declared outside the embedded files). -/
inductive BitrateMode_e where
  | BITRATE_UNKNOWN
  | BITRATE_CBR
  | BITRATE_VBR
  deriving DecidableEq, Repr

/-- Track / sample table (`BitstreamMap_t`): the fields the embedded code touches.
The five sample arrays are lists whose length is the allocated entry count.
`stream_size` is a `uint64_t`, `duration_ms` an `int64_t`, `framerate` and
`frame_duration` are `double`s, the counts, sizes and ratio components are
`unsigned int`s, the three aspect ratios are `double`s. -/
structure BitstreamMap_t where
  stream_type : StreamType_e := StreamType_e.stream_UNKNOWN
  stream_codec : Nat := 0
  stream_size : Nat := 0
  stream_intracoded : Bool := false
  duration_ms : Int := 0
  bitrate : Nat := 0
  bitrate_mode : BitrateMode_e := BitrateMode_e.BITRATE_UNKNOWN
  width : Nat := 0
  height : Nat := 0
  pixel_aspect_ratio_h : Nat := 0
  pixel_aspect_ratio_v : Nat := 0
  video_aspect_ratio_h : Nat := 0
  video_aspect_ratio_v : Nat := 0
  display_aspect_ratio_h : Nat := 0
  display_aspect_ratio_v : Nat := 0
  pixel_aspect_ratio : Double := Double.finite 0
  video_aspect_ratio : Double := Double.finite 0
  display_aspect_ratio : Double := Double.finite 0
  framerate : Double := Double.finite 0
  frame_duration : Double := Double.finite 0
  frame_count : Nat := 0
  sample_per_frames : Nat := 0
  channel_count : Nat := 0
  sampling_rate : Nat := 0
  bit_per_sample : Nat := 0
  pcm_sample_format : Nat := 0
  pcm_sample_size : Nat := 0
  pcm_sample_endianness : Nat := 0
  sample_alignment : Bool := false
  sample_count : Nat := 0
  frame_count_idr : Nat := 0
  sample_type : List SampleType_e := []
  sample_size : List Nat := []
  sample_offset : List Int := []
  sample_pts : List Int := []
  sample_dts : List Int := []
  deriving DecidableEq, Repr

/-- Reader state (`Bitstream_t`). `bitstream_file` is the content of the byte
source; `buffer_offset` counts bits, every other offset counts bytes. -/
structure Bitstream_t where
  bitstream_file : List Byte
  bitstream_map : Option BitstreamMap_t
  bitstream_size : Int
  bitstream_offset : Int
  bitstream_sample_index : Nat
  buffer : List Byte
  buffer_size : Nat
  buffer_offset : Nat
  buffer_discarded_bytes : Nat
  deriving DecidableEq, Repr

/-- Result of running a reader operation. -/
inductive Outcome (α : Type) where
  /-- The call returned `v` and left the reader in state `bs`. -/
  | ret (v : α) (bs : Bitstream_t)
  /-- The call ended the process through `exit(EXIT_FAILURE)`. -/
  | terminated
  /-- The call accessed memory outside the allocated buffer, or shifted by
  the width of the accumulator or more. -/
  | undefined
  deriving DecidableEq, Repr

/-! ## bitstream.c -/

/-- The bytes `fread` delivers for a request of `count` bytes at byte `off`
of the source: fewer than `count` when the source ends early. -/
def fread (file : List Byte) (off : Int) (count : Nat) : List Byte :=
  (file.drop off.toNat).take count

/-- The block `realloc(buffer, size)` hands back: the old content up to `size`,
zero filled when it grows. -/
def realloc (buffer : List Byte) (size : Nat) : List Byte :=
  buffer.take size ++ List.replicate (size - buffer.length) 0

/-- `buffer_feed_dynamic(bitstr, new_bitstream_offset)`: reload the window at
`new_bitstream_offset`, or right after the consumed bytes when it is negative. -/
def buffer_feed_dynamic (cfg : Build) (bs : Bitstream_t) (new_bitstream_offset : Int) :
    Outcome Nat :=
  -- Update current offset into the bitstream
  let bs1 : Bitstream_t :=
    if 0 ≤ new_bitstream_offset then
      { bs with bitstream_offset := new_bitstream_offset, buffer_offset := 0 }
    else
      { bs with
          bitstream_offset :=
            bs.bitstream_offset + ((bs.buffer_offset / 8 : Nat) : Int)
              + (bs.buffer_discarded_bytes : Int),
          buffer_offset := bs.buffer_offset % 8 }
  -- Check for premature end of file
  if bs1.bitstream_size ≤ bs1.bitstream_offset then
    Outcome.terminated
  else
    -- Reset buffer size
    let bs2 : Bitstream_t :=
      { bs1 with buffer_size := cfg.BITSTREAM_BUFFER_SIZE, buffer_discarded_bytes := 0 }
    -- Resize buffer if end of file is almost reached
    let bs3 : Bitstream_t :=
      if bs2.bitstream_size < bs2.bitstream_offset + (bs2.buffer_size : Int) then
        let size := ((bs2.bitstream_size - bs2.bitstream_offset) % 2 ^ 32).toNat
        { bs2 with buffer_size := size, buffer := realloc bs2.buffer size }
      else bs2
    -- Move file pointer
    if bs3.bitstream_offset < 0 then
      Outcome.ret FAILURE bs3
    else if bs3.buffer.length < bs3.buffer_size then
      -- fread would write past the end of the allocation
      Outcome.undefined
    else
      -- Feed buffer
      let data := fread bs3.bitstream_file bs3.bitstream_offset bs3.buffer_size
      let bs4 : Bitstream_t := { bs3 with buffer := data ++ bs3.buffer.drop data.length }
      if data.length ≠ bs3.buffer_size then Outcome.ret FAILURE bs4
      else Outcome.ret SUCCESS bs4

/-- The part of `read_bit` after the refill test: fetch the bit under the
cursor and advance the cursor by one. -/
def read_bit_fetch (bs : Bitstream_t) : Outcome Nat :=
  let bp := 7 - bs.buffer_offset % 8
  let start_byte := bs.buffer_offset / 8
  match bs.buffer[start_byte]? with
  | none => Outcome.undefined
  | some b =>
    Outcome.ret ((b.val >>> bp) &&& 0x01)
      { bs with buffer_offset := (bs.buffer_offset + 1) % 2 ^ 32 }

/-- `read_bit(bitstr)`. -/
def read_bit (cfg : Build) (bs : Bitstream_t) : Outcome Nat :=
  let start_byte := bs.buffer_offset / 8
  if bs.buffer_size < start_byte then
    match buffer_feed_dynamic cfg bs (-1) with
    | Outcome.ret r bs1 => if r = FAILURE then Outcome.ret FAILURE bs1 else read_bit_fetch bs1
    | Outcome.terminated => Outcome.terminated
    | Outcome.undefined => Outcome.undefined
  else read_bit_fetch bs

/-- The `while (tbr_current > 0)` loop of the un-aligned branch of `read_bits`
and `read_bits_64`, for an accumulator of `w` bits. -/
def read_unaligned_loop (w : Nat) (buffer : List Byte) (tbr fp : Nat) :
    Nat → Nat → Nat → Option Nat
  | 0, _, bits => some bits
  | tbr_current + 1, byte_current, bits =>
    match buffer[byte_current]? with
    | none => none
    | some b =>
      if 4 < tbr ∧ tbr_current + 1 = 1 then
        read_unaligned_loop w buffer tbr fp tbr_current (byte_current + 1)
          (((bits <<< fp) % 2 ^ w + (b.val &&& (0xFF >>> fp))) % 2 ^ w)
      else
        read_unaligned_loop w buffer tbr fp tbr_current (byte_current + 1)
          (((bits <<< 8) % 2 ^ w + b.val) % 2 ^ w)

/-- The `while (tbr_current > 0)` loop of the aligned branch. -/
def read_aligned_loop (w : Nat) (buffer : List Byte) : Nat → Nat → Nat → Option Nat
  | 0, _, bits => some bits
  | tbr_current + 1, byte_current, bits =>
    match buffer[byte_current]? with
    | none => none
    | some b =>
      read_aligned_loop w buffer tbr_current (byte_current + 1)
        (((bits <<< 8) % 2 ^ w + b.val) % 2 ^ w)

/-- The "Read" section shared by `read_bits` (`w = 32`), `read_bits_64`
(`w = 64`) and `next_bits`: the value of the accumulator `bits` on return,
`none` when a byte outside the allocation is touched or a shift count reaches
the accumulator width. `tbr` is `ceil((n + fp) / 8.0)`. -/
def read_bits_fetch (w : Nat) (bs : Bitstream_t) (n : Nat) : Option Nat :=
  let fp := bs.buffer_offset % 8
  let byte_current := bs.buffer_offset / 8
  let tbr := (((n + fp) % 2 ^ 32) + 7) / 8
  if 0 < fp then
    -- Read un-aligned bits
    match bs.buffer[byte_current]? with
    | none => none
    | some b =>
      match read_unaligned_loop w bs.buffer tbr fp (tbr - 1) (byte_current + 1)
          (b.val &&& (0xFF >>> fp)) with
      | none => none
      | some bits =>
        let shift := (tbr * 8 + 2 * 2 ^ 32 - n - fp) % 2 ^ 32
        if w ≤ shift then none else some (bits >>> shift)
  else
    -- Read aligned bits
    match read_aligned_loop w bs.buffer tbr byte_current 0 with
    | none => none
    | some bits => some (bits >>> ((w + 2 ^ 32 - n) % 2 ^ 32 % 8))

/-- Body common to `read_bits` and `read_bits_64` from the `n == 1` test on. -/
def read_bits_body (w : Nat) (cfg : Build) (bs : Bitstream_t) (n : Nat) : Outcome Nat :=
  if n = 1 then read_bit cfg bs
  else
    let fp := bs.buffer_offset % 8
    let byte_current := bs.buffer_offset / 8
    let tbr := (((n + fp) % 2 ^ 32) + 7) / 8
    let finish (bs1 : Bitstream_t) : Outcome Nat :=
      match read_bits_fetch w bs1 n with
      | none => Outcome.undefined
      | some bits =>
        Outcome.ret bits { bs1 with buffer_offset := (bs1.buffer_offset + n) % 2 ^ 32 }
    -- Fill new data into the bitstream buffer, if needed
    if bs.buffer_size < byte_current + tbr then
      match buffer_feed_dynamic cfg bs (-1) with
      | Outcome.ret r bs1 => if r = FAILURE then Outcome.ret FAILURE bs1 else finish bs1
      | Outcome.terminated => Outcome.terminated
      | Outcome.undefined => Outcome.undefined
    else finish bs

/-- `read_bits(bitstr, n)`: `uint32_t` accumulator. -/
def read_bits (cfg : Build) (bs : Bitstream_t) (n : Nat) : Outcome Nat :=
  if cfg.ENABLE_DEBUG ∧ n = 0 then Outcome.ret FAILURE bs
  else if cfg.ENABLE_DEBUG ∧ 32 < n then Outcome.ret FAILURE bs
  else read_bits_body 32 cfg bs n

/-- `read_bits_64(bitstr, n)`: `uint64_t` accumulator. -/
def read_bits_64 (cfg : Build) (bs : Bitstream_t) (n : Nat) : Outcome Nat :=
  if cfg.ENABLE_DEBUG ∧ n = 0 then Outcome.ret FAILURE bs
  else if cfg.ENABLE_DEBUG ∧ 64 < n then Outcome.ret FAILURE bs
  else read_bits_body 64 cfg bs n

/-- `bitstream_get_absolute_byte_offset(bitstr)`. -/
def bitstream_get_absolute_byte_offset (bs : Bitstream_t) : Int :=
  bs.bitstream_offset + ((bs.buffer_offset / 8 : Nat) : Int) + (bs.buffer_discarded_bytes : Int)

/-- `bitstream_get_absolute_bit_offset(bitstr)`. -/
def bitstream_get_absolute_bit_offset (bs : Bitstream_t) : Int :=
  bs.bitstream_offset * 8 + (bs.buffer_offset : Int) + (bs.buffer_discarded_bytes : Int) * 8

/-- `init_bitstream(video, bitstream_map)` for a `video` whose file is open,
`file` being the content of the file and `file_size` the size `video` records.
`Outcome.ret SUCCESS bs` stands for the pointer to the new reader `bs`,
`Outcome.ret FAILURE _` for the `NULL` result. -/
def init_bitstream (cfg : Build) (file : List Byte) (file_size : Int)
    (bitstream_map : Option BitstreamMap_t) : Outcome Nat :=
  -- Bitstream structure initialization, bitstream buffer allocation
  let bs : Bitstream_t :=
    { bitstream_file := file, bitstream_map := bitstream_map, bitstream_size := file_size,
      bitstream_offset := 0, bitstream_sample_index := 0,
      buffer := List.replicate cfg.BITSTREAM_BUFFER_SIZE 0,
      buffer_size := cfg.BITSTREAM_BUFFER_SIZE, buffer_offset := 0,
      buffer_discarded_bytes := 0 }
  -- Initial buffer filling, only if we do not use a bitstream_map
  match bitstream_map with
  | some _ => Outcome.ret SUCCESS bs
  | none =>
    match buffer_feed_dynamic cfg bs (-1) with
    | Outcome.ret r bs1 => if r = FAILURE then Outcome.ret FAILURE bs1 else Outcome.ret SUCCESS bs1
    | Outcome.terminated => Outcome.terminated
    | Outcome.undefined => Outcome.undefined

/-- `bitstream_goto_offset(bitstr, n)`: "go to the n byte of a file, if possible". -/
def bitstream_goto_offset (cfg : Build) (bs : Bitstream_t) (n : Int) : Outcome Nat :=
  if 0 < n ∧ n < bs.bitstream_size then buffer_feed_dynamic cfg bs n
  else Outcome.ret FAILURE bs

/-- `skip_bits(bitstr, n)`. -/
def skip_bits (cfg : Build) (bs : Bitstream_t) (n : Nat) : Outcome Nat :=
  -- Load next data if needed
  if bs.buffer_size * 8 % 2 ^ 32 < (bs.buffer_offset + n) % 2 ^ 32 then
    if bs.buffer_size < n then
      -- Must reload previous data and go directly to the offset we want
      let new_offset : Int := bs.bitstream_offset * 8 + (bs.buffer_offset : Int) + (n : Int)
      bitstream_goto_offset cfg bs new_offset
    else
      -- Refresh buffer, skip n bits
      match buffer_feed_dynamic cfg bs (-1) with
      | Outcome.ret r bs1 =>
        Outcome.ret r { bs1 with buffer_offset := (bs1.buffer_offset + n) % 2 ^ 32 }
      | Outcome.terminated => Outcome.terminated
      | Outcome.undefined => Outcome.undefined
  else
    -- Skip n bits
    Outcome.ret SUCCESS { bs with buffer_offset := (bs.buffer_offset + n) % 2 ^ 32 }

/-- `rewind_bits(bitstr, n)`. -/
def rewind_bits (cfg : Build) (bs : Bitstream_t) (n : Nat) : Outcome Nat :=
  -- Check if rewinding inside the buffer is possible
  if n < bs.buffer_offset then
    Outcome.ret SUCCESS { bs with buffer_offset := bs.buffer_offset - n }
  else
    -- Must reload previous data and go directly to the offset we want
    let new_offset : Int := bs.bitstream_offset * 8 + (bs.buffer_offset : Int) - (n : Int)
    bitstream_goto_offset cfg bs new_offset

/-- `buffer_feed_next_sample(bitstr)`: load the sample of index
`bitstream_sample_index` of the sample table into the buffer. A reader without
a sample table, or an index outside the sample arrays, is an invalid access. -/
def buffer_feed_next_sample (bs : Bitstream_t) : Outcome Nat :=
  match bs.bitstream_map with
  | none => Outcome.undefined
  | some map =>
    -- Check for premature end of file
    if bs.bitstream_sample_index = map.sample_count
        ∧ (bs.buffer_size + 2 ^ 32 - bs.buffer_offset) % 2 ^ 32 < 8 then
      Outcome.terminated
    else
      -- Reset parameters, read sample parameters
      match map.sample_offset[bs.bitstream_sample_index]?,
          map.sample_size[bs.bitstream_sample_index]? with
      | some sample_offset, some sample_size =>
        let bs1 : Bitstream_t :=
          { bs with
              buffer_offset := 0, buffer_discarded_bytes := 0,
              bitstream_offset := sample_offset, buffer_size := sample_size }
        -- Check bitstream_map->sample validity
        if map.sample_count < bs1.bitstream_sample_index ∨ bs1.bitstream_offset ≤ 0
            ∨ bs1.buffer_size = 0 then
          Outcome.ret FAILURE bs1
        else
          -- Realloc buffer, move file pointer, feed buffer, update sample position
          let bs2 : Bitstream_t := { bs1 with buffer := realloc bs1.buffer bs1.buffer_size }
          let data := fread bs2.bitstream_file bs2.bitstream_offset bs2.buffer_size
          let bs3 : Bitstream_t :=
            { bs2 with
                buffer := data ++ bs2.buffer.drop data.length,
                bitstream_sample_index := (bs2.bitstream_sample_index + 1) % 2 ^ 32 }
          if data.length ≠ bs2.buffer_size then Outcome.ret FAILURE bs3
          else Outcome.ret SUCCESS bs3
      | _, _ => Outcome.undefined

/-- The part of `read_byte_aligned` after the refill test. -/
def read_byte_aligned_fetch (cfg : Build) (bs : Bitstream_t) : Outcome Nat :=
  -- Check byte alignment
  if cfg.ENABLE_DEBUG ∧ bs.buffer_offset % 8 ≠ 0 then Outcome.ret FAILURE bs
  else
    -- Read one byte, update bit offset
    match bs.buffer[bs.buffer_offset / 8]? with
    | none => Outcome.undefined
    | some b => Outcome.ret b.val { bs with buffer_offset := (bs.buffer_offset + 8) % 2 ^ 32 }

/-- `read_byte_aligned(bitstr)`. -/
def read_byte_aligned (cfg : Build) (bs : Bitstream_t) : Outcome Nat :=
  if bs.buffer_size * 8 % 2 ^ 32 < (bs.buffer_offset + 8) % 2 ^ 32 then
    match buffer_feed_dynamic cfg bs (-1) with
    | Outcome.ret r bs1 =>
      if r = FAILURE then Outcome.ret FAILURE bs1 else read_byte_aligned_fetch cfg bs1
    | Outcome.terminated => Outcome.terminated
    | Outcome.undefined => Outcome.undefined
  else read_byte_aligned_fetch cfg bs

/-- The part of `next_byte_aligned` after the refill test. -/
def next_byte_aligned_fetch (cfg : Build) (bs : Bitstream_t) : Outcome Nat :=
  -- Check byte alignment
  if cfg.ENABLE_DEBUG ∧ bs.buffer_offset % 8 ≠ 0 then Outcome.ret FAILURE bs
  else
    -- Read one byte
    match bs.buffer[bs.buffer_offset / 8]? with
    | none => Outcome.undefined
    | some b => Outcome.ret b.val bs

/-- `next_byte_aligned(bitstr)`. -/
def next_byte_aligned (cfg : Build) (bs : Bitstream_t) : Outcome Nat :=
  if bs.buffer_size * 8 % 2 ^ 32 < (bs.buffer_offset + 8) % 2 ^ 32 then
    match buffer_feed_dynamic cfg bs (-1) with
    | Outcome.ret r bs1 =>
      if r = FAILURE then Outcome.ret FAILURE bs1 else next_byte_aligned_fetch cfg bs1
    | Outcome.terminated => Outcome.terminated
    | Outcome.undefined => Outcome.undefined
  else next_byte_aligned_fetch cfg bs

/-- The part of `next_bit` after the refill test: fetch the bit under the
cursor. -/
def next_bit_fetch (bs : Bitstream_t) : Outcome Nat :=
  let bp := 7 - bs.buffer_offset % 8
  let start_byte := bs.buffer_offset / 8
  match bs.buffer[start_byte]? with
  | none => Outcome.undefined
  | some b => Outcome.ret ((b.val >>> bp) &&& 0x01) bs

/-- `next_bit(bitstr)`. -/
def next_bit (cfg : Build) (bs : Bitstream_t) : Outcome Nat :=
  let start_byte := bs.buffer_offset / 8
  if bs.buffer_size < start_byte then
    match buffer_feed_dynamic cfg bs (-1) with
    | Outcome.ret r bs1 => if r = FAILURE then Outcome.ret FAILURE bs1 else next_bit_fetch bs1
    | Outcome.terminated => Outcome.terminated
    | Outcome.undefined => Outcome.undefined
  else next_bit_fetch bs

/-- `next_bits(bitstr, n)`. -/
def next_bits (cfg : Build) (bs : Bitstream_t) (n : Nat) : Outcome Nat :=
  if cfg.ENABLE_DEBUG ∧ n = 0 then Outcome.ret FAILURE bs
  else if cfg.ENABLE_DEBUG ∧ 32 < n then Outcome.ret FAILURE bs
  else if n = 1 then next_bit cfg bs
  else
    let fp := bs.buffer_offset % 8
    let byte_current := bs.buffer_offset / 8
    let tbr := (((n + fp) % 2 ^ 32) + 7) / 8
    let finish (bs1 : Bitstream_t) : Outcome Nat :=
      match read_bits_fetch 32 bs1 n with
      | none => Outcome.undefined
      | some bits => Outcome.ret bits bs1
    -- Fill new data into the bitstream buffer, if needed
    if bs.buffer_size < byte_current + tbr then
      match buffer_feed_dynamic cfg bs (-1) with
      | Outcome.ret r bs1 => if r = FAILURE then Outcome.ret FAILURE bs1 else finish bs1
      | Outcome.terminated => Outcome.terminated
      | Outcome.undefined => Outcome.undefined
    else finish bs

/-! ## demuxer/mkv/ebml.c -/

/-- Element header record (`EbmlElement_t`). -/
structure EbmlElement_t where
  eid : Nat := 0
  eid_size : Nat := 0
  size : Int := 0
  size_size : Nat := 0
  offset_start : Int := 0
  offset_end : Int := 0
  deriving DecidableEq, Repr

/-- The loop `while (read_bit(bitstr) == 0 && leadingZeroBits < max) leadingZeroBits++;`
with `remaining = max - leadingZeroBits`. Every pass reads one bit; the pass
that finds a set bit, or that finds `leadingZeroBits = max`, is the last one.
Returns `leadingZeroBits`. -/
def ebml_leading_zeros (cfg : Build) : Nat → Nat → Bitstream_t → Outcome Nat
  | 0, leadingZeroBits, bs =>
    match read_bit cfg bs with
    | Outcome.ret _ bs1 => Outcome.ret leadingZeroBits bs1
    | Outcome.terminated => Outcome.terminated
    | Outcome.undefined => Outcome.undefined
  | remaining + 1, leadingZeroBits, bs =>
    match read_bit cfg bs with
    | Outcome.ret bit bs1 =>
      if bit = 0 then ebml_leading_zeros cfg remaining (leadingZeroBits + 1) bs1
      else Outcome.ret leadingZeroBits bs1
    | Outcome.terminated => Outcome.terminated
    | Outcome.undefined => Outcome.undefined

/-- The conversion of `read_bits_64(..) + pow(2, size)` (a `double`) to the
`uint32_t` identifier: the sum itself when it fits `uint32_t`, the unspecified
value of the platform otherwise. The sum is formed exactly: `size` is at most
35 and the field read is below `2^53`. -/
def ebml_eid_value (cfg : Build) (bits size : Nat) : Nat :=
  if bits + 2 ^ size < 2 ^ 32 then bits + 2 ^ size else cfg.invalid_uint32

/-- `read_ebml_eid(bitstr)`. -/
def read_ebml_eid (cfg : Build) (bs : Bitstream_t) : Outcome Nat :=
  match ebml_leading_zeros cfg 4 0 bs with
  | Outcome.ret leadingZeroBits bs1 =>
    let elementSize := (leadingZeroBits + 1) * 7
    match read_bits_64 cfg bs1 elementSize with
    | Outcome.ret bits bs2 => Outcome.ret (ebml_eid_value cfg bits elementSize) bs2
    | Outcome.terminated => Outcome.terminated
    | Outcome.undefined => Outcome.undefined
  | Outcome.terminated => Outcome.terminated
  | Outcome.undefined => Outcome.undefined

/-- The conversion of a `uint64_t` to `int64_t` (two's complement). -/
def to_int64 (v : Nat) : Int :=
  if v % 2 ^ 64 < 2 ^ 63 then ((v % 2 ^ 64 : Nat) : Int) else ((v % 2 ^ 64 : Nat) : Int) - 2 ^ 64

/-- `read_ebml_size(bitstr)`; the result is an `int64_t`. -/
def read_ebml_size (cfg : Build) (bs : Bitstream_t) : Outcome Int :=
  match ebml_leading_zeros cfg 8 0 bs with
  | Outcome.ret leadingZeroBits bs1 =>
    let sizeSize := (leadingZeroBits + 1) * 7
    match read_bits_64 cfg bs1 sizeSize with
    | Outcome.ret sizeValue bs2 => Outcome.ret (to_int64 sizeValue) bs2
    | Outcome.terminated => Outcome.terminated
    | Outcome.undefined => Outcome.undefined
  | Outcome.terminated => Outcome.terminated
  | Outcome.undefined => Outcome.undefined

/-- `parse_ebml_element(bitstr, element)` for a non-null `element`: the return
code and the filled element. -/
def parse_ebml_element (cfg : Build) (bs : Bitstream_t) :
    Outcome (Nat × EbmlElement_t) :=
  -- Set element offset
  let offset_start := bitstream_get_absolute_byte_offset bs
  -- Read element ID
  match ebml_leading_zeros cfg 4 0 bs with
  | Outcome.ret zeros_id bs1 =>
    let id_bits := (zeros_id + 1) * 7
    let eid_size := (id_bits + zeros_id + 1) / 8
    match read_bits_64 cfg bs1 id_bits with
    | Outcome.ret bits bs2 =>
      let eid := ebml_eid_value cfg bits id_bits
      -- Read element size
      match ebml_leading_zeros cfg 8 0 bs2 with
      | Outcome.ret zeros_size bs3 =>
        let size_bits := (zeros_size + 1) * 7
        let size_size := (size_bits + zeros_size + 1) / 8
        match read_bits_64 cfg bs3 size_bits with
        | Outcome.ret size bs4 =>
          -- Set end offset
          Outcome.ret
            (SUCCESS,
              { eid := eid, eid_size := eid_size, size := to_int64 size,
                size_size := size_size, offset_start := offset_start,
                offset_end := offset_start + (eid_size : Int) + to_int64 size })
            bs4
        | Outcome.terminated => Outcome.terminated
        | Outcome.undefined => Outcome.undefined
      | Outcome.terminated => Outcome.terminated
      | Outcome.undefined => Outcome.undefined
    | Outcome.terminated => Outcome.terminated
    | Outcome.undefined => Outcome.undefined
  | Outcome.terminated => Outcome.terminated
  | Outcome.undefined => Outcome.undefined

/-- `ebml_parse_unknown(bitstr, element, xml)`. `xml` tells whether a sink is
attached; the sink is written to and never read. The function returns at
`return FAILURE; // FIXME needs to be recursive`, before the loop over the
sub-elements, and does not touch the reader. -/
def ebml_parse_unknown (bs : Bitstream_t) (_element : EbmlElement_t) (_xml : Bool) :
    Outcome Nat :=
  Outcome.ret FAILURE bs

/-- `jumpy_mkv(bitstr, parent, current)`. The first statement of the body is
`return SUCCESS; // FIXME`; the position check and the jump below it are never
reached. -/
def jumpy_mkv (bs : Bitstream_t) (_parent : Option EbmlElement_t) (_current : EbmlElement_t) :
    Outcome Nat :=
  Outcome.ret SUCCESS bs

/-- `read_ebml_data_uint(bitstr, size)`: `size` is an `int`, the bit count
`size*8` is passed as an `unsigned int`. -/
def read_ebml_data_uint (cfg : Build) (bs : Bitstream_t) (size : Int) : Outcome Nat :=
  read_bits_64 cfg bs ((size * 8) % 2 ^ 32).toNat

/-- A line printed to the xml sink `FILE *xml` by the functions of ebml.c. -/
inductive XmlLine where
  /-- `  <atom title=".." id="0x.." type="EBML element" offset=".." size="..">`. -/
  | atom (title : String) (eid : Nat) (offset size : Int)
  /-- `  </atom>`. -/
  | atom_end
  /-- `  <name>value</name>`, the value printed with `PRId64`. -/
  | value (name : String) (value : Int)
  deriving DecidableEq, Repr

/-- `write_ebml_element(element, xml, title)` for a non-null `element`: the
sink afterwards. The sink is the list of the lines printed to it so far,
`none` for a null `xml`. -/
def write_ebml_element (element : EbmlElement_t) (xml : Option (List XmlLine))
    (title : Option String) : Option (List XmlLine) :=
  match xml with
  | none => none
  | some lines =>
    match title with
    | some t => some (lines ++ [XmlLine.atom t element.eid element.offset_start element.size])
    | none =>
      some (lines ++ [XmlLine.atom "Unknown" element.eid element.offset_start element.size])

/-- `read_ebml_data_uint2(bitstr, element, xml, name)`: what the call returns
and the sink afterwards. `element->size * 8` is an `int64_t` passed as an
`unsigned int` bit count. -/
def read_ebml_data_uint2 (cfg : Build) (bs : Bitstream_t) (element : EbmlElement_t)
    (xml : Option (List XmlLine)) (name : Option String) :
    Outcome Nat × Option (List XmlLine) :=
  match read_bits_64 cfg bs ((element.size * 8) % 2 ^ 32).toNat with
  | Outcome.ret value bs1 =>
    match name, xml with
    | some n, some lines =>
      (Outcome.ret value bs1, some (lines ++ [XmlLine.value n (to_int64 value)]))
    | _, _ => (Outcome.ret value bs1, xml)
  | Outcome.terminated => (Outcome.terminated, xml)
  | Outcome.undefined => (Outcome.undefined, xml)

/-- `read_ebml_data_int(bitstr, size)`: the `uint64_t` that `read_bits_64`
returns, converted to `int64_t`. -/
def read_ebml_data_int (cfg : Build) (bs : Bitstream_t) (size : Int) : Outcome Int :=
  match read_bits_64 cfg bs ((size * 8) % 2 ^ 32).toNat with
  | Outcome.ret value bs1 => Outcome.ret (to_int64 value) bs1
  | Outcome.terminated => Outcome.terminated
  | Outcome.undefined => Outcome.undefined

/-- `read_ebml_data_int2(bitstr, element, xml, name)`: what the call returns
and the sink afterwards. -/
def read_ebml_data_int2 (cfg : Build) (bs : Bitstream_t) (element : EbmlElement_t)
    (xml : Option (List XmlLine)) (name : Option String) :
    Outcome Int × Option (List XmlLine) :=
  match read_bits_64 cfg bs ((element.size * 8) % 2 ^ 32).toNat with
  | Outcome.ret bits bs1 =>
    let value := to_int64 bits
    match name, xml with
    | some n, some lines => (Outcome.ret value bs1, some (lines ++ [XmlLine.value n value]))
    | _, _ => (Outcome.ret value bs1, xml)
  | Outcome.terminated => (Outcome.terminated, xml)
  | Outcome.undefined => (Outcome.undefined, xml)

/-- `read_ebml_data_float(bitstr, size)`: the body is `return 0;`, neither the
reader nor the size is used. -/
def read_ebml_data_float (bs : Bitstream_t) (_size : Int) : Outcome Double :=
  Outcome.ret (Double.finite 0) bs

/-- `ebml_parse_void(bitstr, element, xml)`: what the call returns and the
sink afterwards. `element->size*8` is an `int64_t` passed as the `unsigned int`
bit count of `skip_bits`. -/
def ebml_parse_void (cfg : Build) (bs : Bitstream_t) (element : EbmlElement_t)
    (xml : Option (List XmlLine)) : Outcome Nat × Option (List XmlLine) :=
  -- xmlMapper
  let xml1 : Option (List XmlLine) :=
    match write_ebml_element element xml (some "Void") with
    | some lines => some (lines ++ [XmlLine.atom_end])
    | none => none
  (skip_bits cfg bs ((element.size * 8) % 2 ^ 32).toNat, xml1)

/-! ## demuxer/wave/wave_convert.c -/

/-- `CODEC_LPCM` of `AVCodec_e` (avcodecs.h). -/
def CODEC_LPCM : Nat := 1

/-- `UINT32_MAX`. -/
def UINT32_MAX : Nat := 2 ^ 32 - 1

/-- The `fmt ` chunk of a WAVE file: `uint16_t` tag, channels and bit depth,
`uint32_t` rates. -/
structure fmtChunk_t where
  wFormatTag : Nat
  nChannels : Nat
  nSamplesPerSec : Nat
  nAvgBytesPerSec : Nat
  wBitsPerSample : Nat
  deriving DecidableEq, Repr

/-- The `fact` chunk: `uint32_t` sample length, `0` when the chunk is absent. -/
structure factChunk_t where
  dwSampleLength : Nat
  deriving DecidableEq, Repr

/-- The `data` chunk: `int64_t` offset and size of the data region. -/
structure dataChunk_t where
  datasOffset : Int
  datasSize : Int
  deriving DecidableEq, Repr

/-- WAVE description (`wave_t`). -/
structure wave_t where
  fmt : fmtChunk_t
  fact : factChunk_t
  data : dataChunk_t
  deriving DecidableEq, Repr

/-- The fields of a WAVE description are within the ranges of their C types. -/
def wave_t.WellTyped (wave : wave_t) : Prop :=
  wave.fmt.wFormatTag < 2 ^ 16 ∧ wave.fmt.nChannels < 2 ^ 16 ∧
    wave.fmt.nSamplesPerSec < 2 ^ 32 ∧ wave.fmt.nAvgBytesPerSec < 2 ^ 32 ∧
    wave.fmt.wBitsPerSample < 2 ^ 16 ∧ wave.fact.dwSampleLength < 2 ^ 32 ∧
    -(2 ^ 63) ≤ wave.data.datasOffset ∧ wave.data.datasOffset < 2 ^ 63 ∧
    -(2 ^ 63) ≤ wave.data.datasSize ∧ wave.data.datasSize < 2 ^ 63

instance (wave : wave_t) : Decidable wave.WellTyped := by
  unfold wave_t.WellTyped; infer_instance

/-- Media description (`MediaFile_t`): the arrays of audio and video track
pointers (`none` is a null pointer), the numbers of tracks and the duration. -/
structure MediaFile_t where
  tracks_audio : List (Option BitstreamMap_t)
  tracks_audio_count : Nat
  duration : Int := 0
  tracks_video : List (Option BitstreamMap_t) := []
  tracks_video_count : Nat := 0
  deriving DecidableEq, Repr

/-- What `wave_convert.c` takes from outside the embedded files: the two format
tags of linear PCM and the codec table of twocc.h, and the value the platform
gives to an invalid `double` to `int64_t` conversion. -/
structure WaveEnv where
  WAVE_FORMAT_MS_PCM : Nat
  WAVE_FORMAT_EXTENSIBLE : Nat
  getCodecFromTwoCC : Nat → Nat
  invalid_int64 : Int

/-- The structure and the five sample arrays `init_bitstream_map` allocates
with `calloc`: everything is zero, also `sample_count`. -/
def zeroed_bitstream_map (entries : Nat) : BitstreamMap_t :=
  { sample_type := List.replicate entries SampleType_e.sample_UNKNOWN,
    sample_size := List.replicate entries 0,
    sample_offset := List.replicate entries 0,
    sample_pts := List.replicate entries 0,
    sample_dts := List.replicate entries 0 }

/-- `init_bitstream_map(&slot, entries)` (bitstream_map.c): the return code and
the new content of the pointer `slot`. -/
def init_bitstream_map (slot : Option BitstreamMap_t) (entries : Nat) :
    Nat × Option BitstreamMap_t :=
  match slot with
  | some t => (FAILURE, some t)
  | none =>
    if entries = 0 then (FAILURE, none)
    else (SUCCESS, some (zeroed_bitstream_map entries))

/-- The track `media->tracks_audio[i]` points to; `none` for a null pointer or
an index outside the array. -/
def MediaFile_t.track (media : MediaFile_t) (i : Nat) : Option BitstreamMap_t :=
  match media.tracks_audio[i]? with
  | some (some t) => some t
  | _ => none

/-- Store `t` as the track `media->tracks_audio[i]` points to. -/
def MediaFile_t.setTrack (media : MediaFile_t) (i : Nat) (t : BitstreamMap_t) : MediaFile_t :=
  { media with tracks_audio := media.tracks_audio.set i (some t) }

/-- Lines 68-122 of `wave_indexer_initmap`: the assignments through `track->`
that come before the "SAMPLES" block. -/
def wave_track_header (env : WaveEnv) (wave : wave_t) (track : BitstreamMap_t) :
    BitstreamMap_t :=
  let t1 : BitstreamMap_t :=
    { track with
        stream_type := StreamType_e.stream_AUDIO,
        stream_codec := env.getCodecFromTwoCC wave.fmt.wFormatTag }
  let t2 : BitstreamMap_t :=
    if wave.fmt.wFormatTag = env.WAVE_FORMAT_MS_PCM ∨
        wave.fmt.wFormatTag = env.WAVE_FORMAT_EXTENSIBLE then
      let a : BitstreamMap_t := { t1 with stream_codec := CODEC_LPCM }
      let b : BitstreamMap_t :=
        if wave.fact.dwSampleLength ≠ 0 then
          let b1 : BitstreamMap_t :=
            { a with
                stream_size :=
                  (wave.fact.dwSampleLength * (wave.fmt.wBitsPerSample * 8)
                    * wave.fmt.nChannels) % 2 ^ 32 }
          if wave.fmt.nSamplesPerSec ≠ 0 then
            { b1 with
                duration_ms :=
                  dbl_to_int64 env.invalid_int64
                    (dbl_mul (dbl_of_int wave.fact.dwSampleLength)
                      (dbl_div (dbl_of_int 1000) (dbl_of_int wave.fmt.nSamplesPerSec))) }
          else b1
        else
          let b1 : BitstreamMap_t :=
            { a with stream_size := (wave.data.datasSize % 2 ^ 64).toNat }
          if wave.fmt.wBitsPerSample ≠ 0 then
            { b1 with
                duration_ms :=
                  ((wave.fmt.nSamplesPerSec * (wave.fmt.wBitsPerSample / 8)
                    * wave.fmt.nChannels) % 2 ^ 32 : Nat) }
          else b1
      { b with
          bitrate :=
            (wave.fmt.nSamplesPerSec * wave.fmt.wBitsPerSample * wave.fmt.nChannels) % 2 ^ 32,
          bitrate_mode := BitrateMode_e.BITRATE_CBR,
          pcm_sample_format := 0, pcm_sample_size := 0, pcm_sample_endianness := 0 }
    else t1
  -- backup computations
  let t3 : BitstreamMap_t :=
    if t2.duration_ms = 0 ∧ wave.fmt.nAvgBytesPerSec ≠ 0 then
      { t2 with
          duration_ms :=
            dbl_to_int64 env.invalid_int64
              (dbl_mul
                (dbl_div (dbl_of_int wave.data.datasSize) (dbl_of_int wave.fmt.nAvgBytesPerSec))
                (dbl_of_int 1000)) }
    else t2
  let t4 : BitstreamMap_t :=
    if t3.stream_size = 0 then { t3 with stream_size := (wave.data.datasSize % 2 ^ 64).toNat }
    else t3
  { t4 with
      channel_count := wave.fmt.nChannels,
      sampling_rate := wave.fmt.nSamplesPerSec,
      bit_per_sample := wave.fmt.wBitsPerSample }

/-- The loop `for (int64_t i = 0; i < wave->data.datasSize; i += pcm_frame_size)`
run on the track `media->tracks_audio[0]` points to. `fuel` bounds the number
of passes; `none` when a pass writes outside a sample array or when the
passes do not end within `fuel`. -/
def wave_pcm_loop (invalid : Int) (data : dataChunk_t) (pcm_frame_size pcm_samples_count : Nat)
    (pcm_frame_tick_ns : Double) : Nat → Int → BitstreamMap_t → Option BitstreamMap_t
  | 0, i, t => if i < data.datasSize then none else some t
  | fuel + 1, i, t =>
    if i < data.datasSize then
      -- Set PCM frame into the bitstream_map
      let sid := t.sample_count
      if sid < pcm_samples_count then
        if sid < t.sample_type.length ∧ sid < t.sample_size.length ∧
            sid < t.sample_offset.length ∧ sid < t.sample_pts.length ∧
            sid < t.sample_dts.length then
          wave_pcm_loop invalid data pcm_frame_size pcm_samples_count pcm_frame_tick_ns fuel
            (i + pcm_frame_size)
            { t with
                sample_type := t.sample_type.set sid SampleType_e.sample_AUDIO,
                sample_size := t.sample_size.set sid pcm_frame_size,
                sample_offset := t.sample_offset.set sid (data.datasOffset + i),
                sample_pts :=
                  t.sample_pts.set sid
                    (dbl_to_int64 invalid (dbl_mul (dbl_of_int sid) pcm_frame_tick_ns)),
                sample_dts := t.sample_dts.set sid 0,
                sample_count := sid + 1 }
        else none
      else
        wave_pcm_loop invalid data pcm_frame_size pcm_samples_count pcm_frame_tick_ns fuel
          (i + pcm_frame_size) t
    else some t

/-- `wave_indexer_initmap(media, wave)`: the return code and the media
afterwards; `none` when the call does not return normally (division by zero,
null pointer, write outside an array, a loop that does not end). -/
def wave_indexer_initmap (env : WaveEnv) (media : MediaFile_t) (wave : wave_t) :
    Option (Nat × MediaFile_t) :=
  let is_pcm : Bool :=
    wave.fmt.wFormatTag = env.WAVE_FORMAT_MS_PCM ∨
      wave.fmt.wFormatTag = env.WAVE_FORMAT_EXTENSIBLE
  let frame := wave.fmt.nChannels * (wave.fmt.wBitsPerSample / 8)
  if is_pcm ∧ frame = 0 then none
  else
    let pcm_samples_count : Nat :=
      if is_pcm then min ((Int.tdiv wave.data.datasSize frame) % 2 ^ 64).toNat UINT32_MAX
      else 0
    match media.tracks_audio[0]? with
    | none => none
    | some slot =>
      -- Init a bitstreamMap_t for each wave track
      let init := init_bitstream_map slot (if is_pcm then pcm_samples_count else 1)
      let media1 : MediaFile_t := { media with tracks_audio := media.tracks_audio.set 0 init.2 }
      if init.1 ≠ SUCCESS then some (init.1, media1)
      else
        match media1.track media1.tracks_audio_count with
        | none => none
        | some track =>
          let track1 := wave_track_header env wave track
          let media2 := media1.setTrack media1.tracks_audio_count track1
          -- SAMPLES
          if track1.stream_codec = CODEC_LPCM then
            let media3 :=
              media2.setTrack media2.tracks_audio_count { track1 with sample_alignment := true }
            match media3.track 0 with
            | none => none
            | some first =>
              let pcm_frame_size := (first.channel_count * (first.bit_per_sample / 8)) % 2 ^ 32
              let pcm_frame_tick_ns :=
                dbl_div (dbl_of_int 1000000) (dbl_of_int track1.sampling_rate)
              match wave_pcm_loop env.invalid_int64 wave.data pcm_frame_size pcm_samples_count
                  pcm_frame_tick_ns wave.data.datasSize.toNat 0 first with
              | none => none
              | some filled =>
                let media4 := media3.setTrack 0 filled
                match media4.track media4.tracks_audio_count with
                | none => none
                | some last =>
                  some
                    (SUCCESS,
                      media4.setTrack media4.tracks_audio_count
                        { last with
                            duration_ms :=
                              dbl_to_int64 env.invalid_int64
                                (dbl_mul (dbl_of_int filled.sample_count)
                                  (dbl_div (dbl_of_int 1000) (dbl_of_int last.sampling_rate))) })
          else
            if 0 < track1.sample_type.length ∧ 0 < track1.sample_size.length ∧
                0 < track1.sample_offset.length ∧ 0 < track1.sample_pts.length ∧
                0 < track1.sample_dts.length then
              some
                (SUCCESS,
                  media2.setTrack media2.tracks_audio_count
                    { track1 with
                        sample_alignment := false, sample_count := 1, frame_count_idr := 1,
                        bitrate_mode := BitrateMode_e.BITRATE_UNKNOWN,
                        sample_type := track1.sample_type.set 0 SampleType_e.sample_RAW,
                        sample_size :=
                          track1.sample_size.set 0 (wave.data.datasSize % 2 ^ 32).toNat,
                        sample_offset := track1.sample_offset.set 0 wave.data.datasOffset,
                        sample_pts := track1.sample_pts.set 0 0,
                        sample_dts := track1.sample_dts.set 0 0 })
            else none

/-- `wave_indexer(bitstr, media, wave)`; the reader is not used. -/
def wave_indexer (env : WaveEnv) (media : MediaFile_t) (wave : wave_t) :
    Option (Nat × MediaFile_t) :=
  -- Convert index into a bitstream map
  match wave_indexer_initmap env media wave with
  | none => none
  | some (retcode, media1) =>
    match media1.tracks_audio[0]? with
    | none => none
    | some slot =>
      match slot with
      | some first =>
        if retcode = SUCCESS then
          some (retcode, { media1 with tracks_audio_count := 1, duration := first.duration_ms })
        else some (retcode, media1)
      | none => some (retcode, media1)

/-! ## bitstream_map.c -/

/-- The unspecified values the platform gives to a conversion from `double`
whose operand is outside the integer type (C Annex F). -/
structure Platform where
  invalid_int64 : Int
  invalid_uint32 : Nat
  deriving DecidableEq, Repr

/-- `computeSamplesDatasTrack`, from the entry to the sample loop: the frame
counts and the frame duration. `none` when `sample_dts[1]` is read outside
the array. -/
def computeSamplesDatasTrack_frames (track : BitstreamMap_t) : Option BitstreamMap_t :=
  let t1 : BitstreamMap_t :=
    if track.sample_alignment then { track with frame_count := track.sample_count } else track
  let t2 : BitstreamMap_t :=
    if t1.stream_intracoded then { t1 with frame_count_idr := t1.frame_count } else t1
  -- Audio frame duration
  let t3 : Option BitstreamMap_t :=
    if t2.stream_type = StreamType_e.stream_AUDIO ∧ 2 ≤ t2.sample_count then
      match t2.sample_dts[1]?, t2.sample_dts[0]? with
      | some dts1, some dts0 =>
        some { t2 with frame_duration := dbl_div (dbl_of_int (dts1 - dts0)) (dbl_of_int 1000) }
      | _, _ => none
    else some t2
  match t3 with
  | none => none
  | some t3 =>
    -- Video frame duration
    let t4 : BitstreamMap_t :=
      if t3.stream_type = StreamType_e.stream_VIDEO ∧ dbl_is_zero t3.frame_duration = true
          ∧ dbl_is_zero t3.framerate = false then
        { t3 with frame_duration := dbl_div (dbl_of_int 1000) t3.framerate }
      else t3
    -- Video frame interval (a local that is not used afterwards)
    if t4.stream_type = StreamType_e.stream_VIDEO ∧ 2 ≤ t4.sample_count
        ∧ t4.sample_dts.length < 2 then none
    else some t4

/-- The sample loop of `computeSamplesDatasTrack`, `remaining` iterations from
sample `j` on, over the locals `totalbytes` (`uint64_t`) and `cbr` and the
field `frame_count`. `none` when an array is read outside its entries. -/
def computeSamplesDatasTrack_loop (track : BitstreamMap_t) :
    Nat → Nat → Nat → Bool → Nat → Option (Nat × Bool × Nat)
  | 0, _, totalbytes, cbr, frame_count => some (totalbytes, cbr, frame_count)
  | remaining + 1, j, totalbytes, cbr, frame_count =>
    match track.sample_size[j]?, track.sample_size[10]? with
    | some size, some ref =>
      let totalbytes := (totalbytes + size) % 2 ^ 64
      let cbr :=
        if (ref + 1) % 2 ^ 32 < size ∨ size < (ref + 2 ^ 32 - 1) % 2 ^ 32 then false else cbr
      if track.sample_alignment = false then
        match track.sample_pts[j]? with
        | none => none
        | some pts =>
          if pts ≠ 0 then
            computeSamplesDatasTrack_loop track remaining (j + 1) totalbytes cbr
              ((frame_count + 1) % 2 ^ 32)
          else
            match track.sample_dts[j]? with
            | none => none
            | some dts =>
              computeSamplesDatasTrack_loop track remaining (j + 1) totalbytes cbr
                (if dts ≠ 0 then (frame_count + 1) % 2 ^ 32 else frame_count)
      else computeSamplesDatasTrack_loop track remaining (j + 1) totalbytes cbr frame_count
    | _, _ => none

/-- `computeSamplesDatasTrack`, from the end of the sample loop on: bitrate
mode, stream size, duration and bitrate. -/
def computeSamplesDatasTrack_totals (p : Platform) (track : BitstreamMap_t)
    (totalbytes : Nat) (cbr : Bool) : BitstreamMap_t :=
  -- Set bitrate mode
  let t1 : BitstreamMap_t :=
    if track.bitrate_mode = BitrateMode_e.BITRATE_UNKNOWN then
      if cbr = true then { track with bitrate_mode := BitrateMode_e.BITRATE_CBR }
      else { track with bitrate_mode := BitrateMode_e.BITRATE_VBR }
    else track
  -- Set stream size
  let t2 : BitstreamMap_t :=
    if t1.stream_size = 0 then { t1 with stream_size := totalbytes } else t1
  -- Set stream duration
  let t3 : BitstreamMap_t :=
    if t2.duration_ms = 0 then
      { t2 with
          duration_ms :=
            dbl_to_int64 p.invalid_int64 (dbl_mul (dbl_of_int t2.frame_count) t2.frame_duration) }
    else t2
  -- Set gross bitrate value (in bps)
  if t3.bitrate = 0 ∧ t3.duration_ms ≠ 0 then
    let bitrate :=
      dbl_to_uint32 p.invalid_uint32
        (dbl_round_half_away (dbl_div (dbl_of_int t3.stream_size) (dbl_of_int t3.duration_ms)))
    { t3 with bitrate := bitrate * 1000 % 2 ^ 32 * 8 % 2 ^ 32 }
  else t3

/-- `computeSamplesDatasTrack(track)` for a non-null `track` whose sample
arrays are allocated: the track it leaves, `none` when it reads outside an
array. -/
def computeSamplesDatasTrack (p : Platform) (track : BitstreamMap_t) : Option BitstreamMap_t :=
  match computeSamplesDatasTrack_frames track with
  | none => none
  | some t =>
    match computeSamplesDatasTrack_loop t t.sample_count 0 0 true t.frame_count with
    | none => none
    | some (totalbytes, cbr, frame_count) =>
      some (computeSamplesDatasTrack_totals p { t with frame_count := frame_count } totalbytes cbr)

/-- The loop of `computePCMSettings`: `remaining` stores of `sample_size_cbr`
from entry `i` on. `none` when a store falls outside the array. -/
def computePCMSettings_loop (sample_size_cbr : Nat) : Nat → Nat → List Nat → Option (List Nat)
  | 0, _, sample_size => some sample_size
  | remaining + 1, i, sample_size =>
    if i < sample_size.length then
      computePCMSettings_loop sample_size_cbr remaining (i + 1) (sample_size.set i sample_size_cbr)
    else none

/-- `computePCMSettings(track)`: the return code and the track it leaves,
`none` when it reads or writes outside `sample_size`. -/
def computePCMSettings (track : BitstreamMap_t) : Option (Nat × BitstreamMap_t) :=
  let sample_size_cbr := track.channel_count * (track.bit_per_sample / 8) % 2 ^ 32
  -- First, check if the hack is needed
  if 0 < track.sample_count then
    match track.sample_size[0]? with
    | none => none
    | some size0 =>
      if size0 ≠ sample_size_cbr then
        match computePCMSettings_loop sample_size_cbr track.sample_count 0 track.sample_size with
        | none => none
        | some sample_size =>
          some (SUCCESS,
            { track with
                sample_per_frames := 1,
                stream_size := track.sample_count * sample_size_cbr % 2 ^ 32,
                bitrate := 0,
                sample_size := sample_size })
      else some (SUCCESS, track)
  else some (SUCCESS, track)

/-- The body of the loop of `computeAspectRatios` for one non-null track `t`.
The `unsigned int` components are converted to `double`, the quotients and the
product are `double` operations, and `1.0` is `dbl_of_int 1`. -/
def computeAspectRatios_track (t : BitstreamMap_t) : BitstreamMap_t :=
  -- First pass on PAR (if set by the container)
  let t1 : BitstreamMap_t :=
    if t.pixel_aspect_ratio_h ≠ 0 ∧ t.pixel_aspect_ratio_v ≠ 0 then
      { t with
          pixel_aspect_ratio :=
            dbl_div (dbl_of_int t.pixel_aspect_ratio_h) (dbl_of_int t.pixel_aspect_ratio_v) }
    else
      { t with
          pixel_aspect_ratio := dbl_of_int 1,
          pixel_aspect_ratio_h := 1,
          pixel_aspect_ratio_v := 1 }
  let t2 : BitstreamMap_t :=
    if t1.video_aspect_ratio_h ≠ 0 ∧ t1.video_aspect_ratio_v ≠ 0 then
      { t1 with
          video_aspect_ratio :=
            dbl_div (dbl_of_int t1.video_aspect_ratio_h) (dbl_of_int t1.video_aspect_ratio_v) }
    else if t1.width ≠ 0 ∧ t1.height ≠ 0 then
      { t1 with
          video_aspect_ratio := dbl_div (dbl_of_int t1.width) (dbl_of_int t1.height),
          video_aspect_ratio_h := t1.width,
          video_aspect_ratio_v := t1.height }
    else t1
  -- Compute display aspect ratio
  -- (the "second pass on PAR" that follows in the source has an empty body)
  if t2.display_aspect_ratio_h ≠ 0 ∧ t2.display_aspect_ratio_v ≠ 0 then
    { t2 with
        display_aspect_ratio :=
          dbl_div (dbl_of_int t2.display_aspect_ratio_h) (dbl_of_int t2.display_aspect_ratio_v) }
  else if t2.pixel_aspect_ratio ≠ dbl_of_int 1 then
    { t2 with display_aspect_ratio := dbl_mul t2.video_aspect_ratio t2.pixel_aspect_ratio }
  else
    { t2 with display_aspect_ratio := t2.video_aspect_ratio }

/-- The loop of `computeAspectRatios` over `media->tracks_video`, `remaining`
iterations from track `i` on. `none` when `i` is outside the array. -/
def computeAspectRatios_loop :
    Nat → Nat → List (Option BitstreamMap_t) → Option (List (Option BitstreamMap_t))
  | 0, _, tracks_video => some tracks_video
  | remaining + 1, i, tracks_video =>
    match tracks_video[i]? with
    | none => none
    | some none => computeAspectRatios_loop remaining (i + 1) tracks_video
    | some (some t) =>
      computeAspectRatios_loop remaining (i + 1)
        (tracks_video.set i (some (computeAspectRatios_track t)))

/-- `computeAspectRatios(media)`: the return code and the media it leaves. -/
def computeAspectRatios (media : MediaFile_t) : Option (Nat × MediaFile_t) :=
  match computeAspectRatios_loop media.tracks_video_count 0 media.tracks_video with
  | none => none
  | some tracks_video => some (SUCCESS, { media with tracks_video := tracks_video })

/-! ## Reference notions used to state the properties -/

/-- Bit number `p` of a buffer, the bits of each byte counted from the most
significant one; `0` past the end of the buffer. -/
def bitAt (buffer : List Byte) (p : Nat) : Nat :=
  match buffer[p / 8]? with
  | none => 0
  | some b => (b.val / 2 ^ (7 - p % 8)) % 2

/-- The unsigned integer whose binary digits, most significant first, are the
`n` buffer bits `p, p+1, .., p+n-1`. -/
def bitsValue (buffer : List Byte) (p : Nat) : Nat → Nat
  | 0 => 0
  | n + 1 => 2 * bitsValue buffer p n + bitAt buffer (p + n)

/-- The big-endian integer formed by a sequence of bytes. -/
def beInt (bytes : List Byte) : Nat :=
  bytes.foldl (fun acc b => 256 * acc + b.val) 0

/-- The `n` bits at the cursor lie inside the current buffer, the buffer is
allocated, and bit offsets of the buffer fit the `unsigned int` cursor. -/
def InBuffer (bs : Bitstream_t) (n : Nat) : Prop :=
  bs.buffer_offset + n ≤ 8 * bs.buffer_size ∧ bs.buffer_size ≤ bs.buffer.length ∧
    8 * bs.buffer_size < 2 ^ 32

instance (bs : Bitstream_t) (n : Nat) : Decidable (InBuffer bs n) := by
  unfold InBuffer; infer_instance

/-- Call `read_bit` `n` times in a row and assemble the returned bits, most
significant first, starting from the accumulator `acc`. -/
def read_bit_times (cfg : Build) : Nat → Nat → Bitstream_t → Outcome Nat
  | 0, acc, bs => Outcome.ret acc bs
  | n + 1, acc, bs =>
    match read_bit cfg bs with
    | Outcome.ret bit bs1 => read_bit_times cfg n (2 * acc + bit) bs1
    | Outcome.terminated => Outcome.terminated
    | Outcome.undefined => Outcome.undefined

/-- A continuous-mode reader over the source `bytes` whose window is the whole
source, with the cursor at bit `offset` of the window. -/
def readerAt (bytes : List Byte) (offset : Nat) : Bitstream_t :=
  { bitstream_file := bytes, bitstream_map := none, bitstream_size := bytes.length,
    bitstream_offset := 0, bitstream_sample_index := 0, buffer := bytes,
    buffer_size := bytes.length, buffer_offset := offset, buffer_discarded_bytes := 0 }

/-- A continuous-mode reader over the source `file` whose window holds the
`size` bytes of the source from byte `offset` on, with the cursor at bit `bit`
of the window. `windowAt file 0 BITSTREAM_BUFFER_SIZE 0` is the reader
`init_bitstream` builds over a source of at least that size. -/
def windowAt (file : List Byte) (offset size bit : Nat) : Bitstream_t :=
  { bitstream_file := file, bitstream_map := none, bitstream_size := file.length,
    bitstream_offset := offset, bitstream_sample_index := 0,
    buffer := (file.drop offset).take size, buffer_size := size,
    buffer_offset := bit, buffer_discarded_bytes := 0 }

/-- A source of 24 bytes, byte `i` holding the value `i`. -/
def bytes24 : List Byte :=
  [0, 1, 2, 3, 4, 5, 6, 7, 8, 9, 10, 11, 12, 13, 14, 15, 16, 17, 18, 19, 20, 21, 22, 23]

/-- A track of unknown bitrate mode whose sample table has the sizes `sizes`
and zero timestamps, every other field being zero. -/
def sampleTrack (sizes : List Nat) : BitstreamMap_t :=
  { sample_count := sizes.length,
    sample_type := List.replicate sizes.length SampleType_e.sample_UNKNOWN,
    sample_size := sizes,
    sample_offset := List.replicate sizes.length 0,
    sample_pts := List.replicate sizes.length 0,
    sample_dts := List.replicate sizes.length 0 }

/-- The quotient `S / d` of two natural numbers rounded to the nearest integer,
a half rounded up. -/
def round_div (S d : Nat) : Nat := (2 * S + d) / (2 * d)

/-- The track `t` has the sample table of `track` and its bitrate mode, stream
size, duration and bitrate. -/
def BitstreamMap_t.sameTable (t track : BitstreamMap_t) : Prop :=
  t.sample_count = track.sample_count ∧ t.sample_size = track.sample_size
    ∧ t.sample_pts = track.sample_pts ∧ t.sample_dts = track.sample_dts
    ∧ t.sample_alignment = track.sample_alignment
    ∧ t.bitrate_mode = track.bitrate_mode ∧ t.stream_size = track.stream_size
    ∧ t.duration_ms = track.duration_ms ∧ t.bitrate = track.bitrate

/-- Identifier of the EBML file header (`eid_EBML` of `EbmlElement_e`, mkv_struct.h). -/
def eid_EBML : Nat := 0x1A45DFA3

/-- A track with its sample table blanked: what is left are the fields the
sample-filling loop does not write. -/
def BitstreamMap_t.header (t : BitstreamMap_t) : BitstreamMap_t :=
  { t with
      sample_count := 0, sample_type := [], sample_size := [], sample_offset := [],
      sample_pts := [], sample_dts := [] }

/-- The frame size `nChannels * (wBitsPerSample / 8)` of a WAVE description. -/
def wave_t.frame (wave : wave_t) : Nat :=
  wave.fmt.nChannels * (wave.fmt.wBitsPerSample / 8)

/-- A sample table with the sample offsets `offsets` and the sample sizes
`sizes`, `sample_count` being the number of sizes, every other field zero or
empty. -/
def sampleTable (offsets : List Int) (sizes : List Nat) : BitstreamMap_t :=
  { sample_count := sizes.length, sample_offset := offsets, sample_size := sizes }

/-- A reader over the source `file` with the sample table `map`, the next
sample to load being number `index`, whose buffer holds `buffer`, taken at byte
`offset` of the source, with the cursor at bit `bit` of the buffer. -/
def sampleReaderAt (file : List Byte) (map : BitstreamMap_t) (offset : Int) (index : Nat)
    (buffer : List Byte) (bit : Nat) : Bitstream_t :=
  { bitstream_file := file, bitstream_map := some map, bitstream_size := file.length,
    bitstream_offset := offset, bitstream_sample_index := index, buffer := buffer,
    buffer_size := buffer.length, buffer_offset := bit, buffer_discarded_bytes := 0 }

/-- The value a reader operation returned, if it returned. -/
def Outcome.value {α : Type} : Outcome α → Option α
  | Outcome.ret v _ => some v
  | _ => none

/-- The outcome `o` followed by `buffer_offset += k` on the reader it left. -/
def Outcome.advance {α : Type} (o : Outcome α) (k : Nat) : Outcome α :=
  match o with
  | Outcome.ret v bs => Outcome.ret v { bs with buffer_offset := (bs.buffer_offset + k) % 2 ^ 32 }
  | Outcome.terminated => Outcome.terminated
  | Outcome.undefined => Outcome.undefined

/-- The reader states that `init_bitstream` and the operations of bitstream.c
produce: a reader `init_bitstream` returned, and every state one of the
operations returns in from a state already reached. -/
inductive Reachable (cfg : Build) : Bitstream_t → Prop where
  | init (file : List Byte) (file_size : Int) (map : Option BitstreamMap_t) (bs : Bitstream_t) :
      init_bitstream cfg file file_size map = Outcome.ret SUCCESS bs → Reachable cfg bs
  | buffer_feed_next_sample (bs : Bitstream_t) (r : Nat) (bs1 : Bitstream_t) :
      Reachable cfg bs → MiniVideo.buffer_feed_next_sample bs = Outcome.ret r bs1 →
      Reachable cfg bs1
  | buffer_feed_dynamic (bs : Bitstream_t) (k : Int) (r : Nat) (bs1 : Bitstream_t) :
      Reachable cfg bs → MiniVideo.buffer_feed_dynamic cfg bs k = Outcome.ret r bs1 →
      Reachable cfg bs1
  | read_bit (bs : Bitstream_t) (r : Nat) (bs1 : Bitstream_t) :
      Reachable cfg bs → MiniVideo.read_bit cfg bs = Outcome.ret r bs1 → Reachable cfg bs1
  | read_bits (bs : Bitstream_t) (n r : Nat) (bs1 : Bitstream_t) :
      Reachable cfg bs → MiniVideo.read_bits cfg bs n = Outcome.ret r bs1 → Reachable cfg bs1
  | read_bits_64 (bs : Bitstream_t) (n r : Nat) (bs1 : Bitstream_t) :
      Reachable cfg bs → MiniVideo.read_bits_64 cfg bs n = Outcome.ret r bs1 → Reachable cfg bs1
  | read_byte_aligned (bs : Bitstream_t) (r : Nat) (bs1 : Bitstream_t) :
      Reachable cfg bs → MiniVideo.read_byte_aligned cfg bs = Outcome.ret r bs1 →
      Reachable cfg bs1
  | next_byte_aligned (bs : Bitstream_t) (r : Nat) (bs1 : Bitstream_t) :
      Reachable cfg bs → MiniVideo.next_byte_aligned cfg bs = Outcome.ret r bs1 →
      Reachable cfg bs1
  | next_bit (bs : Bitstream_t) (r : Nat) (bs1 : Bitstream_t) :
      Reachable cfg bs → MiniVideo.next_bit cfg bs = Outcome.ret r bs1 → Reachable cfg bs1
  | next_bits (bs : Bitstream_t) (n r : Nat) (bs1 : Bitstream_t) :
      Reachable cfg bs → MiniVideo.next_bits cfg bs n = Outcome.ret r bs1 → Reachable cfg bs1
  | skip_bits (bs : Bitstream_t) (n r : Nat) (bs1 : Bitstream_t) :
      Reachable cfg bs → MiniVideo.skip_bits cfg bs n = Outcome.ret r bs1 → Reachable cfg bs1
  | rewind_bits (bs : Bitstream_t) (n r : Nat) (bs1 : Bitstream_t) :
      Reachable cfg bs → MiniVideo.rewind_bits cfg bs n = Outcome.ret r bs1 → Reachable cfg bs1
  | bitstream_goto_offset (bs : Bitstream_t) (n : Int) (r : Nat) (bs1 : Bitstream_t) :
      Reachable cfg bs → MiniVideo.bitstream_goto_offset cfg bs n = Outcome.ret r bs1 →
      Reachable cfg bs1

/-- The big-endian two's-complement integer formed by a sequence of bytes:
the sign bit is the top bit of the first byte. -/
def beSigned (bytes : List Byte) : Int :=
  if 2 * beInt bytes < 2 ^ (8 * bytes.length) then (beInt bytes : Int)
  else (beInt bytes : Int) - 2 ^ (8 * bytes.length)

/-- A well-formed identifier encoding of 1 to 4 bytes: as many zero bits as
bytes that follow the first one, the marker bit, and the payload bits. -/
def WellFormedEid (bytes : List Byte) : Prop :=
  1 ≤ bytes.length ∧ bytes.length ≤ 4 ∧ (∀ i, i < bytes.length - 1 → bitAt bytes i = 0)
    ∧ bitAt bytes (bytes.length - 1) = 1

instance (bytes : List Byte) : Decidable (WellFormedEid bytes) := by
  unfold WellFormedEid; infer_instance

/-- The `double` `a` is finite, not negative, and differs from the rational
`num / den` by at most one part in `2^53` of that rational: with `a` holding
`s` units of `2^-1074`, `|s * den - num * 2^1074| * 2^53 ≤ num * 2^1074`. -/
def dbl_near (a : Double) (num den : Nat) : Prop :=
  match a with
  | Double.finite s =>
    0 ≤ s ∧ 2 ^ 53 * (s.toNat * den) ≤ 2 ^ 53 * (num * dbl_unit) + num * dbl_unit
      ∧ 2 ^ 53 * (num * dbl_unit) ≤ 2 ^ 53 * (s.toNat * den) + num * dbl_unit
  | Double.infinite => False
  | Double.nan => False

instance (a : Double) (num den : Nat) : Decidable (dbl_near a num den) := by
  unfold dbl_near; split <;> infer_instance

/-! # Theorems -/

/-! ## Bit fields of a buffer -/

theorem bitAt_lt_two (buffer : List Byte) (p : Nat) : bitAt buffer p < 2 := by
  unfold bitAt
  split
  · decide
  · exact Nat.mod_lt _ (by decide)

theorem bitsValue_lt (buffer : List Byte) (p n : Nat) : bitsValue buffer p n < 2 ^ n := by
  induction n with
  | zero => simp [bitsValue]
  | succ n ih =>
    have h := bitAt_lt_two buffer (p + n)
    simp only [bitsValue, pow_succ]
    omega

/-- Dropping the `s` low bits of an `(n+s)`-bit field leaves the `n`-bit field. -/
theorem bitsValue_shift (buffer : List Byte) (p n s : Nat) :
    bitsValue buffer p (n + s) / 2 ^ s = bitsValue buffer p n := by
  induction s with
  | zero => simp
  | succ s ih =>
    have h := bitAt_lt_two buffer (p + (n + s))
    rw [← Nat.add_assoc, bitsValue, pow_succ, Nat.mul_comm (2 ^ s) 2,
      ← Nat.div_div_eq_div_mul]
    have : (2 * bitsValue buffer p (n + s) + bitAt buffer (p + (n + s))) / 2
        = bitsValue buffer p (n + s) := by omega
    rw [this, ih]

/-- A field of `a + b` bits is the `a`-bit field followed by the `b`-bit field. -/
theorem bitsValue_append (buffer : List Byte) (p a b : Nat) :
    bitsValue buffer p (a + b) = bitsValue buffer p a * 2 ^ b + bitsValue buffer (p + a) b := by
  induction b with
  | zero => simp [bitsValue]
  | succ b ih =>
    rw [← Nat.add_assoc, bitsValue, ih, bitsValue, pow_succ, Nat.add_assoc p a b]
    ring

/-- The bits `fp .. fp+m-1` of one byte. -/
theorem bitsValue_in_byte (buffer : List Byte) (q : Nat) (b : Byte) (hb : buffer[q]? = some b)
    (fp m : Nat) (h : fp + m ≤ 8) :
    bitsValue buffer (8 * q + fp) m = (b.val / 2 ^ (8 - fp - m)) % 2 ^ m := by
  induction m with
  | zero => simp [bitsValue, Nat.mod_one]
  | succ m ih =>
    have ih := ih (by omega)
    have hq : (8 * q + fp + m) / 8 = q := by omega
    have hr : (8 * q + fp + m) % 8 = fp + m := by omega
    have hbit : bitAt buffer (8 * q + fp + m) = (b.val / 2 ^ (7 - (fp + m))) % 2 := by
      simp only [bitAt, hq, hb, hr]
    rw [bitsValue, ih, hbit]
    have e1 : 8 - fp - m = (7 - (fp + m)) + 1 := by omega
    have e2 : 8 - fp - (m + 1) = 7 - (fp + m) := by omega
    rw [e1, e2, pow_succ, ← Nat.div_div_eq_div_mul, pow_succ, Nat.mul_comm (2 ^ m) 2]
    generalize b.val / 2 ^ (7 - (fp + m)) = x
    rw [Nat.mod_mul]
    omega

/-- A whole byte read at a byte boundary. -/
theorem bitsValue_byte (buffer : List Byte) (q : Nat) (b : Byte) (hb : buffer[q]? = some b) :
    bitsValue buffer (8 * q) 8 = b.val := by
  have h := bitsValue_in_byte buffer q b hb 0 8 (by omega)
  simp only [Nat.add_zero, Nat.sub_zero, Nat.sub_self, pow_zero, Nat.div_one] at h
  rw [h]
  exact Nat.mod_eq_of_lt b.isLt

/-! ## The byte loops of `read_bits` / `read_bits_64` -/

/-- Below five bytes the un-aligned loop never takes its last-byte branch. -/
theorem read_unaligned_loop_eq_aligned (w : Nat) (buffer : List Byte) (tbr fp : Nat)
    (h : ¬ 4 < tbr) (k byte_current bits : Nat) :
    read_unaligned_loop w buffer tbr fp k byte_current bits
      = read_aligned_loop w buffer k byte_current bits := by
  induction k generalizing byte_current bits with
  | zero => rfl
  | succ k ih =>
    simp only [read_unaligned_loop, read_aligned_loop]
    split
    · rfl
    · rw [if_neg (fun hc => h hc.1)]
      exact ih _ _

/-- Without overflow of the `w`-bit accumulator the aligned loop appends `k`
whole bytes to the accumulator. -/
theorem read_aligned_loop_spec (w : Nat) (buffer : List Byte) (k byte_current bits : Nat)
    (hlen : byte_current + k ≤ buffer.length) (hfit : (bits + 1) * 2 ^ (8 * k) ≤ 2 ^ w) :
    read_aligned_loop w buffer k byte_current bits
      = some (bits * 2 ^ (8 * k) + bitsValue buffer (8 * byte_current) (8 * k)) := by
  induction k generalizing byte_current bits with
  | zero => simp [read_aligned_loop, bitsValue]
  | succ k ih =>
    have hlt : byte_current < buffer.length := by omega
    have hget : buffer[byte_current]? = some buffer[byte_current] :=
      List.getElem?_eq_getElem hlt
    have hb : (buffer[byte_current]).val < 256 := (buffer[byte_current]).isLt
    have hpow : 2 ^ (8 * (k + 1)) = 256 * 2 ^ (8 * k) := by
      rw [show 8 * (k + 1) = 8 + 8 * k by ring, pow_add]; norm_num
    have hpos : 0 < 2 ^ (8 * k) := Nat.pow_pos (by decide)
    rw [hpow] at hfit
    have hacc : bits * 256 + (buffer[byte_current]).val < 2 ^ w := by
      have h1 : (bits + 1) * 256 ≤ (bits + 1) * (256 * 2 ^ (8 * k)) :=
        Nat.mul_le_mul_left _ (by omega)
      omega
    have hstep : ((bits <<< 8) % 2 ^ w + (buffer[byte_current]).val) % 2 ^ w
        = bits * 256 + (buffer[byte_current]).val := by
      have h256 : bits * 256 < 2 ^ w := by omega
      rw [Nat.shiftLeft_eq, show (2 : Nat) ^ 8 = 256 by norm_num,
        Nat.mod_eq_of_lt h256, Nat.mod_eq_of_lt hacc]
    simp only [read_aligned_loop, hget, hstep]
    rw [ih (byte_current + 1) _ (by omega)]
    · have happ := bitsValue_append buffer (8 * byte_current) 8 (8 * k)
      rw [bitsValue_byte buffer byte_current _ hget] at happ
      rw [show 8 * (k + 1) = 8 + 8 * k by ring, happ, pow_add,
        show 8 * (byte_current + 1) = 8 * byte_current + 8 by ring]
      norm_num
      ring
    · calc (bits * 256 + (buffer[byte_current]).val + 1) * 2 ^ (8 * k)
          ≤ ((bits + 1) * 256) * 2 ^ (8 * k) := Nat.mul_le_mul_right _ (by omega)
        _ = (bits + 1) * (256 * 2 ^ (8 * k)) := by ring
        _ ≤ 2 ^ w := hfit

/-- The mask `0xFF >> fp` keeps the low `8 - fp` bits. -/
theorem and_mask_eq_mod (x fp : Nat) (hfp : fp < 8) :
    x &&& (0xFF >>> fp) = x % 2 ^ (8 - fp) := by
  have h : (0xFF >>> fp) = 2 ^ (8 - fp) - 1 := by
    interval_cases fp <;> rfl
  rw [h, Nat.and_pow_two_sub_one_eq_mod]

/-- The "Read" section returns the big-endian value of the `n` bits at the
cursor when the cursor is byte-aligned or the field ends in the first four
bytes touched. -/
theorem read_bits_fetch_spec (w : Nat) (hw : w = 32 ∨ w = 64) (bs : Bitstream_t) (n : Nat)
    (hn : n ≤ w) (hcase : bs.buffer_offset % 8 = 0 ∨ n + bs.buffer_offset % 8 ≤ 32)
    (hlen : bs.buffer_offset + n ≤ 8 * bs.buffer.length) :
    read_bits_fetch w bs n = some (bitsValue bs.buffer bs.buffer_offset n) := by
  have hfp8 : bs.buffer_offset % 8 < 8 := Nat.mod_lt _ (by decide)
  have hoff : bs.buffer_offset = 8 * (bs.buffer_offset / 8) + bs.buffer_offset % 8 :=
    (Nat.div_add_mod _ _).symm
  generalize hfp : bs.buffer_offset % 8 = fp at *
  generalize hbc : bs.buffer_offset / 8 = bc at *
  have hn64 : n ≤ 64 := by rcases hw with h | h <;> omega
  have htbr : ((n + fp) % 2 ^ 32 + 7) / 8 = (n + fp + 7) / 8 := by omega
  unfold read_bits_fetch
  simp only [hfp, hbc, htbr]
  by_cases hz : 0 < fp
  · -- un-aligned cursor: at most four bytes are touched
    have hle : n + fp ≤ 32 := by omega
    have htbr4 : ¬ 4 < (n + fp + 7) / 8 := by omega
    have hlt : bc < bs.buffer.length := by omega
    have hget : bs.buffer[bc]? = some bs.buffer[bc] := List.getElem?_eq_getElem hlt
    have hfirst : bitsValue bs.buffer (8 * bc + fp) (8 - fp) = (bs.buffer[bc]).val % 2 ^ (8 - fp) := by
      have h := bitsValue_in_byte bs.buffer bc _ hget fp (8 - fp) (by omega)
      rw [h, show 8 - fp - (8 - fp) = 0 by omega]
      simp
    rw [if_pos hz]
    simp only [hget, read_unaligned_loop_eq_aligned _ _ _ _ htbr4, and_mask_eq_mod _ _ hfp8]
    have hk : 8 - fp + 8 * ((n + fp + 7) / 8 - 1) = n + ((n + fp + 7) / 8 * 8 - n - fp) := by omega
    have hmodlt : (bs.buffer[bc]).val % 2 ^ (8 - fp) < 2 ^ (8 - fp) := Nat.mod_lt _ (Nat.pow_pos (by decide))
    rw [read_aligned_loop_spec w bs.buffer _ (bc + 1) _ (by omega)]
    · have hsh : ((n + fp + 7) / 8 * 8 + 2 * 2 ^ 32 - n - fp) % 2 ^ 32
          = (n + fp + 7) / 8 * 8 - n - fp := by omega
      simp only [hsh]
      rw [if_neg (by rcases hw with h | h <;> omega)]
      have happ := bitsValue_append bs.buffer (8 * bc + fp) (8 - fp) (8 * ((n + fp + 7) / 8 - 1))
      rw [hfirst, show 8 * bc + fp + (8 - fp) = 8 * (bc + 1) by omega, hk] at happ
      rw [← happ, Nat.shiftRight_eq_div_pow, bitsValue_shift, hoff]
    · calc ((bs.buffer[bc]).val % 2 ^ (8 - fp) + 1) * 2 ^ (8 * ((n + fp + 7) / 8 - 1))
          ≤ 2 ^ (8 - fp) * 2 ^ (8 * ((n + fp + 7) / 8 - 1)) := Nat.mul_le_mul_right _ hmodlt
        _ = 2 ^ (8 - fp + 8 * ((n + fp + 7) / 8 - 1)) := (pow_add _ _ _).symm
        _ ≤ 2 ^ w := Nat.pow_le_pow_right (by decide) (by rcases hw with h | h <;> omega)
  · -- aligned cursor
    have hfp0 : fp = 0 := by omega
    subst hfp0
    rw [if_neg hz]
    simp only [Nat.add_zero] at *
    rw [read_aligned_loop_spec w bs.buffer _ bc 0 (by omega)]
    · have hsh : (w + 2 ^ 32 - n) % 2 ^ 32 % 8 = (n + 7) / 8 * 8 - n := by
        rcases hw with h | h <;> omega
      have hk : 8 * ((n + 7) / 8) = n + ((n + 7) / 8 * 8 - n) := by omega
      simp only [hsh, Nat.zero_mul, Nat.zero_add]
      rw [Nat.shiftRight_eq_div_pow, hk, bitsValue_shift, hoff]
    · rw [Nat.zero_add, Nat.one_mul]
      exact Nat.pow_le_pow_right (by decide) (by rcases hw with h | h <;> omega)

/-! ## Reads that stay inside the buffer -/

/-- Inside the buffer `read_bit` returns the bit under the cursor and moves
the cursor by one bit, without refilling. -/
theorem read_bit_spec (cfg : Build) (bs : Bitstream_t) (h : InBuffer bs 1) :
    read_bit cfg bs
      = Outcome.ret (bitAt bs.buffer bs.buffer_offset)
          { bs with buffer_offset := bs.buffer_offset + 1 } := by
  obtain ⟨h1, h2, h3⟩ := h
  have hlt : bs.buffer_offset / 8 < bs.buffer.length := by omega
  have hget : bs.buffer[bs.buffer_offset / 8]? = some bs.buffer[bs.buffer_offset / 8] :=
    List.getElem?_eq_getElem hlt
  have hno : ¬ bs.buffer_size < bs.buffer_offset / 8 := by omega
  have hmod : (bs.buffer_offset + 1) % 2 ^ 32 = bs.buffer_offset + 1 := by omega
  simp only [read_bit, if_neg hno, read_bit_fetch, hget, hmod, bitAt,
    Nat.shiftRight_eq_div_pow, Nat.and_one_is_mod]

/-- Inside the buffer the common body of `read_bits` / `read_bits_64` returns
the big-endian value of the field and moves the cursor by `n` bits, when the
cursor is byte-aligned or the field ends in the first four bytes touched. -/
theorem read_bits_body_spec (w : Nat) (hw : w = 32 ∨ w = 64) (cfg : Build) (bs : Bitstream_t)
    (n : Nat) (hn1 : 1 ≤ n) (hn : n ≤ w)
    (hcase : bs.buffer_offset % 8 = 0 ∨ n + bs.buffer_offset % 8 ≤ 32)
    (h : InBuffer bs n) :
    read_bits_body w cfg bs n
      = Outcome.ret (bitsValue bs.buffer bs.buffer_offset n)
          { bs with buffer_offset := bs.buffer_offset + n } := by
  by_cases h1 : n = 1
  · subst h1
    simp only [read_bits_body, if_true, read_bit_spec cfg bs h, bitsValue, Nat.mul_zero,
      Nat.zero_add, Nat.add_zero]
  · obtain ⟨ha, hb, hc⟩ := h
    have hn64 : n ≤ 64 := by rcases hw with h | h <;> omega
    have hno : ¬ bs.buffer_size
        < bs.buffer_offset / 8 + ((n + bs.buffer_offset % 8) % 2 ^ 32 + 7) / 8 := by omega
    have hmod : (bs.buffer_offset + n) % 2 ^ 32 = bs.buffer_offset + n := by omega
    simp only [read_bits_body, if_neg h1, if_neg hno,
      read_bits_fetch_spec w hw bs n hn hcase (by omega), hmod]

theorem read_bits_spec (cfg : Build) (bs : Bitstream_t) (n : Nat) (hn1 : 1 ≤ n) (hn : n ≤ 32)
    (hcase : bs.buffer_offset % 8 = 0 ∨ n + bs.buffer_offset % 8 ≤ 32)
    (h : InBuffer bs n) :
    read_bits cfg bs n
      = Outcome.ret (bitsValue bs.buffer bs.buffer_offset n)
          { bs with buffer_offset := bs.buffer_offset + n } := by
  have h0 : ¬ (cfg.ENABLE_DEBUG = true ∧ n = 0) := fun hc => by omega
  have h32 : ¬ (cfg.ENABLE_DEBUG = true ∧ 32 < n) := fun hc => by omega
  simp only [read_bits, if_neg h0, if_neg h32]
  exact read_bits_body_spec 32 (Or.inl rfl) cfg bs n hn1 hn hcase h

theorem read_bits_64_spec (cfg : Build) (bs : Bitstream_t) (n : Nat) (hn1 : 1 ≤ n)
    (hn : n ≤ 64)
    (hcase : bs.buffer_offset % 8 = 0 ∨ n + bs.buffer_offset % 8 ≤ 32)
    (h : InBuffer bs n) :
    read_bits_64 cfg bs n
      = Outcome.ret (bitsValue bs.buffer bs.buffer_offset n)
          { bs with buffer_offset := bs.buffer_offset + n } := by
  have h0 : ¬ (cfg.ENABLE_DEBUG = true ∧ n = 0) := fun hc => by omega
  have h64 : ¬ (cfg.ENABLE_DEBUG = true ∧ 64 < n) := fun hc => by omega
  simp only [read_bits_64, if_neg h0, if_neg h64]
  exact read_bits_body_spec 64 (Or.inr rfl) cfg bs n hn1 hn hcase h

/-- Calling `read_bit` `n` times inside the buffer appends the `n` bits under
the cursor to the accumulator and moves the cursor by `n` bits. -/
theorem read_bit_times_spec (cfg : Build) (n acc : Nat) (bs : Bitstream_t) (h : InBuffer bs n) :
    read_bit_times cfg n acc bs
      = Outcome.ret (acc * 2 ^ n + bitsValue bs.buffer bs.buffer_offset n)
          { bs with buffer_offset := bs.buffer_offset + n } := by
  induction n generalizing acc bs with
  | zero => simp [read_bit_times, bitsValue]
  | succ n ih =>
    obtain ⟨ha, hb, hc⟩ := h
    have h1 : InBuffer bs 1 := ⟨by omega, hb, hc⟩
    have hrest : InBuffer { bs with buffer_offset := bs.buffer_offset + 1 } n :=
      ⟨by simp only; omega, hb, hc⟩
    simp only [read_bit_times, read_bit_spec cfg bs h1]
    rw [ih _ _ hrest]
    have happ := bitsValue_append bs.buffer bs.buffer_offset 1 n
    have hone : bitsValue bs.buffer bs.buffer_offset 1 = bitAt bs.buffer bs.buffer_offset := by
      simp [bitsValue]
    rw [hone] at happ
    simp only [Nat.add_comm 1 n] at happ
    rw [happ]
    congr 1
    · rw [pow_succ]; ring
    · simp only [Nat.add_assoc, Nat.add_comm 1 n]

/-! ## EBML variable-length fields -/

/-- A run of `k` zero bits has value zero. -/
theorem bitsValue_zeros (buffer : List Byte) (p k : Nat)
    (hzeros : ∀ i, i < k → bitAt buffer (p + i) = 0) : bitsValue buffer p k = 0 := by
  induction k with
  | zero => rfl
  | succ k ih =>
    rw [bitsValue, ih (fun i hi => hzeros i (by omega)), hzeros k (by omega)]

/-- Whole bytes read at a byte boundary form the big-endian integer of those bytes. -/
theorem bitsValue_bytes (buffer : List Byte) (q m : Nat) (h : q + m ≤ buffer.length) :
    bitsValue buffer (8 * q) (8 * m) = beInt ((buffer.drop q).take m) := by
  induction m with
  | zero => simp [bitsValue, beInt]
  | succ m ih =>
    have hlt : q + m < buffer.length := by omega
    have hget : buffer[q + m]? = some buffer[q + m] := List.getElem?_eq_getElem hlt
    have hdrop : (buffer.drop q)[m]? = some buffer[q + m] := by
      rw [List.getElem?_drop, hget]
    rw [show 8 * (m + 1) = 8 * m + 8 by ring, bitsValue_append, ih (by omega),
      show 8 * q + 8 * m = 8 * (q + m) by ring, bitsValue_byte buffer (q + m) _ hget,
      List.take_succ, hdrop]
    simp only [beInt, Option.toList, List.foldl_append, List.foldl_cons, List.foldl_nil]
    norm_num
    ring

/-- The unary prefix: `k` zero bits and the marker bit, with `k` not above the
bound of the loop, are consumed and `k` is counted. -/
theorem ebml_leading_zeros_spec (cfg : Build) (k : Nat) (remaining leadingZeroBits : Nat)
    (bs : Bitstream_t) (hk : k ≤ remaining) (hin : InBuffer bs (k + 1))
    (hzeros : ∀ i, i < k → bitAt bs.buffer (bs.buffer_offset + i) = 0)
    (hmarker : bitAt bs.buffer (bs.buffer_offset + k) = 1) :
    ebml_leading_zeros cfg remaining leadingZeroBits bs
      = Outcome.ret (leadingZeroBits + k)
          { bs with buffer_offset := bs.buffer_offset + (k + 1) } := by
  induction k generalizing remaining leadingZeroBits bs with
  | zero =>
    have h1 : InBuffer bs 1 := hin
    have hm : bitAt bs.buffer bs.buffer_offset = 1 := by simpa using hmarker
    cases remaining with
    | zero => simp only [ebml_leading_zeros, read_bit_spec cfg bs h1, Nat.add_zero, Nat.zero_add]
    | succ r =>
      simp only [ebml_leading_zeros, read_bit_spec cfg bs h1, hm, Nat.add_zero, Nat.zero_add]
      rw [if_neg (by decide)]
  | succ k ih =>
    obtain ⟨ha, hb, hc⟩ := hin
    have h1 : InBuffer bs 1 := ⟨by omega, hb, hc⟩
    have hz : bitAt bs.buffer bs.buffer_offset = 0 := by simpa using hzeros 0 (by omega)
    cases remaining with
    | zero => omega
    | succ r =>
      simp only [ebml_leading_zeros, read_bit_spec cfg bs h1, hz, if_true]
      rw [ih r (leadingZeroBits + 1) { bs with buffer_offset := bs.buffer_offset + 1 }
        (by omega) ⟨by simp only; omega, hb, hc⟩
        (fun i hi => by have := hzeros (i + 1) (by omega); simpa [Nat.add_assoc, Nat.add_comm 1 i] using this)
        (by simpa [Nat.add_assoc, Nat.add_comm 1 k] using hmarker)]
      simp only [Nat.add_assoc, Nat.add_comm 1 k, Nat.add_comm 1 (k + 1)]

/-! ## The sample-filling loop of `wave_indexer_initmap` -/

/-- Once `sample_count` has reached `pcm_samples_count` the remaining passes
change nothing. -/
theorem wave_pcm_loop_idle (invalid : Int) (data : dataChunk_t) (f cnt : Nat) (tick : Double)
    (fuel : Nat) (i : Int) (t : BitstreamMap_t) (hfull : cnt ≤ t.sample_count)
    (hfuel : data.datasSize ≤ i + (fuel : Int) * (f : Int)) :
    wave_pcm_loop invalid data f cnt tick fuel i t = some t := by
  induction fuel generalizing i with
  | zero =>
    have : ¬ i < data.datasSize := by simp at hfuel; omega
    simp only [wave_pcm_loop, if_neg this]
  | succ fuel ih =>
    unfold wave_pcm_loop
    by_cases hi : i < data.datasSize
    · have hsid : ¬ t.sample_count < cnt := by omega
      simp only [if_pos hi, if_neg hsid]
      apply ih
      push_cast at hfuel
      linarith
    · simp only [if_neg hi]

/-- While room is left the loop writes one sample per pass: it ends with
`sample_count = cnt`, every sample from the starting count on has size `f`
and offset `datasOffset + k * f`, earlier samples and all other fields are
kept. -/
theorem wave_pcm_loop_fill (invalid : Int) (data : dataChunk_t) (f cnt : Nat) (tick : Double)
    (hf : 1 ≤ f) (hroom : (cnt : Int) * (f : Int) ≤ data.datasSize) (n : Nat) :
    ∀ (fuel : Nat) (i : Int) (t : BitstreamMap_t),
      t.sample_count + n = cnt → i = (t.sample_count : Int) * (f : Int) →
      data.datasSize ≤ i + (fuel : Int) * (f : Int) →
      cnt ≤ t.sample_type.length → cnt ≤ t.sample_size.length →
      cnt ≤ t.sample_offset.length → cnt ≤ t.sample_pts.length → cnt ≤ t.sample_dts.length →
      ∃ t', wave_pcm_loop invalid data f cnt tick fuel i t = some t' ∧
        t'.sample_count = cnt ∧ t'.header = t.header ∧
        (∀ k, k < t.sample_count →
          t'.sample_size[k]? = t.sample_size[k]? ∧ t'.sample_offset[k]? = t.sample_offset[k]?) ∧
        (∀ k, t.sample_count ≤ k → k < cnt →
          t'.sample_size[k]? = some f ∧
            t'.sample_offset[k]? = some (data.datasOffset + (k : Int) * (f : Int))) := by
  induction n with
  | zero =>
    intro fuel i t hcnt _ hfuel _ _ _ _ _
    refine ⟨t, wave_pcm_loop_idle invalid data f cnt tick fuel i t (by omega) hfuel, by omega,
      rfl, fun k _ => ⟨rfl, rfl⟩, fun k h1 h2 => by omega⟩
  | succ n ih =>
    intro fuel i t hcnt hi hfuel h1 h2 h3 h4 h5
    have hsid : t.sample_count < cnt := by omega
    have hlt : i < data.datasSize := by
      have : (t.sample_count : Int) + 1 ≤ (cnt : Int) := by exact_mod_cast hsid
      have hfpos : (1 : Int) ≤ (f : Int) := by exact_mod_cast hf
      nlinarith
    cases fuel with
    | zero => simp at hfuel; omega
    | succ fuel =>
      have hbounds : t.sample_count < t.sample_type.length ∧
          t.sample_count < t.sample_size.length ∧ t.sample_count < t.sample_offset.length ∧
          t.sample_count < t.sample_pts.length ∧ t.sample_count < t.sample_dts.length :=
        ⟨by omega, by omega, by omega, by omega, by omega⟩
      let t1 : BitstreamMap_t :=
        { t with
            sample_type := t.sample_type.set t.sample_count SampleType_e.sample_AUDIO,
            sample_size := t.sample_size.set t.sample_count f,
            sample_offset := t.sample_offset.set t.sample_count (data.datasOffset + i),
            sample_pts :=
              t.sample_pts.set t.sample_count
                (dbl_to_int64 invalid (dbl_mul (dbl_of_int t.sample_count) tick)),
            sample_dts := t.sample_dts.set t.sample_count 0,
            sample_count := t.sample_count + 1 }
      have hstep : wave_pcm_loop invalid data f cnt tick (fuel + 1) i t
          = wave_pcm_loop invalid data f cnt tick fuel (i + (f : Int)) t1 := by
        rw [wave_pcm_loop]
        simp only [if_pos hlt, if_pos hsid, if_pos hbounds]
      have hc1 : t1.sample_count = t.sample_count + 1 := rfl
      have hs1 : t1.sample_size = t.sample_size.set t.sample_count f := rfl
      have ho1 : t1.sample_offset
          = t.sample_offset.set t.sample_count (data.datasOffset + i) := rfl
      obtain ⟨t', hrun, hc, hh, hold, hnew⟩ := ih fuel (i + (f : Int)) t1
        (by rw [hc1]; omega) (by rw [hc1, hi]; push_cast; ring)
        (by push_cast at hfuel; linarith)
        (by show cnt ≤ (t.sample_type.set _ _).length; rw [List.length_set]; exact h1)
        (by show cnt ≤ (t.sample_size.set _ _).length; rw [List.length_set]; exact h2)
        (by show cnt ≤ (t.sample_offset.set _ _).length; rw [List.length_set]; exact h3)
        (by show cnt ≤ (t.sample_pts.set _ _).length; rw [List.length_set]; exact h4)
        (by show cnt ≤ (t.sample_dts.set _ _).length; rw [List.length_set]; exact h5)
      rw [hc1] at hold hnew
      rw [hs1, ho1] at hold
      refine ⟨t', hstep.trans hrun, hc, hh.trans rfl, ?_, ?_⟩
      · intro k hk
        have := hold k (by omega)
        rw [List.getElem?_set_ne (Nat.ne_of_gt hk), List.getElem?_set_ne (Nat.ne_of_gt hk)] at this
        exact this
      · intro k hk1 hk2
        by_cases hkeq : k = t.sample_count
        · subst hkeq
          have := hold t.sample_count (by omega)
          rw [List.getElem?_set_self hbounds.2.1, List.getElem?_set_self hbounds.2.2.1] at this
          exact ⟨this.1, by rw [this.2, hi]⟩
        · exact hnew k (by omega) hk2

/-- For a linear-PCM tag the header assignments set the codec, the stream type
and the three audio parameters and leave the sample table alone. -/
theorem wave_track_header_pcm (env : WaveEnv) (wave : wave_t) (t : BitstreamMap_t)
    (htag : wave.fmt.wFormatTag = env.WAVE_FORMAT_MS_PCM ∨
      wave.fmt.wFormatTag = env.WAVE_FORMAT_EXTENSIBLE) :
    (wave_track_header env wave t).stream_codec = CODEC_LPCM ∧
      (wave_track_header env wave t).stream_type = StreamType_e.stream_AUDIO ∧
      (wave_track_header env wave t).channel_count = wave.fmt.nChannels ∧
      (wave_track_header env wave t).bit_per_sample = wave.fmt.wBitsPerSample ∧
      (wave_track_header env wave t).sampling_rate = wave.fmt.nSamplesPerSec ∧
      (wave_track_header env wave t).sample_count = t.sample_count ∧
      (wave_track_header env wave t).sample_type = t.sample_type ∧
      (wave_track_header env wave t).sample_size = t.sample_size ∧
      (wave_track_header env wave t).sample_offset = t.sample_offset ∧
      (wave_track_header env wave t).sample_pts = t.sample_pts ∧
      (wave_track_header env wave t).sample_dts = t.sample_dts := by
  simp only [wave_track_header, if_pos htag]
  split_ifs <;> simp

/-- The run of `wave_indexer_initmap` on a linear-PCM description with at
least one whole frame of data, for a media without audio track: the call
returns `SUCCESS`, the track is stored in slot 0, its sample table holds
`floor(D / f)` samples (capped at `UINT32_MAX`) of `f` bytes laid out one
after the other from the data offset, and its duration is the `double`
product of the sample count and `1000.0 / rate`, truncated. -/
theorem wave_indexer_initmap_pcm_run (env : WaveEnv) (media : MediaFile_t) (wave : wave_t)
    (htyped : wave.WellTyped)
    (htag : wave.fmt.wFormatTag = env.WAVE_FORMAT_MS_PCM ∨
      wave.fmt.wFormatTag = env.WAVE_FORMAT_EXTENSIBLE)
    (hc : 1 ≤ wave.fmt.nChannels) (hb : 8 ≤ wave.fmt.wBitsPerSample)
    (hD : (wave.frame : Int) ≤ wave.data.datasSize)
    (hnone : media.tracks_audio[0]? = some none) (hcount : media.tracks_audio_count = 0) :
    ∃ filled : BitstreamMap_t,
      wave_indexer_initmap env media wave
          = some (SUCCESS,
              { media with
                  tracks_audio :=
                    media.tracks_audio.set 0
                      (some
                        { filled with
                            duration_ms :=
                              dbl_to_int64 env.invalid_int64
                                (dbl_mul (dbl_of_int filled.sample_count)
                                  (dbl_div (dbl_of_int 1000)
                                    (dbl_of_int wave.fmt.nSamplesPerSec))) }) })
        ∧ filled.sample_count = min (wave.data.datasSize / (wave.frame : Int)).toNat UINT32_MAX
        ∧ filled.header
            = ({ wave_track_header env wave
                    (zeroed_bitstream_map
                      (min (wave.data.datasSize / (wave.frame : Int)).toNat UINT32_MAX)) with
                  sample_alignment := true }).header
        ∧ (∀ k, k < filled.sample_count →
            filled.sample_size[k]? = some wave.frame ∧
              filled.sample_offset[k]?
                = some (wave.data.datasOffset + (k : Int) * (wave.frame : Int))) := by
  obtain ⟨_, hc16, _, _, hb16, _, _, _, hD0, hD63⟩ := htyped
  have hframe : wave.fmt.nChannels * (wave.fmt.wBitsPerSample / 8) = wave.frame := rfl
  have hb8 : 1 ≤ wave.fmt.wBitsPerSample / 8 := by omega
  have hf1 : 1 ≤ wave.frame := by
    rw [← hframe]; exact Nat.mul_pos hc hb8
  have hf32 : wave.frame < 2 ^ 32 := by
    rw [← hframe]
    calc wave.fmt.nChannels * (wave.fmt.wBitsPerSample / 8)
        ≤ 2 ^ 16 * 2 ^ 13 := Nat.mul_le_mul (by omega) (by omega)
      _ < 2 ^ 32 := by norm_num
  have hfpos : (0 : Int) < (wave.frame : Int) := by exact_mod_cast hf1
  have hDnn : 0 ≤ wave.data.datasSize := le_trans (le_of_lt hfpos) hD
  set cnt := min (wave.data.datasSize / (wave.frame : Int)).toNat UINT32_MAX with hcnt
  have hq : 0 ≤ wave.data.datasSize / (wave.frame : Int) := Int.ediv_nonneg hDnn (le_of_lt hfpos)
  have hq1 : 1 ≤ wave.data.datasSize / (wave.frame : Int) :=
    (Int.le_ediv_iff_mul_le hfpos).2 (by simpa using hD)
  have hcnt1 : 1 ≤ cnt := by
    rw [hcnt]; refine le_min ?_ (by decide)
    omega
  have hcount_eq : min ((Int.tdiv wave.data.datasSize (wave.frame : Int)) % 2 ^ 64).toNat UINT32_MAX
      = cnt := by
    rw [Int.tdiv_eq_ediv hDnn (le_of_lt hfpos), Int.emod_eq_of_lt hq]
    have : wave.data.datasSize / (wave.frame : Int) ≤ wave.data.datasSize :=
      Int.ediv_le_self _ hDnn
    omega
  have hroom : (cnt : Int) * (wave.frame : Int) ≤ wave.data.datasSize := by
    have h1 : (cnt : Int) ≤ wave.data.datasSize / (wave.frame : Int) := by
      have : cnt ≤ (wave.data.datasSize / (wave.frame : Int)).toNat := min_le_left _ _
      omega
    calc (cnt : Int) * (wave.frame : Int)
        ≤ (wave.data.datasSize / (wave.frame : Int)) * (wave.frame : Int) :=
          mul_le_mul_of_nonneg_right h1 (le_of_lt hfpos)
      _ ≤ wave.data.datasSize := Int.ediv_mul_le _ (ne_of_gt hfpos)
  have hlen : 0 < media.tracks_audio.length := by
    rcases Nat.lt_or_ge 0 media.tracks_audio.length with h | h
    · exact h
    · rw [List.getElem?_eq_none (by omega)] at hnone; cases hnone
  have hdec : decide (wave.fmt.wFormatTag = env.WAVE_FORMAT_MS_PCM ∨
      wave.fmt.wFormatTag = env.WAVE_FORMAT_EXTENSIBLE) = true := decide_eq_true htag
  have hnz : ¬ (true = true ∧ wave.frame = 0) := fun h => by omega
  have hcnt0 : cnt ≠ 0 := by omega
  obtain ⟨hh1, hh2, hh3, hh4, hh5, hh6, hh7, hh8, hh9, hh10, hh11⟩ :=
    wave_track_header_pcm env wave (zeroed_bitstream_map cnt) htag
  have hset0 : ∀ x : Option BitstreamMap_t, (media.tracks_audio.set 0 x)[0]? = some x :=
    fun x => List.getElem?_set_self hlen
  have hF : ((wave_track_header env wave (zeroed_bitstream_map cnt)).channel_count
      * ((wave_track_header env wave (zeroed_bitstream_map cnt)).bit_per_sample / 8)) % 2 ^ 32
      = wave.frame := by
    rw [hh3, hh4, hframe, Nat.mod_eq_of_lt hf32]
  have hfuel : wave.data.datasSize
      ≤ 0 + ((wave.data.datasSize.toNat : Nat) : Int) * (wave.frame : Int) := by
    rw [Int.toNat_of_nonneg hDnn]
    nlinarith
  obtain ⟨filled, hrun, hfc, hfh, -, hfnew⟩ :=
    wave_pcm_loop_fill env.invalid_int64 wave.data wave.frame cnt
      (dbl_div (dbl_of_int 1000000)
        (dbl_of_int (wave_track_header env wave (zeroed_bitstream_map cnt)).sampling_rate))
      hf1 hroom cnt wave.data.datasSize.toNat 0
      { wave_track_header env wave (zeroed_bitstream_map cnt) with sample_alignment := true }
      (by show (wave_track_header env wave (zeroed_bitstream_map cnt)).sample_count + cnt = cnt
          rw [hh6]; simp [zeroed_bitstream_map])
      (by show (0 : Int)
            = ((wave_track_header env wave (zeroed_bitstream_map cnt)).sample_count : Int) * _
          rw [hh6]; simp [zeroed_bitstream_map])
      hfuel
      (by show cnt ≤ (wave_track_header env wave (zeroed_bitstream_map cnt)).sample_type.length
          rw [hh7]; simp [zeroed_bitstream_map])
      (by show cnt ≤ (wave_track_header env wave (zeroed_bitstream_map cnt)).sample_size.length
          rw [hh8]; simp [zeroed_bitstream_map])
      (by show cnt ≤ (wave_track_header env wave (zeroed_bitstream_map cnt)).sample_offset.length
          rw [hh9]; simp [zeroed_bitstream_map])
      (by show cnt ≤ (wave_track_header env wave (zeroed_bitstream_map cnt)).sample_pts.length
          rw [hh10]; simp [zeroed_bitstream_map])
      (by show cnt ≤ (wave_track_header env wave (zeroed_bitstream_map cnt)).sample_dts.length
          rw [hh11]; simp [zeroed_bitstream_map])
  have hrate : filled.sampling_rate = wave.fmt.nSamplesPerSec := by
    have := congrArg BitstreamMap_t.sampling_rate hfh
    simpa [BitstreamMap_t.header, hh5] using this
  refine ⟨filled, ?_, hfc, hfh, ?_⟩
  · simp only [wave_indexer_initmap, hdec, hframe, hcount_eq, hnone, init_bitstream_map,
      if_neg hnz, if_true, if_neg hcnt0, hcount, MediaFile_t.track, MediaFile_t.setTrack, hset0,
      List.set_set, if_pos hh1, ne_eq, not_true_eq_false, if_false, hF]
    dsimp only at hrun
    rw [if_neg (fun h => hnz ⟨rfl, h.2⟩), hrun]
    simp only [hrate]
  · intro k hk
    exact hfnew k (by show (wave_track_header env wave (zeroed_bitstream_map cnt)).sample_count ≤ k
                      rw [hh6]; simp [zeroed_bitstream_map]) (by omega)

/-! ## Rounding to binary64 -/

theorem bit_length_aux_zero (fuel : Nat) : bit_length_aux fuel 0 = 0 := by
  cases fuel <;> simp [bit_length_aux]

/-- With enough fuel the digit count `L` of `n` satisfies `2^(L-1) ≤ n < 2^L`. -/
theorem bit_length_aux_spec (fuel : Nat) :
    ∀ n, n ≤ fuel →
      n < 2 ^ bit_length_aux fuel n ∧ (0 < n → 2 ^ (bit_length_aux fuel n - 1) ≤ n) := by
  induction fuel with
  | zero =>
    intro n hn
    have : n = 0 := by omega
    subst this
    simp [bit_length_aux]
  | succ fuel ih =>
    intro n hn
    by_cases h0 : n = 0
    · subst h0
      simp [bit_length_aux]
    · have hhalf : n / 2 ≤ fuel := by omega
      obtain ⟨hlt, hge⟩ := ih (n / 2) hhalf
      simp only [bit_length_aux, if_neg h0, Nat.add_sub_cancel]
      refine ⟨?_, fun _ => ?_⟩
      · rw [pow_succ]; omega
      · by_cases h1 : n / 2 = 0
        · rw [h1, bit_length_aux_zero]; simp; omega
        · have hpos : 0 < n / 2 := Nat.pos_of_ne_zero h1
          have hlow := hge hpos
          have ha : bit_length_aux fuel (n / 2) ≠ 0 := by
            intro hz; rw [hz] at hlt; simp at hlt; omega
          have : 2 ^ bit_length_aux fuel (n / 2)
              = 2 * 2 ^ (bit_length_aux fuel (n / 2) - 1) := by
            rw [← pow_succ']; congr 1; omega
          omega

theorem lt_two_pow_bit_length (n : Nat) : n < 2 ^ bit_length n :=
  (bit_length_aux_spec n n (le_refl n)).1

theorem two_pow_bit_length_le (n : Nat) (h : 0 < n) : 2 ^ (bit_length n - 1) ≤ n :=
  (bit_length_aux_spec n n (le_refl n)).2 h

theorem bit_length_le (n k : Nat) (h : n < 2 ^ k) : bit_length n ≤ k := by
  by_cases h0 : n = 0
  · subst h0; simp [bit_length, bit_length_aux_zero]
  · have hlow := two_pow_bit_length_le n (Nat.pos_of_ne_zero h0)
    have hlt : 2 ^ (bit_length n - 1) < 2 ^ k := lt_of_le_of_lt hlow h
    have := (Nat.pow_lt_pow_iff_right (by decide : 1 < 2)).1 hlt
    omega

theorem lt_bit_length (n k : Nat) (h : 2 ^ k ≤ n) : k < bit_length n := by
  have hlt : 2 ^ k < 2 ^ bit_length n := lt_of_le_of_lt h (lt_two_pow_bit_length n)
  exact (Nat.pow_lt_pow_iff_right (by decide : 1 < 2)).1 hlt

/-- A multiple of `2^j` below `2^(53+j)` is kept by the rounding. -/
theorem round53_exact (z j : Nat) (hz : z < 2 ^ 53) : round53 (z * 2 ^ j) 1 = z * 2 ^ j := by
  have hN : z * 2 ^ j < 2 ^ (53 + j) := by
    rw [pow_add]; exact Nat.mul_lt_mul_of_pos_right hz (Nat.pow_pos (by decide))
  have hbl := bit_length_le _ _ hN
  simp only [round53, Nat.div_one, Nat.one_mul]
  generalize hs : bit_length (z * 2 ^ j) - 53 = shift at *
  have hshift : shift ≤ j := by omega
  obtain ⟨e, he⟩ : ∃ e, j = shift + e := ⟨j - shift, by omega⟩
  have hdvd : 2 ^ shift ∣ z * 2 ^ j := ⟨z * 2 ^ e, by rw [he, pow_add]; ring⟩
  have hpos : 0 < 2 ^ shift := Nat.pow_pos (by decide)
  have hmod : z * 2 ^ j % 2 ^ shift = 0 := Nat.mod_eq_zero_of_dvd hdvd
  rw [hmod, if_pos (Or.inl (by omega)), Nat.div_mul_cancel hdvd]

/-- From `2^53` on the rounding changes a number by at most one part in `2^53`. -/
theorem round53_close (num den : Nat) (hden : 0 < den) (hbig : 2 ^ 53 ≤ num / den) :
    2 ^ 53 * (round53 num den * den) ≤ 2 ^ 53 * num + num ∧
      2 ^ 53 * num ≤ 2 ^ 53 * (round53 num den * den) + num := by
  have hL := lt_bit_length _ _ hbig
  have hq0 : 0 < num / den := lt_of_lt_of_le (Nat.pow_pos (by decide)) hbig
  have hlow := two_pow_bit_length_le _ hq0
  simp only [round53]
  generalize hs : bit_length (num / den) - 53 = shift at *
  have hexp : bit_length (num / den) - 1 = shift + 52 := by omega
  rw [hexp, pow_add] at hlow
  have hdpos : 0 < den * 2 ^ shift := Nat.mul_pos hden (Nat.pow_pos (by decide))
  have hqd : num / den * den ≤ num := Nat.div_mul_le_self _ _
  have hd52 : 2 ^ 52 * (den * 2 ^ shift) ≤ num := by
    calc 2 ^ 52 * (den * 2 ^ shift) = 2 ^ shift * 2 ^ 52 * den := by ring
      _ ≤ num / den * den := Nat.mul_le_mul_right _ hlow
      _ ≤ num := hqd
  have hdecomp : den * 2 ^ shift * (num / (den * 2 ^ shift)) + num % (den * 2 ^ shift) = num :=
    Nat.div_add_mod _ _
  have hrlt : num % (den * 2 ^ shift) < den * 2 ^ shift := Nat.mod_lt _ hdpos
  have hmul : ∀ x : Nat, x * 2 ^ shift * den = den * 2 ^ shift * x := fun x => by ring
  have hsucc : den * 2 ^ shift * (num / (den * 2 ^ shift) + 1)
      = den * 2 ^ shift * (num / (den * 2 ^ shift)) + den * 2 ^ shift := by ring
  split_ifs with hcase
  · rw [hmul]
    generalize den * 2 ^ shift * (num / (den * 2 ^ shift)) = X at *
    generalize den * 2 ^ shift = d at *
    generalize num % d = r at *
    have h2r : 2 * r ≤ d := by rcases hcase with h | h <;> omega
    norm_num at hd52 ⊢
    omega
  · rw [hmul, hsucc]
    generalize den * 2 ^ shift * (num / (den * 2 ^ shift)) = X at *
    generalize den * 2 ^ shift = d at *
    generalize num % d = r at *
    have h2r : d ≤ 2 * r := by
      by_contra hlt
      exact hcase (Or.inl (by omega))
    norm_num at hd52 ⊢
    omega

/-- The integer arithmetic behind the duration: a quotient `1000/r` rounded to
one part in `2^53`, a product with `s < 2^32` rounded again and truncated
give `floor(1000 s / r)` or one less. `U` is the unit of the scaled values. -/
theorem duration_arith (U Tm Ym D r s : Nat) (hU : 0 < U) (hr : 1 ≤ r) (hs : s < 2 ^ 32)
    (hT1 : 2 ^ 53 * (Tm * (r * U)) ≤ 2 ^ 53 * (1000 * U * U) + 1000 * U * U)
    (hT2 : 2 ^ 53 * (1000 * U * U) ≤ 2 ^ 53 * (Tm * (r * U)) + 1000 * U * U)
    (hY1 : 2 ^ 53 * (Ym * U) ≤ 2 ^ 53 * (s * U * Tm) + s * U * Tm)
    (hY2 : 2 ^ 53 * (s * U * Tm) ≤ 2 ^ 53 * (Ym * U) + s * U * Tm)
    (hD1 : D * U ≤ Ym) (hD2 : Ym < (D + 1) * U) :
    D * r ≤ 1000 * s ∧ 1000 * s < (D + 2) * r := by
  -- cancel the unit
  have hT1' : 2 ^ 53 * (Tm * r) ≤ (2 ^ 53 + 1) * (1000 * U) :=
    Nat.le_of_mul_le_mul_right (by calc 2 ^ 53 * (Tm * r) * U = 2 ^ 53 * (Tm * (r * U)) := by ring
      _ ≤ 2 ^ 53 * (1000 * U * U) + 1000 * U * U := hT1
      _ = (2 ^ 53 + 1) * (1000 * U) * U := by ring) hU
  have hT2' : (2 ^ 53 - 1) * (1000 * U) ≤ 2 ^ 53 * (Tm * r) := by
    have h : 2 ^ 53 * (1000 * U) * U ≤ (2 ^ 53 * (Tm * r) + 1000 * U) * U := by
      calc 2 ^ 53 * (1000 * U) * U = 2 ^ 53 * (1000 * U * U) := by ring
        _ ≤ 2 ^ 53 * (Tm * (r * U)) + 1000 * U * U := hT2
        _ = (2 ^ 53 * (Tm * r) + 1000 * U) * U := by ring
    have h' := Nat.le_of_mul_le_mul_right h hU
    rw [Nat.sub_mul]
    omega
  have hY1' : 2 ^ 53 * Ym ≤ (2 ^ 53 + 1) * (s * Tm) :=
    Nat.le_of_mul_le_mul_right (by calc 2 ^ 53 * Ym * U = 2 ^ 53 * (Ym * U) := by ring
      _ ≤ 2 ^ 53 * (s * U * Tm) + s * U * Tm := hY1
      _ = (2 ^ 53 + 1) * (s * Tm) * U := by ring) hU
  have hY2' : (2 ^ 53 - 1) * (s * Tm) ≤ 2 ^ 53 * Ym := by
    have h : 2 ^ 53 * (s * Tm) * U ≤ (2 ^ 53 * Ym + s * Tm) * U := by
      calc 2 ^ 53 * (s * Tm) * U = 2 ^ 53 * (s * U * Tm) := by ring
        _ ≤ 2 ^ 53 * (Ym * U) + s * U * Tm := hY2
        _ = (2 ^ 53 * Ym + s * Tm) * U := by ring
    have h' := Nat.le_of_mul_le_mul_right h hU
    rw [Nat.sub_mul]
    omega
  -- upper bound
  have hup : 2 ^ 53 * 2 ^ 53 * (D * r) ≤ (2 ^ 53 + 1) * (2 ^ 53 + 1) * (1000 * s) :=
    Nat.le_of_mul_le_mul_right (by
      calc 2 ^ 53 * 2 ^ 53 * (D * r) * U = 2 ^ 53 * r * (2 ^ 53 * (D * U)) := by ring
        _ ≤ 2 ^ 53 * r * (2 ^ 53 * Ym) :=
            Nat.mul_le_mul_left _ (Nat.mul_le_mul_left _ hD1)
        _ ≤ 2 ^ 53 * r * ((2 ^ 53 + 1) * (s * Tm)) := Nat.mul_le_mul_left _ hY1'
        _ = (2 ^ 53 + 1) * s * (2 ^ 53 * (Tm * r)) := by ring
        _ ≤ (2 ^ 53 + 1) * s * ((2 ^ 53 + 1) * (1000 * U)) := Nat.mul_le_mul_left _ hT1'
        _ = (2 ^ 53 + 1) * (2 ^ 53 + 1) * (1000 * s) * U := by ring) hU
  -- lower bound
  have hlow : (2 ^ 53 - 1) * (2 ^ 53 - 1) * (1000 * s) < 2 ^ 53 * 2 ^ 53 * ((D + 1) * r) :=
    Nat.lt_of_mul_lt_mul_right (a := U) (by
      calc (2 ^ 53 - 1) * (2 ^ 53 - 1) * (1000 * s) * U
          = (2 ^ 53 - 1) * s * ((2 ^ 53 - 1) * (1000 * U)) := by ring
        _ ≤ (2 ^ 53 - 1) * s * (2 ^ 53 * (Tm * r)) := Nat.mul_le_mul_left _ hT2'
        _ = 2 ^ 53 * r * ((2 ^ 53 - 1) * (s * Tm)) := by ring
        _ ≤ 2 ^ 53 * r * (2 ^ 53 * Ym) := Nat.mul_le_mul_left _ hY2'
        _ < 2 ^ 53 * r * (2 ^ 53 * ((D + 1) * U)) :=
            Nat.mul_lt_mul_of_pos_left
              (Nat.mul_lt_mul_of_pos_left hD2 (Nat.pow_pos (by decide)))
              (Nat.mul_pos (Nat.pow_pos (by decide)) hr)
        _ = 2 ^ 53 * 2 ^ 53 * ((D + 1) * r) * U := by ring)
  have hexp : (D + 2) * r = (D + 1) * r + r := by ring
  rw [hexp]
  generalize D * r = X at *
  generalize (D + 1) * r = Z at *
  norm_num at hup hlow hs
  constructor <;> omega

theorem dbl_unit_eq : dbl_unit = 2 ^ 1074 := by
  rw [dbl_unit, ← pow_mul]

theorem dbl_unit_pos : 0 < dbl_unit :=
  Nat.pow_pos (Nat.pow_pos (by decide))

/-- Rounding a non-negative quotient that stays below `2^1024`. -/
theorem dbl_round_natCast (num den : Nat) (h : round53 num den < (2 ^ 128) ^ 8 * dbl_unit) :
    dbl_round (num : Int) den = Double.finite ((round53 num den : Nat) : Int) := by
  have hneg : ¬ ((num : Int) < 0) := by omega
  simp only [dbl_round, Int.natAbs_ofNat, if_neg (Nat.not_le.2 h), if_neg hneg]

/-- The conversion of a natural number below `2^53` to `double` is exact. -/
theorem dbl_of_int_natCast (n : Nat) (h : n < 2 ^ 53) :
    dbl_of_int (n : Int) = Double.finite ((n * dbl_unit : Nat) : Int) := by
  have hexact : round53 (n * dbl_unit) 1 = n * dbl_unit := by
    rw [dbl_unit_eq]; exact round53_exact n 1074 h
  have hlt : round53 (n * dbl_unit) 1 < (2 ^ 128) ^ 8 * dbl_unit := by
    rw [hexact]
    exact Nat.mul_lt_mul_of_pos_right (lt_trans h (by norm_num)) dbl_unit_pos
  have := dbl_round_natCast (n * dbl_unit) 1 hlt
  rw [hexact] at this
  rw [dbl_of_int, ← this]
  push_cast
  rfl

/-- The quotient of two non-negative `double`s, below `2^1024`. -/
theorem dbl_div_natCast (x y : Nat) (hy : 0 < y)
    (h : round53 (x * dbl_unit) y < (2 ^ 128) ^ 8 * dbl_unit) :
    dbl_div (Double.finite (x : Int)) (Double.finite (y : Int))
      = Double.finite ((round53 (x * dbl_unit) y : Nat) : Int) := by
  have hy0 : ¬ ((y : Int) = 0) := by omega
  have hyneg : ¬ ((y : Int) < 0) := by omega
  have := dbl_round_natCast (x * dbl_unit) y h
  simp only [dbl_div, if_neg hy0, if_neg hyneg, Int.natAbs_ofNat]
  rw [← this]
  push_cast
  rfl

/-- The product of two non-negative `double`s, below `2^1024`. -/
theorem dbl_mul_natCast (x y : Nat)
    (h : round53 (x * y) dbl_unit < (2 ^ 128) ^ 8 * dbl_unit) :
    dbl_mul (Double.finite (x : Int)) (Double.finite (y : Int))
      = Double.finite ((round53 (x * y) dbl_unit : Nat) : Int) := by
  have := dbl_round_natCast (x * y) dbl_unit h
  simp only [dbl_mul]
  rw [← this]
  push_cast
  rfl

/-- Truncation of a non-negative `double` whose integral part fits `int64_t`. -/
theorem dbl_to_int64_natCast (invalid : Int) (x : Nat) (h : x / dbl_unit < 2 ^ 63) :
    dbl_to_int64 invalid (Double.finite (x : Int)) = ((x / dbl_unit : Nat) : Int) := by
  have hdiv : Int.tdiv (x : Int) (dbl_unit : Int) = ((x / dbl_unit : Nat) : Int) := by
    rw [Int.tdiv_eq_ediv (Int.ofNat_nonneg x) (Int.ofNat_nonneg dbl_unit)]
    norm_cast
  have hrange : -(2 ^ 63) ≤ ((x / dbl_unit : Nat) : Int) ∧ ((x / dbl_unit : Nat) : Int) < 2 ^ 63 := by
    constructor
    · have : (0 : Int) ≤ ((x / dbl_unit : Nat) : Int) := Int.ofNat_nonneg _
      linarith
    · exact_mod_cast h
  simp only [dbl_to_int64, hdiv, if_pos hrange]

theorem round53_zero (den : Nat) (hden : 0 < den) : round53 0 den = 0 := by
  simp [round53, bit_length, bit_length_aux_zero, hden]

/-- The duration computed in `double`, `(int64_t)((double)s * (1000.0 / (double)r))`,
is `floor(1000 s / r)` or one less, for a sample count and a non-zero rate of 32 bits. -/
theorem wave_duration_close (invalid : Int) (s r : Nat) (hs : s < 2 ^ 32) (hr1 : 1 ≤ r)
    (hr : r < 2 ^ 32) :
    ∃ d : Nat,
      dbl_to_int64 invalid
          (dbl_mul (dbl_of_int (s : Int)) (dbl_div (dbl_of_int 1000) (dbl_of_int (r : Int))))
        = (d : Int) ∧ d * r ≤ 1000 * s ∧ 1000 * s < (d + 2) * r := by
  have hU := dbl_unit_pos
  have hUbig : 2 ^ 140 ≤ dbl_unit := by
    unfold dbl_unit; norm_num
  have h1000 : dbl_of_int 1000 = Double.finite ((1000 * dbl_unit : Nat) : Int) := by
    exact_mod_cast dbl_of_int_natCast 1000 (by norm_num)
  rw [h1000, dbl_of_int_natCast s (lt_trans hs (by norm_num)),
    dbl_of_int_natCast r (lt_trans hr (by norm_num))]
  -- the quotient
  have hrU : 0 < r * dbl_unit := Nat.mul_pos hr1 hU
  have hqbig : 2 ^ 53 ≤ 1000 * dbl_unit * dbl_unit / (r * dbl_unit) := by
    rw [Nat.mul_div_mul_right _ _ hU, Nat.le_div_iff_mul_le hr1]
    calc 2 ^ 53 * r ≤ 2 ^ 53 * 2 ^ 32 := Nat.mul_le_mul_left _ (le_of_lt hr)
      _ ≤ 2 ^ 140 := by norm_num
      _ ≤ dbl_unit := hUbig
      _ ≤ 1000 * dbl_unit := by omega
  obtain ⟨hT1, hT2⟩ := round53_close (1000 * dbl_unit * dbl_unit) (r * dbl_unit) hrU hqbig
  generalize hTm : round53 (1000 * dbl_unit * dbl_unit) (r * dbl_unit) = Tm at *
  have hT1' : 2 ^ 53 * (Tm * r) ≤ (2 ^ 53 + 1) * (1000 * dbl_unit) :=
    Nat.le_of_mul_le_mul_right (by
      calc 2 ^ 53 * (Tm * r) * dbl_unit = 2 ^ 53 * (Tm * (r * dbl_unit)) := by ring
        _ ≤ 2 ^ 53 * (1000 * dbl_unit * dbl_unit) + 1000 * dbl_unit * dbl_unit := hT1
        _ = (2 ^ 53 + 1) * (1000 * dbl_unit) * dbl_unit := by ring) hU
  have hT2' : 2 ^ 53 * (1000 * dbl_unit) ≤ 2 ^ 53 * (Tm * r) + 1000 * dbl_unit :=
    Nat.le_of_mul_le_mul_right (by
      calc 2 ^ 53 * (1000 * dbl_unit) * dbl_unit = 2 ^ 53 * (1000 * dbl_unit * dbl_unit) := by ring
        _ ≤ 2 ^ 53 * (Tm * (r * dbl_unit)) + 1000 * dbl_unit * dbl_unit := hT2
        _ = (2 ^ 53 * (Tm * r) + 1000 * dbl_unit) * dbl_unit := by ring) hU
  have hTr : Tm ≤ Tm * r := Nat.le_mul_of_pos_right _ hr1
  have hTup : Tm ≤ 2000 * dbl_unit := by
    norm_num at hT1'
    omega
  have hTlow : 2 ^ 53 ≤ Tm := by
    by_contra hlt
    have h1 : Tm * r ≤ 2 ^ 53 * 2 ^ 32 :=
      Nat.mul_le_mul (by omega) (le_of_lt hr)
    norm_num at hT2' h1 hUbig
    omega
  have hTfin : Tm < (2 ^ 128) ^ 8 * dbl_unit :=
    lt_of_le_of_lt hTup (Nat.mul_lt_mul_of_pos_right (by norm_num) hU)
  rw [dbl_div_natCast (1000 * dbl_unit) (r * dbl_unit) hrU (by rw [hTm]; exact hTfin), hTm]
  -- the product
  have hY : 2 ^ 53 * (round53 (s * dbl_unit * Tm) dbl_unit * dbl_unit)
        ≤ 2 ^ 53 * (s * dbl_unit * Tm) + s * dbl_unit * Tm ∧
      2 ^ 53 * (s * dbl_unit * Tm)
        ≤ 2 ^ 53 * (round53 (s * dbl_unit * Tm) dbl_unit * dbl_unit) + s * dbl_unit * Tm := by
    by_cases hs0 : s = 0
    · subst hs0
      simp [round53_zero _ hU]
    · apply round53_close _ _ hU
      have : s * dbl_unit * Tm / dbl_unit = s * Tm := by
        rw [show s * dbl_unit * Tm = s * Tm * dbl_unit by ring, Nat.mul_div_cancel _ hU]
      rw [this]
      calc 2 ^ 53 ≤ Tm := hTlow
        _ ≤ s * Tm := Nat.le_mul_of_pos_left _ (Nat.pos_of_ne_zero hs0)
  obtain ⟨hY1, hY2⟩ := hY
  generalize hYm : round53 (s * dbl_unit * Tm) dbl_unit = Ym at *
  have hY1' : 2 ^ 53 * Ym ≤ (2 ^ 53 + 1) * (s * Tm) :=
    Nat.le_of_mul_le_mul_right (by
      calc 2 ^ 53 * Ym * dbl_unit = 2 ^ 53 * (Ym * dbl_unit) := by ring
        _ ≤ 2 ^ 53 * (s * dbl_unit * Tm) + s * dbl_unit * Tm := hY1
        _ = (2 ^ 53 + 1) * (s * Tm) * dbl_unit := by ring) hU
  have hsT : s * Tm ≤ 2 ^ 32 * (2000 * dbl_unit) := Nat.mul_le_mul (le_of_lt hs) hTup
  have hYup : Ym ≤ 2 ^ 44 * dbl_unit := by
    norm_num at hY1' hsT ⊢
    omega
  have hYfin : Ym < (2 ^ 128) ^ 8 * dbl_unit :=
    lt_of_le_of_lt hYup (Nat.mul_lt_mul_of_pos_right (by norm_num) hU)
  have hDlt : Ym / dbl_unit < 2 ^ 63 := by
    have : Ym / dbl_unit ≤ 2 ^ 44 := by
      rw [Nat.div_le_iff_le_mul_add_pred hU]
      omega
    exact lt_of_le_of_lt this (by norm_num)
  rw [dbl_mul_natCast (s * dbl_unit) Tm (by rw [hYm]; exact hYfin), hYm,
    dbl_to_int64_natCast invalid Ym hDlt]
  exact ⟨Ym / dbl_unit, rfl,
    duration_arith dbl_unit Tm Ym (Ym / dbl_unit) r s hU hr1 hs hT1 hT2 hY1 hY2
      (Nat.div_mul_le_self _ _) (by
        have := Nat.lt_mul_div_succ Ym hU
        calc Ym < dbl_unit * (Ym / dbl_unit + 1) := this
          _ = (Ym / dbl_unit + 1) * dbl_unit := by ring)⟩

/-- 1024 samples at 8000 Hz last 128 ms: here the `double` computation is exact. -/
theorem wave_duration_1024_at_8000 (invalid : Int) :
    dbl_to_int64 invalid
        (dbl_mul (dbl_of_int ((1024 : Nat) : Int))
          (dbl_div (dbl_of_int 1000) (dbl_of_int ((8000 : Nat) : Int)))) = 128 := by
  have h : dbl_mul (dbl_of_int ((1024 : Nat) : Int))
      (dbl_div (dbl_of_int 1000) (dbl_of_int ((8000 : Nat) : Int)))
      = Double.finite ((128 * dbl_unit : Nat) : Int) := by decide!
  rw [h, dbl_to_int64_natCast invalid _ (by rw [Nat.mul_div_cancel _ dbl_unit_pos]; norm_num),
    Nat.mul_div_cancel _ dbl_unit_pos]
  rfl

/-! ## The sample loop of `computeSamplesDatasTrack` -/

/-- The steps before the sample loop leave the sample table and the fields
the later steps read, but the frame counts and the frame duration. -/
theorem computeSamplesDatasTrack_frames_spec (track : BitstreamMap_t)
    (hdts : track.sample_count ≤ track.sample_dts.length) :
    ∃ t, computeSamplesDatasTrack_frames track = some t ∧ t.sameTable track := by
  unfold computeSamplesDatasTrack_frames
  lift_lets
  extract_lets t1 t2 t3
  have h1 : t1.sameTable track := by
    simp only [t1]; split_ifs <;> exact ⟨rfl, rfl, rfl, rfl, rfl, rfl, rfl, rfl, rfl⟩
  clear_value t1
  have h2 : t2.sameTable track := by
    simp only [t2]; split_ifs
    · exact h1
    · exact h1
  clear_value t2
  obtain ⟨hc, hs, hp, hd, ha, hm, hz, hu, hb⟩ := h2
  have h3 : ∃ t, t3 = some t ∧ t.sameTable track := by
    simp only [t3]
    by_cases hcond : t2.stream_type = StreamType_e.stream_AUDIO ∧ 2 ≤ t2.sample_count
    · rw [if_pos hcond]
      have hlen : 2 ≤ t2.sample_dts.length := by rw [hd]; omega
      rw [List.getElem?_eq_getElem (show 1 < t2.sample_dts.length by omega),
        List.getElem?_eq_getElem (show 0 < t2.sample_dts.length by omega)]
      exact ⟨_, rfl, hc, hs, hp, hd, ha, hm, hz, hu, hb⟩
    · rw [if_neg hcond]
      exact ⟨_, rfl, hc, hs, hp, hd, ha, hm, hz, hu, hb⟩
  clear_value t3
  obtain ⟨t, rfl, hc, hs, hp, hd, ha, hm, hz, hu, hb⟩ := h3
  dsimp -zeta only
  lift_lets
  extract_lets t4
  have h4 : t4.sameTable track := by
    simp only [t4]; split_ifs <;> exact ⟨hc, hs, hp, hd, ha, hm, hz, hu, hb⟩
  clear_value t4
  have hlen : ¬ (t4.stream_type = StreamType_e.stream_VIDEO ∧ 2 ≤ t4.sample_count
      ∧ t4.sample_dts.length < 2) := by
    rintro ⟨-, hge, hlt⟩
    rw [h4.1] at hge
    rw [h4.2.2.2.1] at hlt
    omega
  rw [if_neg hlen]
  exact ⟨_, rfl, h4⟩

/-- The sample loop over allocated entries: `totalbytes` gains the sizes of the
samples run over, and `cbr` stays `true` exactly when none of them fails the
test against the reference size `ref` of entry 10. -/
theorem computeSamplesDatasTrack_loop_spec (track : BitstreamMap_t) (ref : Nat)
    (remaining : Nat) :
    (0 < remaining → track.sample_size[10]? = some ref) →
    ∀ (j totalbytes : Nat) (cbr : Bool) (frame_count : Nat),
      totalbytes < 2 ^ 64 →
      j + remaining ≤ track.sample_size.length →
      j + remaining ≤ track.sample_pts.length →
      j + remaining ≤ track.sample_dts.length →
      ∃ fc, computeSamplesDatasTrack_loop track remaining j totalbytes cbr frame_count
        = some ((totalbytes + ((track.sample_size.drop j).take remaining).sum) % 2 ^ 64,
            (cbr && ((track.sample_size.drop j).take remaining).all
              (fun size => !decide ((ref + 1) % 2 ^ 32 < size ∨ size < (ref + 2 ^ 32 - 1) % 2 ^ 32))),
            fc) := by
  induction remaining with
  | zero =>
    intro _ j totalbytes cbr frame_count htotal _ _ _
    refine ⟨frame_count, ?_⟩
    simp only [computeSamplesDatasTrack_loop, List.take_zero, List.sum_nil, List.all_nil,
      Nat.add_zero, Bool.and_true, Nat.mod_eq_of_lt htotal]
  | succ remaining ih =>
    intro href0 j totalbytes cbr frame_count htotal hsize hpts hdts
    have href := href0 (Nat.succ_pos _)
    replace ih := ih (fun _ => href)
    have hj : j < track.sample_size.length := by omega
    have hdrop : (track.sample_size.drop j).take (remaining + 1)
        = track.sample_size[j] :: (track.sample_size.drop (j + 1)).take remaining := by
      rw [List.drop_eq_getElem_cons hj, List.take_succ_cons]
    have hmod : (totalbytes + track.sample_size[j]) % 2 ^ 64 < 2 ^ 64 :=
      Nat.mod_lt _ (by norm_num)
    have hsum : ∀ rest : Nat,
        ((totalbytes + track.sample_size[j]) % 2 ^ 64 + rest) % 2 ^ 64
          = (totalbytes + (track.sample_size[j] + rest)) % 2 ^ 64 := by
      intro rest; omega
    have hcbr : ∀ rest : Bool,
        ((if (ref + 1) % 2 ^ 32 < track.sample_size[j]
              ∨ track.sample_size[j] < (ref + 2 ^ 32 - 1) % 2 ^ 32 then false else cbr) && rest)
          = (cbr && (!decide ((ref + 1) % 2 ^ 32 < track.sample_size[j]
              ∨ track.sample_size[j] < (ref + 2 ^ 32 - 1) % 2 ^ 32) && rest)) := by
      intro rest
      by_cases h : (ref + 1) % 2 ^ 32 < track.sample_size[j]
          ∨ track.sample_size[j] < (ref + 2 ^ 32 - 1) % 2 ^ 32
      · rw [if_pos h, decide_eq_true h]; simp
      · rw [if_neg h, decide_eq_false h]; simp
    rw [hdrop, List.sum_cons, List.all_cons, ← hsum, ← hcbr]
    unfold computeSamplesDatasTrack_loop
    rw [List.getElem?_eq_getElem hj, href]
    dsimp only
    generalize (if (ref + 1) % 2 ^ 32 < track.sample_size[j]
        ∨ track.sample_size[j] < (ref + 2 ^ 32 - 1) % 2 ^ 32 then false else cbr) = cbr1
    by_cases hal : track.sample_alignment = false
    · rw [if_pos hal, List.getElem?_eq_getElem (show j < track.sample_pts.length by omega)]
      dsimp only
      by_cases hpj : track.sample_pts[j] ≠ 0
      · rw [if_pos hpj]
        exact ih (j + 1) _ _ _ hmod (by omega) (by omega) (by omega)
      · rw [if_neg hpj, List.getElem?_eq_getElem (show j < track.sample_dts.length by omega)]
        exact ih (j + 1) _ _ _ hmod (by omega) (by omega) (by omega)
    · rw [if_neg hal]
      exact ih (j + 1) _ _ _ hmod (by omega) (by omega) (by omega)

/-- A sum of `uint32_t` sizes, one per sample of a 32-bit sample count, fits
`uint64_t`. -/
theorem sample_sizes_sum_lt (sizes : List Nat) (count : Nat) (hcount : count < 2 ^ 32)
    (htyped : ∀ x ∈ sizes, x < 2 ^ 32) : (sizes.take count).sum < 2 ^ 64 := by
  have hle : (sizes.take count).sum ≤ (sizes.take count).length • (2 ^ 32 - 1) := by
    apply List.sum_le_card_nsmul
    intro x hx
    have := htyped x (List.mem_of_mem_take hx)
    omega
  have hlen : (sizes.take count).length ≤ count := by
    rw [List.length_take]; omega
  have : (sizes.take count).length • (2 ^ 32 - 1) ≤ count * (2 ^ 32 - 1) := by
    rw [smul_eq_mul]; exact Nat.mul_le_mul_right _ hlen
  have : count * (2 ^ 32 - 1) ≤ (2 ^ 32 - 1) * (2 ^ 32 - 1) :=
    Nat.mul_le_mul_right _ (by omega)
  have : (2 ^ 32 - 1) * (2 ^ 32 - 1) < 2 ^ 64 := by norm_num
  omega

/-- What the steps after the sample loop leave in the bitrate mode, the stream
size and the duration, and the bitrate when they do not compute it. -/
theorem computeSamplesDatasTrack_totals_spec (p : Platform) (t : BitstreamMap_t)
    (totalbytes : Nat) (cbr : Bool) :
    (computeSamplesDatasTrack_totals p t totalbytes cbr).bitrate_mode
        = (if t.bitrate_mode = BitrateMode_e.BITRATE_UNKNOWN then
            (if cbr = true then BitrateMode_e.BITRATE_CBR else BitrateMode_e.BITRATE_VBR)
           else t.bitrate_mode)
      ∧ (computeSamplesDatasTrack_totals p t totalbytes cbr).stream_size
        = (if t.stream_size = 0 then totalbytes else t.stream_size)
      ∧ (computeSamplesDatasTrack_totals p t totalbytes cbr).duration_ms
        = (if t.duration_ms = 0 then
            dbl_to_int64 p.invalid_int64 (dbl_mul (dbl_of_int t.frame_count) t.frame_duration)
           else t.duration_ms)
      ∧ (computeSamplesDatasTrack_totals p t totalbytes cbr).bitrate
        = (if t.bitrate = 0 ∧ (computeSamplesDatasTrack_totals p t totalbytes cbr).duration_ms ≠ 0
           then
            dbl_to_uint32 p.invalid_uint32
                (dbl_round_half_away
                  (dbl_div
                    (dbl_of_int (computeSamplesDatasTrack_totals p t totalbytes cbr).stream_size)
                    (dbl_of_int (computeSamplesDatasTrack_totals p t totalbytes cbr).duration_ms)))
              * 1000 % 2 ^ 32 * 8 % 2 ^ 32
           else t.bitrate) := by
  unfold computeSamplesDatasTrack_totals
  lift_lets
  extract_lets t1 t2 t3 bitrate
  have h1 : t1.bitrate_mode = (if t.bitrate_mode = BitrateMode_e.BITRATE_UNKNOWN then
        (if cbr = true then BitrateMode_e.BITRATE_CBR else BitrateMode_e.BITRATE_VBR)
        else t.bitrate_mode) ∧ t1.stream_size = t.stream_size ∧ t1.duration_ms = t.duration_ms
      ∧ t1.bitrate = t.bitrate ∧ t1.frame_count = t.frame_count
      ∧ t1.frame_duration = t.frame_duration := by
    simp only [t1]
    split_ifs <;> exact ⟨rfl, rfl, rfl, rfl, rfl, rfl⟩
  clear_value t1
  obtain ⟨hm1, hz1, hu1, hb1, hf1, hd1⟩ := h1
  have h2 : t2.bitrate_mode = t1.bitrate_mode
      ∧ t2.stream_size = (if t.stream_size = 0 then totalbytes else t.stream_size)
      ∧ t2.duration_ms = t.duration_ms ∧ t2.bitrate = t.bitrate
      ∧ t2.frame_count = t.frame_count ∧ t2.frame_duration = t.frame_duration := by
    simp only [t2, hz1]
    split_ifs
    · exact ⟨rfl, rfl, hu1, hb1, hf1, hd1⟩
    · exact ⟨rfl, hz1, hu1, hb1, hf1, hd1⟩
  clear_value t2
  obtain ⟨hm2, hz2, hu2, hb2, hf2, hd2⟩ := h2
  have h3 : t3.bitrate_mode = t1.bitrate_mode ∧ t3.stream_size = t2.stream_size
      ∧ t3.duration_ms = (if t.duration_ms = 0 then
            dbl_to_int64 p.invalid_int64 (dbl_mul (dbl_of_int t.frame_count) t.frame_duration)
           else t.duration_ms)
      ∧ t3.bitrate = t.bitrate := by
    simp only [t3, hu2]
    split_ifs
    · exact ⟨hm2, rfl, by rw [hf2, hd2], hb2⟩
    · exact ⟨hm2, rfl, hu2, hb2⟩
  clear_value t3
  obtain ⟨hm3, hz3, hu3, hb3⟩ := h3
  rw [hb3]
  by_cases hcond : t.bitrate = 0 ∧ t3.duration_ms ≠ 0
  · rw [if_pos hcond]
    dsimp only
    rw [if_pos hcond]
    exact ⟨by rw [hm3, hm1], by rw [hz3, hz2], hu3, rfl⟩
  · rw [if_neg hcond]
    rw [if_neg hcond]
    exact ⟨by rw [hm3, hm1], by rw [hz3, hz2], hu3, hb3⟩

/-- The run of `computeSamplesDatasTrack` on a track whose arrays hold its
samples and, when it has samples, entry 10: it returns, the bitrate mode of a
track of unknown mode is `BITRATE_CBR` when no sample fails the test against
the reference size and `BITRATE_VBR` otherwise, a zero stream size becomes the
sum of the sizes, the other bitrate modes and stream sizes are kept, and a
zero bitrate is computed from the stream size and a non-zero duration. -/
theorem computeSamplesDatasTrack_run (p : Platform) (track : BitstreamMap_t) (ref : Nat)
    (href : 0 < track.sample_count → track.sample_size[10]? = some ref)
    (hcount : track.sample_count < 2 ^ 32) (htyped : ∀ x ∈ track.sample_size, x < 2 ^ 32)
    (hsize : track.sample_count ≤ track.sample_size.length)
    (hpts : track.sample_count ≤ track.sample_pts.length)
    (hdts : track.sample_count ≤ track.sample_dts.length) :
    ∃ t, computeSamplesDatasTrack p track = some t
      ∧ t.bitrate_mode
          = (if track.bitrate_mode = BitrateMode_e.BITRATE_UNKNOWN then
              (if (track.sample_size.take track.sample_count).all
                    (fun size =>
                      !decide ((ref + 1) % 2 ^ 32 < size ∨ size < (ref + 2 ^ 32 - 1) % 2 ^ 32))
                then BitrateMode_e.BITRATE_CBR else BitrateMode_e.BITRATE_VBR)
             else track.bitrate_mode)
      ∧ t.stream_size
          = (if track.stream_size = 0 then (track.sample_size.take track.sample_count).sum
             else track.stream_size)
      ∧ t.bitrate
          = (if track.bitrate = 0 ∧ t.duration_ms ≠ 0 then
              dbl_to_uint32 p.invalid_uint32
                  (dbl_round_half_away
                    (dbl_div (dbl_of_int t.stream_size) (dbl_of_int t.duration_ms)))
                * 1000 % 2 ^ 32 * 8 % 2 ^ 32
             else track.bitrate) := by
  obtain ⟨t0, hframes, hc, hs, hp, hd, ha, hm, hz, hu, hb⟩ :=
    computeSamplesDatasTrack_frames_spec track hdts
  obtain ⟨fc, hloop⟩ := computeSamplesDatasTrack_loop_spec t0 ref t0.sample_count
    (by rw [hs, hc]; exact href) 0 0 true t0.frame_count (by norm_num) (by rw [hs, hc]; omega)
    (by rw [hp, hc]; omega) (by rw [hd, hc]; omega)
  have hsum : (0 + ((t0.sample_size.drop 0).take t0.sample_count).sum) % 2 ^ 64
      = (track.sample_size.take track.sample_count).sum := by
    rw [List.drop_zero, Nat.zero_add, hs, hc,
      Nat.mod_eq_of_lt (sample_sizes_sum_lt _ _ hcount htyped)]
  rw [hsum, List.drop_zero, Bool.true_and, hs, hc] at hloop
  rw [← hc] at hloop
  unfold computeSamplesDatasTrack
  rw [hframes]
  dsimp only
  rw [hloop]
  dsimp only
  refine ⟨_, rfl, ?_, ?_, ?_⟩
  · rw [(computeSamplesDatasTrack_totals_spec p _ _ _).1]
    dsimp only
    rw [hm, hc]
  · rw [(computeSamplesDatasTrack_totals_spec p _ _ _).2.1]
    dsimp only
    rw [hz, hc]
  · rw [(computeSamplesDatasTrack_totals_spec p _ _ _).2.2.2]
    dsimp only
    rw [hb]

/-- A track with at least one sample whose `sample_size` array holds 10
entries or fewer: the first pass of the sample loop reads `sample_size[10]`
outside the array. -/
theorem computeSamplesDatasTrack_short_table (p : Platform) (track : BitstreamMap_t)
    (hcount : 0 < track.sample_count) (hshort : track.sample_size.length ≤ 10)
    (hdts : track.sample_count ≤ track.sample_dts.length) :
    computeSamplesDatasTrack p track = none := by
  obtain ⟨t, hframes, hc, hs, -⟩ := computeSamplesDatasTrack_frames_spec track hdts
  unfold computeSamplesDatasTrack
  rw [hframes]
  dsimp only
  obtain ⟨m, hm⟩ : ∃ m, t.sample_count = m + 1 := ⟨t.sample_count - 1, by omega⟩
  have hnone : t.sample_size[10]? = none := List.getElem?_eq_none (by rw [hs]; omega)
  rw [hm, computeSamplesDatasTrack_loop, hnone]
  cases t.sample_size[0]? <;> rfl

/-! ## The rounded quotient of the bitrate -/

/-- A multiple of the rounding step that the quotient reaches is not above
the rounded quotient. -/
theorem round53_ge (num den c : Nat) (hden : 0 < den)
    (h : c * 2 ^ (bit_length (num / den) - 53) * den ≤ num) :
    c * 2 ^ (bit_length (num / den) - 53) ≤ round53 num den := by
  unfold round53
  dsimp only
  generalize 2 ^ (bit_length (num / den) - 53) = g at *
  have hg : 0 < den * g ∨ g = 0 := by
    rcases Nat.eq_zero_or_pos g with h0 | h0
    · exact Or.inr h0
    · exact Or.inl (Nat.mul_pos hden h0)
  rcases hg with hg | hg
  · have ht : c ≤ num / (den * g) := by
      rw [Nat.le_div_iff_mul_le hg]
      calc c * (den * g) = c * g * den := by ring
        _ ≤ num := h
    split_ifs
    · exact Nat.mul_le_mul_right g ht
    · exact Nat.mul_le_mul_right g (by omega)
  · subst hg
    simp

/-- A multiple of the rounding step that lies above the quotient by more than
half a step is above the rounded quotient. -/
theorem round53_lt (num den c : Nat) (hden : 0 < den)
    (h1 : num < c * 2 ^ (bit_length (num / den) - 53) * den)
    (h2 : den * 2 ^ (bit_length (num / den) - 53)
      < 2 * (c * 2 ^ (bit_length (num / den) - 53) * den - num)) :
    round53 num den < c * 2 ^ (bit_length (num / den) - 53) := by
  unfold round53
  dsimp only
  have hgpos : 0 < 2 ^ (bit_length (num / den) - 53) := Nat.pow_pos (by decide)
  generalize 2 ^ (bit_length (num / den) - 53) = g at *
  have hdd : 0 < den * g := Nat.mul_pos hden hgpos
  have ht : num / (den * g) < c := by
    rw [Nat.div_lt_iff_lt_mul hdd]
    calc num < c * g * den := h1
      _ = c * (den * g) := by ring
  have hdm := Nat.div_add_mod num (den * g)
  generalize num / (den * g) = t at *
  generalize num % (den * g) = r at *
  have hc : c * g * den = c * (den * g) := by ring
  rw [hc] at h1 h2
  generalize den * g = dd at *
  split_ifs with hround
  · exact Nat.mul_lt_mul_of_pos_right ht hgpos
  · apply Nat.mul_lt_mul_of_pos_right _ hgpos
    by_contra hnot
    have hct : c = t + 1 := by omega
    subst hct
    have : (t + 1) * dd = dd * t + dd := by ring
    rw [this] at h2
    apply hround
    left
    omega

/-- The quotient of a size below `2^52` by a positive duration below `2^53`,
computed in `double` and rounded by `round`, is the exact quotient rounded to
the nearest integer, a half rounded up. -/
theorem round53_half (S d : Nat) (hS : S < 2 ^ 52) (hd0 : 0 < d) (hd : d < 2 ^ 53) :
    (round53 (S * dbl_unit * dbl_unit) (d * dbl_unit) + dbl_unit / 2) / dbl_unit
      = round_div S d := by
  have hU : dbl_unit = 2 ^ 1074 := dbl_unit_eq
  have hUpos := dbl_unit_pos
  generalize hUdef : dbl_unit = U at *
  have hden : 0 < d * U := Nat.mul_pos hd0 hUpos
  -- the quotient in units
  have hq : S * U * U / (d * U) = S * U / d := by
    rw [Nat.mul_div_mul_right _ _ hUpos]
  have hqS : S * U / d ≤ S * U := Nat.div_le_self _ _
  have hqlt : S * U / d < 2 ^ 1126 := by
    have hSU : S * U < 2 ^ 52 * U := Nat.mul_lt_mul_of_pos_right hS hUpos
    have h1126 : 2 ^ 52 * U = 2 ^ 1126 := by rw [hU, ← pow_add]
    omega
  have hsh : bit_length (S * U * U / (d * U)) - 53 ≤ 1073 := by
    have := bit_length_le _ 1126 (hq ▸ hqlt)
    omega
  -- the rounding step divides one half
  obtain ⟨e, he⟩ : ∃ e, bit_length (S * U * U / (d * U)) - 53 + e = 1073 := ⟨_, Nat.add_sub_cancel' hsh⟩
  have hH : U = 2 * (2 ^ e * 2 ^ (bit_length (S * U * U / (d * U)) - 53)) := by
    rw [← pow_add, Nat.add_comm, he, hU, show 1074 = 1073 + 1 from rfl, pow_succ, Nat.mul_comm]
  -- the step times the duration stays below one
  have hstep : d * 2 ^ (bit_length (S * U * U / (d * U)) - 53) < U := by
    rcases Nat.eq_zero_or_pos (bit_length (S * U * U / (d * U)) - 53) with h0 | h0
    · rw [h0, pow_zero, Nat.mul_one, hU]
      have hpow : ∀ n, 53 < n → (2 : Nat) ^ 53 < 2 ^ n :=
        fun n hn => Nat.pow_lt_pow_right (by decide) hn
      exact lt_trans hd (hpow 1074 (by decide))
    · have hqpos : 0 < S * U * U / (d * U) := by
        rcases Nat.eq_zero_or_pos (S * U * U / (d * U)) with hz | hz
        · rw [hz] at h0; simp [bit_length, bit_length_aux] at h0
        · exact hz
      have hlow := two_pow_bit_length_le _ hqpos
      have hexp : bit_length (S * U * U / (d * U)) - 1
          = bit_length (S * U * U / (d * U)) - 53 + 52 := by omega
      rw [hexp, pow_add, hq] at hlow
      rw [hq]
      rw [hq] at h0
      generalize 2 ^ (bit_length (S * U / d) - 53) = g at *
      have h1 : d * (g * 2 ^ 52) ≤ S * U :=
        le_trans (Nat.mul_le_mul_left d hlow) (Nat.mul_div_le _ _)
      have h2 : S * U < 2 ^ 52 * U := Nat.mul_lt_mul_of_pos_right hS hUpos
      have h3 : d * g * 2 ^ 52 < U * 2 ^ 52 := by
        calc d * g * 2 ^ 52 = d * (g * 2 ^ 52) := by ring
          _ ≤ S * U := h1
          _ < 2 ^ 52 * U := h2
          _ = U * 2 ^ 52 := by ring
      exact Nat.lt_of_mul_lt_mul_right h3
  -- the neighbours of the quotient among the halves
  have hk1 : 2 * d * round_div S d ≤ 2 * S + d := by
    unfold round_div
    exact Nat.mul_div_le _ _
  have hk2 : 2 * S + d < 2 * d * (round_div S d + 1) := by
    unfold round_div
    exact Nat.lt_mul_div_succ _ (by omega)
  generalize round_div S d = k at *
  generalize hgdef : 2 ^ (bit_length (S * U * U / (d * U)) - 53) = g at *
  have hgpos : 0 < g := by rw [← hgdef]; exact Nat.pow_pos (by decide)
  -- upper bound
  have hupper : round53 (S * U * U) (d * U) < (2 * k + 1) * 2 ^ e * g := by
    rw [← hgdef]
    apply round53_lt _ _ _ hden
    · rw [hgdef]
      have : (2 * k + 1) * 2 ^ e * g * (d * U) * 2 = (2 * k + 1) * d * U * U := by
        rw [hH]; ring
      have h2S : 2 * S + 1 ≤ (2 * k + 1) * d := by
        have : 2 * d * (k + 1) = (2 * k + 1) * d + d := by ring
        omega
      have : S * U * U * 2 < (2 * k + 1) * 2 ^ e * g * (d * U) * 2 := by
        rw [this]
        calc S * U * U * 2 = 2 * S * (U * U) := by ring
          _ < (2 * S + 1) * (U * U) :=
            Nat.mul_lt_mul_of_pos_right (by omega) (Nat.mul_pos hUpos hUpos)
          _ ≤ (2 * k + 1) * d * (U * U) := Nat.mul_le_mul_right _ h2S
          _ = (2 * k + 1) * d * U * U := by ring
      omega
    · rw [hgdef]
      have hprod : (2 * k + 1) * 2 ^ e * g * (d * U) * 2 = (2 * k + 1) * d * U * U := by
        rw [hH]; ring
      have h2S : 2 * S + 1 ≤ (2 * k + 1) * d := by
        have : 2 * d * (k + 1) = (2 * k + 1) * d + d := by ring
        omega
      have hgap : S * U * U * 2 + U * U ≤ (2 * k + 1) * 2 ^ e * g * (d * U) * 2 := by
        rw [hprod]
        calc S * U * U * 2 + U * U = (2 * S + 1) * (U * U) := by ring
          _ ≤ (2 * k + 1) * d * (U * U) := Nat.mul_le_mul_right _ h2S
          _ = (2 * k + 1) * d * U * U := by ring
      have hsmall : d * U * g < U * U := by
        calc d * U * g = d * g * U := by ring
          _ < U * U := Nat.mul_lt_mul_of_pos_right hstep hUpos
      omega
  -- lower bound
  have hlower : 1 ≤ k → (2 * k - 1) * 2 ^ e * g ≤ round53 (S * U * U) (d * U) := by
    intro hk
    rw [← hgdef]
    apply round53_ge _ _ _ hden
    rw [hgdef]
    have hprod : (2 * k - 1) * 2 ^ e * g * (d * U) * 2 = (2 * k - 1) * d * U * U := by
      rw [hH]; ring
    have h2S : (2 * k - 1) * d ≤ 2 * S := by
      have : 2 * d * k = (2 * k - 1) * d + d := by
        have : 2 * k = (2 * k - 1) + 1 := by omega
        calc 2 * d * k = (2 * k) * d := by ring
          _ = ((2 * k - 1) + 1) * d := by rw [← this]
          _ = (2 * k - 1) * d + d := by ring
      omega
    have : (2 * k - 1) * 2 ^ e * g * (d * U) * 2 ≤ S * U * U * 2 := by
      rw [hprod]
      calc (2 * k - 1) * d * U * U = (2 * k - 1) * d * (U * U) := by ring
        _ ≤ 2 * S * (U * U) := Nat.mul_le_mul_right _ h2S
        _ = S * U * U * 2 := by ring
    omega
  -- conclusion
  generalize round53 (S * U * U) (d * U) = R at *
  rw [Nat.mul_assoc] at hupper
  have hlower2 : 1 ≤ k → (2 * k - 1) * (2 ^ e * g) ≤ R := by
    intro hk
    rw [← Nat.mul_assoc]
    exact hlower hk
  have hhalf : U / 2 = 2 ^ e * g := by
    rw [hH]; omega
  rw [hhalf]
  have hUeq : U = 2 * (2 ^ e * g) := hH
  generalize 2 ^ e * g = H at *
  have hHpos : 0 < H := by omega
  apply Nat.div_eq_of_lt_le
  · rcases Nat.eq_zero_or_pos k with hk | hk
    · subst hk; simp
    · have := hlower2 hk
      have h2 : (2 * k - 1) * H + H = k * U := by
        rw [hUeq]
        have : 2 * k = (2 * k - 1) + 1 := by omega
        calc (2 * k - 1) * H + H = ((2 * k - 1) + 1) * H := by ring
          _ = 2 * k * H := by rw [← this]
          _ = k * (2 * H) := by ring
      omega
  · have h2 : (2 * k + 1) * H + H = (k + 1) * U := by
      rw [hUeq]; ring
    omega

/-- A sample whose size is more than one byte away from the reference size
fails the test of the sample loop, whatever the `uint32_t` values. -/
theorem far_sample_fails_test (sizes : List Nat) (count ref j size : Nat)
    (htyped : ∀ x ∈ sizes, x < 2 ^ 32) (href : sizes[10]? = some ref)
    (hj : j < count) (hsize : sizes[j]? = some size)
    (hfar : ref + 1 < size ∨ size + 1 < ref) :
    (sizes.take count).all
      (fun size => !decide ((ref + 1) % 2 ^ 32 < size ∨ size < (ref + 2 ^ 32 - 1) % 2 ^ 32))
      = false := by
  have hsz : size < 2 ^ 32 := htyped size (List.getElem?_mem hsize)
  have hrf : ref < 2 ^ 32 := htyped ref (List.getElem?_mem href)
  have hmem : size ∈ sizes.take count := by
    apply List.getElem?_mem (n := j)
    rw [List.getElem?_take_of_lt hj, hsize]
  rw [Bool.eq_false_iff]
  intro hall
  rw [List.all_eq_true] at hall
  have := hall size hmem
  simp only [Bool.not_eq_true', decide_eq_false_iff_not] at this
  apply this
  omega

/-- The value `round` gives to the `double` quotient of a size below `2^52` by
a positive duration below `2^53`, converted to `unsigned int`, is the exact
quotient rounded to the nearest integer (a half rounded up) when that fits
32 bits. -/
theorem bitrate_quotient_exact (invalid S d : Nat) (hS : S < 2 ^ 52) (hd0 : 0 < d)
    (hd : d < 2 ^ 53) (hk : round_div S d < 2 ^ 32) :
    dbl_to_uint32 invalid
        (dbl_round_half_away (dbl_div (dbl_of_int (S : Int)) (dbl_of_int (d : Int))))
      = round_div S d := by
  have hhalf := round53_half S d hS hd0 hd
  have hUpos := dbl_unit_pos
  have hR : round53 (S * dbl_unit * dbl_unit) (d * dbl_unit) < (2 ^ 128) ^ 8 * dbl_unit := by
    have h1 : round53 (S * dbl_unit * dbl_unit) (d * dbl_unit) + dbl_unit / 2
        < (round_div S d + 1) * dbl_unit := by
      rw [← hhalf, Nat.mul_comm ((_ : Nat) / dbl_unit + 1) dbl_unit]
      exact Nat.lt_mul_div_succ _ hUpos
    have h2 : (round_div S d + 1) * dbl_unit ≤ (2 ^ 128) ^ 8 * dbl_unit :=
      Nat.mul_le_mul_right _ (le_trans (by omega) (by norm_num : 2 ^ 32 ≤ (2 ^ 128) ^ 8))
    omega
  rw [dbl_of_int_natCast S (lt_trans hS (by norm_num)), dbl_of_int_natCast d hd,
    dbl_div_natCast (S * dbl_unit) (d * dbl_unit) (Nat.mul_pos hd0 hUpos) hR]
  generalize round53 (S * dbl_unit * dbl_unit) (d * dbl_unit) = R at *
  have hneg : ¬ ((R : Int) < 0) := by omega
  simp only [dbl_round_half_away, Int.natAbs_ofNat, if_neg hneg, hhalf, dbl_to_uint32]
  have hdiv : Int.tdiv ((round_div S d * dbl_unit : Nat) : Int) (dbl_unit : Int)
      = (round_div S d : Int) := by
    rw [Int.tdiv_eq_ediv (Int.ofNat_nonneg _) (Int.ofNat_nonneg dbl_unit)]
    norm_cast
    exact Nat.mul_div_cancel _ hUpos
  rw [hdiv]
  have hrange : (0 : Int) ≤ (round_div S d : Int) ∧ (round_div S d : Int) < 2 ^ 32 := by
    constructor
    · exact Int.ofNat_nonneg _
    · exact_mod_cast hk
  rw [if_pos hrange]
  exact Int.toNat_natCast _

/-- The rounded quotient `round_div` is the library rounding of the exact
quotient. -/
theorem round_div_eq_round (S d : Nat) (hd : 0 < d) :
    ((round_div S d : Nat) : Int) = round ((S : ℚ) / (d : ℚ)) := by
  rw [round_eq, round_div]
  have hd0 : (d : ℚ) ≠ 0 := by exact_mod_cast hd.ne'
  have : ((S : ℚ) / d + 1 / 2) = ((2 * S + d : ℕ) : ℚ) / ((2 * d : ℕ) : ℚ) := by
    push_cast; field_simp; ring
  rw [this, ← Int.natCast_floor_eq_floor (by positivity), Nat.floor_div_eq_div]

/-! ## `computePCMSettings` and `computeAspectRatios` -/

/-- The store loop of `computePCMSettings` inside the array: the entries it
runs over hold `f`, the others are kept. -/
theorem computePCMSettings_loop_spec (f remaining : Nat) :
    ∀ (i : Nat) (sizes : List Nat), i + remaining ≤ sizes.length →
      ∃ sizes', computePCMSettings_loop f remaining i sizes = some sizes'
        ∧ sizes'.length = sizes.length
        ∧ ∀ k, sizes'[k]? = (if i ≤ k ∧ k < i + remaining then some f else sizes[k]?) := by
  induction remaining with
  | zero =>
    intro i sizes _
    refine ⟨sizes, rfl, rfl, fun k => ?_⟩
    rw [if_neg (by omega)]
  | succ remaining ih =>
    intro i sizes h
    unfold computePCMSettings_loop
    rw [if_pos (by omega)]
    obtain ⟨sizes', hrun, hlen, hk⟩ := ih (i + 1) (sizes.set i f) (by rw [List.length_set]; omega)
    refine ⟨sizes', hrun, by rw [hlen, List.length_set], fun k => ?_⟩
    rw [hk k]
    by_cases hki : k = i
    · subst hki
      rw [if_neg (by omega), if_pos (by omega), List.getElem?_set_self (by omega)]
    · rw [List.getElem?_set_ne (fun h => hki h.symm)]
      by_cases hr : i + 1 ≤ k ∧ k < i + 1 + remaining
      · rw [if_pos hr, if_pos (by omega)]
      · rw [if_neg hr, if_neg (by omega)]

/-- The run of `computePCMSettings` when the hack is needed: every sample gets
the frame size, the bitrate is reset, and the stream size is the product of
the sample count and the frame size in `uint32_t`. -/
theorem computePCMSettings_hack (track : BitstreamMap_t) (size0 : Nat)
    (hpos : 0 < track.sample_count) (hlen : track.sample_count ≤ track.sample_size.length)
    (h0 : track.sample_size[0]? = some size0)
    (hne : size0 ≠ track.channel_count * (track.bit_per_sample / 8) % 2 ^ 32) :
    ∃ sample_size : List Nat,
      computePCMSettings track
        = some (SUCCESS,
            { track with
                sample_per_frames := 1,
                stream_size :=
                  track.sample_count * (track.channel_count * (track.bit_per_sample / 8) % 2 ^ 32)
                    % 2 ^ 32,
                bitrate := 0,
                sample_size := sample_size })
        ∧ sample_size.length = track.sample_size.length
        ∧ ∀ k, sample_size[k]?
            = (if k < track.sample_count then
                some (track.channel_count * (track.bit_per_sample / 8) % 2 ^ 32)
               else track.sample_size[k]?) := by
  obtain ⟨sizes', hrun, hlen', hk⟩ := computePCMSettings_loop_spec
    (track.channel_count * (track.bit_per_sample / 8) % 2 ^ 32) track.sample_count 0
    track.sample_size (by omega)
  refine ⟨sizes', ?_, hlen', fun k => ?_⟩
  · unfold computePCMSettings
    dsimp only
    rw [if_pos hpos, h0]
    dsimp only
    rw [if_pos hne, hrun]
  · rw [hk k]
    by_cases hkc : k < track.sample_count
    · rw [if_pos hkc, if_pos (by omega)]
    · rw [if_neg hkc, if_neg (by omega)]

/-- The run of `computePCMSettings` when the hack is not needed. -/
theorem computePCMSettings_idle (track : BitstreamMap_t)
    (h : track.sample_count = 0
      ∨ track.sample_size[0]? = some (track.channel_count * (track.bit_per_sample / 8) % 2 ^ 32)) :
    computePCMSettings track = some (SUCCESS, track) := by
  unfold computePCMSettings
  dsimp only
  rcases h with h | h
  · rw [if_neg (by omega)]
  · split_ifs
    · rw [h]
      simp
    · rfl

/-- The loop of `computeAspectRatios` inside the array: the tracks it runs over
are replaced by their image under the loop body, the others are kept. -/
theorem computeAspectRatios_loop_spec (remaining : Nat) :
    ∀ (i : Nat) (tracks : List (Option BitstreamMap_t)), i + remaining ≤ tracks.length →
      ∃ tracks', computeAspectRatios_loop remaining i tracks = some tracks'
        ∧ ∀ k, tracks'[k]?
            = (if i ≤ k ∧ k < i + remaining then
                (tracks[k]?).map (Option.map computeAspectRatios_track)
               else tracks[k]?) := by
  induction remaining with
  | zero =>
    intro i tracks _
    refine ⟨tracks, rfl, fun k => ?_⟩
    rw [if_neg (by omega)]
  | succ remaining ih =>
    intro i tracks h
    unfold computeAspectRatios_loop
    have hi : i < tracks.length := by omega
    rw [List.getElem?_eq_getElem hi]
    rcases htr : tracks[i] with _ | t
    · dsimp only
      obtain ⟨tracks', hrun, hk⟩ := ih (i + 1) tracks (by omega)
      refine ⟨tracks', hrun, fun k => ?_⟩
      rw [hk k]
      by_cases hki : k = i
      · subst hki
        rw [if_neg (by omega), if_pos (by omega), List.getElem?_eq_getElem hi, htr]
        rfl
      · by_cases hr : i + 1 ≤ k ∧ k < i + 1 + remaining
        · rw [if_pos hr, if_pos (by omega)]
        · rw [if_neg hr, if_neg (by omega)]
    · dsimp only
      obtain ⟨tracks', hrun, hk⟩ := ih (i + 1) (tracks.set i (some (computeAspectRatios_track t)))
        (by rw [List.length_set]; omega)
      refine ⟨tracks', hrun, fun k => ?_⟩
      rw [hk k]
      by_cases hki : k = i
      · subst hki
        rw [if_neg (by omega), if_pos (by omega), List.getElem?_set_self hi,
          List.getElem?_eq_getElem hi, htr]
        rfl
      · rw [List.getElem?_set_ne (fun h => hki h.symm)]
        by_cases hr : i + 1 ≤ k ∧ k < i + 1 + remaining
        · rw [if_pos hr, if_pos (by omega)]
        · rw [if_neg hr, if_neg (by omega)]

/-- The constant `1.0`. -/
theorem dbl_of_int_one : dbl_of_int 1 = Double.finite (dbl_unit : Int) := by
  have h := dbl_of_int_natCast 1 (by norm_num)
  rw [Nat.one_mul] at h
  exact h

/-- The `double` quotient of two positive `unsigned int` values is finite and
within one part in `2^53` of the exact quotient. -/
theorem dbl_div_uint32_near (h v : Nat) (hh : 0 < h) (hv : 0 < v)
    (h32 : h < 2 ^ 32) (v32 : v < 2 ^ 32) :
    dbl_near (dbl_div (dbl_of_int (h : Int)) (dbl_of_int (v : Int))) h v := by
  have hU : dbl_unit = 2 ^ 1074 := dbl_unit_eq
  have hUpos := dbl_unit_pos
  rw [dbl_of_int_natCast h (lt_trans h32 (by norm_num)),
    dbl_of_int_natCast v (lt_trans v32 (by norm_num))]
  have hden : 0 < v * dbl_unit := Nat.mul_pos hv hUpos
  have hsmall : 2 ^ 53 * v ≤ dbl_unit := by
    rw [hU]
    calc 2 ^ 53 * v ≤ 2 ^ 53 * 2 ^ 32 := Nat.mul_le_mul_left _ (le_of_lt v32)
      _ ≤ 2 ^ 1074 := by norm_num
  have hbig : 2 ^ 53 ≤ h * dbl_unit * dbl_unit / (v * dbl_unit) := by
    rw [Nat.le_div_iff_mul_le hden]
    calc 2 ^ 53 * (v * dbl_unit) = 2 ^ 53 * v * dbl_unit := by ring
      _ ≤ dbl_unit * dbl_unit := Nat.mul_le_mul_right _ hsmall
      _ ≤ h * dbl_unit * dbl_unit :=
        Nat.mul_le_mul_right _ (Nat.le_mul_of_pos_left _ hh)
  obtain ⟨hup, hlow⟩ := round53_close (h * dbl_unit * dbl_unit) (v * dbl_unit) hden hbig
  generalize hs : round53 (h * dbl_unit * dbl_unit) (v * dbl_unit) = s at hup hlow
  have hup' : 2 ^ 53 * (s * v) ≤ 2 ^ 53 * (h * dbl_unit) + h * dbl_unit := by
    apply Nat.le_of_mul_le_mul_right _ hUpos
    calc 2 ^ 53 * (s * v) * dbl_unit = 2 ^ 53 * (s * (v * dbl_unit)) := by ring
      _ ≤ 2 ^ 53 * (h * dbl_unit * dbl_unit) + h * dbl_unit * dbl_unit := hup
      _ = (2 ^ 53 * (h * dbl_unit) + h * dbl_unit) * dbl_unit := by ring
  have hlow' : 2 ^ 53 * (h * dbl_unit) ≤ 2 ^ 53 * (s * v) + h * dbl_unit := by
    apply Nat.le_of_mul_le_mul_right _ hUpos
    calc 2 ^ 53 * (h * dbl_unit) * dbl_unit = 2 ^ 53 * (h * dbl_unit * dbl_unit) := by ring
      _ ≤ 2 ^ 53 * (s * (v * dbl_unit)) + h * dbl_unit * dbl_unit := hlow
      _ = (2 ^ 53 * (s * v) + h * dbl_unit) * dbl_unit := by ring
  have hfin : s < (2 ^ 128) ^ 8 * dbl_unit := by
    have h1 : s ≤ s * v := Nat.le_mul_of_pos_right _ hv
    have h2 : 2 ^ 53 * s ≤ 2 ^ 53 * (2 ^ 33 * dbl_unit) := by
      calc 2 ^ 53 * s ≤ 2 ^ 53 * (s * v) := Nat.mul_le_mul_left _ h1
        _ ≤ 2 ^ 53 * (h * dbl_unit) + h * dbl_unit := hup'
        _ ≤ 2 ^ 53 * (h * dbl_unit) + 2 ^ 53 * (h * dbl_unit) :=
          Nat.add_le_add_left (Nat.le_mul_of_pos_left _ (by norm_num)) _
        _ = 2 ^ 53 * (2 * h * dbl_unit) := by ring
        _ ≤ 2 ^ 53 * (2 ^ 33 * dbl_unit) :=
          Nat.mul_le_mul_left _ (Nat.mul_le_mul_right _ (by omega))
    have h3 : s ≤ 2 ^ 33 * dbl_unit := Nat.le_of_mul_le_mul_left h2 (by norm_num)
    exact lt_of_le_of_lt h3 (Nat.mul_lt_mul_of_pos_right (by norm_num) hUpos)
  rw [dbl_div_natCast (h * dbl_unit) (v * dbl_unit) hden (by rw [hs]; exact hfin), hs]
  exact ⟨Int.ofNat_nonneg s, hup', hlow'⟩

/-- What the body of the loop of `computeAspectRatios` leaves in one track. -/
theorem computeAspectRatios_track_spec (t : BitstreamMap_t) :
    (t.pixel_aspect_ratio_h ≠ 0 ∧ t.pixel_aspect_ratio_v ≠ 0 →
        (computeAspectRatios_track t).pixel_aspect_ratio
            = dbl_div (dbl_of_int t.pixel_aspect_ratio_h) (dbl_of_int t.pixel_aspect_ratio_v)
          ∧ (computeAspectRatios_track t).pixel_aspect_ratio_h = t.pixel_aspect_ratio_h
          ∧ (computeAspectRatios_track t).pixel_aspect_ratio_v = t.pixel_aspect_ratio_v)
      ∧ (¬ (t.pixel_aspect_ratio_h ≠ 0 ∧ t.pixel_aspect_ratio_v ≠ 0) →
        (computeAspectRatios_track t).pixel_aspect_ratio = dbl_of_int 1
          ∧ (computeAspectRatios_track t).pixel_aspect_ratio_h = 1
          ∧ (computeAspectRatios_track t).pixel_aspect_ratio_v = 1)
      ∧ (t.video_aspect_ratio_h ≠ 0 ∧ t.video_aspect_ratio_v ≠ 0 →
        (computeAspectRatios_track t).video_aspect_ratio
          = dbl_div (dbl_of_int t.video_aspect_ratio_h) (dbl_of_int t.video_aspect_ratio_v))
      ∧ (¬ (t.video_aspect_ratio_h ≠ 0 ∧ t.video_aspect_ratio_v ≠ 0) →
          t.width ≠ 0 ∧ t.height ≠ 0 →
        (computeAspectRatios_track t).video_aspect_ratio
          = dbl_div (dbl_of_int t.width) (dbl_of_int t.height))
      ∧ (t.display_aspect_ratio_h ≠ 0 ∧ t.display_aspect_ratio_v ≠ 0 →
        (computeAspectRatios_track t).display_aspect_ratio
          = dbl_div (dbl_of_int t.display_aspect_ratio_h) (dbl_of_int t.display_aspect_ratio_v))
      ∧ (¬ (t.display_aspect_ratio_h ≠ 0 ∧ t.display_aspect_ratio_v ≠ 0) →
        (computeAspectRatios_track t).display_aspect_ratio
          = (if (computeAspectRatios_track t).pixel_aspect_ratio ≠ dbl_of_int 1 then
              dbl_mul (computeAspectRatios_track t).video_aspect_ratio
                (computeAspectRatios_track t).pixel_aspect_ratio
             else (computeAspectRatios_track t).video_aspect_ratio)) := by
  unfold computeAspectRatios_track
  lift_lets
  extract_lets t1 t2
  have h1 : (t.pixel_aspect_ratio_h ≠ 0 ∧ t.pixel_aspect_ratio_v ≠ 0 →
        t1.pixel_aspect_ratio
            = dbl_div (dbl_of_int t.pixel_aspect_ratio_h) (dbl_of_int t.pixel_aspect_ratio_v)
          ∧ t1.pixel_aspect_ratio_h = t.pixel_aspect_ratio_h
          ∧ t1.pixel_aspect_ratio_v = t.pixel_aspect_ratio_v)
      ∧ (¬ (t.pixel_aspect_ratio_h ≠ 0 ∧ t.pixel_aspect_ratio_v ≠ 0) →
        t1.pixel_aspect_ratio = dbl_of_int 1 ∧ t1.pixel_aspect_ratio_h = 1
          ∧ t1.pixel_aspect_ratio_v = 1)
      ∧ t1.video_aspect_ratio_h = t.video_aspect_ratio_h
      ∧ t1.video_aspect_ratio_v = t.video_aspect_ratio_v
      ∧ t1.width = t.width ∧ t1.height = t.height
      ∧ t1.display_aspect_ratio_h = t.display_aspect_ratio_h
      ∧ t1.display_aspect_ratio_v = t.display_aspect_ratio_v := by
    simp only [t1]
    split_ifs with h
    · refine ⟨fun _ => ⟨?_, ?_, ?_⟩, fun hn => absurd h hn, ?_, ?_, ?_, ?_, ?_, ?_⟩ <;>
        with_reducible rfl
    · refine ⟨fun hp => absurd hp h, fun _ => ⟨?_, ?_, ?_⟩, ?_, ?_, ?_, ?_, ?_, ?_⟩ <;>
        with_reducible rfl
  clear_value t1
  obtain ⟨hp1, hp2, hvh, hvv, hw, hh, hdh, hdv⟩ := h1
  have h2 : t2.pixel_aspect_ratio = t1.pixel_aspect_ratio
      ∧ t2.pixel_aspect_ratio_h = t1.pixel_aspect_ratio_h
      ∧ t2.pixel_aspect_ratio_v = t1.pixel_aspect_ratio_v
      ∧ (t.video_aspect_ratio_h ≠ 0 ∧ t.video_aspect_ratio_v ≠ 0 →
        t2.video_aspect_ratio
          = dbl_div (dbl_of_int t.video_aspect_ratio_h) (dbl_of_int t.video_aspect_ratio_v))
      ∧ (¬ (t.video_aspect_ratio_h ≠ 0 ∧ t.video_aspect_ratio_v ≠ 0) →
          t.width ≠ 0 ∧ t.height ≠ 0 →
        t2.video_aspect_ratio = dbl_div (dbl_of_int t.width) (dbl_of_int t.height))
      ∧ t2.display_aspect_ratio_h = t.display_aspect_ratio_h
      ∧ t2.display_aspect_ratio_v = t.display_aspect_ratio_v := by
    simp only [t2, hvh, hvv, hw, hh]
    split_ifs with ha hb
    · refine ⟨?_, ?_, ?_, fun _ => ?_, fun hn => absurd ha hn, hdh, hdv⟩ <;>
        with_reducible rfl
    · refine ⟨?_, ?_, ?_, fun hp => absurd hp ha, fun _ _ => ?_, hdh, hdv⟩ <;>
        with_reducible rfl
    · exact ⟨rfl, rfl, rfl, fun hp => absurd hp ha, fun _ hp => absurd hp hb, hdh, hdv⟩
  clear_value t2
  obtain ⟨hq, hqh, hqv, hv1, hv2, hdh2, hdv2⟩ := h2
  obtain ⟨r, hr⟩ : ∃ r : BitstreamMap_t, r =
      (if t2.display_aspect_ratio_h ≠ 0 ∧ t2.display_aspect_ratio_v ≠ 0 then
        { t2 with
            display_aspect_ratio :=
              dbl_div (dbl_of_int t2.display_aspect_ratio_h)
                (dbl_of_int t2.display_aspect_ratio_v) }
      else if t2.pixel_aspect_ratio ≠ dbl_of_int 1 then
        { t2 with display_aspect_ratio := dbl_mul t2.video_aspect_ratio t2.pixel_aspect_ratio }
      else
        { t2 with display_aspect_ratio := t2.video_aspect_ratio }) := ⟨_, rfl⟩
  rw [← hr]
  have h3 : r.pixel_aspect_ratio = t2.pixel_aspect_ratio
      ∧ r.pixel_aspect_ratio_h = t2.pixel_aspect_ratio_h
      ∧ r.pixel_aspect_ratio_v = t2.pixel_aspect_ratio_v
      ∧ r.video_aspect_ratio = t2.video_aspect_ratio
      ∧ (t.display_aspect_ratio_h ≠ 0 ∧ t.display_aspect_ratio_v ≠ 0 →
        r.display_aspect_ratio
          = dbl_div (dbl_of_int t.display_aspect_ratio_h) (dbl_of_int t.display_aspect_ratio_v))
      ∧ (¬ (t.display_aspect_ratio_h ≠ 0 ∧ t.display_aspect_ratio_v ≠ 0) →
          t2.pixel_aspect_ratio ≠ dbl_of_int 1 →
        r.display_aspect_ratio = dbl_mul t2.video_aspect_ratio t2.pixel_aspect_ratio)
      ∧ (¬ (t.display_aspect_ratio_h ≠ 0 ∧ t.display_aspect_ratio_v ≠ 0) →
          ¬ (t2.pixel_aspect_ratio ≠ dbl_of_int 1) →
        r.display_aspect_ratio = t2.video_aspect_ratio) := by
    rw [hr, hdh2, hdv2]
    split_ifs with ha hb
    · refine ⟨?_, ?_, ?_, ?_, fun _ => ?_, fun hn => absurd ha hn, fun hn => absurd ha hn⟩ <;>
        with_reducible rfl
    · refine ⟨?_, ?_, ?_, ?_, fun hp => absurd hp ha, fun _ _ => ?_,
        fun _ hn => absurd hb hn⟩ <;> with_reducible rfl
    · refine ⟨?_, ?_, ?_, ?_, fun hp => absurd hp ha, fun _ hp => absurd hp hb,
        fun _ _ => ?_⟩ <;> with_reducible rfl
  clear hr
  obtain ⟨hr1, hr2, hr3, hr4, hr5, hr6, hr7⟩ := h3
  rw [hr1, hr2, hr3, hr4]
  refine ⟨fun hp => ?_, fun hn => ?_, hv1, hv2, hr5, fun hn => ?_⟩
  · exact ⟨hq.trans (hp1 hp).1, hqh.trans (hp1 hp).2.1, hqv.trans (hp1 hp).2.2⟩
  · exact ⟨hq.trans (hp2 hn).1, hqh.trans (hp2 hn).2.1, hqv.trans (hp2 hn).2.2⟩
  · by_cases hb : t2.pixel_aspect_ratio ≠ dbl_of_int 1
    · rw [if_pos hb]
      exact hr6 hn hb
    · rw [if_neg hb]
      exact hr7 hn hb

/-- Sizes within one byte of a reference size that is neither 0 nor
`2^32 - 1` pass the test of the sample loop. -/
theorem near_samples_pass_test (sizes : List Nat) (count ref : Nat)
    (hlow : 1 ≤ ref) (hhigh : ref + 1 < 2 ^ 32)
    (hnear : ∀ x ∈ sizes.take count, x ≤ ref + 1 ∧ ref ≤ x + 1) :
    (sizes.take count).all
      (fun size => !decide ((ref + 1) % 2 ^ 32 < size ∨ size < (ref + 2 ^ 32 - 1) % 2 ^ 32))
      = true := by
  rw [List.all_eq_true]
  intro x hx
  have := hnear x hx
  simp only [Bool.not_eq_true', decide_eq_false_iff_not]
  omega

/-- The classification the claim C11 states, for a reference size that is
neither 0 nor `2^32 - 1`: a track of unknown bitrate mode with at least 11
samples, all within one byte of `sample_size[10]`, becomes `BITRATE_CBR`. -/
theorem computeSamplesDatasTrack_cbr (p : Platform) (track : BitstreamMap_t)
    (hmode : track.bitrate_mode = BitrateMode_e.BITRATE_UNKNOWN)
    (hcount : 11 ≤ track.sample_count) (hcount32 : track.sample_count < 2 ^ 32)
    (htyped : ∀ x ∈ track.sample_size, x < 2 ^ 32)
    (hsizes : track.sample_count ≤ track.sample_size.length)
    (hpts : track.sample_count ≤ track.sample_pts.length)
    (hdts : track.sample_count ≤ track.sample_dts.length)
    (hlow : 1 ≤ track.sample_size.getD 10 0) (hhigh : track.sample_size.getD 10 0 + 1 < 2 ^ 32)
    (hnear : ∀ j, j < track.sample_count →
      track.sample_size.getD j 0 ≤ track.sample_size.getD 10 0 + 1
        ∧ track.sample_size.getD 10 0 ≤ track.sample_size.getD j 0 + 1) :
    ∃ t, computeSamplesDatasTrack p track = some t
      ∧ t.bitrate_mode = BitrateMode_e.BITRATE_CBR := by
  have href : track.sample_size[10]? = some (track.sample_size.getD 10 0) := by
    rw [List.getD_eq_getElem?_getD, List.getElem?_eq_getElem (by omega)]; rfl
  obtain ⟨t, h, hm, -, -⟩ := computeSamplesDatasTrack_run p track _ (fun _ => href)
    hcount32 htyped hsizes hpts hdts
  refine ⟨t, h, ?_⟩
  have hall := near_samples_pass_test track.sample_size track.sample_count _ hlow hhigh
    (by
      intro x hx
      obtain ⟨j, hj⟩ := List.mem_iff_getElem?.1 hx
      rw [List.getElem?_take] at hj
      split_ifs at hj with hjc
      have := hnear j hjc
      rw [List.getD_eq_getElem?_getD track.sample_size j, hj] at this
      exact this)
  rw [hm, if_pos hmode, hall]
  rfl

/-- The example of the claim C12: 100 samples of size 64 with any single one
changed to 512 are classified `BITRATE_VBR`, whichever index is changed. -/
theorem computeSamplesDatasTrack_one_of_100_changed (p : Platform) (i : Nat) (hi : i < 100) :
    ∃ t, computeSamplesDatasTrack p (sampleTrack ((List.replicate 100 64).set i 512)) = some t
      ∧ t.bitrate_mode = BitrateMode_e.BITRATE_VBR := by
  have hlen : ((List.replicate 100 64).set i 512).length = 100 := by
    rw [List.length_set, List.length_replicate]
  have htyped : ∀ x ∈ (List.replicate 100 64).set i 512, x < 2 ^ 32 := by
    intro x hx
    rcases List.mem_or_eq_of_mem_set hx with h | h
    · rw [List.eq_of_mem_replicate h]; decide
    · rw [h]; decide
  have hat : ∀ k, k < 100 →
      ((List.replicate 100 64).set i 512)[k]? = some (if i = k then 512 else 64) := by
    intro k hk
    rw [List.getElem?_set, List.length_replicate, List.getElem?_replicate]
    split_ifs <;> rfl
  obtain ⟨t, h, hm, -, -⟩ := computeSamplesDatasTrack_run p
    (sampleTrack ((List.replicate 100 64).set i 512)) (if i = 10 then 512 else 64)
    (fun _ => hat 10 (by decide))
    (by show ((List.replicate 100 64).set i 512).length < 2 ^ 32; rw [hlen]; decide)
    htyped (le_refl _)
    (by simp [sampleTrack]) (by simp [sampleTrack])
  refine ⟨t, h, ?_⟩
  rw [hm, if_pos (show (sampleTrack ((List.replicate 100 64).set i 512)).bitrate_mode
    = BitrateMode_e.BITRATE_UNKNOWN from rfl)]
  by_cases h10 : i = 10
  · have hfail := far_sample_fails_test
      (sampleTrack ((List.replicate 100 64).set i 512)).sample_size
      (sampleTrack ((List.replicate 100 64).set i 512)).sample_count
      (if i = 10 then 512 else 64) 0 64 htyped (hat 10 (by decide))
      (by show 0 < ((List.replicate 100 64).set i 512).length; rw [hlen]; decide)
      (by show ((List.replicate 100 64).set i 512)[0]? = some 64
          rw [hat 0 (by decide), if_neg (by omega)])
      (by rw [if_pos h10]; decide)
    rw [hfail]
    rfl
  · have hfail := far_sample_fails_test
      (sampleTrack ((List.replicate 100 64).set i 512)).sample_size
      (sampleTrack ((List.replicate 100 64).set i 512)).sample_count
      (if i = 10 then 512 else 64) i 512 htyped (hat 10 (by decide))
      (by show i < ((List.replicate 100 64).set i 512).length; rw [hlen]; exact hi)
      (by show ((List.replicate 100 64).set i 512)[i]? = some 512
          rw [hat i hi, if_pos rfl])
      (by rw [if_neg h10]; decide)
    rw [hfail]
    rfl

/-! ## Jumps of the reader -/

/-- A jump outside `0 < n < bitstream_size` fails and leaves the reader as it was. -/
theorem bitstream_goto_offset_out_of_range (cfg : Build) (bs : Bitstream_t) (n : Int)
    (h : n ≤ 0 ∨ bs.bitstream_size ≤ n) :
    bitstream_goto_offset cfg bs n = Outcome.ret FAILURE bs := by
  unfold bitstream_goto_offset
  rw [if_neg (by omega)]

/-- A jump to byte `n` with `0 < n < bitstream_size`, on a source that holds
`bitstream_size` bytes and a buffer whose allocation holds
`BITSTREAM_BUFFER_SIZE` bytes: the window is reloaded at byte `n` with the
cursor at bit 0. -/
theorem bitstream_goto_offset_in_range (cfg : Build) (bs : Bitstream_t) (n : Nat)
    (hn0 : 0 < n) (hn : (n : Int) < bs.bitstream_size)
    (hfile : bs.bitstream_size = (bs.bitstream_file.length : Int))
    (halloc : cfg.BITSTREAM_BUFFER_SIZE ≤ bs.buffer.length)
    (hcap : cfg.BITSTREAM_BUFFER_SIZE < 2 ^ 32) :
    ∃ bs', bitstream_goto_offset cfg bs (n : Int) = Outcome.ret SUCCESS bs'
      ∧ bs'.bitstream_offset = (n : Int) ∧ bs'.buffer_offset = 0
      ∧ bs'.buffer_discarded_bytes = 0
      ∧ bs'.buffer_size = min cfg.BITSTREAM_BUFFER_SIZE (bs.bitstream_file.length - n)
      ∧ bs'.bitstream_size = bs.bitstream_size ∧ bs'.bitstream_file = bs.bitstream_file
      ∧ bs'.buffer.take bs'.buffer_size = (bs.bitstream_file.drop n).take bs'.buffer_size := by
  have hnlen : n < bs.bitstream_file.length := by omega
  have htn : ((n : Int)).toNat = n := Int.toNat_natCast n
  unfold bitstream_goto_offset
  rw [if_pos ⟨by omega, hn⟩]
  unfold buffer_feed_dynamic
  simp only [if_pos (Int.ofNat_nonneg n), fread]
  rw [if_neg (by omega)]
  by_cases hnear : bs.bitstream_size < (n : Int) + (cfg.BITSTREAM_BUFFER_SIZE : Int)
  · have hsz : ((bs.bitstream_size - (n : Int)) % 2 ^ 32).toNat = bs.bitstream_file.length - n := by
      rw [hfile]
      have h1 : ((bs.bitstream_file.length : Int) - (n : Int))
          = ((bs.bitstream_file.length - n : Nat) : Int) := by omega
      rw [h1]
      have h2 : (((bs.bitstream_file.length - n : Nat) : Int) % 2 ^ 32)
          = ((bs.bitstream_file.length - n : Nat) : Int) := by
        apply Int.emod_eq_of_lt (Int.ofNat_nonneg _)
        omega
      rw [h2, Int.toNat_ofNat]
    simp only [if_pos hnear, hsz]
    have hlen1 : (realloc bs.buffer (bs.bitstream_file.length - n)).length
        = bs.bitstream_file.length - n := by
      simp only [realloc, List.length_append, List.length_take, List.length_replicate]
      omega
    have hlen2 : ((bs.bitstream_file.drop n).take (bs.bitstream_file.length - n)).length
        = bs.bitstream_file.length - n := by
      rw [List.length_take, List.length_drop]; omega
    rw [if_neg (by omega), if_neg (by omega), htn, if_neg (by rw [hlen2]; simp)]
    refine ⟨_, rfl, rfl, rfl, rfl, ?_, rfl, rfl, ?_⟩
    · show bs.bitstream_file.length - n = _
      omega
    · show List.take (bs.bitstream_file.length - n) _ = List.take (bs.bitstream_file.length - n) _
      rw [List.take_append_of_le_length (by rw [hlen2]), List.take_take, Nat.min_self]
  · have hlen2 : ((bs.bitstream_file.drop n).take cfg.BITSTREAM_BUFFER_SIZE).length
        = cfg.BITSTREAM_BUFFER_SIZE := by
      rw [List.length_take, List.length_drop]; omega
    simp only [if_neg hnear]
    rw [if_neg (by omega), if_neg (by omega), htn, if_neg (by rw [hlen2]; simp)]
    refine ⟨_, rfl, rfl, rfl, rfl, ?_, rfl, rfl, ?_⟩
    · show cfg.BITSTREAM_BUFFER_SIZE = _
      omega
    · show List.take cfg.BITSTREAM_BUFFER_SIZE _ = List.take cfg.BITSTREAM_BUFFER_SIZE _
      rw [List.take_append_of_le_length (by rw [hlen2]), List.take_take, Nat.min_self]

/-! ## Sample loading, window slides and peeks -/

/-- The block `realloc` hands back has the requested size. -/
theorem realloc_length (buffer : List Byte) (size : Nat) :
    (realloc buffer size).length = size := by
  unfold realloc
  simp only [List.length_append, List.length_take, List.length_replicate]
  omega

/-- The fields `buffer_feed_dynamic` leaves alone, and the ones it sets
whatever it returns: the file, the sample table, the source size and the
sample index are kept, `buffer_discarded_bytes` is 0, and after a call with
a negative offset the window starts at the byte of the cursor, with the bits
consumed of that byte as new bit offset. -/
theorem buffer_feed_dynamic_frame (cfg : Build) (bs : Bitstream_t) (k : Int) (r : Nat)
    (bs1 : Bitstream_t) (h : buffer_feed_dynamic cfg bs k = Outcome.ret r bs1) :
    bs1.bitstream_file = bs.bitstream_file ∧ bs1.bitstream_map = bs.bitstream_map
      ∧ bs1.bitstream_size = bs.bitstream_size
      ∧ bs1.bitstream_sample_index = bs.bitstream_sample_index
      ∧ bs1.buffer_discarded_bytes = 0
      ∧ bs1.bitstream_offset
          = (if 0 ≤ k then k else bitstream_get_absolute_byte_offset bs)
      ∧ bs1.buffer_offset = (if 0 ≤ k then 0 else bs.buffer_offset % 8)
      ∧ bs1.bitstream_offset < bs1.bitstream_size
      ∧ bs1.buffer_size
          = (if bs1.bitstream_size < bs1.bitstream_offset + (cfg.BITSTREAM_BUFFER_SIZE : Int)
              then ((bs1.bitstream_size - bs1.bitstream_offset) % 2 ^ 32).toNat
              else cfg.BITSTREAM_BUFFER_SIZE)
      ∧ bs1.buffer.length
          = (if bs1.bitstream_size < bs1.bitstream_offset + (cfg.BITSTREAM_BUFFER_SIZE : Int)
              then bs1.buffer_size else bs.buffer.length)
      ∧ (r = FAILURE ∨ r = SUCCESS)
      ∧ (r = SUCCESS → 0 ≤ bs1.bitstream_offset ∧ bs1.buffer_size ≤ bs1.buffer.length
          ∧ bs1.buffer.take bs1.buffer_size
            = (bs.bitstream_file.drop bs1.bitstream_offset.toNat).take bs1.buffer_size
          ∧ bs1.buffer_size ≤ bs.bitstream_file.length - bs1.bitstream_offset.toNat) := by
  unfold buffer_feed_dynamic at h
  lift_lets at h
  extract_lets s1 s2 sz s3 data s4 at h
  have e1 : s1.bitstream_file = bs.bitstream_file ∧ s1.bitstream_map = bs.bitstream_map
      ∧ s1.bitstream_size = bs.bitstream_size
      ∧ s1.bitstream_sample_index = bs.bitstream_sample_index
      ∧ s1.bitstream_offset = (if 0 ≤ k then k else bitstream_get_absolute_byte_offset bs)
      ∧ s1.buffer_offset = (if 0 ≤ k then 0 else bs.buffer_offset % 8)
      ∧ s1.buffer = bs.buffer := by
    simp only [s1, bitstream_get_absolute_byte_offset]
    split_ifs <;> simp
  obtain ⟨e1a, e1b, e1c, e1d, e1e, e1f, e1g⟩ := e1
  have e3 : s3.bitstream_file = s1.bitstream_file ∧ s3.bitstream_map = s1.bitstream_map
      ∧ s3.bitstream_size = s1.bitstream_size
      ∧ s3.bitstream_sample_index = s1.bitstream_sample_index
      ∧ s3.bitstream_offset = s1.bitstream_offset
      ∧ s3.buffer_offset = s1.buffer_offset
      ∧ s3.buffer_discarded_bytes = 0
      ∧ s3.buffer_size
          = (if s1.bitstream_size < s1.bitstream_offset + (cfg.BITSTREAM_BUFFER_SIZE : Int)
              then ((s1.bitstream_size - s1.bitstream_offset) % 2 ^ 32).toNat
              else cfg.BITSTREAM_BUFFER_SIZE)
      ∧ s3.buffer.length
          = (if s1.bitstream_size < s1.bitstream_offset + (cfg.BITSTREAM_BUFFER_SIZE : Int)
              then s3.buffer_size else s1.buffer.length) := by
    simp only [s3, sz, s2]
    split_ifs <;> simp [realloc_length]
  obtain ⟨e3a, e3b, e3c, e3d, e3e, e3f, e3g, e3h, e3i⟩ := e3
  have e4 : data = fread s3.bitstream_file s3.bitstream_offset s3.buffer_size := rfl
  simp only [s4] at h
  clear_value s1 s3 data
  clear s4 s2 sz
  rw [e1a] at e3a
  rw [e1b] at e3b
  rw [e1c] at e3c
  rw [e1d] at e3d
  rw [e1e] at e3e
  rw [e1f] at e3f
  rw [e1c, e1e, ← e3e, ← e3c] at e3h
  rw [e1c, e1e, e1g, ← e3e, ← e3c] at e3i
  rw [e1c, e1e, ← e3e, ← e3c] at h
  by_cases hend : s3.bitstream_size ≤ s3.bitstream_offset
  · rw [if_pos hend] at h
    cases h
  rw [if_neg hend] at h
  by_cases hneg : s3.bitstream_offset < 0
  · rw [if_pos hneg] at h
    cases h
    exact ⟨e3a, e3b, e3c, e3d, e3g, e3e, e3f, lt_of_not_le hend, e3h, e3i, Or.inl rfl,
      fun h => absurd h (by decide)⟩
  rw [if_neg hneg] at h
  by_cases hal : s3.buffer.length < s3.buffer_size
  · rw [if_pos hal] at h
    cases h
  rw [if_neg hal] at h
  have hdl : data.length ≤ s3.buffer_size := by
    rw [e4, fread, List.length_take]
    exact Nat.min_le_left _ _
  have hlen : (data ++ List.drop data.length s3.buffer).length = s3.buffer.length := by
    rw [List.length_append, List.length_drop]
    omega
  by_cases hshort : data.length ≠ s3.buffer_size
  · rw [if_pos hshort] at h
    cases h
    exact ⟨e3a, e3b, e3c, e3d, e3g, e3e, e3f, lt_of_not_le hend, e3h, by rw [hlen]; exact e3i,
      Or.inl rfl, fun h => absurd h (by decide)⟩
  · rw [if_neg hshort] at h
    cases h
    have hfull : data.length = s3.buffer_size := not_not.mp hshort
    refine ⟨e3a, e3b, e3c, e3d, e3g, e3e, e3f, lt_of_not_le hend, e3h, by rw [hlen]; exact e3i,
      Or.inr rfl, fun _ => ⟨not_lt.mp hneg, ?_, ?_, ?_⟩⟩
    · show s3.buffer_size ≤ (data ++ List.drop data.length s3.buffer).length
      rw [hlen]
      omega
    · show List.take s3.buffer_size (data ++ List.drop data.length s3.buffer)
        = List.take s3.buffer_size (List.drop s3.bitstream_offset.toNat bs.bitstream_file)
      rw [List.take_append_of_le_length (le_of_eq hfull.symm),
        List.take_of_length_le (le_of_eq hfull), e4, fread, e3a]
    · show s3.buffer_size ≤ bs.bitstream_file.length - s3.bitstream_offset.toNat
      have hfull2 := hfull
      rw [e4, fread, List.length_take, List.length_drop, e3a] at hfull2
      omega

/-- The window after a successful `buffer_feed_dynamic`, for a window size
`BITSTREAM_BUFFER_SIZE` between 1 and `2^32 - 1`: its size is the smaller of
`BITSTREAM_BUFFER_SIZE` and the count of source bytes from `bitstream_offset`
on, it is not empty, it ends inside the source, and the buffer holds the source
bytes of the window. -/
theorem buffer_feed_dynamic_success (cfg : Build) (bs : Bitstream_t) (k : Int)
    (bs1 : Bitstream_t)
    (hcap1 : 1 ≤ cfg.BITSTREAM_BUFFER_SIZE) (hcap : cfg.BITSTREAM_BUFFER_SIZE < 2 ^ 32)
    (h : buffer_feed_dynamic cfg bs k = Outcome.ret SUCCESS bs1) :
    0 ≤ bs1.bitstream_offset
      ∧ (bs1.buffer_size : Int)
          = min (cfg.BITSTREAM_BUFFER_SIZE : Int) (bs1.bitstream_size - bs1.bitstream_offset)
      ∧ 1 ≤ bs1.buffer_size
      ∧ bs1.bitstream_offset + (bs1.buffer_size : Int) ≤ bs1.bitstream_size
      ∧ bs1.bitstream_offset.toNat + bs1.buffer_size ≤ bs1.bitstream_file.length
      ∧ bs1.buffer_size ≤ bs1.buffer.length
      ∧ bs1.buffer.take bs1.buffer_size
          = (bs1.bitstream_file.drop bs1.bitstream_offset.toNat).take bs1.buffer_size := by
  obtain ⟨hfile, -, -, -, -, -, -, hlt, hsize, -, -, hs⟩ :=
    buffer_feed_dynamic_frame cfg bs k SUCCESS bs1 h
  obtain ⟨h0, hal, htake, hin⟩ := hs rfl
  have hsz : (bs1.buffer_size : Int)
      = min (cfg.BITSTREAM_BUFFER_SIZE : Int) (bs1.bitstream_size - bs1.bitstream_offset) := by
    rw [hsize]
    split_ifs with hnear
    · rw [Int.emod_eq_of_lt (by omega) (by omega), Int.toNat_of_nonneg (by omega)]
      omega
    · omega
  rw [hfile]
  refine ⟨h0, hsz, by omega, by omega, by omega, hal, htake⟩

/-- `buffer_feed_dynamic` returns when the byte it reloads the window at lies
before the end of the source and, the window not being shrunk, the allocation
holds `BITSTREAM_BUFFER_SIZE` bytes. -/
theorem buffer_feed_dynamic_returns (cfg : Build) (bs : Bitstream_t) (k : Int)
    (hlt : (if 0 ≤ k then k else bitstream_get_absolute_byte_offset bs) < bs.bitstream_size)
    (hal : bs.bitstream_size
        < (if 0 ≤ k then k else bitstream_get_absolute_byte_offset bs)
          + (cfg.BITSTREAM_BUFFER_SIZE : Int)
      ∨ cfg.BITSTREAM_BUFFER_SIZE ≤ bs.buffer.length) :
    ∃ (r : Nat) (bs1 : Bitstream_t), buffer_feed_dynamic cfg bs k = Outcome.ret r bs1 := by
  unfold buffer_feed_dynamic
  lift_lets
  extract_lets s1 s2 sz s3 data s4
  have e1 : s1.bitstream_size = bs.bitstream_size
      ∧ s1.bitstream_offset = (if 0 ≤ k then k else bitstream_get_absolute_byte_offset bs)
      ∧ s1.buffer = bs.buffer := by
    simp only [s1, bitstream_get_absolute_byte_offset]
    split_ifs <;> simp
  obtain ⟨e1c, e1e, e1g⟩ := e1
  have e3 : s3.buffer_size ≤ s3.buffer.length := by
    simp only [s3, sz, s2]
    split_ifs with hnear
    · simp [realloc_length]
    · rw [e1c, e1e] at hnear
      show cfg.BITSTREAM_BUFFER_SIZE ≤ s1.buffer.length
      rw [e1g]
      exact hal.resolve_left hnear
  clear_value s1 s3 data s4
  rw [← e1e, ← e1c] at hlt
  rw [if_neg (not_le.mpr hlt), if_neg (not_lt.mpr e3)]
  split_ifs
  · exact ⟨_, _, rfl⟩
  · exact ⟨_, _, rfl⟩
  · exact ⟨_, _, rfl⟩

/-- On a source whose recorded size is the size of its content,
`buffer_feed_dynamic` never returns `FAILURE` when the byte it reloads the
window at is not negative: it returns `SUCCESS`, ends the process or overruns
the allocation. -/
theorem buffer_feed_dynamic_no_failure (cfg : Build) (bs : Bitstream_t) (k : Int)
    (hfile : bs.bitstream_size = (bs.bitstream_file.length : Int))
    (hcap : cfg.BITSTREAM_BUFFER_SIZE < 2 ^ 32)
    (h0 : 0 ≤ (if 0 ≤ k then k else bitstream_get_absolute_byte_offset bs))
    (bs1 : Bitstream_t) :
    buffer_feed_dynamic cfg bs k ≠ Outcome.ret FAILURE bs1 := by
  intro h
  unfold buffer_feed_dynamic at h
  lift_lets at h
  extract_lets s1 s2 sz s3 data s4 at h
  have e1 : s1.bitstream_size = bs.bitstream_size
      ∧ s1.bitstream_file = bs.bitstream_file
      ∧ s1.bitstream_offset = (if 0 ≤ k then k else bitstream_get_absolute_byte_offset bs) := by
    simp only [s1, bitstream_get_absolute_byte_offset]
    split_ifs <;> simp
  obtain ⟨e1c, e1a, e1e⟩ := e1
  have e3 : s3.bitstream_offset = s1.bitstream_offset ∧ s3.bitstream_file = s1.bitstream_file
      ∧ s3.buffer_size
          = (if s1.bitstream_size < s1.bitstream_offset + (cfg.BITSTREAM_BUFFER_SIZE : Int)
              then ((s1.bitstream_size - s1.bitstream_offset) % 2 ^ 32).toNat
              else cfg.BITSTREAM_BUFFER_SIZE) := by
    simp only [s3, sz, s2]
    split_ifs <;> simp
  obtain ⟨e3e, e3a, e3h⟩ := e3
  have e4 : data = fread s3.bitstream_file s3.bitstream_offset s3.buffer_size := rfl
  simp only [s4] at h
  clear_value s1 s3 data
  clear s4 s2 sz
  rw [← e1e] at h0
  by_cases hend : s1.bitstream_size ≤ s1.bitstream_offset
  · rw [if_pos hend] at h
    cases h
  rw [if_neg hend, if_neg (by omega)] at h
  have hfull : data.length = s3.buffer_size := by
    rw [e4, fread, List.length_take, List.length_drop, e3a, e1a, e3e, e3h]
    rw [e1c, hfile] at hend ⊢
    split_ifs with hnear
    · rw [Int.emod_eq_of_lt (by omega) (by omega)]
      omega
    · omega
  rw [if_neg (not_not.mpr hfull)] at h
  split_ifs at h
  exact absurd (Outcome.ret.inj h).1 (by decide)
/-- The aligned loop returns only when the `k` bytes it reads are allocated. -/
theorem read_aligned_loop_some (w : Nat) (buffer : List Byte) (k byte_current bits v : Nat)
    (h : read_aligned_loop w buffer k byte_current bits = some v) :
    k = 0 ∨ byte_current + k ≤ buffer.length := by
  induction k generalizing byte_current bits with
  | zero => exact Or.inl rfl
  | succ k ih =>
    right
    simp only [read_aligned_loop] at h
    cases hget : buffer[byte_current]? with
    | none => rw [hget] at h; cases h
    | some b =>
      rw [hget] at h
      have hlt : byte_current < buffer.length := (List.getElem?_eq_some_iff.mp hget).1
      rcases ih _ _ h with h0 | h1 <;> omega

/-- The un-aligned loop returns only when the `k` bytes it reads are
allocated. -/
theorem read_unaligned_loop_some (w : Nat) (buffer : List Byte) (tbr fp : Nat)
    (k byte_current bits v : Nat)
    (h : read_unaligned_loop w buffer tbr fp k byte_current bits = some v) :
    k = 0 ∨ byte_current + k ≤ buffer.length := by
  induction k generalizing byte_current bits with
  | zero => exact Or.inl rfl
  | succ k ih =>
    right
    simp only [read_unaligned_loop] at h
    cases hget : buffer[byte_current]? with
    | none => rw [hget] at h; cases h
    | some b =>
      rw [hget] at h
      have hlt : byte_current < buffer.length := (List.getElem?_eq_some_iff.mp hget).1
      dsimp only at h
      split_ifs at h
      · rcases ih _ _ h with h0 | h1 <;> omega
      · rcases ih _ _ h with h0 | h1 <;> omega

/-- The "Read" section returns a value only when the `n` bits at the cursor
lie in allocated bytes. -/
theorem read_bits_fetch_some (w : Nat) (bs : Bitstream_t) (n v : Nat) (hn1 : 1 ≤ n)
    (hn : n ≤ 64) (h : read_bits_fetch w bs n = some v) :
    bs.buffer_offset + n ≤ 8 * bs.buffer.length := by
  have hfp8 : bs.buffer_offset % 8 < 8 := Nat.mod_lt _ (by decide)
  have hoff : bs.buffer_offset = 8 * (bs.buffer_offset / 8) + bs.buffer_offset % 8 :=
    (Nat.div_add_mod _ _).symm
  generalize hfp : bs.buffer_offset % 8 = fp at *
  generalize hbc : bs.buffer_offset / 8 = bc at *
  have htbr : ((n + fp) % 2 ^ 32 + 7) / 8 = (n + fp + 7) / 8 := by omega
  unfold read_bits_fetch at h
  simp only [hfp, hbc, htbr] at h
  generalize htb : (n + fp + 7) / 8 = tbr at *
  have ht1 : n + fp ≤ 8 * tbr := by omega
  have ht2 : 1 ≤ tbr := by omega
  by_cases hz : 0 < fp
  · rw [if_pos hz] at h
    cases hget : bs.buffer[bc]? with
    | none => rw [hget] at h; cases h
    | some b =>
      rw [hget] at h
      dsimp only at h
      have hlt : bc < bs.buffer.length := (List.getElem?_eq_some_iff.mp hget).1
      cases hloop : read_unaligned_loop w bs.buffer tbr fp (tbr - 1) (bc + 1)
          (b.val &&& (0xFF >>> fp)) with
      | none => rw [hloop] at h; cases h
      | some bits =>
        rcases read_unaligned_loop_some _ _ _ _ _ _ _ _ hloop with h0 | h1 <;> omega
  · rw [if_neg hz] at h
    cases hloop : read_aligned_loop w bs.buffer tbr bc 0 with
    | none => rw [hloop] at h; cases h
    | some bits =>
      rcases read_aligned_loop_some _ _ _ _ _ _ hloop with h0 | h1 <;> omega

/-- What a reading function that starts with a refill returns: the state the
refill left when the refill returned `FAILURE`, what the rest of the function
returns from the reloaded reader otherwise. -/
theorem refill_ret (cfg : Build) (bs : Bitstream_t) (rest : Bitstream_t → Outcome Nat)
    (v : Nat) (s1 : Bitstream_t)
    (h : (match buffer_feed_dynamic cfg bs (-1) with
          | Outcome.ret r bs1 => if r = FAILURE then Outcome.ret FAILURE bs1 else rest bs1
          | Outcome.terminated => Outcome.terminated
          | Outcome.undefined => Outcome.undefined) = Outcome.ret v s1) :
    (v = FAILURE ∧ buffer_feed_dynamic cfg bs (-1) = Outcome.ret FAILURE s1)
      ∨ ∃ s, buffer_feed_dynamic cfg bs (-1) = Outcome.ret SUCCESS s ∧ rest s = Outcome.ret v s1 := by
  cases hfeed : buffer_feed_dynamic cfg bs (-1) with
  | terminated => rw [hfeed] at h; cases h
  | undefined => rw [hfeed] at h; cases h
  | ret r s =>
    rw [hfeed] at h
    dsimp only at h
    obtain ⟨-, -, -, -, -, -, -, -, -, -, hr, -⟩ := buffer_feed_dynamic_frame cfg bs (-1) r s hfeed
    rcases hr with hr | hr
    · subst hr
      rw [if_pos rfl] at h
      cases h
      exact Or.inl ⟨rfl, rfl⟩
    · subst hr
      rw [if_neg (by decide)] at h
      exact Or.inr ⟨s, rfl, h⟩

/-- States `read_bit` returns in. -/
theorem read_bit_ret (cfg : Build) (bs : Bitstream_t) (v : Nat) (s1 : Bitstream_t)
    (h : read_bit cfg bs = Outcome.ret v s1) :
    (v = FAILURE ∧ buffer_feed_dynamic cfg bs (-1) = Outcome.ret FAILURE s1)
      ∨ ∃ s, (s = bs ∨ buffer_feed_dynamic cfg bs (-1) = Outcome.ret SUCCESS s)
          ∧ s.buffer_offset / 8 < s.buffer.length
          ∧ s1 = { s with buffer_offset := (s.buffer_offset + 1) % 2 ^ 32 } := by
  have hfetch : ∀ s, read_bit_fetch s = Outcome.ret v s1 →
      s.buffer_offset / 8 < s.buffer.length
        ∧ s1 = { s with buffer_offset := (s.buffer_offset + 1) % 2 ^ 32 } := by
    intro s hs
    unfold read_bit_fetch at hs
    dsimp only at hs
    cases hget : s.buffer[s.buffer_offset / 8]? with
    | none => rw [hget] at hs; cases hs
    | some b =>
      rw [hget] at hs
      cases hs
      exact ⟨(List.getElem?_eq_some_iff.mp hget).1, rfl⟩
  unfold read_bit at h
  dsimp only at h
  split_ifs at h
  · rcases refill_ret cfg bs _ v s1 h with hf | ⟨s, hs, hr⟩
    · exact Or.inl hf
    · exact Or.inr ⟨s, Or.inr hs, hfetch s hr⟩
  · exact Or.inr ⟨bs, Or.inl rfl, hfetch bs h⟩
/-- States the common body of `read_bits` and `read_bits_64` returns in, for a
field of 1 to 64 bits. -/
theorem read_bits_body_ret (w : Nat) (cfg : Build) (bs : Bitstream_t) (n : Nat)
    (hn1 : 1 ≤ n) (hn : n ≤ 64) (v : Nat) (s1 : Bitstream_t)
    (h : read_bits_body w cfg bs n = Outcome.ret v s1) :
    (v = FAILURE ∧ buffer_feed_dynamic cfg bs (-1) = Outcome.ret FAILURE s1)
      ∨ ∃ s, (s = bs ∨ buffer_feed_dynamic cfg bs (-1) = Outcome.ret SUCCESS s)
          ∧ s.buffer_offset + n ≤ 8 * s.buffer.length
          ∧ s1 = { s with buffer_offset := (s.buffer_offset + n) % 2 ^ 32 } := by
  unfold read_bits_body at h
  by_cases h1 : n = 1
  · rw [if_pos h1] at h
    subst h1
    rcases read_bit_ret cfg bs v s1 h with hf | ⟨s, hs, hlt, hs1⟩
    · exact Or.inl hf
    · exact Or.inr ⟨s, hs, by omega, hs1⟩
  · rw [if_neg h1] at h
    have hfetch : ∀ s, (match read_bits_fetch w s n with
          | none => Outcome.undefined
          | some bits =>
            Outcome.ret bits { s with buffer_offset := (s.buffer_offset + n) % 2 ^ 32 })
          = Outcome.ret v s1 →
        s.buffer_offset + n ≤ 8 * s.buffer.length
          ∧ s1 = { s with buffer_offset := (s.buffer_offset + n) % 2 ^ 32 } := by
      intro s hs
      cases hget : read_bits_fetch w s n with
      | none => rw [hget] at hs; cases hs
      | some bits =>
        rw [hget] at hs
        cases hs
        exact ⟨read_bits_fetch_some w s n _ hn1 hn hget, rfl⟩
    dsimp only at h
    split_ifs at h
    · rcases refill_ret cfg bs _ v s1 h with hf | ⟨s, hs, hr⟩
      · exact Or.inl hf
      · exact Or.inr ⟨s, Or.inr hs, hfetch s hr⟩
    · exact Or.inr ⟨bs, Or.inl rfl, hfetch bs h⟩

/-- States `read_byte_aligned` returns in. -/
theorem read_byte_aligned_ret (cfg : Build) (bs : Bitstream_t) (v : Nat) (s1 : Bitstream_t)
    (h : read_byte_aligned cfg bs = Outcome.ret v s1) :
    (v = FAILURE ∧ buffer_feed_dynamic cfg bs (-1) = Outcome.ret FAILURE s1)
      ∨ ∃ s, (s = bs ∨ buffer_feed_dynamic cfg bs (-1) = Outcome.ret SUCCESS s)
          ∧ ((cfg.ENABLE_DEBUG = true ∧ s.buffer_offset % 8 ≠ 0 ∧ v = FAILURE ∧ s1 = s)
            ∨ (s.buffer_offset / 8 < s.buffer.length
              ∧ s1 = { s with buffer_offset := (s.buffer_offset + 8) % 2 ^ 32 })) := by
  have hfetch : ∀ s, read_byte_aligned_fetch cfg s = Outcome.ret v s1 →
      (cfg.ENABLE_DEBUG = true ∧ s.buffer_offset % 8 ≠ 0 ∧ v = FAILURE ∧ s1 = s)
        ∨ (s.buffer_offset / 8 < s.buffer.length
          ∧ s1 = { s with buffer_offset := (s.buffer_offset + 8) % 2 ^ 32 }) := by
    intro s hs
    unfold read_byte_aligned_fetch at hs
    split_ifs at hs with hd
    · cases hs
      exact Or.inl ⟨hd.1, hd.2, rfl, rfl⟩
    · cases hget : s.buffer[s.buffer_offset / 8]? with
      | none => rw [hget] at hs; cases hs
      | some b =>
        rw [hget] at hs
        cases hs
        exact Or.inr ⟨(List.getElem?_eq_some_iff.mp hget).1, rfl⟩
  unfold read_byte_aligned at h
  split_ifs at h
  · rcases refill_ret cfg bs _ v s1 h with hf | ⟨s, hs, hr⟩
    · exact Or.inl hf
    · exact Or.inr ⟨s, Or.inr hs, hfetch s hr⟩
  · exact Or.inr ⟨bs, Or.inl rfl, hfetch bs h⟩

/-- A reader that is the reader `bs`, or one `buffer_feed_dynamic` returned
from `bs`, up to the cursor, has the sample table and the sample index of
`bs`, and no discarded bytes unless `bs` has the same count of them. -/
theorem moved_frame (cfg : Build) (bs s1 : Bitstream_t)
    (h : ∃ s, (s = bs ∨ ∃ k r, buffer_feed_dynamic cfg bs k = Outcome.ret r s)
      ∧ ∃ bo, s1 = { s with buffer_offset := bo }) :
    s1.bitstream_map = bs.bitstream_map
      ∧ s1.bitstream_sample_index = bs.bitstream_sample_index
      ∧ (s1.buffer_discarded_bytes = 0
        ∨ s1.buffer_discarded_bytes = bs.buffer_discarded_bytes) := by
  obtain ⟨s, hs, bo, rfl⟩ := h
  rcases hs with rfl | ⟨k, r, hfeed⟩
  · exact ⟨rfl, rfl, Or.inr rfl⟩
  · obtain ⟨-, hmap, -, hidx, hdisc, -⟩ := buffer_feed_dynamic_frame cfg bs k r s hfeed
    exact ⟨hmap, hidx, Or.inl hdisc⟩

/-- Every state `read_bit` returns in is the state on entry, or the state
`buffer_feed_dynamic(bitstr, -1)` returned from it, up to the cursor. -/
theorem read_bit_moved (cfg : Build) (bs : Bitstream_t) (v : Nat) (s1 : Bitstream_t)
    (h : read_bit cfg bs = Outcome.ret v s1) :
    ∃ s, (s = bs ∨ ∃ r, buffer_feed_dynamic cfg bs (-1) = Outcome.ret r s)
      ∧ ∃ bo, s1 = { s with buffer_offset := bo } := by
  rcases read_bit_ret cfg bs v s1 h with ⟨-, hf⟩ | ⟨s, hs, -, hs1⟩
  · exact ⟨s1, Or.inr ⟨_, hf⟩, s1.buffer_offset, rfl⟩
  · rcases hs with hs | hs
    · exact ⟨s, Or.inl hs, _, hs1⟩
    · exact ⟨s, Or.inr ⟨_, hs⟩, _, hs1⟩

/-- Every state the common body of `read_bits` and `read_bits_64` returns in,
for any bit count. -/
theorem read_bits_body_moved (w : Nat) (cfg : Build) (bs : Bitstream_t) (n : Nat) (v : Nat)
    (s1 : Bitstream_t) (h : read_bits_body w cfg bs n = Outcome.ret v s1) :
    ∃ s, (s = bs ∨ ∃ r, buffer_feed_dynamic cfg bs (-1) = Outcome.ret r s)
      ∧ ∃ bo, s1 = { s with buffer_offset := bo } := by
  unfold read_bits_body at h
  by_cases h1 : n = 1
  · rw [if_pos h1] at h
    exact read_bit_moved cfg bs v s1 h
  · rw [if_neg h1] at h
    have hfetch : ∀ s, (match read_bits_fetch w s n with
          | none => Outcome.undefined
          | some bits =>
            Outcome.ret bits { s with buffer_offset := (s.buffer_offset + n) % 2 ^ 32 })
          = Outcome.ret v s1 →
        ∃ bo, s1 = { s with buffer_offset := bo } := by
      intro s hs
      cases hget : read_bits_fetch w s n with
      | none => rw [hget] at hs; cases hs
      | some bits =>
        rw [hget] at hs
        cases hs
        exact ⟨_, rfl⟩
    dsimp only at h
    split_ifs at h
    · rcases refill_ret cfg bs _ v s1 h with ⟨-, hf⟩ | ⟨s, hs, hr⟩
      · exact ⟨s1, Or.inr ⟨_, hf⟩, s1.buffer_offset, rfl⟩
      · exact ⟨s, Or.inr ⟨_, hs⟩, hfetch s hr⟩
    · exact ⟨bs, Or.inl rfl, hfetch bs h⟩

/-- Every state `read_bits` returns in, for any bit count. -/
theorem read_bits_moved (cfg : Build) (bs : Bitstream_t) (n : Nat) (v : Nat)
    (s1 : Bitstream_t) (h : read_bits cfg bs n = Outcome.ret v s1) :
    ∃ s, (s = bs ∨ ∃ r, buffer_feed_dynamic cfg bs (-1) = Outcome.ret r s)
      ∧ ∃ bo, s1 = { s with buffer_offset := bo } := by
  unfold read_bits at h
  split_ifs at h
  · cases h
    exact ⟨bs, Or.inl rfl, bs.buffer_offset, rfl⟩
  · cases h
    exact ⟨bs, Or.inl rfl, bs.buffer_offset, rfl⟩
  · exact read_bits_body_moved 32 cfg bs n v s1 h

/-- Every state `read_bits_64` returns in, for any bit count. -/
theorem read_bits_64_moved (cfg : Build) (bs : Bitstream_t) (n : Nat) (v : Nat)
    (s1 : Bitstream_t) (h : read_bits_64 cfg bs n = Outcome.ret v s1) :
    ∃ s, (s = bs ∨ ∃ r, buffer_feed_dynamic cfg bs (-1) = Outcome.ret r s)
      ∧ ∃ bo, s1 = { s with buffer_offset := bo } := by
  unfold read_bits_64 at h
  split_ifs at h
  · cases h
    exact ⟨bs, Or.inl rfl, bs.buffer_offset, rfl⟩
  · cases h
    exact ⟨bs, Or.inl rfl, bs.buffer_offset, rfl⟩
  · exact read_bits_body_moved 64 cfg bs n v s1 h

/-- Every state `read_byte_aligned` returns in. -/
theorem read_byte_aligned_moved (cfg : Build) (bs : Bitstream_t) (v : Nat) (s1 : Bitstream_t)
    (h : read_byte_aligned cfg bs = Outcome.ret v s1) :
    ∃ s, (s = bs ∨ ∃ r, buffer_feed_dynamic cfg bs (-1) = Outcome.ret r s)
      ∧ ∃ bo, s1 = { s with buffer_offset := bo } := by
  rcases read_byte_aligned_ret cfg bs v s1 h with ⟨-, hf⟩ | ⟨s, hs, hr⟩
  · exact ⟨s1, Or.inr ⟨_, hf⟩, s1.buffer_offset, rfl⟩
  · have hbo : ∃ bo, s1 = { s with buffer_offset := bo } := by
      rcases hr with ⟨-, -, -, hs1⟩ | ⟨-, hs1⟩
      · exact ⟨s.buffer_offset, hs1⟩
      · exact ⟨_, hs1⟩
    rcases hs with hs | hs
    · exact ⟨s, Or.inl hs, hbo⟩
    · exact ⟨s, Or.inr ⟨_, hs⟩, hbo⟩
/-- A window slide keeps the absolute bit offset. -/
theorem buffer_feed_dynamic_absolute_bit_offset (cfg : Build) (bs : Bitstream_t) (k : Int)
    (hk : k < 0) (r : Nat) (s1 : Bitstream_t)
    (h : buffer_feed_dynamic cfg bs k = Outcome.ret r s1) :
    bitstream_get_absolute_bit_offset s1 = bitstream_get_absolute_bit_offset bs := by
  obtain ⟨-, -, -, -, hdisc, hoff, hbo, -⟩ := buffer_feed_dynamic_frame cfg bs k r s1 h
  rw [if_neg (by omega)] at hoff hbo
  unfold bitstream_get_absolute_bit_offset
  rw [hdisc, hoff, hbo]
  unfold bitstream_get_absolute_byte_offset
  omega

/-- Moving the cursor of the reader an operation left does not change the
value the operation returned. -/
theorem Outcome.value_advance (o : Outcome Nat) (k : Nat) : (o.advance k).value = o.value := by
  cases o <;> rfl

/-- The two functions built from a refill followed by `f`, respectively `g`,
where `f` returns what `g` returns: they return the same value, and when `f`
moves the cursor by `k` bits after doing what `g` does, and the refill does
not return `FAILURE`, the first one is the second one followed by that move. -/
theorem refill_pair (cfg : Build) (bs : Bitstream_t) (f g : Bitstream_t → Outcome Nat)
    (k : Nat) :
    ((∀ s, (g s).value = (f s).value) →
      (match buffer_feed_dynamic cfg bs (-1) with
        | Outcome.ret r bs1 => if r = FAILURE then Outcome.ret FAILURE bs1 else g bs1
        | Outcome.terminated => Outcome.terminated
        | Outcome.undefined => Outcome.undefined).value
      = (match buffer_feed_dynamic cfg bs (-1) with
        | Outcome.ret r bs1 => if r = FAILURE then Outcome.ret FAILURE bs1 else f bs1
        | Outcome.terminated => Outcome.terminated
        | Outcome.undefined => Outcome.undefined).value)
    ∧ ((∀ s, buffer_feed_dynamic cfg bs (-1) = Outcome.ret SUCCESS s → f s = (g s).advance k) →
      (∀ s, buffer_feed_dynamic cfg bs (-1) ≠ Outcome.ret FAILURE s) →
      (match buffer_feed_dynamic cfg bs (-1) with
        | Outcome.ret r bs1 => if r = FAILURE then Outcome.ret FAILURE bs1 else f bs1
        | Outcome.terminated => Outcome.terminated
        | Outcome.undefined => Outcome.undefined)
      = (match buffer_feed_dynamic cfg bs (-1) with
        | Outcome.ret r bs1 => if r = FAILURE then Outcome.ret FAILURE bs1 else g bs1
        | Outcome.terminated => Outcome.terminated
        | Outcome.undefined => Outcome.undefined).advance k) := by
  cases hfeed : buffer_feed_dynamic cfg bs (-1) with
  | terminated => exact ⟨fun _ => rfl, fun _ _ => rfl⟩
  | undefined => exact ⟨fun _ => rfl, fun _ _ => rfl⟩
  | ret r s =>
    obtain ⟨-, -, -, -, -, -, -, -, -, -, hr, -⟩ := buffer_feed_dynamic_frame cfg bs (-1) r s hfeed
    rcases hr with hr | hr
    · subst hr
      exact ⟨fun _ => rfl, fun _ hno => absurd rfl (hno s)⟩
    · subst hr
      refine ⟨fun hv => ?_, fun hadv _ => ?_⟩
      · dsimp only
        rw [if_neg (by decide), if_neg (by decide)]
        exact hv s
      · dsimp only
        rw [if_neg (by decide), if_neg (by decide)]
        exact hadv s rfl

/-- `read_bit` after its refill test is `next_bit` after its refill test
followed by a move of one bit. -/
theorem read_bit_fetch_eq (s : Bitstream_t) : read_bit_fetch s = (next_bit_fetch s).advance 1 := by
  unfold read_bit_fetch next_bit_fetch
  dsimp only
  cases s.buffer[s.buffer_offset / 8]? <;> rfl

/-- `next_bit` returns the value `read_bit` returns. -/
theorem next_bit_value (cfg : Build) (bs : Bitstream_t) :
    (next_bit cfg bs).value = (read_bit cfg bs).value := by
  have hv : ∀ s, (next_bit_fetch s).value = (read_bit_fetch s).value := by
    intro s
    rw [read_bit_fetch_eq, Outcome.value_advance]
  unfold next_bit read_bit
  dsimp only
  split_ifs
  · exact (refill_pair cfg bs read_bit_fetch next_bit_fetch 1).1 hv
  · exact hv bs

/-- When the refill does not fail `read_bit` is `next_bit` followed by a move
of one bit. -/
theorem read_bit_eq_next_bit (cfg : Build) (bs : Bitstream_t)
    (hno : ∀ s, buffer_feed_dynamic cfg bs (-1) ≠ Outcome.ret FAILURE s) :
    read_bit cfg bs = (next_bit cfg bs).advance 1 := by
  unfold next_bit read_bit
  dsimp only
  split_ifs
  · exact (refill_pair cfg bs read_bit_fetch next_bit_fetch 1).2
      (fun s _ => read_bit_fetch_eq s) hno
  · exact read_bit_fetch_eq bs

/-- States `next_bit` returns in: the state on entry or the one the refill
returned. -/
theorem next_bit_ret (cfg : Build) (bs : Bitstream_t) (v : Nat) (s1 : Bitstream_t)
    (h : next_bit cfg bs = Outcome.ret v s1) :
    s1 = bs ∨ ∃ r, buffer_feed_dynamic cfg bs (-1) = Outcome.ret r s1 := by
  have hfetch : ∀ s, next_bit_fetch s = Outcome.ret v s1 → s1 = s := by
    intro s hs
    unfold next_bit_fetch at hs
    dsimp only at hs
    cases hget : s.buffer[s.buffer_offset / 8]? with
    | none => rw [hget] at hs; cases hs
    | some b =>
      rw [hget] at hs
      cases hs
      rfl
  unfold next_bit at h
  dsimp only at h
  split_ifs at h
  · rcases refill_ret cfg bs _ v s1 h with ⟨-, hf⟩ | ⟨s, hs, hr⟩
    · exact Or.inr ⟨_, hf⟩
    · rw [hfetch s hr]
      exact Or.inr ⟨_, hs⟩
  · exact Or.inl (hfetch bs h)

/-- The value part and the cursor part of `read_bits` against `next_bits`. -/
theorem read_bits_vs_next_bits (cfg : Build) (bs : Bitstream_t) (n : Nat) :
    (next_bits cfg bs n).value = (read_bits cfg bs n).value
      ∧ ((∀ s, buffer_feed_dynamic cfg bs (-1) ≠ Outcome.ret FAILURE s) → 1 ≤ n → n ≤ 32 →
          read_bits cfg bs n = (next_bits cfg bs n).advance n) := by
  let fR : Bitstream_t → Outcome Nat := fun s =>
    match read_bits_fetch 32 s n with
    | none => Outcome.undefined
    | some bits => Outcome.ret bits { s with buffer_offset := (s.buffer_offset + n) % 2 ^ 32 }
  let fN : Bitstream_t → Outcome Nat := fun s =>
    match read_bits_fetch 32 s n with
    | none => Outcome.undefined
    | some bits => Outcome.ret bits s
  have hfin : ∀ s : Bitstream_t, fR s = (fN s).advance n := by
    intro s
    simp only [fR, fN]
    cases read_bits_fetch 32 s n <;> rfl
  have hval : ∀ s : Bitstream_t, (fN s).value = (fR s).value := by
    intro s
    rw [hfin s, Outcome.value_advance]
  unfold next_bits read_bits read_bits_body
  dsimp only
  constructor
  · split_ifs
    · rfl
    · rfl
    · exact next_bit_value cfg bs
    · exact (refill_pair cfg bs fR fN n).1 hval
    · exact hval bs
  · intro hno hn1 hn
    have hd0 : ¬ (cfg.ENABLE_DEBUG = true ∧ n = 0) := fun hc => absurd hc.2 (by omega)
    have hd1 : ¬ (cfg.ENABLE_DEBUG = true ∧ 32 < n) := fun hc => absurd hc.2 (by omega)
    simp only [if_neg hd0, if_neg hd1]
    split_ifs with h1
    · rw [h1]
      exact read_bit_eq_next_bit cfg bs hno
    · exact (refill_pair cfg bs fR fN n).2 (fun s _ => hfin s) hno
    · exact hfin bs

/-- States `next_bits` returns in. -/
theorem next_bits_ret (cfg : Build) (bs : Bitstream_t) (n : Nat) (v : Nat) (s1 : Bitstream_t)
    (h : next_bits cfg bs n = Outcome.ret v s1) :
    s1 = bs ∨ ∃ r, buffer_feed_dynamic cfg bs (-1) = Outcome.ret r s1 := by
  have hfetch : ∀ s, (match read_bits_fetch 32 s n with
        | none => (Outcome.undefined : Outcome Nat)
        | some bits => Outcome.ret bits s) = Outcome.ret v s1 → s1 = s := by
    intro s hs
    cases hget : read_bits_fetch 32 s n with
    | none => rw [hget] at hs; cases hs
    | some b =>
      rw [hget] at hs
      cases hs
      rfl
  unfold next_bits at h
  dsimp only at h
  split_ifs at h
  · cases h
    exact Or.inl rfl
  · cases h
    exact Or.inl rfl
  · exact next_bit_ret cfg bs v s1 h
  · rcases refill_ret cfg bs _ v s1 h with ⟨-, hf⟩ | ⟨s, hs, hr⟩
    · exact Or.inr ⟨_, hf⟩
    · rw [hfetch s hr]
      exact Or.inr ⟨_, hs⟩
  · exact Or.inl (hfetch bs h)

/-- The value part and the cursor part of `read_byte_aligned` against
`next_byte_aligned`. -/
theorem read_byte_aligned_vs_next (cfg : Build) (bs : Bitstream_t) :
    (next_byte_aligned cfg bs).value = (read_byte_aligned cfg bs).value
      ∧ ((∀ s, buffer_feed_dynamic cfg bs (-1) ≠ Outcome.ret FAILURE s) →
          bs.buffer_offset % 8 = 0 →
          read_byte_aligned cfg bs = (next_byte_aligned cfg bs).advance 8) := by
  have hv : ∀ s, (next_byte_aligned_fetch cfg s).value = (read_byte_aligned_fetch cfg s).value := by
    intro s
    unfold next_byte_aligned_fetch read_byte_aligned_fetch
    split_ifs
    · rfl
    · cases s.buffer[s.buffer_offset / 8]? <;> rfl
  have hadv : ∀ s : Bitstream_t, s.buffer_offset % 8 = 0 →
      read_byte_aligned_fetch cfg s = (next_byte_aligned_fetch cfg s).advance 8 := by
    intro s hs
    unfold next_byte_aligned_fetch read_byte_aligned_fetch
    rw [if_neg (fun hc => hc.2 hs), if_neg (fun hc => hc.2 hs)]
    cases s.buffer[s.buffer_offset / 8]? <;> rfl
  unfold next_byte_aligned read_byte_aligned
  constructor
  · split_ifs
    · exact (refill_pair cfg bs _ _ 8).1 hv
    · exact hv bs
  · intro hno hal
    split_ifs
    · refine (refill_pair cfg bs _ _ 8).2 (fun s hs => hadv s ?_) hno
      obtain ⟨-, -, -, -, -, -, hbo, -⟩ := buffer_feed_dynamic_frame cfg bs (-1) SUCCESS s hs
      rw [if_neg (by decide)] at hbo
      omega
    · exact hadv bs hal

/-- States `next_byte_aligned` returns in. -/
theorem next_byte_aligned_ret (cfg : Build) (bs : Bitstream_t) (v : Nat) (s1 : Bitstream_t)
    (h : next_byte_aligned cfg bs = Outcome.ret v s1) :
    s1 = bs ∨ ∃ r, buffer_feed_dynamic cfg bs (-1) = Outcome.ret r s1 := by
  have hfetch : ∀ s, next_byte_aligned_fetch cfg s = Outcome.ret v s1 → s1 = s := by
    intro s hs
    unfold next_byte_aligned_fetch at hs
    split_ifs at hs
    · cases hs
      rfl
    · cases hget : s.buffer[s.buffer_offset / 8]? with
      | none => rw [hget] at hs; cases hs
      | some b =>
        rw [hget] at hs
        cases hs
        rfl
  unfold next_byte_aligned at h
  split_ifs at h
  · rcases refill_ret cfg bs _ v s1 h with ⟨-, hf⟩ | ⟨s, hs, hr⟩
    · exact Or.inr ⟨_, hf⟩
    · rw [hfetch s hr]
      exact Or.inr ⟨_, hs⟩
  · exact Or.inl (hfetch bs h)
/-- Every state `buffer_feed_next_sample` returns in has no discarded bytes. -/
theorem buffer_feed_next_sample_discarded (bs : Bitstream_t) (r : Nat) (s1 : Bitstream_t)
    (h : buffer_feed_next_sample bs = Outcome.ret r s1) : s1.buffer_discarded_bytes = 0 := by
  unfold buffer_feed_next_sample at h
  cases hmap : bs.bitstream_map with
  | none => rw [hmap] at h; cases h
  | some map =>
    rw [hmap] at h
    dsimp only at h
    split_ifs at h
    cases hoff : map.sample_offset[bs.bitstream_sample_index]? with
    | none => rw [hoff] at h; cases h
    | some off =>
      cases hsz : map.sample_size[bs.bitstream_sample_index]? with
      | none => rw [hoff, hsz] at h; cases h
      | some sz =>
        rw [hoff, hsz] at h
        dsimp only at h
        split_ifs at h <;> (cases h; rfl)

/-- Every state `bitstream_goto_offset` returns in has no discarded bytes,
or the count of them it was called with. -/
theorem bitstream_goto_offset_discarded (cfg : Build) (bs : Bitstream_t) (k : Int) (r : Nat)
    (s1 : Bitstream_t) (h : bitstream_goto_offset cfg bs k = Outcome.ret r s1) :
    s1.buffer_discarded_bytes = 0 ∨ s1.buffer_discarded_bytes = bs.buffer_discarded_bytes := by
  unfold bitstream_goto_offset at h
  split_ifs at h
  · exact Or.inl (buffer_feed_dynamic_frame cfg bs k r s1 h).2.2.2.2.1
  · cases h
    exact Or.inr rfl

/-- Every state `skip_bits` returns in has no discarded bytes, or the count
of them it was called with. -/
theorem skip_bits_discarded (cfg : Build) (bs : Bitstream_t) (n : Nat) (r : Nat)
    (s1 : Bitstream_t) (h : skip_bits cfg bs n = Outcome.ret r s1) :
    s1.buffer_discarded_bytes = 0 ∨ s1.buffer_discarded_bytes = bs.buffer_discarded_bytes := by
  unfold skip_bits at h
  dsimp only at h
  split_ifs at h
  · exact bitstream_goto_offset_discarded cfg bs _ r s1 h
  · cases hfeed : buffer_feed_dynamic cfg bs (-1) with
    | terminated => rw [hfeed] at h; cases h
    | undefined => rw [hfeed] at h; cases h
    | ret r0 s =>
      rw [hfeed] at h
      cases h
      exact Or.inl (buffer_feed_dynamic_frame cfg bs (-1) r s hfeed).2.2.2.2.1
  · cases h
    exact Or.inr rfl

/-- Every state `rewind_bits` returns in has no discarded bytes, or the count
of them it was called with. -/
theorem rewind_bits_discarded (cfg : Build) (bs : Bitstream_t) (n : Nat) (r : Nat)
    (s1 : Bitstream_t) (h : rewind_bits cfg bs n = Outcome.ret r s1) :
    s1.buffer_discarded_bytes = 0 ∨ s1.buffer_discarded_bytes = bs.buffer_discarded_bytes := by
  unfold rewind_bits at h
  dsimp only at h
  split_ifs at h
  · cases h
    exact Or.inr rfl
  · exact bitstream_goto_offset_discarded cfg bs _ r s1 h

/-- Every reader `init_bitstream` returns has no discarded bytes. -/
theorem init_bitstream_discarded (cfg : Build) (file : List Byte) (file_size : Int)
    (map : Option BitstreamMap_t) (r : Nat) (s1 : Bitstream_t)
    (h : init_bitstream cfg file file_size map = Outcome.ret r s1) :
    s1.buffer_discarded_bytes = 0 := by
  unfold init_bitstream at h
  dsimp only at h
  cases map with
  | some m =>
    dsimp only at h
    cases h
    rfl
  | none =>
    dsimp only at h
    rcases refill_ret cfg _ (fun s => Outcome.ret SUCCESS s) r s1 h with ⟨-, hf⟩ | ⟨s, hs, hr⟩
    · exact (buffer_feed_dynamic_frame cfg _ (-1) _ s1 hf).2.2.2.2.1
    · cases hr
      exact (buffer_feed_dynamic_frame cfg _ (-1) _ _ hs).2.2.2.2.1

/-- No operation of the reader sets `buffer_discarded_bytes` to anything but
0: it is 0 in every state reached from `init_bitstream`. -/
theorem reachable_discarded (cfg : Build) (bs : Bitstream_t) (h : Reachable cfg bs) :
    bs.buffer_discarded_bytes = 0 := by
  have hor : ∀ (a b : Bitstream_t), a.buffer_discarded_bytes = 0 →
      (b.buffer_discarded_bytes = 0 ∨ b.buffer_discarded_bytes = a.buffer_discarded_bytes) →
      b.buffer_discarded_bytes = 0 := by
    intro a b ha hb
    rcases hb with hb | hb
    · exact hb
    · rw [hb, ha]
  have hnext : ∀ (a b : Bitstream_t), a.buffer_discarded_bytes = 0 →
      (b = a ∨ ∃ r, buffer_feed_dynamic cfg a (-1) = Outcome.ret r b) →
      b.buffer_discarded_bytes = 0 := by
    intro a b ha hb
    rcases hb with hb | ⟨r, hb⟩
    · rw [hb, ha]
    · exact (buffer_feed_dynamic_frame cfg a (-1) r b hb).2.2.2.2.1
  have hmoved : ∀ (a b : Bitstream_t), a.buffer_discarded_bytes = 0 →
      (∃ s, (s = a ∨ ∃ r, buffer_feed_dynamic cfg a (-1) = Outcome.ret r s)
        ∧ ∃ bo, b = { s with buffer_offset := bo }) →
      b.buffer_discarded_bytes = 0 := by
    intro a b ha hb
    obtain ⟨s, hs, bo, rfl⟩ := hb
    exact hnext a s ha hs
  induction h with
  | init file file_size map bs hinit => exact init_bitstream_discarded cfg file file_size map _ bs hinit
  | buffer_feed_next_sample bs r bs1 _ hop _ => exact buffer_feed_next_sample_discarded bs r bs1 hop
  | buffer_feed_dynamic bs k r bs1 _ hop _ =>
    exact (buffer_feed_dynamic_frame cfg bs k r bs1 hop).2.2.2.2.1
  | read_bit bs r bs1 _ hop ih => exact hmoved bs bs1 ih (read_bit_moved cfg bs r bs1 hop)
  | read_bits bs n r bs1 _ hop ih => exact hmoved bs bs1 ih (read_bits_moved cfg bs n r bs1 hop)
  | read_bits_64 bs n r bs1 _ hop ih =>
    exact hmoved bs bs1 ih (read_bits_64_moved cfg bs n r bs1 hop)
  | read_byte_aligned bs r bs1 _ hop ih =>
    exact hmoved bs bs1 ih (read_byte_aligned_moved cfg bs r bs1 hop)
  | next_byte_aligned bs r bs1 _ hop ih =>
    exact hnext bs bs1 ih (next_byte_aligned_ret cfg bs r bs1 hop)
  | next_bit bs r bs1 _ hop ih => exact hnext bs bs1 ih (next_bit_ret cfg bs r bs1 hop)
  | next_bits bs n r bs1 _ hop ih => exact hnext bs bs1 ih (next_bits_ret cfg bs n r bs1 hop)
  | skip_bits bs n r bs1 _ hop ih => exact hor bs bs1 ih (skip_bits_discarded cfg bs n r bs1 hop)
  | rewind_bits bs n r bs1 _ hop ih =>
    exact hor bs bs1 ih (rewind_bits_discarded cfg bs n r bs1 hop)
  | bitstream_goto_offset bs k r bs1 _ hop ih =>
    exact hor bs bs1 ih (bitstream_goto_offset_discarded cfg bs k r bs1 hop)

/-- A request that lies inside the source is served in full by `fread`. -/
theorem fread_length (file : List Byte) (off : Int) (count : Nat)
    (h : off.toNat + count ≤ file.length) : (fread file off count).length = count := by
  unfold fread
  simp only [List.length_take, List.length_drop]
  omega

/-- What `buffer_feed_next_sample` does on an entry below `sample_count` that
passes the validity test: the buffer is reallocated to the sample size and
filled from the source, and the sample index advances, whether or not the
source holds the whole sample. -/
theorem buffer_feed_next_sample_valid (bs : Bitstream_t) (map : BitstreamMap_t)
    (off : Int) (sz : Nat)
    (hmap : bs.bitstream_map = some map)
    (hi : bs.bitstream_sample_index < map.sample_count)
    (hoff : map.sample_offset[bs.bitstream_sample_index]? = some off)
    (hsz : map.sample_size[bs.bitstream_sample_index]? = some sz)
    (hoff0 : 0 < off) (hsz0 : 0 < sz) :
    buffer_feed_next_sample bs
      = Outcome.ret (if (fread bs.bitstream_file off sz).length = sz then SUCCESS else FAILURE)
          { bs with
              buffer_offset := 0, buffer_discarded_bytes := 0, bitstream_offset := off,
              buffer_size := sz,
              buffer := fread bs.bitstream_file off sz
                ++ (realloc bs.buffer sz).drop (fread bs.bitstream_file off sz).length,
              bitstream_sample_index := (bs.bitstream_sample_index + 1) % 2 ^ 32 } := by
  unfold buffer_feed_next_sample
  rw [hmap]
  dsimp only
  rw [if_neg (by omega), hoff, hsz]
  dsimp only
  rw [if_neg (by omega)]
  by_cases hlen : (fread bs.bitstream_file off sz).length = sz
  · rw [if_neg (by simpa using hlen), if_pos hlen]
  · rw [if_pos (by simpa using hlen), if_neg hlen]

/-- What `buffer_feed_next_sample` does on an entry that fails the validity
test: the offsets and the buffer size are overwritten, the buffer and the
sample index are left as they are. -/
theorem buffer_feed_next_sample_invalid (bs : Bitstream_t) (map : BitstreamMap_t)
    (off : Int) (sz : Nat)
    (hmap : bs.bitstream_map = some map)
    (hi : bs.bitstream_sample_index < map.sample_count)
    (hoff : map.sample_offset[bs.bitstream_sample_index]? = some off)
    (hsz : map.sample_size[bs.bitstream_sample_index]? = some sz)
    (hbad : off ≤ 0 ∨ sz = 0) :
    buffer_feed_next_sample bs
      = Outcome.ret FAILURE
          { bs with
              buffer_offset := 0, buffer_discarded_bytes := 0, bitstream_offset := off,
              buffer_size := sz } := by
  unfold buffer_feed_next_sample
  rw [hmap]
  dsimp only
  rw [if_neg (by omega), hoff, hsz]
  dsimp only
  rw [if_pos (by omega)]

/-- On a non-empty source whose recorded size is the size of its content,
`init_bitstream` without a sample table returns a reader: the one the first
`buffer_feed_dynamic` leaves, with the window at byte 0 and the cursor at
bit 0. -/
theorem init_bitstream_continuous (cfg : Build) (file : List Byte)
    (hcap : cfg.BITSTREAM_BUFFER_SIZE < 2 ^ 32) (hfile : file ≠ []) :
    ∃ bs0 bs, buffer_feed_dynamic cfg bs0 (-1) = Outcome.ret SUCCESS bs
      ∧ init_bitstream cfg file file.length none = Outcome.ret SUCCESS bs
      ∧ bs.bitstream_file = file ∧ bs.bitstream_size = file.length
      ∧ bs.bitstream_offset = 0 ∧ bs.buffer_offset = 0 := by
  have hpos : 0 < file.length := List.length_pos.mpr hfile
  let bs0 : Bitstream_t :=
    { bitstream_file := file, bitstream_map := none, bitstream_size := file.length,
      bitstream_offset := 0, bitstream_sample_index := 0,
      buffer := List.replicate cfg.BITSTREAM_BUFFER_SIZE 0,
      buffer_size := cfg.BITSTREAM_BUFFER_SIZE, buffer_offset := 0,
      buffer_discarded_bytes := 0 }
  have habs : bitstream_get_absolute_byte_offset bs0 = 0 := by
    simp [bitstream_get_absolute_byte_offset, bs0]
  obtain ⟨r, bs, hfeed⟩ := buffer_feed_dynamic_returns cfg bs0 (-1)
    (by rw [if_neg (by decide), habs]; exact Int.ofNat_pos.mpr hpos)
    (Or.inr (by simp [bs0]))
  obtain ⟨h1, -, h3, -, -, h6, h7, -, -, -, hr, -⟩ := buffer_feed_dynamic_frame cfg bs0 (-1) r bs hfeed
  have hr2 : r = SUCCESS := by
    rcases hr with hr | hr
    · subst hr
      exact absurd hfeed (buffer_feed_dynamic_no_failure cfg bs0 (-1) rfl hcap
        (by rw [if_neg (by decide), habs]) bs)
    · exact hr
  subst hr2
  rw [if_neg (by decide)] at h6 h7
  refine ⟨bs0, bs, hfeed, ?_, h1, h3, by rw [h6, habs], h7⟩
  unfold init_bitstream
  dsimp only
  have hfeed2 : buffer_feed_dynamic cfg
      { bitstream_file := file, bitstream_map := none, bitstream_size := file.length,
        bitstream_offset := 0, bitstream_sample_index := 0,
        buffer := List.replicate cfg.BITSTREAM_BUFFER_SIZE 0,
        buffer_size := cfg.BITSTREAM_BUFFER_SIZE, buffer_offset := 0,
        buffer_discarded_bytes := 0 } (-1) = Outcome.ret SUCCESS bs := hfeed
  rw [hfeed2]
  rfl

/-- Moving the cursor by `n` bits inside the `unsigned int` range adds `n` to
the absolute bit offset. -/
theorem absolute_bit_offset_advance (s : Bitstream_t) (n : Nat)
    (h : s.buffer_offset + n < 2 ^ 32) :
    bitstream_get_absolute_bit_offset
        { s with buffer_offset := (s.buffer_offset + n) % 2 ^ 32 }
      = bitstream_get_absolute_bit_offset s + (n : Int) := by
  unfold bitstream_get_absolute_bit_offset
  dsimp only
  rw [Nat.mod_eq_of_lt h]
  push_cast
  ring

/-- A read that returns after a refill, or without one, adds the bits read to
the absolute bit offset: the step common to the reading functions. -/
theorem absolute_bit_offset_after_read (cfg : Build) (bs s s1 : Bitstream_t) (n : Nat)
    (hn : n ≤ 64) (hwrap : bs.buffer_offset + n < 2 ^ 32)
    (hs : s = bs ∨ buffer_feed_dynamic cfg bs (-1) = Outcome.ret SUCCESS s)
    (hs1 : s1 = { s with buffer_offset := (s.buffer_offset + n) % 2 ^ 32 }) :
    bitstream_get_absolute_bit_offset s1 = bitstream_get_absolute_bit_offset bs + (n : Int) := by
  rcases hs with hs | hs
  · subst hs
    rw [hs1]
    exact absolute_bit_offset_advance s n hwrap
  · have habs := buffer_feed_dynamic_absolute_bit_offset cfg bs (-1) (by decide) SUCCESS s hs
    obtain ⟨-, -, -, -, -, -, hbo, -⟩ := buffer_feed_dynamic_frame cfg bs (-1) SUCCESS s hs
    rw [if_neg (by decide)] at hbo
    rw [hs1, absolute_bit_offset_advance s n (by omega), habs]

/-- The state a window slide leaves, for a window size between 1 and
`2^32 - 1` and an allocation of at most `BITSTREAM_BUFFER_SIZE` bytes: the
allocation ends with the buffer, the cursor lies in the first byte, and the
position of the cursor in its byte is kept. -/
theorem buffer_feed_dynamic_cursor (cfg : Build) (bs : Bitstream_t) (r : Nat) (s : Bitstream_t)
    (hcap1 : 1 ≤ cfg.BITSTREAM_BUFFER_SIZE) (hcap : cfg.BITSTREAM_BUFFER_SIZE < 2 ^ 32)
    (hlenc : bs.buffer.length ≤ cfg.BITSTREAM_BUFFER_SIZE)
    (h : buffer_feed_dynamic cfg bs (-1) = Outcome.ret r s) :
    s.buffer.length ≤ s.buffer_size ∧ s.buffer_offset < 8 ∧ 1 ≤ s.buffer_size
      ∧ s.buffer_offset % 8 = bs.buffer_offset % 8 := by
  obtain ⟨-, -, -, -, -, -, hbo, hlt, hsize, hlen, -, -⟩ :=
    buffer_feed_dynamic_frame cfg bs (-1) r s h
  rw [if_neg (by decide)] at hbo
  have hsz : 1 ≤ s.buffer_size := by
    rw [hsize]
    split_ifs with hnear
    · rw [Int.emod_eq_of_lt (by omega) (by omega)]
      omega
    · exact hcap1
  refine ⟨?_, by omega, hsz, by omega⟩
  rw [hlen]
  split_ifs with hnear
  · exact le_refl _
  · rw [hsize, if_neg hnear]
    exact hlenc

/-! ## Typed EBML leaves and identifiers -/

/-- Appending one byte to a big-endian integer. -/
theorem beInt_append_singleton (l : List Byte) (x : Byte) :
    beInt (l ++ [x]) = 256 * beInt l + x.val := by
  simp [beInt, List.foldl_append]

/-- A big-endian integer of `n` bytes is below `2^(8n)`. -/
theorem beInt_lt (l : List Byte) : beInt l < 2 ^ (8 * l.length) := by
  induction l using List.reverseRecOn with
  | nil => simp [beInt]
  | append_singleton l x ih =>
    rw [beInt_append_singleton, List.length_append, List.length_singleton,
      show 8 * (l.length + 1) = 8 * l.length + 8 by ring, pow_add]
    have hx : x.val < 256 := x.isLt
    norm_num
    omega

/-- Byte sequences of one length with one big-endian integer are equal. -/
theorem beInt_injective (a : List Byte) :
    ∀ b : List Byte, a.length = b.length → beInt a = beInt b → a = b := by
  induction a using List.reverseRecOn with
  | nil =>
    intro b hlen _
    exact (List.length_eq_zero.mp hlen.symm).symm
  | append_singleton a x ih =>
    intro b hlen hval
    rcases List.eq_nil_or_concat b with hb | ⟨b1, y, hb⟩
    · subst hb
      simp at hlen
    · subst hb
      rw [List.concat_eq_append] at hlen hval ⊢
      rw [beInt_append_singleton, beInt_append_singleton] at hval
      simp only [List.length_append, List.length_singleton] at hlen
      have hx : x.val < 256 := x.isLt
      have hy : y.val < 256 := y.isLt
      have h1 : beInt a = beInt b1 := by omega
      have h2 : x.val = y.val := by omega
      rw [ih b1 (by omega) h1, Fin.ext h2]

/-- An identifier of `k` zero bits, the marker bit and `7(k+1)` payload bits at
a byte-aligned cursor inside the buffer, `k` being at most 3, decodes to the
payload plus `2^(7(k+1))`, which is the big-endian integer of its `k+1`
bytes. -/
theorem read_ebml_eid_decodes (cfg : Build) (bs : Bitstream_t) (k : Nat) (hk : k ≤ 3)
    (halign : bs.buffer_offset % 8 = 0) (hin : InBuffer bs (8 * (k + 1)))
    (hzeros : ∀ i, i < k → bitAt bs.buffer (bs.buffer_offset + i) = 0)
    (hmarker : bitAt bs.buffer (bs.buffer_offset + k) = 1) :
    read_ebml_eid cfg bs
        = Outcome.ret
            (bitsValue bs.buffer (bs.buffer_offset + (k + 1)) (7 * (k + 1)) + 2 ^ (7 * (k + 1)))
            { bs with buffer_offset := bs.buffer_offset + 8 * (k + 1) }
      ∧ bitsValue bs.buffer (bs.buffer_offset + (k + 1)) (7 * (k + 1)) + 2 ^ (7 * (k + 1))
          = beInt ((bs.buffer.drop (bs.buffer_offset / 8)).take (k + 1)) := by
  obtain ⟨ha, hb, hc⟩ := hin
  have hprefix := ebml_leading_zeros_spec cfg k 4 0 bs (by omega) ⟨by omega, hb, hc⟩ hzeros hmarker
  have hlt := bitsValue_lt bs.buffer (bs.buffer_offset + (k + 1)) (7 * (k + 1))
  have hpow : 2 ^ (7 * (k + 1)) ≤ 2 ^ 28 := Nat.pow_le_pow_right (by decide) (by omega)
  have hread := read_bits_64_spec cfg { bs with buffer_offset := bs.buffer_offset + (k + 1) }
    (7 * (k + 1)) (by omega) (by omega) (Or.inr (by simp only; omega))
    ⟨by simp only; omega, hb, hc⟩
  constructor
  · simp only [read_ebml_eid, hprefix, Nat.zero_add, Nat.mul_comm (k + 1) 7, hread,
      ebml_eid_value]
    rw [if_pos (by omega)]
    congr 2
    omega
  · have hq : bs.buffer_offset = 8 * (bs.buffer_offset / 8) := by omega
    have hbytes := bitsValue_bytes bs.buffer (bs.buffer_offset / 8) (k + 1) (by omega)
    rw [← hq] at hbytes
    have happ := bitsValue_append bs.buffer bs.buffer_offset (k + 1) (7 * (k + 1))
    have hone : bitsValue bs.buffer bs.buffer_offset (k + 1) = 1 := by
      rw [bitsValue, bitsValue_zeros bs.buffer _ k hzeros, hmarker]
    rw [hone, show k + 1 + 7 * (k + 1) = 8 * (k + 1) by ring, hbytes] at happ
    rw [happ]
    ring

/-- A well-formed identifier encoding read from a reader that holds just the
encoding: the value is the big-endian integer of the bytes, it lies between
`2^(7n)` and `2^(7n+1)` for `n` bytes, and the cursor ends after the bytes. -/
theorem read_ebml_eid_of_encoding (cfg : Build) (a : List Byte) (ha : WellFormedEid a) :
    read_ebml_eid cfg (readerAt a 0) = Outcome.ret (beInt a) (readerAt a (8 * a.length))
      ∧ 2 ^ (7 * a.length) ≤ beInt a ∧ beInt a < 2 ^ (7 * a.length + 1) := by
  obtain ⟨h1, h4, hz, hm⟩ := ha
  obtain ⟨k, hk⟩ : ∃ k, a.length = k + 1 := ⟨a.length - 1, by omega⟩
  rw [hk] at hz hm
  simp only [Nat.add_sub_cancel] at hz hm
  have hdec := read_ebml_eid_decodes cfg (readerAt a 0) k (by omega) (by simp [readerAt])
    (by
      refine ⟨?_, ?_, ?_⟩
      · show 0 + 8 * (k + 1) ≤ 8 * a.length
        omega
      · show a.length ≤ a.length
        exact le_refl _
      · show 8 * a.length < 2 ^ 32
        omega)
    (fun i hi => by
      show bitAt a (0 + i) = 0
      rw [Nat.zero_add]
      exact hz i hi)
    (by
      show bitAt a (0 + k) = 1
      rw [Nat.zero_add]
      exact hm)
  obtain ⟨hrun, hval⟩ := hdec
  have htake : (List.drop ((readerAt a 0).buffer_offset / 8) (readerAt a 0).buffer).take (k + 1)
      = a := by
    show (List.drop (0 / 8) a).take (k + 1) = a
    rw [Nat.zero_div, List.drop_zero, ← hk, List.take_length]
  rw [htake] at hval
  have hlt := bitsValue_lt (readerAt a 0).buffer ((readerAt a 0).buffer_offset + (k + 1))
    (7 * (k + 1))
  refine ⟨?_, ?_, ?_⟩
  · rw [hrun, hval, hk]
    simp only [readerAt, Nat.zero_add]
  · rw [hk, ← hval]
    exact Nat.le_add_left _ _
  · rw [hk, ← hval, pow_succ]
    omega

/-- Inside the buffer `next_bits` returns the big-endian value of the field
and leaves the reader as it was, when the cursor is byte-aligned or the field
ends in the first four bytes touched. -/
theorem next_bits_spec (cfg : Build) (bs : Bitstream_t) (n : Nat) (hn2 : 2 ≤ n) (hn : n ≤ 32)
    (hcase : bs.buffer_offset % 8 = 0 ∨ n + bs.buffer_offset % 8 ≤ 32)
    (h : InBuffer bs n) :
    next_bits cfg bs n = Outcome.ret (bitsValue bs.buffer bs.buffer_offset n) bs := by
  obtain ⟨ha, hb, hc⟩ := h
  have hno : ¬ bs.buffer_size
      < bs.buffer_offset / 8 + ((n + bs.buffer_offset % 8) % 2 ^ 32 + 7) / 8 := by omega
  have hd0 : ¬ (cfg.ENABLE_DEBUG = true ∧ n = 0) := fun hc => absurd hc.2 (by omega)
  have hd1 : ¬ (cfg.ENABLE_DEBUG = true ∧ 32 < n) := fun hc => absurd hc.2 (by omega)
  have h1 : ¬ n = 1 := by omega
  simp only [next_bits, if_neg hd0, if_neg hd1, if_neg h1, if_neg hno,
    read_bits_fetch_spec 32 (Or.inl rfl) bs n hn hcase (by omega)]

/-! ## Capacity of the sample table of `wave_indexer_initmap` -/

/-- A run of the sample-filling loop keeps the length of the five sample
arrays, never lowers `sample_count`, and keeps it at or below
`pcm_samples_count` when it starts there. -/
theorem wave_pcm_loop_bounds (invalid : Int) (data : dataChunk_t) (f cnt : Nat) (tick : Double)
    (fuel : Nat) :
    ∀ (i : Int) (t t' : BitstreamMap_t),
      wave_pcm_loop invalid data f cnt tick fuel i t = some t' →
      t'.sample_type.length = t.sample_type.length
        ∧ t'.sample_size.length = t.sample_size.length
        ∧ t'.sample_offset.length = t.sample_offset.length
        ∧ t'.sample_pts.length = t.sample_pts.length
        ∧ t'.sample_dts.length = t.sample_dts.length
        ∧ t.sample_count ≤ t'.sample_count
        ∧ (t.sample_count ≤ cnt → t'.sample_count ≤ cnt) := by
  induction fuel with
  | zero =>
    intro i t t' h
    unfold wave_pcm_loop at h
    split_ifs at h
    cases h
    exact ⟨rfl, rfl, rfl, rfl, rfl, le_refl _, fun h => h⟩
  | succ fuel ih =>
    intro i t t' h
    unfold wave_pcm_loop at h
    dsimp only at h
    split_ifs at h with hi hsid hb
    · obtain ⟨h1, h2, h3, h4, h5, h6, h7⟩ := ih _ _ _ h
      simp only [List.length_set] at h1 h2 h3 h4 h5
      have h6a : t.sample_count + 1 ≤ t'.sample_count := h6
      exact ⟨h1, h2, h3, h4, h5, by omega, fun _ => h7 (by show t.sample_count + 1 ≤ cnt; omega)⟩
    · exact ih _ _ _ h
    · cases h
      exact ⟨rfl, rfl, rfl, rfl, rfl, le_refl _, fun h => h⟩

/-- The run of `wave_indexer_initmap` on a linear-PCM description with at
least one whole frame of data, for a media without audio track, in terms of
its sample-filling loop: the loop, run on the zeroed table of `floor(D / f)`
entries (capped at `UINT32_MAX`) after the header assignments, ends and leaves
the track the call stores in slot 0, up to the duration computed last. -/
theorem wave_indexer_initmap_pcm_loop_run (env : WaveEnv) (media : MediaFile_t) (wave : wave_t)
    (htyped : wave.WellTyped)
    (htag : wave.fmt.wFormatTag = env.WAVE_FORMAT_MS_PCM ∨
      wave.fmt.wFormatTag = env.WAVE_FORMAT_EXTENSIBLE)
    (hc : 1 ≤ wave.fmt.nChannels) (hb : 8 ≤ wave.fmt.wBitsPerSample)
    (hD : (wave.frame : Int) ≤ wave.data.datasSize)
    (hnone : media.tracks_audio[0]? = some none) (hcount : media.tracks_audio_count = 0) :
    ∃ (tick : Double) (filled : BitstreamMap_t),
      wave_pcm_loop env.invalid_int64 wave.data wave.frame
          (min (wave.data.datasSize / (wave.frame : Int)).toNat UINT32_MAX) tick
          wave.data.datasSize.toNat 0
          { wave_track_header env wave
              (zeroed_bitstream_map
                (min (wave.data.datasSize / (wave.frame : Int)).toNat UINT32_MAX)) with
            sample_alignment := true } = some filled
        ∧ wave_indexer_initmap env media wave
          = some (SUCCESS,
              { media with
                  tracks_audio :=
                    media.tracks_audio.set 0
                      (some
                        { filled with
                            duration_ms :=
                              dbl_to_int64 env.invalid_int64
                                (dbl_mul (dbl_of_int filled.sample_count)
                                  (dbl_div (dbl_of_int 1000)
                                    (dbl_of_int wave.fmt.nSamplesPerSec))) }) })
        ∧ filled.sample_count = min (wave.data.datasSize / (wave.frame : Int)).toNat UINT32_MAX
        ∧ (wave_track_header env wave
            (zeroed_bitstream_map
              (min (wave.data.datasSize / (wave.frame : Int)).toNat UINT32_MAX))).sample_type.length
            = min (wave.data.datasSize / (wave.frame : Int)).toNat UINT32_MAX
        ∧ (wave_track_header env wave
            (zeroed_bitstream_map
              (min (wave.data.datasSize / (wave.frame : Int)).toNat UINT32_MAX))).sample_size.length
            = min (wave.data.datasSize / (wave.frame : Int)).toNat UINT32_MAX
        ∧ (wave_track_header env wave
            (zeroed_bitstream_map
              (min (wave.data.datasSize / (wave.frame : Int)).toNat UINT32_MAX))).sample_offset.length
            = min (wave.data.datasSize / (wave.frame : Int)).toNat UINT32_MAX
        ∧ (wave_track_header env wave
            (zeroed_bitstream_map
              (min (wave.data.datasSize / (wave.frame : Int)).toNat UINT32_MAX))).sample_pts.length
            = min (wave.data.datasSize / (wave.frame : Int)).toNat UINT32_MAX
        ∧ (wave_track_header env wave
            (zeroed_bitstream_map
              (min (wave.data.datasSize / (wave.frame : Int)).toNat UINT32_MAX))).sample_dts.length
            = min (wave.data.datasSize / (wave.frame : Int)).toNat UINT32_MAX
        ∧ ((min (wave.data.datasSize / (wave.frame : Int)).toNat UINT32_MAX : Nat) : Int)
            * (wave.frame : Int) ≤ wave.data.datasSize
        ∧ 1 ≤ wave.frame := by
  obtain ⟨_, hc16, _, _, hb16, _, _, _, hD0, hD63⟩ := htyped
  have hframe : wave.fmt.nChannels * (wave.fmt.wBitsPerSample / 8) = wave.frame := rfl
  have hb8 : 1 ≤ wave.fmt.wBitsPerSample / 8 := by omega
  have hf1 : 1 ≤ wave.frame := by
    rw [← hframe]; exact Nat.mul_pos hc hb8
  have hf32 : wave.frame < 2 ^ 32 := by
    rw [← hframe]
    calc wave.fmt.nChannels * (wave.fmt.wBitsPerSample / 8)
        ≤ 2 ^ 16 * 2 ^ 13 := Nat.mul_le_mul (by omega) (by omega)
      _ < 2 ^ 32 := by norm_num
  have hfpos : (0 : Int) < (wave.frame : Int) := by exact_mod_cast hf1
  have hDnn : 0 ≤ wave.data.datasSize := le_trans (le_of_lt hfpos) hD
  set cnt := min (wave.data.datasSize / (wave.frame : Int)).toNat UINT32_MAX with hcnt
  have hq : 0 ≤ wave.data.datasSize / (wave.frame : Int) := Int.ediv_nonneg hDnn (le_of_lt hfpos)
  have hq1 : 1 ≤ wave.data.datasSize / (wave.frame : Int) :=
    (Int.le_ediv_iff_mul_le hfpos).2 (by simpa using hD)
  have hcnt1 : 1 ≤ cnt := by
    rw [hcnt]; refine le_min ?_ (by decide)
    omega
  have hcount_eq : min ((Int.tdiv wave.data.datasSize (wave.frame : Int)) % 2 ^ 64).toNat UINT32_MAX
      = cnt := by
    rw [Int.tdiv_eq_ediv hDnn (le_of_lt hfpos), Int.emod_eq_of_lt hq]
    have : wave.data.datasSize / (wave.frame : Int) ≤ wave.data.datasSize :=
      Int.ediv_le_self _ hDnn
    omega
  have hroom : (cnt : Int) * (wave.frame : Int) ≤ wave.data.datasSize := by
    have h1 : (cnt : Int) ≤ wave.data.datasSize / (wave.frame : Int) := by
      have : cnt ≤ (wave.data.datasSize / (wave.frame : Int)).toNat := min_le_left _ _
      omega
    calc (cnt : Int) * (wave.frame : Int)
        ≤ (wave.data.datasSize / (wave.frame : Int)) * (wave.frame : Int) :=
          mul_le_mul_of_nonneg_right h1 (le_of_lt hfpos)
      _ ≤ wave.data.datasSize := Int.ediv_mul_le _ (ne_of_gt hfpos)
  have hlen : 0 < media.tracks_audio.length := by
    rcases Nat.lt_or_ge 0 media.tracks_audio.length with h | h
    · exact h
    · rw [List.getElem?_eq_none (by omega)] at hnone; cases hnone
  have hdec : decide (wave.fmt.wFormatTag = env.WAVE_FORMAT_MS_PCM ∨
      wave.fmt.wFormatTag = env.WAVE_FORMAT_EXTENSIBLE) = true := decide_eq_true htag
  have hnz : ¬ (true = true ∧ wave.frame = 0) := fun h => by omega
  have hcnt0 : cnt ≠ 0 := by omega
  obtain ⟨hh1, hh2, hh3, hh4, hh5, hh6, hh7, hh8, hh9, hh10, hh11⟩ :=
    wave_track_header_pcm env wave (zeroed_bitstream_map cnt) htag
  have hset0 : ∀ x : Option BitstreamMap_t, (media.tracks_audio.set 0 x)[0]? = some x :=
    fun x => List.getElem?_set_self hlen
  have hF : ((wave_track_header env wave (zeroed_bitstream_map cnt)).channel_count
      * ((wave_track_header env wave (zeroed_bitstream_map cnt)).bit_per_sample / 8)) % 2 ^ 32
      = wave.frame := by
    rw [hh3, hh4, hframe, Nat.mod_eq_of_lt hf32]
  have hfuel : wave.data.datasSize
      ≤ 0 + ((wave.data.datasSize.toNat : Nat) : Int) * (wave.frame : Int) := by
    rw [Int.toNat_of_nonneg hDnn]
    nlinarith
  obtain ⟨filled, hrun, hfc, hfh, -, hfnew⟩ :=
    wave_pcm_loop_fill env.invalid_int64 wave.data wave.frame cnt
      (dbl_div (dbl_of_int 1000000)
        (dbl_of_int (wave_track_header env wave (zeroed_bitstream_map cnt)).sampling_rate))
      hf1 hroom cnt wave.data.datasSize.toNat 0
      { wave_track_header env wave (zeroed_bitstream_map cnt) with sample_alignment := true }
      (by show (wave_track_header env wave (zeroed_bitstream_map cnt)).sample_count + cnt = cnt
          rw [hh6]; simp [zeroed_bitstream_map])
      (by show (0 : Int)
            = ((wave_track_header env wave (zeroed_bitstream_map cnt)).sample_count : Int) * _
          rw [hh6]; simp [zeroed_bitstream_map])
      hfuel
      (by show cnt ≤ (wave_track_header env wave (zeroed_bitstream_map cnt)).sample_type.length
          rw [hh7]; simp [zeroed_bitstream_map])
      (by show cnt ≤ (wave_track_header env wave (zeroed_bitstream_map cnt)).sample_size.length
          rw [hh8]; simp [zeroed_bitstream_map])
      (by show cnt ≤ (wave_track_header env wave (zeroed_bitstream_map cnt)).sample_offset.length
          rw [hh9]; simp [zeroed_bitstream_map])
      (by show cnt ≤ (wave_track_header env wave (zeroed_bitstream_map cnt)).sample_pts.length
          rw [hh10]; simp [zeroed_bitstream_map])
      (by show cnt ≤ (wave_track_header env wave (zeroed_bitstream_map cnt)).sample_dts.length
          rw [hh11]; simp [zeroed_bitstream_map])
  have hrate : filled.sampling_rate = wave.fmt.nSamplesPerSec := by
    have := congrArg BitstreamMap_t.sampling_rate hfh
    simpa [BitstreamMap_t.header, hh5] using this
  have hrun0 := hrun
  refine ⟨_, filled, hrun0, ?_, hfc, by rw [hh7]; simp [zeroed_bitstream_map],
    by rw [hh8]; simp [zeroed_bitstream_map], by rw [hh9]; simp [zeroed_bitstream_map],
    by rw [hh10]; simp [zeroed_bitstream_map], by rw [hh11]; simp [zeroed_bitstream_map], hroom,
    hf1⟩
  simp only [wave_indexer_initmap, hdec, hframe, hcount_eq, hnone, init_bitstream_map,
    if_neg hnz, if_true, if_neg hcnt0, hcount, MediaFile_t.track, MediaFile_t.setTrack, hset0,
    List.set_set, if_pos hh1, ne_eq, not_true_eq_false, if_false, hF]
  dsimp only at hrun
  rw [if_neg (fun h => hnz ⟨rfl, h.2⟩), hrun]
  simp only [hrate]

/-! # Claims -/

/-- C1 (the code departs from the claim): a 32-bit field that starts 4 bits
into a byte lies inside the buffer and holds `0xFFFFFFFF`, yet `read_bits(32)`
returns `0x0FFFFFFF`; the cursor still advances by 32 bits. -/
theorem read_bits_field_over_five_bytes (cfg : Build) :
    InBuffer (readerAt [0x0F, 0xFF, 0xFF, 0xFF, 0xF0] 4) 32
      ∧ bitsValue [0x0F, 0xFF, 0xFF, 0xFF, 0xF0] 4 32 = 0xFFFFFFFF
      ∧ read_bits cfg (readerAt [0x0F, 0xFF, 0xFF, 0xFF, 0xF0] 4) 32
          = Outcome.ret 0x0FFFFFFF (readerAt [0x0F, 0xFF, 0xFF, 0xFF, 0xF0] 36) := by
  obtain ⟨size, dbg, inv⟩ := cfg
  cases dbg <;> exact ⟨by decide, by decide, by rfl⟩

/-- C2 (the code departs from the claim): the value `2^32` written as a 33-bit
field at bit 1 of a buffer is read back by `read_bits_64(33)` as `2^25`. -/
theorem read_bits_64_round_trip_fails (cfg : Build) :
    InBuffer (readerAt [0x40, 0x00, 0x00, 0x00, 0x00] 1) 33
      ∧ bitsValue [0x40, 0x00, 0x00, 0x00, 0x00] 1 33 = 2 ^ 32
      ∧ read_bits_64 cfg (readerAt [0x40, 0x00, 0x00, 0x00, 0x00] 1) 33
          = Outcome.ret (2 ^ 25) (readerAt [0x40, 0x00, 0x00, 0x00, 0x00] 34) := by
  obtain ⟨size, dbg, inv⟩ := cfg
  cases dbg <;> exact ⟨by decide, by decide, by rfl⟩

/-- C3 (the code departs from the claim): from the same state 32 calls of
`read_bit` assemble `0xFFFFFFFF` while one `read_bits(32)` returns
`0x0FFFFFFF`; both leave the cursor at bit 36. -/
theorem read_bit_times_differs_from_read_bits (cfg : Build) :
    InBuffer (readerAt [0x0F, 0xFF, 0xFF, 0xFF, 0xF0] 4) 32
      ∧ read_bit_times cfg 32 0 (readerAt [0x0F, 0xFF, 0xFF, 0xFF, 0xF0] 4)
          = Outcome.ret 0xFFFFFFFF (readerAt [0x0F, 0xFF, 0xFF, 0xFF, 0xF0] 36)
      ∧ read_bits cfg (readerAt [0x0F, 0xFF, 0xFF, 0xFF, 0xF0] 4) 32
          = Outcome.ret 0x0FFFFFFF (readerAt [0x0F, 0xFF, 0xFF, 0xFF, 0xF0] 36) := by
  obtain ⟨size, dbg, inv⟩ := cfg
  cases dbg <;> exact ⟨by decide, by rfl, by rfl⟩

/-- C4 (the code departs from the claim): the five-byte size field
`08 00 00 00 10` (prefix length 4, payload 16) decodes to 0 instead of 16,
with 5 bytes consumed; the one-byte field `82` decodes to 2. -/
theorem read_ebml_size_five_byte_field (cfg : Build) :
    InBuffer (readerAt [0x08, 0x00, 0x00, 0x00, 0x10] 0) 40
      ∧ bitsValue [0x08, 0x00, 0x00, 0x00, 0x10] 0 5 = 1
      ∧ bitsValue [0x08, 0x00, 0x00, 0x00, 0x10] 5 35 = 16
      ∧ read_ebml_size cfg (readerAt [0x08, 0x00, 0x00, 0x00, 0x10] 0)
          = Outcome.ret 0 (readerAt [0x08, 0x00, 0x00, 0x00, 0x10] 40)
      ∧ read_ebml_size cfg (readerAt [0x82] 0) = Outcome.ret 2 (readerAt [0x82] 8) := by
  obtain ⟨size, dbg, inv⟩ := cfg
  cases dbg <;> exact ⟨by decide, by decide, by decide, by rfl, by rfl⟩

/-- C5: for a prefix length `k ≤ 3`, an identifier of `k` zero bits, the marker
bit and `7(k+1)` payload bits at a byte-aligned cursor inside the buffer
decodes to payload + `2^(7(k+1))`, which is the big-endian integer of its
`k+1` bytes, and the reader advances by exactly `k+1` bytes; `40 02` decodes
to `0x4002 = 2 + 2^14` and `1A 45 DF A3` to `eid_EBML`. -/
theorem read_ebml_eid_spec (cfg : Build) (bs : Bitstream_t) (k : Nat) (hk : k ≤ 3)
    (halign : bs.buffer_offset % 8 = 0) (hin : InBuffer bs (8 * (k + 1)))
    (hzeros : ∀ i, i < k → bitAt bs.buffer (bs.buffer_offset + i) = 0)
    (hmarker : bitAt bs.buffer (bs.buffer_offset + k) = 1) :
    read_ebml_eid cfg bs
        = Outcome.ret
            (bitsValue bs.buffer (bs.buffer_offset + (k + 1)) (7 * (k + 1)) + 2 ^ (7 * (k + 1)))
            { bs with buffer_offset := bs.buffer_offset + 8 * (k + 1) }
      ∧ bitsValue bs.buffer (bs.buffer_offset + (k + 1)) (7 * (k + 1)) + 2 ^ (7 * (k + 1))
          = beInt ((bs.buffer.drop (bs.buffer_offset / 8)).take (k + 1))
      ∧ bitstream_get_absolute_byte_offset
            { bs with buffer_offset := bs.buffer_offset + 8 * (k + 1) }
          = bitstream_get_absolute_byte_offset bs + ((k + 1 : Nat) : Int)
      ∧ read_ebml_eid cfg (readerAt [0x40, 0x02] 0)
          = Outcome.ret 0x4002 (readerAt [0x40, 0x02] 16)
      ∧ (0x4002 : Nat) = 2 + 2 ^ 14
      ∧ read_ebml_eid cfg (readerAt [0x1A, 0x45, 0xDF, 0xA3] 0)
          = Outcome.ret eid_EBML (readerAt [0x1A, 0x45, 0xDF, 0xA3] 32) := by
  obtain ⟨ha, hb, hc⟩ := hin
  have hprefix := ebml_leading_zeros_spec cfg k 4 0 bs (by omega) ⟨by omega, hb, hc⟩ hzeros hmarker
  have hlt := bitsValue_lt bs.buffer (bs.buffer_offset + (k + 1)) (7 * (k + 1))
  have hpow : 2 ^ (7 * (k + 1)) ≤ 2 ^ 28 := Nat.pow_le_pow_right (by decide) (by omega)
  have hread := read_bits_64_spec cfg { bs with buffer_offset := bs.buffer_offset + (k + 1) }
    (7 * (k + 1)) (by omega) (by omega) (Or.inr (by simp only; omega))
    ⟨by simp only; omega, hb, hc⟩
  refine ⟨?_, ?_, ?_, ?_, by norm_num, ?_⟩
  · simp only [read_ebml_eid, hprefix, Nat.zero_add, Nat.mul_comm (k + 1) 7, hread,
      ebml_eid_value]
    rw [if_pos (by omega)]
    congr 2
    omega
  · have hq : bs.buffer_offset = 8 * (bs.buffer_offset / 8) := by omega
    have hbytes := bitsValue_bytes bs.buffer (bs.buffer_offset / 8) (k + 1) (by omega)
    rw [← hq] at hbytes
    have happ := bitsValue_append bs.buffer bs.buffer_offset (k + 1) (7 * (k + 1))
    have hone : bitsValue bs.buffer bs.buffer_offset (k + 1) = 1 := by
      rw [bitsValue, bitsValue_zeros bs.buffer _ k hzeros, hmarker]
    rw [hone, show k + 1 + 7 * (k + 1) = 8 * (k + 1) by ring, hbytes] at happ
    rw [happ]
    ring
  · simp only [bitstream_get_absolute_byte_offset]
    have : (bs.buffer_offset + 8 * (k + 1)) / 8 = bs.buffer_offset / 8 + (k + 1) := by omega
    rw [this]
    push_cast
    ring
  · obtain ⟨size, dbg, inv⟩ := cfg
    cases dbg <;> rfl
  · obtain ⟨size, dbg, inv⟩ := cfg
    cases dbg <;> rfl

/-- Witness for C5: the four-byte header identifier `1A 45 DF A3` (`k = 3`). -/
theorem read_ebml_eid_spec_witness :
    read_ebml_eid ⟨262144, false, 0⟩ (readerAt [0x1A, 0x45, 0xDF, 0xA3] 0)
        = Outcome.ret
            (bitsValue [0x1A, 0x45, 0xDF, 0xA3] 4 28 + 2 ^ 28)
            (readerAt [0x1A, 0x45, 0xDF, 0xA3] 32)
      ∧ bitsValue [0x1A, 0x45, 0xDF, 0xA3] 4 28 + 2 ^ 28 = 0x1A45DFA3 :=
  ⟨(read_ebml_eid_spec ⟨262144, false, 0⟩ (readerAt [0x1A, 0x45, 0xDF, 0xA3] 0) 3 (by decide)
      (by decide) (by decide) (by decide) (by decide)).1, by decide⟩

/-- C6 (the code departs from the claim): the header `1A 45 DF A3 82` at offset
0 has a 4-byte identifier, a 1-byte size field and declares 2 payload bytes.
The reader stands at byte 5 after the header, the payload ends at byte 7, and
`parse_ebml_element` records `offset_end = 6`: the size field is left out of
the sum. -/
theorem parse_ebml_element_offset_end (cfg : Build) :
    parse_ebml_element cfg (readerAt [0x1A, 0x45, 0xDF, 0xA3, 0x82, 0x00, 0x00, 0x00] 0)
      = Outcome.ret
          (SUCCESS,
            { eid := 0x1A45DFA3, eid_size := 4, size := 2, size_size := 1,
              offset_start := 0, offset_end := 6 })
          (readerAt [0x1A, 0x45, 0xDF, 0xA3, 0x82, 0x00, 0x00, 0x00] 40)
      ∧ bitstream_get_absolute_byte_offset
          (readerAt [0x1A, 0x45, 0xDF, 0xA3, 0x82, 0x00, 0x00, 0x00] 40) = 5
      ∧ (0 : Int) + (4 + 1 : Nat) + 2 = 7 := by
  obtain ⟨size, dbg, inv⟩ := cfg
  cases dbg <;> exact ⟨by rfl, by decide, by decide⟩

/-- C7 (the code departs from the claim): `jumpy_mkv` returns `SUCCESS` and
leaves the reader where it was, for every reader, parent and child. With a
parent ending at byte 6 of an 8-byte source, a child declared to end at byte
20 and the reader at byte 5, the reader stays at byte 5 instead of moving to
byte 6. -/
theorem jumpy_mkv_does_not_move (bs : Bitstream_t) (parent : Option EbmlElement_t)
    (current : EbmlElement_t) :
    jumpy_mkv bs parent current = Outcome.ret SUCCESS bs
      ∧ jumpy_mkv (readerAt [0x1A, 0x45, 0xDF, 0xA3, 0x82, 0x00, 0x00, 0x00] 40)
          (some { offset_start := 0, offset_end := 6 })
          { offset_start := 3, offset_end := 20 }
        = Outcome.ret SUCCESS (readerAt [0x1A, 0x45, 0xDF, 0xA3, 0x82, 0x00, 0x00, 0x00] 40)
      ∧ bitstream_get_absolute_byte_offset
          (readerAt [0x1A, 0x45, 0xDF, 0xA3, 0x82, 0x00, 0x00, 0x00] 40) = 5
      ∧ (readerAt [0x1A, 0x45, 0xDF, 0xA3, 0x82, 0x00, 0x00, 0x00] 40).bitstream_size = 8 :=
  ⟨rfl, by rfl, by decide, by decide⟩

/-- C8 (the code departs from the claim): `ebml_parse_unknown` returns
`FAILURE` and leaves the reader where it was, for every reader and element,
with or without a sink. For the element of unknown identifier `0x81` with a
2-byte payload starting at byte 2 the reader stays at byte 2 instead of
moving to byte 4. -/
theorem ebml_parse_unknown_fails (bs : Bitstream_t) (element : EbmlElement_t) (xml : Bool) :
    ebml_parse_unknown bs element xml = Outcome.ret FAILURE bs
      ∧ ebml_parse_unknown (readerAt [0x81, 0x82, 0xAA, 0xBB, 0x00] 16)
          { eid := 0x81, eid_size := 1, size := 2, size_size := 1, offset_start := 0,
            offset_end := 3 } xml
        = Outcome.ret FAILURE (readerAt [0x81, 0x82, 0xAA, 0xBB, 0x00] 16)
      ∧ bitstream_get_absolute_byte_offset (readerAt [0x81, 0x82, 0xAA, 0xBB, 0x00] 16) = 2
      ∧ FAILURE ≠ SUCCESS :=
  ⟨rfl, by rfl, by decide, by decide⟩

/-- C9: for a linear-PCM description (tag `MS_PCM` or `EXTENSIBLE`) with
`c ≥ 1` channels, `b ≥ 8` bits per sample and a data region of at least one
frame `f = c * (b / 8)`, on a media without audio track,
`wave_indexer_initmap` returns `SUCCESS` and leaves an audio track with
`sample_count = floor(D / f)` capped at `UINT32_MAX`, every sample of size `f`
and sample `i` at offset `datasOffset + i * f`; for `c = 2`, `b = 16`,
`D = 4096` that is 1024 samples of 4 bytes. -/
theorem wave_indexer_initmap_sample_table (env : WaveEnv) (media : MediaFile_t) (wave : wave_t)
    (htyped : wave.WellTyped)
    (htag : wave.fmt.wFormatTag = env.WAVE_FORMAT_MS_PCM ∨
      wave.fmt.wFormatTag = env.WAVE_FORMAT_EXTENSIBLE)
    (hc : 1 ≤ wave.fmt.nChannels) (hb : 8 ≤ wave.fmt.wBitsPerSample)
    (hD : (wave.frame : Int) ≤ wave.data.datasSize)
    (hnone : media.tracks_audio[0]? = some none) (hcount : media.tracks_audio_count = 0) :
    ∃ (media' : MediaFile_t) (track : BitstreamMap_t),
      wave_indexer_initmap env media wave = some (SUCCESS, media') ∧
        media'.track 0 = some track ∧
        track.stream_type = StreamType_e.stream_AUDIO ∧
        track.sample_count = min (wave.data.datasSize / (wave.frame : Int)).toNat UINT32_MAX ∧
        (∀ i, i < track.sample_count →
          track.sample_size[i]? = some wave.frame ∧
            track.sample_offset[i]?
              = some (wave.data.datasOffset + (i : Int) * (wave.frame : Int))) ∧
        ((wave.fmt.nChannels = 2 ∧ wave.fmt.wBitsPerSample = 16 ∧ wave.data.datasSize = 4096) →
          track.sample_count = 1024 ∧ wave.frame = 4) := by
  obtain ⟨filled, hrun, hcnt, hhead, hentries⟩ :=
    wave_indexer_initmap_pcm_run env media wave htyped htag hc hb hD hnone hcount
  have hlen : 0 < media.tracks_audio.length := by
    rcases Nat.lt_or_ge 0 media.tracks_audio.length with h | h
    · exact h
    · rw [List.getElem?_eq_none (by omega)] at hnone; cases hnone
  have htype : filled.stream_type = StreamType_e.stream_AUDIO := by
    have := congrArg BitstreamMap_t.stream_type hhead
    simpa [BitstreamMap_t.header, (wave_track_header_pcm env wave _ htag).2.1] using this
  refine ⟨_,
    { filled with
        duration_ms :=
          dbl_to_int64 env.invalid_int64
            (dbl_mul (dbl_of_int filled.sample_count)
              (dbl_div (dbl_of_int 1000) (dbl_of_int wave.fmt.nSamplesPerSec))) },
    hrun, ?_, htype, hcnt, hentries, ?_⟩
  · simp only [MediaFile_t.track, List.getElem?_set_self hlen]
  · rintro ⟨h2, h16, h4096⟩
    have hf : wave.frame = 4 := by simp [wave_t.frame, h2, h16]
    refine ⟨?_, hf⟩
    show filled.sample_count = 1024
    rw [hcnt, hf, h4096]
    decide

/-- Witness for C9: two channels of 16 bits, 4096 data bytes at offset 44. -/
theorem wave_indexer_initmap_sample_table_witness :
    ∃ (media' : MediaFile_t) (track : BitstreamMap_t),
      wave_indexer_initmap ⟨1, 0xFFFE, fun _ => 0, -(2 ^ 63)⟩
          { tracks_audio := [none, none], tracks_audio_count := 0 }
          ⟨⟨1, 2, 8000, 32000, 16⟩, ⟨0⟩, ⟨44, 4096⟩⟩ = some (SUCCESS, media') ∧
        media'.track 0 = some track ∧
        track.sample_count = 1024 ∧
        (∀ i, i < track.sample_count →
          track.sample_size[i]? = some 4 ∧ track.sample_offset[i]? = some (44 + (i : Int) * 4)) := by
  obtain ⟨media', track, h1, h2, -, -, h5, h6⟩ :=
    wave_indexer_initmap_sample_table ⟨1, 0xFFFE, fun _ => 0, -(2 ^ 63)⟩
      { tracks_audio := [none, none], tracks_audio_count := 0 }
      ⟨⟨1, 2, 8000, 32000, 16⟩, ⟨0⟩, ⟨44, 4096⟩⟩
      (by decide) (Or.inl rfl) (by decide) (by decide) (by decide) rfl rfl
  exact ⟨media', track, h1, h2, (h6 ⟨rfl, rfl, rfl⟩).1, h5⟩

/-- C10 (counterexample): 19 one-byte frames at 19 Hz. The indexer stores 19
samples and the duration 999 ms, and `wave_indexer` reports 999, while
`19 * 1000 / 19 = 1000`. -/
theorem wave_duration_19_at_19 :
    (wave_indexer_initmap ⟨1, 0xFFFE, fun _ => 0, -(2 ^ 63)⟩
          { tracks_audio := [none, none], tracks_audio_count := 0 }
          ⟨⟨1, 1, 19, 19, 8⟩, ⟨0⟩, ⟨44, 19⟩⟩).map
        (fun p => (p.1, (p.2.track 0).map fun t => (t.sample_count, t.sampling_rate, t.duration_ms)))
        = some (SUCCESS, some (19, 19, 999))
      ∧ (wave_indexer ⟨1, 0xFFFE, fun _ => 0, -(2 ^ 63)⟩
          { tracks_audio := [none, none], tracks_audio_count := 0 }
          ⟨⟨1, 1, 19, 19, 8⟩, ⟨0⟩, ⟨44, 19⟩⟩).map (fun p => (p.1, p.2.duration))
        = some (SUCCESS, 999)
      ∧ (19 : Int) * 1000 / 19 = 1000 := by
  refine ⟨by decide!, by decide!, by decide⟩

/-- C10 (amended): for a linear-PCM description as in C9 with a sampling rate
`r > 0`, the track's `duration_ms` after `wave_indexer_initmap` is the
truncated `double` product `(double)sample_count * (1000.0 / (double)r)`,
whatever was assigned to it earlier in the function; it is
`floor(sample_count * 1000 / r)` or one less (128 for 1024 samples at
8000 Hz), and `wave_indexer` reports the same value as `media.duration`. -/
theorem wave_indexer_duration (env : WaveEnv) (media : MediaFile_t) (wave : wave_t)
    (htyped : wave.WellTyped)
    (htag : wave.fmt.wFormatTag = env.WAVE_FORMAT_MS_PCM ∨
      wave.fmt.wFormatTag = env.WAVE_FORMAT_EXTENSIBLE)
    (hc : 1 ≤ wave.fmt.nChannels) (hb : 8 ≤ wave.fmt.wBitsPerSample)
    (hD : (wave.frame : Int) ≤ wave.data.datasSize)
    (hnone : media.tracks_audio[0]? = some none) (hcount : media.tracks_audio_count = 0)
    (hrate : 1 ≤ wave.fmt.nSamplesPerSec) :
    ∃ (media' : MediaFile_t) (track : BitstreamMap_t) (d : Nat),
      wave_indexer_initmap env media wave = some (SUCCESS, media') ∧
        media'.track 0 = some track ∧
        track.sample_count = min (wave.data.datasSize / (wave.frame : Int)).toNat UINT32_MAX ∧
        track.duration_ms
          = dbl_to_int64 env.invalid_int64
              (dbl_mul (dbl_of_int track.sample_count)
                (dbl_div (dbl_of_int 1000) (dbl_of_int wave.fmt.nSamplesPerSec))) ∧
        track.duration_ms = (d : Int) ∧
        d * wave.fmt.nSamplesPerSec ≤ 1000 * track.sample_count ∧
        1000 * track.sample_count < (d + 2) * wave.fmt.nSamplesPerSec ∧
        ((track.sample_count = 1024 ∧ wave.fmt.nSamplesPerSec = 8000) → track.duration_ms = 128) ∧
        wave_indexer env media wave
          = some (SUCCESS, { media' with tracks_audio_count := 1, duration := (d : Int) }) := by
  obtain ⟨filled, hrun, hcnt, -, -⟩ :=
    wave_indexer_initmap_pcm_run env media wave htyped htag hc hb hD hnone hcount
  have hlen : 0 < media.tracks_audio.length := by
    rcases Nat.lt_or_ge 0 media.tracks_audio.length with h | h
    · exact h
    · rw [List.getElem?_eq_none (by omega)] at hnone; cases hnone
  have hs32 : filled.sample_count < 2 ^ 32 := by
    rw [hcnt]
    exact lt_of_le_of_lt (min_le_right _ _) (by decide)
  obtain ⟨d, hd, hd1, hd2⟩ :=
    wave_duration_close env.invalid_int64 filled.sample_count wave.fmt.nSamplesPerSec hs32 hrate
      htyped.2.2.1
  refine ⟨_,
    { filled with
        duration_ms :=
          dbl_to_int64 env.invalid_int64
            (dbl_mul (dbl_of_int filled.sample_count)
              (dbl_div (dbl_of_int 1000) (dbl_of_int wave.fmt.nSamplesPerSec))) },
    d, hrun, ?_, hcnt, rfl, hd, hd1, hd2, ?_, ?_⟩
  · simp only [MediaFile_t.track, List.getElem?_set_self hlen]
  · rintro ⟨h1024, h8000⟩
    show dbl_to_int64 env.invalid_int64
        (dbl_mul (dbl_of_int filled.sample_count)
          (dbl_div (dbl_of_int 1000) (dbl_of_int wave.fmt.nSamplesPerSec))) = 128
    have e1 : filled.sample_count = 1024 := h1024
    rw [e1, h8000]
    exact wave_duration_1024_at_8000 env.invalid_int64
  · simp only [wave_indexer, hrun, List.getElem?_set_self hlen, if_true, hd]

/-- Witness for C10: two channels of 16 bits at 8000 Hz, 4096 data bytes. -/
theorem wave_indexer_duration_witness :
    ∃ (media' : MediaFile_t) (track : BitstreamMap_t),
      wave_indexer_initmap ⟨1, 0xFFFE, fun _ => 0, -(2 ^ 63)⟩
          { tracks_audio := [none, none], tracks_audio_count := 0 }
          ⟨⟨1, 2, 8000, 32000, 16⟩, ⟨0⟩, ⟨44, 4096⟩⟩ = some (SUCCESS, media') ∧
        media'.track 0 = some track ∧ track.duration_ms = 128 ∧
        wave_indexer ⟨1, 0xFFFE, fun _ => 0, -(2 ^ 63)⟩
            { tracks_audio := [none, none], tracks_audio_count := 0 }
            ⟨⟨1, 2, 8000, 32000, 16⟩, ⟨0⟩, ⟨44, 4096⟩⟩
          = some (SUCCESS, { media' with tracks_audio_count := 1, duration := 128 }) := by
  obtain ⟨media', track, d, h1, h2, h3, -, h4, -, -, h7, h8⟩ :=
    wave_indexer_duration ⟨1, 0xFFFE, fun _ => 0, -(2 ^ 63)⟩
      { tracks_audio := [none, none], tracks_audio_count := 0 }
      ⟨⟨1, 2, 8000, 32000, 16⟩, ⟨0⟩, ⟨44, 4096⟩⟩
      (by decide) (Or.inl rfl) (by decide) (by decide) (by decide) rfl rfl (by decide)
  have hcount : track.sample_count = 1024 := by
    rw [h3]; decide
  have h128 : track.duration_ms = 128 := h7 ⟨hcount, rfl⟩
  have hd : (d : Int) = 128 := by rw [← h4, h128]
  rw [hd] at h8
  exact ⟨media', track, h1, h2, h128, h8⟩

/-- C11 (the code departs from the claim): 11 samples of size 0 of a track of
unknown bitrate mode, all equal to the reference `sample_size[10]`, are
classified `BITRATE_VBR`, and so are 11 samples of size `2^32 - 1`: the
bounds `sample_size[10] - 1` and `sample_size[10] + 1` wrap around in
`uint32_t`. 100 samples of size 64 are classified `BITRATE_CBR`. -/
theorem computeSamplesDatasTrack_equal_sizes_vbr (p : Platform) :
    (∃ t, computeSamplesDatasTrack p (sampleTrack (List.replicate 11 0)) = some t
        ∧ t.bitrate_mode = BitrateMode_e.BITRATE_VBR)
      ∧ (∃ t, computeSamplesDatasTrack p (sampleTrack (List.replicate 11 (2 ^ 32 - 1))) = some t
        ∧ t.bitrate_mode = BitrateMode_e.BITRATE_VBR)
      ∧ (∃ t, computeSamplesDatasTrack p (sampleTrack (List.replicate 100 64)) = some t
        ∧ t.bitrate_mode = BitrateMode_e.BITRATE_CBR) := by
  refine ⟨?_, ?_, ?_⟩
  · obtain ⟨t, h, hm, -, -⟩ := computeSamplesDatasTrack_run p
      (sampleTrack (List.replicate 11 0)) 0 (fun _ => by decide) (by decide) (by decide)
      (by decide) (by decide) (by decide)
    exact ⟨t, h, by rw [hm]; decide⟩
  · obtain ⟨t, h, hm, -, -⟩ := computeSamplesDatasTrack_run p
      (sampleTrack (List.replicate 11 (2 ^ 32 - 1))) (2 ^ 32 - 1) (fun _ => by decide)
      (by decide) (by decide) (by decide) (by decide) (by decide)
    exact ⟨t, h, by rw [hm]; decide⟩
  · obtain ⟨t, h, hm, -, -⟩ := computeSamplesDatasTrack_run p
      (sampleTrack (List.replicate 100 64)) 64 (fun _ => by decide) (by decide) (by decide)
      (by decide) (by decide) (by decide)
    exact ⟨t, h, by rw [hm]; decide⟩

/-- C12: for a track of unknown bitrate mode with at least 11 samples, whose
arrays hold its samples and whose sizes are `uint32_t` values, if the size of
some sample `j` differs from the reference size `sample_size[10]` by more than
one byte then `computeSamplesDatasTrack` returns and sets the bitrate mode to
`BITRATE_VBR`. -/
theorem computeSamplesDatasTrack_vbr (p : Platform) (track : BitstreamMap_t) (j : Nat)
    (hmode : track.bitrate_mode = BitrateMode_e.BITRATE_UNKNOWN)
    (hcount : 11 ≤ track.sample_count) (hcount32 : track.sample_count < 2 ^ 32)
    (htyped : ∀ x ∈ track.sample_size, x < 2 ^ 32)
    (hsizes : track.sample_count ≤ track.sample_size.length)
    (hpts : track.sample_count ≤ track.sample_pts.length)
    (hdts : track.sample_count ≤ track.sample_dts.length)
    (hj : j < track.sample_count)
    (hfar : track.sample_size.getD 10 0 + 1 < track.sample_size.getD j 0
      ∨ track.sample_size.getD j 0 + 1 < track.sample_size.getD 10 0) :
    ∃ t, computeSamplesDatasTrack p track = some t
      ∧ t.bitrate_mode = BitrateMode_e.BITRATE_VBR := by
  have href : track.sample_size[10]? = some (track.sample_size.getD 10 0) := by
    rw [List.getD_eq_getElem?_getD, List.getElem?_eq_getElem (by omega)]; rfl
  have hsize : track.sample_size[j]? = some (track.sample_size.getD j 0) := by
    rw [List.getD_eq_getElem?_getD, List.getElem?_eq_getElem (by omega)]; rfl
  obtain ⟨t, h, hm, -, -⟩ := computeSamplesDatasTrack_run p track _ (fun _ => href)
    hcount32 htyped hsizes hpts hdts
  refine ⟨t, h, ?_⟩
  rw [hm, if_pos hmode,
    far_sample_fails_test track.sample_size track.sample_count _ j _ htyped href hj hsize hfar]
  rfl

/-- Witness for C12: 100 samples of size 64 with the reference sample, of
index 10, changed to 512; sample 0 is more than one byte away from it. -/
theorem computeSamplesDatasTrack_vbr_witness :
    ∃ t, computeSamplesDatasTrack ⟨0, 0⟩ (sampleTrack ((List.replicate 100 64).set 10 512))
        = some t
      ∧ t.bitrate_mode = BitrateMode_e.BITRATE_VBR :=
  computeSamplesDatasTrack_vbr ⟨0, 0⟩ (sampleTrack ((List.replicate 100 64).set 10 512))
    0 rfl (by decide) (by decide) (by decide) (by decide) (by decide) (by decide)
    (by decide) (by decide)

/-- C13 (the code departs from the claim): a track of `2^27` samples with 8
channels of 32 bits, so a frame size of 32 bytes, whose first sample size is
4, gets the stream size 0 while `2^27 * 32 = 2^32`; nine samples of 65535
channels of 8191 bytes get 536207369 while `9 * 536797185 = 4831174665`: the
product `sample_count * sample_size_cbr` is computed in `uint32_t`. -/
theorem computePCMSettings_stream_size_wraps :
    (∃ t, computePCMSettings
            { sample_count := 2 ^ 27, channel_count := 8, bit_per_sample := 32,
              sample_size := List.replicate (2 ^ 27) 4 } = some (SUCCESS, t)
        ∧ t.stream_size = 0 ∧ t.bitrate = 0 ∧ t.sample_size[0]? = some 32)
      ∧ (2 ^ 27 : Nat) * (8 * (32 / 8)) = 2 ^ 32
      ∧ (computePCMSettings
            { sampleTrack (List.replicate 9 0) with
                channel_count := 65535, bit_per_sample := 65528 }).map
          (fun r => (r.1, r.2.stream_size, r.2.bitrate, r.2.sample_size))
          = some (SUCCESS, 536207369, 0, List.replicate 9 536797185)
      ∧ (9 : Nat) * (65535 * (65528 / 8)) = 4831174665 := by
  refine ⟨?_, by decide, by decide, by decide⟩
  obtain ⟨sizes, hrun, -, hk⟩ := computePCMSettings_hack
    { sample_count := 2 ^ 27, channel_count := 8, bit_per_sample := 32,
      sample_size := List.replicate (2 ^ 27) 4 } 4 (by decide)
    (by rw [List.length_replicate]) (by rw [List.getElem?_replicate, if_pos (by decide)])
    (by decide)
  refine ⟨_, hrun, (by decide : (2 ^ 27 * (8 * (32 / 8) % 2 ^ 32) % 2 ^ 32 : Nat) = 0), rfl, ?_⟩
  rw [hk 0, if_pos (by decide)]
  rfl

/-- C14 (counterexample): a track of 600000000 bytes and 1000 ms whose bitrate
is 0 gets the bitrate 505032704, while `round(600000000 / 1000) * 1000 * 8` is
4800000000: the two multiplications are done in `unsigned int`. A track of
`3 * 2^52 - 1` bytes and `2^53` ms gets 16000, while the quotient is below one
and a half and `round` of it times 8000 is 8000: the quotient is computed in
`double`. -/
theorem computeSamplesDatasTrack_bitrate_wraps :
    (computeSamplesDatasTrack ⟨0, 0⟩ { stream_size := 600000000, duration_ms := 1000 }).map
        (fun t => (t.stream_size, t.duration_ms, t.bitrate))
        = some (600000000, 1000, 505032704)
      ∧ round_div 600000000 1000 * 1000 * 8 = 4800000000
      ∧ (computeSamplesDatasTrack ⟨0, 0⟩
            { stream_size := 3 * 2 ^ 52 - 1, duration_ms := 2 ^ 53 }).map
          (fun t => (t.stream_size, t.duration_ms, t.bitrate))
          = some (3 * 2 ^ 52 - 1, 2 ^ 53, 16000)
      ∧ round_div (3 * 2 ^ 52 - 1) (2 ^ 53) * 1000 * 8 = 8000 := by
  refine ⟨by decide!, by decide, by decide!, by decide⟩

/-- C14 (amended): `computeSamplesDatasTrack` returns on a track whose arrays
hold its samples and that has no sample or at least 11 entries in
`sample_size`; with `S` the stream size and `d` the duration it leaves, a
bitrate that was 0 on entry becomes `round(S / d) * 1000 * 8` whenever
`0 < d < 2^53`, `S < 2^52` and that product is below `2^32`, and the bitrate
is left unchanged when it was non-zero on entry or `d = 0`. -/
theorem computeSamplesDatasTrack_bitrate (p : Platform) (track : BitstreamMap_t)
    (hcount32 : track.sample_count < 2 ^ 32)
    (htyped : ∀ x ∈ track.sample_size, x < 2 ^ 32)
    (hsizes : track.sample_count ≤ track.sample_size.length)
    (hpts : track.sample_count ≤ track.sample_pts.length)
    (hdts : track.sample_count ≤ track.sample_dts.length)
    (href : 0 < track.sample_count → 10 < track.sample_size.length) :
    ∃ t, computeSamplesDatasTrack p track = some t
      ∧ (track.bitrate = 0 → 0 < t.duration_ms → t.duration_ms < 2 ^ 53 →
          t.stream_size < 2 ^ 52 →
          round_div t.stream_size t.duration_ms.toNat * 1000 * 8 < 2 ^ 32 →
          t.bitrate = round_div t.stream_size t.duration_ms.toNat * 1000 * 8)
      ∧ (track.bitrate ≠ 0 ∨ t.duration_ms = 0 → t.bitrate = track.bitrate) := by
  obtain ⟨t, h, -, -, hb⟩ := computeSamplesDatasTrack_run p track
    (track.sample_size[10]?.getD 0)
    (fun hpos => by rw [List.getElem?_eq_getElem (href hpos)]; rfl)
    hcount32 htyped hsizes hpts hdts
  refine ⟨t, h, ?_, ?_⟩
  · intro hzero hd0 hd hS hk
    have hdne : t.duration_ms ≠ 0 := by omega
    rw [hb, if_pos ⟨hzero, hdne⟩]
    have hcast : t.duration_ms = ((t.duration_ms.toNat : Nat) : Int) :=
      (Int.toNat_of_nonneg (le_of_lt hd0)).symm
    generalize t.duration_ms.toNat = d at *
    rw [hcast] at hd0 hd ⊢
    rw [bitrate_quotient_exact p.invalid_uint32 t.stream_size d hS (by omega) (by omega)
      (by omega)]
    omega
  · intro hor
    rw [hb, if_neg]
    rintro ⟨hzero, hdne⟩
    rcases hor with hor | hor
    · exact hor hzero
    · exact hdne hor

/-- Witness for C14: 100 samples of size 64 with a duration of 1000 ms. -/
theorem computeSamplesDatasTrack_bitrate_witness :
    ∃ t, computeSamplesDatasTrack ⟨0, 0⟩
        { sampleTrack (List.replicate 100 64) with duration_ms := 1000 } = some t
      ∧ (({ sampleTrack (List.replicate 100 64) with duration_ms := 1000 } :
            BitstreamMap_t).bitrate = 0 →
          0 < t.duration_ms → t.duration_ms < 2 ^ 53 → t.stream_size < 2 ^ 52 →
          round_div t.stream_size t.duration_ms.toNat * 1000 * 8 < 2 ^ 32 →
          t.bitrate = round_div t.stream_size t.duration_ms.toNat * 1000 * 8)
      ∧ (({ sampleTrack (List.replicate 100 64) with duration_ms := 1000 } :
            BitstreamMap_t).bitrate ≠ 0 ∨ t.duration_ms = 0 →
          t.bitrate
            = ({ sampleTrack (List.replicate 100 64) with duration_ms := 1000 } :
                BitstreamMap_t).bitrate) :=
  computeSamplesDatasTrack_bitrate ⟨0, 0⟩
    { sampleTrack (List.replicate 100 64) with duration_ms := 1000 }
    (by decide) (by decide) (by decide) (by decide) (by decide) (by decide)

/-- C15 (the code departs from the claim): on a track whose arrays hold its
samples (at most `2^32 - 1` of them, with `uint32_t` sizes), every pass of the
sample loop of `computeSamplesDatasTrack` reads `sample_size[10]`. When the
track has a sample and `sample_size` holds 10 entries or fewer, that read is
outside the array and no stream size is computed. On every other track the
function returns, a stream size that was 0 on entry becomes the exact sum of
`sample_size[j]` over `j < sample_count`, and a non-zero stream size is left
unchanged. -/
theorem computeSamplesDatasTrack_stream_size (p : Platform) (track : BitstreamMap_t)
    (hcount32 : track.sample_count < 2 ^ 32)
    (htyped : ∀ x ∈ track.sample_size, x < 2 ^ 32)
    (hsizes : track.sample_count ≤ track.sample_size.length)
    (hpts : track.sample_count ≤ track.sample_pts.length)
    (hdts : track.sample_count ≤ track.sample_dts.length) :
    (0 < track.sample_count ∧ track.sample_size.length ≤ 10 →
        computeSamplesDatasTrack p track = none)
      ∧ (¬ (0 < track.sample_count ∧ track.sample_size.length ≤ 10) →
        ∃ t, computeSamplesDatasTrack p track = some t
          ∧ (track.stream_size = 0 →
              t.stream_size = (track.sample_size.take track.sample_count).sum)
          ∧ (track.stream_size ≠ 0 → t.stream_size = track.stream_size)) := by
  refine ⟨fun hshort => computeSamplesDatasTrack_short_table p track hshort.1 hshort.2 hdts,
    fun hlong => ?_⟩
  have href : 0 < track.sample_count → 10 < track.sample_size.length := fun hpos =>
    lt_of_not_le (fun hle => hlong ⟨hpos, hle⟩)
  obtain ⟨t, h, -, hs, -⟩ := computeSamplesDatasTrack_run p track
    (track.sample_size[10]?.getD 0)
    (fun hpos => by rw [List.getElem?_eq_getElem (href hpos)]; rfl)
    hcount32 htyped hsizes hpts hdts
  refine ⟨t, h, ?_, ?_⟩
  · intro hzero
    rw [hs, if_pos hzero]
  · intro hne
    rw [hs, if_neg hne]

/-- Witness for C15: a track of one sample of 100 bytes with one entry
allocated, stream size 0 on entry, where the claim asks for the stream size
100 and the read of `sample_size[10]` is outside the array; and a track of 100
samples of size 64, which gets the stream size 6400. -/
theorem computeSamplesDatasTrack_stream_size_witness :
    (computeSamplesDatasTrack ⟨0, 0⟩ (sampleTrack [100]) = none
        ∧ (sampleTrack [100]).stream_size = 0
        ∧ ((sampleTrack [100]).sample_size.take (sampleTrack [100]).sample_count).sum = 100)
      ∧ ∃ t, computeSamplesDatasTrack ⟨0, 0⟩ (sampleTrack (List.replicate 100 64)) = some t
          ∧ t.stream_size = 6400 := by
  refine ⟨⟨(computeSamplesDatasTrack_stream_size ⟨0, 0⟩ (sampleTrack [100])
      (by decide) (by decide) (by decide) (by decide) (by decide)).1 (by decide),
    by decide, by decide⟩, ?_⟩
  obtain ⟨t, h, hs, -⟩ := (computeSamplesDatasTrack_stream_size ⟨0, 0⟩
    (sampleTrack (List.replicate 100 64))
    (by decide) (by decide) (by decide) (by decide) (by decide)).2 (by decide)
  exact ⟨t, h, (hs (by decide)).trans (by decide)⟩

/-- C16 (counterexample): for a video track whose container declares the pixel
aspect ratio 4:3, `computeAspectRatios` stores the `double`
`0x1.5555555555555p+0`, that is `6004799503160661 * 2^-52`, and three times
that number is not 4: the stored ratio is not the rational `4 / 3`. For a
track of 1920 by 1080 pixels with that pixel aspect ratio the stored video and
display aspect ratios are `2001599834386887 * 2^-50` and
`667199944795629 * 2^-48`, which are not `16 / 9` and `64 / 27`. -/
theorem computeAspectRatios_stores_rounded_quotients :
    (computeAspectRatios
          { tracks_audio := [], tracks_audio_count := 0,
            tracks_video :=
              [some { width := 1920, height := 1080, pixel_aspect_ratio_h := 4,
                      pixel_aspect_ratio_v := 3 }],
            tracks_video_count := 1 }).map
        (fun r => r.2.tracks_video.map (Option.map (fun u =>
          (u.pixel_aspect_ratio, u.video_aspect_ratio, u.display_aspect_ratio))))
        = some [some (Double.finite (6004799503160661 * 2 ^ 1022),
            Double.finite (2001599834386887 * 2 ^ 1024),
            Double.finite (667199944795629 * 2 ^ 1026))]
      ∧ 3 * (6004799503160661 * 2 ^ 1022) ≠ 4 * dbl_unit
      ∧ 9 * (2001599834386887 * 2 ^ 1024) ≠ 16 * dbl_unit
      ∧ 27 * (667199944795629 * 2 ^ 1026) ≠ 64 * dbl_unit := by
  refine ⟨by decide!, by decide!, by decide!, by decide!⟩

/-- C16 (amended): `computeAspectRatios` returns on a media whose video track
count does not exceed its array of video tracks, and for every non-null video
track `t` below that count, with `unsigned int` components, the track `u` it
leaves has: the pixel aspect ratio `(double)h / (double)v` of the declared
components if both are non-zero, a `double` within one part in `2^53` of the
rational `h / v`, else `1.0` with both components set to 1; the video aspect
ratio `(double)h / (double)v` of the declared components if both are non-zero,
else `(double)width / (double)height` when both are non-zero, within one part
in `2^53` of the rational quotient; the display aspect ratio
`(double)h / (double)v` of the declared components if both are non-zero,
within one part in `2^53` of the rational `h / v`, else the `double` product
of the video and pixel aspect ratios of `u` when its pixel aspect ratio is
not `1.0`, and the video aspect ratio of `u` when it is `1.0`. -/
theorem computeAspectRatios_ratios (media : MediaFile_t) (i : Nat) (t : BitstreamMap_t)
    (hlen : media.tracks_video_count ≤ media.tracks_video.length)
    (hi : i < media.tracks_video_count) (ht : media.tracks_video[i]? = some (some t))
    (htyped : t.pixel_aspect_ratio_h < 2 ^ 32 ∧ t.pixel_aspect_ratio_v < 2 ^ 32
      ∧ t.video_aspect_ratio_h < 2 ^ 32 ∧ t.video_aspect_ratio_v < 2 ^ 32
      ∧ t.display_aspect_ratio_h < 2 ^ 32 ∧ t.display_aspect_ratio_v < 2 ^ 32
      ∧ t.width < 2 ^ 32 ∧ t.height < 2 ^ 32) :
    ∃ (media' : MediaFile_t) (u : BitstreamMap_t),
      computeAspectRatios media = some (SUCCESS, media')
        ∧ media'.tracks_video[i]? = some (some u)
        ∧ (t.pixel_aspect_ratio_h ≠ 0 ∧ t.pixel_aspect_ratio_v ≠ 0 →
            u.pixel_aspect_ratio
                = dbl_div (dbl_of_int t.pixel_aspect_ratio_h) (dbl_of_int t.pixel_aspect_ratio_v)
              ∧ dbl_near u.pixel_aspect_ratio t.pixel_aspect_ratio_h t.pixel_aspect_ratio_v
              ∧ u.pixel_aspect_ratio_h = t.pixel_aspect_ratio_h
              ∧ u.pixel_aspect_ratio_v = t.pixel_aspect_ratio_v)
        ∧ (¬ (t.pixel_aspect_ratio_h ≠ 0 ∧ t.pixel_aspect_ratio_v ≠ 0) →
            u.pixel_aspect_ratio = dbl_of_int 1 ∧ u.pixel_aspect_ratio_h = 1
              ∧ u.pixel_aspect_ratio_v = 1)
        ∧ (t.video_aspect_ratio_h ≠ 0 ∧ t.video_aspect_ratio_v ≠ 0 →
            u.video_aspect_ratio
                = dbl_div (dbl_of_int t.video_aspect_ratio_h) (dbl_of_int t.video_aspect_ratio_v)
              ∧ dbl_near u.video_aspect_ratio t.video_aspect_ratio_h t.video_aspect_ratio_v)
        ∧ (¬ (t.video_aspect_ratio_h ≠ 0 ∧ t.video_aspect_ratio_v ≠ 0) →
            t.width ≠ 0 ∧ t.height ≠ 0 →
            u.video_aspect_ratio = dbl_div (dbl_of_int t.width) (dbl_of_int t.height)
              ∧ dbl_near u.video_aspect_ratio t.width t.height)
        ∧ (t.display_aspect_ratio_h ≠ 0 ∧ t.display_aspect_ratio_v ≠ 0 →
            u.display_aspect_ratio
                = dbl_div (dbl_of_int t.display_aspect_ratio_h)
                    (dbl_of_int t.display_aspect_ratio_v)
              ∧ dbl_near u.display_aspect_ratio t.display_aspect_ratio_h
                  t.display_aspect_ratio_v)
        ∧ (¬ (t.display_aspect_ratio_h ≠ 0 ∧ t.display_aspect_ratio_v ≠ 0) →
            u.display_aspect_ratio
              = (if u.pixel_aspect_ratio ≠ dbl_of_int 1 then
                  dbl_mul u.video_aspect_ratio u.pixel_aspect_ratio
                 else u.video_aspect_ratio)) := by
  obtain ⟨hph, hpv, hvh, hvv, hdh, hdv, hw, hh⟩ := htyped
  obtain ⟨tracks', hrun, hk⟩ := computeAspectRatios_loop_spec media.tracks_video_count 0
    media.tracks_video (by omega)
  obtain ⟨h1, h2, h3, h4, h5, h6⟩ := computeAspectRatios_track_spec t
  refine ⟨{ media with tracks_video := tracks' }, computeAspectRatios_track t, ?_, ?_,
    fun hp => ?_, h2, fun hp => ?_, fun hn hp => ?_, fun hp => ?_, h6⟩
  · unfold computeAspectRatios
    rw [hrun]
  · show tracks'[i]? = _
    rw [hk i, if_pos (by omega), ht]
    rfl
  · refine ⟨(h1 hp).1, ?_, (h1 hp).2⟩
    rw [(h1 hp).1]
    exact dbl_div_uint32_near _ _ (Nat.pos_of_ne_zero hp.1) (Nat.pos_of_ne_zero hp.2) hph hpv
  · refine ⟨h3 hp, ?_⟩
    rw [h3 hp]
    exact dbl_div_uint32_near _ _ (Nat.pos_of_ne_zero hp.1) (Nat.pos_of_ne_zero hp.2) hvh hvv
  · refine ⟨h4 hn hp, ?_⟩
    rw [h4 hn hp]
    exact dbl_div_uint32_near _ _ (Nat.pos_of_ne_zero hp.1) (Nat.pos_of_ne_zero hp.2) hw hh
  · refine ⟨h5 hp, ?_⟩
    rw [h5 hp]
    exact dbl_div_uint32_near _ _ (Nat.pos_of_ne_zero hp.1) (Nat.pos_of_ne_zero hp.2) hdh hdv

/-- Witness for C16: one video track of 1920 by 1080 pixels whose container
declares the pixel aspect ratio 4:3 and nothing else. -/
theorem computeAspectRatios_ratios_witness :
    ∃ (media' : MediaFile_t) (u : BitstreamMap_t),
      computeAspectRatios
          { tracks_audio := [], tracks_audio_count := 0,
            tracks_video :=
              [some { width := 1920, height := 1080, pixel_aspect_ratio_h := 4,
                      pixel_aspect_ratio_v := 3 }],
            tracks_video_count := 1 } = some (SUCCESS, media')
        ∧ media'.tracks_video[0]? = some (some u)
        ∧ u.pixel_aspect_ratio = dbl_div (dbl_of_int 4) (dbl_of_int 3)
        ∧ dbl_near u.pixel_aspect_ratio 4 3
        ∧ u.video_aspect_ratio = dbl_div (dbl_of_int 1920) (dbl_of_int 1080)
        ∧ dbl_near u.video_aspect_ratio 1920 1080
        ∧ u.display_aspect_ratio
            = (if u.pixel_aspect_ratio ≠ dbl_of_int 1 then
                dbl_mul u.video_aspect_ratio u.pixel_aspect_ratio
               else u.video_aspect_ratio) := by
  obtain ⟨media', u, hrun, hu, hp, -, -, hv, -, hd⟩ := computeAspectRatios_ratios
    { tracks_audio := [], tracks_audio_count := 0,
      tracks_video :=
        [some { width := 1920, height := 1080, pixel_aspect_ratio_h := 4,
                pixel_aspect_ratio_v := 3 }],
      tracks_video_count := 1 } 0
    { width := 1920, height := 1080, pixel_aspect_ratio_h := 4, pixel_aspect_ratio_v := 3 }
    (by decide) (by decide) (by decide) (by decide)
  exact ⟨media', u, hrun, hu, (hp (by decide)).1, (hp (by decide)).2.1,
    (hv (by decide) (by decide)).1, (hv (by decide) (by decide)).2, hd (by decide)⟩

/-- C17 (the code departs from the claim): from the first bit of the source
(window at byte 0, cursor at bit 0) `skip_bits(n)` inside the window succeeds
and leaves the cursor at bit `n`, and the `rewind_bits(n)` that follows
returns `FAILURE` and leaves the cursor at bit `n`: `n < buffer_offset` does
not hold, and the jump it asks for instead is to offset `0`, which
`bitstream_goto_offset` refuses. -/
theorem rewind_bits_after_skip_bits_at_source_start (cfg : Build) (bs : Bitstream_t) (n : Nat)
    (hwindow : bs.bitstream_offset = 0) (hcursor : bs.buffer_offset = 0)
    (hn : n ≤ bs.buffer_size * 8) (hsize : bs.buffer_size * 8 < 2 ^ 32) :
    skip_bits cfg bs n = Outcome.ret SUCCESS { bs with buffer_offset := n }
      ∧ rewind_bits cfg { bs with buffer_offset := n } n
          = Outcome.ret FAILURE { bs with buffer_offset := n } := by
  constructor
  · unfold skip_bits
    rw [hcursor, Nat.zero_add, Nat.mod_eq_of_lt hsize, Nat.mod_eq_of_lt (by omega),
      if_neg (by omega)]
  · unfold rewind_bits bitstream_goto_offset
    simp only [hwindow, Nat.lt_irrefl, if_false]
    rw [if_neg (by omega)]

/-- Witness for C17: 8 bits from the start of a 24-byte source. -/
theorem rewind_bits_after_skip_bits_at_source_start_witness :
    skip_bits ⟨262144, false, 0⟩ (readerAt bytes24 0) 8
        = Outcome.ret SUCCESS { readerAt bytes24 0 with buffer_offset := 8 }
      ∧ rewind_bits ⟨262144, false, 0⟩ { readerAt bytes24 0 with buffer_offset := 8 } 8
          = Outcome.ret FAILURE { readerAt bytes24 0 with buffer_offset := 8 } :=
  rewind_bits_after_skip_bits_at_source_start ⟨262144, false, 0⟩ (readerAt bytes24 0) 8
    rfl rfl (by decide) (by decide)

/-- C18 (the code departs from the claim): with a 2-byte window over a 24-byte
source, `skip_bits(17)` from absolute bit 0 returns `SUCCESS` with the cursor
at absolute bit 136 (byte 17), and `rewind_bits(8)` from absolute bit 16 (the
state a jump to byte 2 leaves) returns `SUCCESS` with the cursor at absolute
bit 64 (byte 8): the bit offset of the target is handed to
`bitstream_goto_offset` as a byte offset. -/
theorem skip_bits_jump_takes_bits_for_bytes (dbg : Bool) (inv : Nat) :
    init_bitstream ⟨2, dbg, inv⟩ bytes24 24 none = Outcome.ret SUCCESS (windowAt bytes24 0 2 0)
      ∧ bitstream_get_absolute_bit_offset (windowAt bytes24 0 2 0) = 0
      ∧ skip_bits ⟨2, dbg, inv⟩ (windowAt bytes24 0 2 0) 17
          = Outcome.ret SUCCESS (windowAt bytes24 17 2 0)
      ∧ bitstream_get_absolute_bit_offset (windowAt bytes24 17 2 0) = 136
      ∧ bitstream_goto_offset ⟨2, dbg, inv⟩ (windowAt bytes24 0 2 0) 2
          = Outcome.ret SUCCESS (windowAt bytes24 2 2 0)
      ∧ bitstream_get_absolute_bit_offset (windowAt bytes24 2 2 0) = 16
      ∧ rewind_bits ⟨2, dbg, inv⟩ (windowAt bytes24 2 2 0) 8
          = Outcome.ret SUCCESS (windowAt bytes24 8 2 0)
      ∧ bitstream_get_absolute_bit_offset (windowAt bytes24 8 2 0) = 64 := by
  cases dbg <;>
    exact ⟨by with_unfolding_all rfl, by decide, by rfl, by decide, by rfl, by decide, by rfl,
      by decide⟩

/-- C19 (the code departs from the claim): a reader opened on a 6-byte source
with a 4-byte window reads 4 bytes, then one more, which reloads the window at
byte 4 and shrinks the allocated buffer to the 2 bytes left; the following
`bitstream_goto_offset(1)`, with `0 < 1 < 6` and 4 bytes to read from byte 1,
sets `buffer_size` back to 4 without growing the buffer and reads 4 bytes
into the 2 allocated ones. -/
theorem bitstream_goto_offset_overruns_shrunk_buffer (dbg : Bool) (inv : Nat) :
    init_bitstream ⟨4, dbg, inv⟩ [1, 2, 3, 4, 5, 6] 6 none
        = Outcome.ret SUCCESS (windowAt [1, 2, 3, 4, 5, 6] 0 4 0)
      ∧ read_bits ⟨4, dbg, inv⟩ (windowAt [1, 2, 3, 4, 5, 6] 0 4 0) 32
          = Outcome.ret 0x01020304 (windowAt [1, 2, 3, 4, 5, 6] 0 4 32)
      ∧ read_bits ⟨4, dbg, inv⟩ (windowAt [1, 2, 3, 4, 5, 6] 0 4 32) 8
          = Outcome.ret 5 (windowAt [1, 2, 3, 4, 5, 6] 4 2 8)
      ∧ (windowAt [1, 2, 3, 4, 5, 6] 4 2 8).buffer.length = 2
      ∧ fread [1, 2, 3, 4, 5, 6] 1 4 = [2, 3, 4, 5]
      ∧ bitstream_goto_offset ⟨4, dbg, inv⟩ (windowAt [1, 2, 3, 4, 5, 6] 4 2 8) 1
          = Outcome.undefined := by
  cases dbg <;>
    exact ⟨by with_unfolding_all rfl, by rfl, by with_unfolding_all rfl, by decide, by decide,
      by rfl⟩

/-- C20 (the code departs from the claim): on a 4-byte source with the cursor
at absolute bit 8, `read_bits(32)` asks for bits 8 to 39 while the source ends
at bit 32; the reload at byte 1 does not reach `exit`, it shrinks the buffer
to the 3 bytes left, and the read then takes a fourth byte from after the
buffer instead of ending the process. -/
theorem read_bits_across_source_end_does_not_exit (dbg : Bool) (inv : Nat) :
    init_bitstream ⟨4, dbg, inv⟩ [1, 2, 3, 4] 4 none
        = Outcome.ret SUCCESS (windowAt [1, 2, 3, 4] 0 4 0)
      ∧ read_bits ⟨4, dbg, inv⟩ (windowAt [1, 2, 3, 4] 0 4 0) 8
          = Outcome.ret 1 (windowAt [1, 2, 3, 4] 0 4 8)
      ∧ 8 * (windowAt [1, 2, 3, 4] 0 4 8).bitstream_size
          < bitstream_get_absolute_bit_offset (windowAt [1, 2, 3, 4] 0 4 8) + 32
      ∧ buffer_feed_dynamic ⟨4, dbg, inv⟩ (windowAt [1, 2, 3, 4] 0 4 8) (-1)
          = Outcome.ret SUCCESS (windowAt [1, 2, 3, 4] 1 3 0)
      ∧ read_bits ⟨4, dbg, inv⟩ (windowAt [1, 2, 3, 4] 0 4 8) 32 = Outcome.undefined := by
  cases dbg <;>
    exact ⟨by with_unfolding_all rfl, by rfl, by decide, by rfl, by with_unfolding_all rfl⟩

/-- C21 (counter-example): a reader over a 24-byte source whose sample table
holds one sample of 2 bytes at byte 4. The first `buffer_feed_next_sample`
loads the sample; the second one finds the sample index equal to
`sample_count` with `buffer_size - buffer_offset = 2 < 8` and ends the process
instead of returning `FAILURE`. -/
theorem buffer_feed_next_sample_exits_at_table_end :
    init_bitstream ⟨2, false, 0⟩ bytes24 24 (some (sampleTable [4] [2]))
        = Outcome.ret SUCCESS (sampleReaderAt bytes24 (sampleTable [4] [2]) 0 0 [0, 0] 0)
      ∧ buffer_feed_next_sample (sampleReaderAt bytes24 (sampleTable [4] [2]) 0 0 [0, 0] 0)
          = Outcome.ret SUCCESS (sampleReaderAt bytes24 (sampleTable [4] [2]) 4 1 [4, 5] 0)
      ∧ (sampleReaderAt bytes24 (sampleTable [4] [2]) 4 1 [4, 5] 0).bitstream_sample_index
          = (sampleTable [4] [2]).sample_count
      ∧ buffer_feed_next_sample (sampleReaderAt bytes24 (sampleTable [4] [2]) 4 1 [4, 5] 0)
          = Outcome.terminated
      ∧ buffer_feed_next_sample (sampleReaderAt bytes24 (sampleTable [4] [2]) 4 1 [4, 5] 0)
          ≠ Outcome.ret FAILURE
              (sampleReaderAt bytes24 (sampleTable [4] [2]) 4 1 [4, 5] 0) := by
  exact ⟨by rfl, by rfl, by rfl, by rfl, by decide⟩

/-- C21 (amended): when the sample index equals `sample_count` and the unsigned
difference `buffer_size - buffer_offset` is below 8, the case the code flags as
premature end of file, `buffer_feed_next_sample` ends the process through
`exit`; it returns nothing to the caller. -/
theorem buffer_feed_next_sample_premature_end (bs : Bitstream_t) (map : BitstreamMap_t)
    (hmap : bs.bitstream_map = some map)
    (hidx : bs.bitstream_sample_index = map.sample_count)
    (hleft : (bs.buffer_size + 2 ^ 32 - bs.buffer_offset) % 2 ^ 32 < 8) :
    buffer_feed_next_sample bs = Outcome.terminated
      ∧ ∀ (r : Nat) (bs1 : Bitstream_t), buffer_feed_next_sample bs ≠ Outcome.ret r bs1 := by
  have h : buffer_feed_next_sample bs = Outcome.terminated := by
    unfold buffer_feed_next_sample
    rw [hmap]
    dsimp only
    rw [if_pos ⟨hidx, hleft⟩]
  refine ⟨h, ?_⟩
  intro r bs1 hbs1
  rw [h] at hbs1
  cases hbs1

/-- Witness for C21: the reader of the counter-example, one sample of 2 bytes
loaded and the table exhausted. -/
theorem buffer_feed_next_sample_premature_end_witness :
    buffer_feed_next_sample (sampleReaderAt bytes24 (sampleTable [4] [2]) 4 1 [4, 5] 0)
        = Outcome.terminated
      ∧ ∀ (r : Nat) (bs1 : Bitstream_t),
          buffer_feed_next_sample (sampleReaderAt bytes24 (sampleTable [4] [2]) 4 1 [4, 5] 0)
            ≠ Outcome.ret r bs1 :=
  buffer_feed_next_sample_premature_end
    (sampleReaderAt bytes24 (sampleTable [4] [2]) 4 1 [4, 5] 0) (sampleTable [4] [2])
    rfl rfl (by decide)

/-- C22: for an index below `sample_count` whose entry has a positive offset
and a positive size, the sample lying inside the source,
`buffer_feed_next_sample` returns `SUCCESS`; it sets `bitstream_offset` to the
sample offset, `buffer_size` to the sample size, `buffer_offset` and
`buffer_discarded_bytes` to 0, the buffer to exactly the bytes of the sample,
and adds one to `bitstream_sample_index`; nothing else changes. -/
theorem buffer_feed_next_sample_loads_sample (bs : Bitstream_t) (map : BitstreamMap_t)
    (off : Int) (sz : Nat)
    (hmap : bs.bitstream_map = some map)
    (hi : bs.bitstream_sample_index < map.sample_count)
    (hcount : map.sample_count < 2 ^ 32)
    (hoff : map.sample_offset[bs.bitstream_sample_index]? = some off)
    (hsz : map.sample_size[bs.bitstream_sample_index]? = some sz)
    (hoff0 : 0 < off) (hsz0 : 0 < sz)
    (hread : off.toNat + sz ≤ bs.bitstream_file.length) :
    buffer_feed_next_sample bs
      = Outcome.ret SUCCESS
          { bs with
              bitstream_offset := off, buffer_size := sz, buffer_offset := 0,
              buffer_discarded_bytes := 0,
              buffer := (bs.bitstream_file.drop off.toNat).take sz,
              bitstream_sample_index := bs.bitstream_sample_index + 1 } := by
  have hlen := fread_length bs.bitstream_file off sz hread
  rw [buffer_feed_next_sample_valid bs map off sz hmap hi hoff hsz hoff0 hsz0, if_pos hlen,
    hlen, List.drop_of_length_le (le_of_eq (realloc_length bs.buffer sz)), List.append_nil,
    Nat.mod_eq_of_lt (by omega)]
  rfl

/-- Witness for C22: the first sample of a table of two, on a fresh reader. -/
theorem buffer_feed_next_sample_loads_sample_witness :
    buffer_feed_next_sample (sampleReaderAt bytes24 (sampleTable [4, 9] [2, 3]) 0 0 [0, 0] 0)
      = Outcome.ret SUCCESS (sampleReaderAt bytes24 (sampleTable [4, 9] [2, 3]) 4 1 [4, 5] 0) :=
  buffer_feed_next_sample_loads_sample
    (sampleReaderAt bytes24 (sampleTable [4, 9] [2, 3]) 0 0 [0, 0] 0)
    (sampleTable [4, 9] [2, 3]) 4 2 rfl (by decide) (by decide) rfl rfl (by decide) (by decide)
    (by decide)

/-- C23 (counter-example): a reader built by `init_bitstream` with a sample
table of one sample, 2 bytes at byte 4 of the source. The first
`read_bits(16)` returns the zeros of the fresh buffer; the next `read_bits(8)`
refills by sliding the window to byte 2 of the source and returns the byte
there, the sample index staying 0, where `buffer_feed_next_sample` from the
same state loads the sample at byte 4 and moves the sample index to 1. -/
theorem read_bits_refill_slides_window_in_sample_mode :
    init_bitstream ⟨2, false, 0⟩ bytes24 24 (some (sampleTable [4] [2]))
        = Outcome.ret SUCCESS (sampleReaderAt bytes24 (sampleTable [4] [2]) 0 0 [0, 0] 0)
      ∧ read_bits ⟨2, false, 0⟩ (sampleReaderAt bytes24 (sampleTable [4] [2]) 0 0 [0, 0] 0) 16
          = Outcome.ret 0 (sampleReaderAt bytes24 (sampleTable [4] [2]) 0 0 [0, 0] 16)
      ∧ read_bits ⟨2, false, 0⟩ (sampleReaderAt bytes24 (sampleTable [4] [2]) 0 0 [0, 0] 16) 8
          = Outcome.ret 2 (sampleReaderAt bytes24 (sampleTable [4] [2]) 2 0 [2, 3] 8)
      ∧ buffer_feed_next_sample (sampleReaderAt bytes24 (sampleTable [4] [2]) 0 0 [0, 0] 16)
          = Outcome.ret SUCCESS (sampleReaderAt bytes24 (sampleTable [4] [2]) 4 1 [4, 5] 0) := by
  exact ⟨by rfl, by rfl, by rfl, by rfl⟩

/-- C23 (amended): whatever the sample table of the reader, every state
`read_bit`, `read_bits(n)` or `read_bits_64(n)` returns in is the state on
entry, or the state the window slide `buffer_feed_dynamic(bitstr, -1)` returned
from it, up to the cursor; the sample table and `bitstream_sample_index` are
the ones on entry. -/
theorem read_refill_is_window_slide (cfg : Build) (bs : Bitstream_t) (n v : Nat)
    (s1 : Bitstream_t)
    (h : read_bit cfg bs = Outcome.ret v s1 ∨ read_bits cfg bs n = Outcome.ret v s1
      ∨ read_bits_64 cfg bs n = Outcome.ret v s1) :
    (∃ s, (s = bs ∨ ∃ r, buffer_feed_dynamic cfg bs (-1) = Outcome.ret r s)
        ∧ ∃ bo, s1 = { s with buffer_offset := bo })
      ∧ s1.bitstream_map = bs.bitstream_map
      ∧ s1.bitstream_sample_index = bs.bitstream_sample_index := by
  have hm : ∃ s, (s = bs ∨ ∃ r, buffer_feed_dynamic cfg bs (-1) = Outcome.ret r s)
      ∧ ∃ bo, s1 = { s with buffer_offset := bo } := by
    rcases h with h | h | h
    · exact read_bit_moved cfg bs v s1 h
    · exact read_bits_moved cfg bs n v s1 h
    · exact read_bits_64_moved cfg bs n v s1 h
  refine ⟨hm, ?_⟩
  obtain ⟨s, hs, bo, hs1⟩ := hm
  have hf := moved_frame cfg bs s1 ⟨s, hs.imp id (fun ⟨r, hr⟩ => ⟨-1, r, hr⟩), bo, hs1⟩
  exact ⟨hf.1, hf.2.1⟩

/-- Witness for C23: the refilling read of the counter-example. -/
theorem read_refill_is_window_slide_witness :
    (∃ s, (s = sampleReaderAt bytes24 (sampleTable [4] [2]) 0 0 [0, 0] 16
          ∨ ∃ r, buffer_feed_dynamic ⟨2, false, 0⟩
              (sampleReaderAt bytes24 (sampleTable [4] [2]) 0 0 [0, 0] 16) (-1)
            = Outcome.ret r s)
        ∧ ∃ bo, sampleReaderAt bytes24 (sampleTable [4] [2]) 2 0 [2, 3] 8
            = { s with buffer_offset := bo })
      ∧ (sampleReaderAt bytes24 (sampleTable [4] [2]) 2 0 [2, 3] 8).bitstream_map
          = (sampleReaderAt bytes24 (sampleTable [4] [2]) 0 0 [0, 0] 16).bitstream_map
      ∧ (sampleReaderAt bytes24 (sampleTable [4] [2]) 2 0 [2, 3] 8).bitstream_sample_index
          = (sampleReaderAt bytes24 (sampleTable [4] [2]) 0 0 [0, 0] 16).bitstream_sample_index :=
  read_refill_is_window_slide ⟨2, false, 0⟩
    (sampleReaderAt bytes24 (sampleTable [4] [2]) 0 0 [0, 0] 16) 8 2
    (sampleReaderAt bytes24 (sampleTable [4] [2]) 2 0 [2, 3] 8) (Or.inr (Or.inl (by rfl)))

/-- C24: for an index below `sample_count`, the source holding every sample
of positive offset, `buffer_feed_next_sample` returns; it returns `FAILURE`
exactly when the entry has `sample_offset <= 0` or `sample_size = 0`, and then
`bitstream_sample_index` is left as it was. -/
theorem buffer_feed_next_sample_fails_iff_entry_invalid (bs : Bitstream_t)
    (map : BitstreamMap_t) (off : Int) (sz : Nat)
    (hmap : bs.bitstream_map = some map)
    (hi : bs.bitstream_sample_index < map.sample_count)
    (hoff : map.sample_offset[bs.bitstream_sample_index]? = some off)
    (hsz : map.sample_size[bs.bitstream_sample_index]? = some sz)
    (hread : 0 < off → off.toNat + sz ≤ bs.bitstream_file.length) :
    ∃ (r : Nat) (bs1 : Bitstream_t),
      buffer_feed_next_sample bs = Outcome.ret r bs1
        ∧ (r = FAILURE ∨ r = SUCCESS)
        ∧ (r = FAILURE ↔ off ≤ 0 ∨ sz = 0)
        ∧ (r = FAILURE → bs1.bitstream_sample_index = bs.bitstream_sample_index) := by
  by_cases hbad : off ≤ 0 ∨ sz = 0
  · refine ⟨FAILURE, _, buffer_feed_next_sample_invalid bs map off sz hmap hi hoff hsz hbad,
      Or.inl rfl, ⟨fun _ => hbad, fun _ => rfl⟩, fun _ => rfl⟩
  · have hoff0 : 0 < off := by omega
    have hsz0 : 0 < sz := by omega
    have hlen := fread_length bs.bitstream_file off sz (hread hoff0)
    have h := buffer_feed_next_sample_valid bs map off sz hmap hi hoff hsz hoff0 hsz0
    rw [if_pos hlen] at h
    exact ⟨SUCCESS, _, h, Or.inr rfl, ⟨fun h => absurd h (by decide), fun h => absurd h hbad⟩,
      fun h => absurd h (by decide)⟩

/-- Witness for C24: the second entry of the table has a zero size. -/
theorem buffer_feed_next_sample_fails_iff_entry_invalid_witness :
    ∃ (r : Nat) (bs1 : Bitstream_t),
      buffer_feed_next_sample (sampleReaderAt bytes24 (sampleTable [4, 9] [2, 0]) 4 1 [4, 5] 0)
          = Outcome.ret r bs1
        ∧ (r = FAILURE ∨ r = SUCCESS)
        ∧ (r = FAILURE ↔ (9 : Int) ≤ 0 ∨ (0 : Nat) = 0)
        ∧ (r = FAILURE → bs1.bitstream_sample_index
            = (sampleReaderAt bytes24 (sampleTable [4, 9] [2, 0]) 4 1 [4, 5] 0).bitstream_sample_index) :=
  buffer_feed_next_sample_fails_iff_entry_invalid
    (sampleReaderAt bytes24 (sampleTable [4, 9] [2, 0]) 4 1 [4, 5] 0)
    (sampleTable [4, 9] [2, 0]) 9 0 rfl (by decide) rfl rfl (by decide)

/-- C25: `next_bit`, `next_bits(n)` and `next_byte_aligned` return the value
`read_bit`, `read_bits(n)` and `read_byte_aligned` return from the same state;
every state they return in, after a refill or not, has the absolute bit offset
of the state on entry; and on a source whose recorded size is the size of its
content, read from a non-negative offset, `read_bit`, `read_bits(n)` for `n`
from 1 to 32, and `read_byte_aligned` on a byte-aligned cursor, are the
`next` function followed by a move of the cursor by 1, `n` and 8 bits. -/
theorem next_returns_what_read_returns (cfg : Build) (bs : Bitstream_t) (n : Nat) :
    ((next_bit cfg bs).value = (read_bit cfg bs).value
        ∧ (next_bits cfg bs n).value = (read_bits cfg bs n).value
        ∧ (next_byte_aligned cfg bs).value = (read_byte_aligned cfg bs).value)
      ∧ (∀ (v : Nat) (s1 : Bitstream_t),
          next_bit cfg bs = Outcome.ret v s1 ∨ next_bits cfg bs n = Outcome.ret v s1
            ∨ next_byte_aligned cfg bs = Outcome.ret v s1 →
          bitstream_get_absolute_bit_offset s1 = bitstream_get_absolute_bit_offset bs)
      ∧ (bs.bitstream_size = (bs.bitstream_file.length : Int) →
          cfg.BITSTREAM_BUFFER_SIZE < 2 ^ 32 → 0 ≤ bs.bitstream_offset →
          read_bit cfg bs = (next_bit cfg bs).advance 1
            ∧ (1 ≤ n → n ≤ 32 → read_bits cfg bs n = (next_bits cfg bs n).advance n)
            ∧ (bs.buffer_offset % 8 = 0 →
                read_byte_aligned cfg bs = (next_byte_aligned cfg bs).advance 8)) := by
  refine ⟨⟨next_bit_value cfg bs, (read_bits_vs_next_bits cfg bs n).1,
    (read_byte_aligned_vs_next cfg bs).1⟩, ?_, ?_⟩
  · intro v s1 h
    have hs : s1 = bs ∨ ∃ r, buffer_feed_dynamic cfg bs (-1) = Outcome.ret r s1 := by
      rcases h with h | h | h
      · exact next_bit_ret cfg bs v s1 h
      · exact next_bits_ret cfg bs n v s1 h
      · exact next_byte_aligned_ret cfg bs v s1 h
    rcases hs with hs | ⟨r, hs⟩
    · rw [hs]
    · exact buffer_feed_dynamic_absolute_bit_offset cfg bs (-1) (by decide) r s1 hs
  · intro hfile hcap hoff
    have hno : ∀ s, buffer_feed_dynamic cfg bs (-1) ≠ Outcome.ret FAILURE s :=
      buffer_feed_dynamic_no_failure cfg bs (-1) hfile hcap (by
        rw [if_neg (by decide)]
        unfold bitstream_get_absolute_byte_offset
        omega)
    exact ⟨read_bit_eq_next_bit cfg bs hno, (read_bits_vs_next_bits cfg bs n).2 hno,
      (read_byte_aligned_vs_next cfg bs).2 hno⟩

/-- Witness for C25: the cursor at the end of a 4-byte window over a 6-byte
source, where `next_bits(8)` and `read_bits(8)` refill. -/
theorem next_returns_what_read_returns_witness :
    next_bits ⟨4, false, 0⟩ (windowAt [1, 2, 3, 4, 5, 6] 0 4 32) 8
        = Outcome.ret 5 (windowAt [1, 2, 3, 4, 5, 6] 4 2 0)
      ∧ bitstream_get_absolute_bit_offset (windowAt [1, 2, 3, 4, 5, 6] 4 2 0)
          = bitstream_get_absolute_bit_offset (windowAt [1, 2, 3, 4, 5, 6] 0 4 32)
      ∧ read_bit ⟨4, false, 0⟩ (windowAt [1, 2, 3, 4, 5, 6] 0 4 32)
          = (next_bit ⟨4, false, 0⟩ (windowAt [1, 2, 3, 4, 5, 6] 0 4 32)).advance 1
      ∧ read_bits ⟨4, false, 0⟩ (windowAt [1, 2, 3, 4, 5, 6] 0 4 32) 8
          = (next_bits ⟨4, false, 0⟩ (windowAt [1, 2, 3, 4, 5, 6] 0 4 32) 8).advance 8
      ∧ read_byte_aligned ⟨4, false, 0⟩ (windowAt [1, 2, 3, 4, 5, 6] 0 4 32)
          = (next_byte_aligned ⟨4, false, 0⟩ (windowAt [1, 2, 3, 4, 5, 6] 0 4 32)).advance 8 :=
  ⟨by rfl,
    (next_returns_what_read_returns ⟨4, false, 0⟩ (windowAt [1, 2, 3, 4, 5, 6] 0 4 32) 8).2.1
      5 (windowAt [1, 2, 3, 4, 5, 6] 4 2 0) (Or.inr (Or.inl (by rfl))),
    ((next_returns_what_read_returns ⟨4, false, 0⟩ (windowAt [1, 2, 3, 4, 5, 6] 0 4 32) 8).2.2
      (by rfl) (by decide) (by decide)).1,
    ((next_returns_what_read_returns ⟨4, false, 0⟩ (windowAt [1, 2, 3, 4, 5, 6] 0 4 32) 8).2.2
      (by rfl) (by decide) (by decide)).2.1 (by decide) (by decide),
    ((next_returns_what_read_returns ⟨4, false, 0⟩ (windowAt [1, 2, 3, 4, 5, 6] 0 4 32) 8).2.2
      (by rfl) (by decide) (by decide)).2.2 (by decide)⟩

/-- C26 (the code departs from the claim): a 2-byte source `00 80` read
through a window of one byte. After `read_bits(8)` the cursor is at bit 8,
the end of the buffer, and at absolute bit 8 of 16; bit 8 of the source is 1.
`read_bit` tests `start_byte > buffer_size`, finds `1 > 1` false, does not
refill and reads `buffer[1]`, outside the one-byte buffer, where `read_bits(2)`
from the same state refills and returns the two bits `10`. -/
theorem read_bit_at_buffer_end_reads_outside :
    init_bitstream ⟨1, false, 0⟩ [0x00, 0x80] 2 none
        = Outcome.ret SUCCESS (windowAt [0x00, 0x80] 0 1 0)
      ∧ read_bits ⟨1, false, 0⟩ (windowAt [0x00, 0x80] 0 1 0) 8
          = Outcome.ret 0 (windowAt [0x00, 0x80] 0 1 8)
      ∧ (windowAt [0x00, 0x80] 0 1 8).buffer_offset
          = 8 * (windowAt [0x00, 0x80] 0 1 8).buffer_size
      ∧ (windowAt [0x00, 0x80] 0 1 8).buffer.length = 1
      ∧ bitstream_get_absolute_bit_offset (windowAt [0x00, 0x80] 0 1 8) = 8
      ∧ bitAt [0x00, 0x80] 8 = 1
      ∧ read_bit ⟨1, false, 0⟩ (windowAt [0x00, 0x80] 0 1 8) = Outcome.undefined
      ∧ read_bits ⟨1, false, 0⟩ (windowAt [0x00, 0x80] 0 1 8) 2
          = Outcome.ret 2 (windowAt [0x00, 0x80] 1 1 2) := by
  exact ⟨by rfl, by rfl, by decide, by decide, by decide, by decide, by rfl, by rfl⟩

/-- C27 (counter-example): a 4-byte source read through a window of 2 bytes.
The 16 bits asked for lie in the buffer; `read_bits(16)` returns them and
leaves the cursor at bit 16, which is `8 * buffer_size`, not below it. -/
theorem read_bits_leaves_cursor_at_buffer_end :
    init_bitstream ⟨2, false, 0⟩ [1, 2, 3, 4] 4 none
        = Outcome.ret SUCCESS (windowAt [1, 2, 3, 4] 0 2 0)
      ∧ InBuffer (windowAt [1, 2, 3, 4] 0 2 0) 16
      ∧ read_bits ⟨2, false, 0⟩ (windowAt [1, 2, 3, 4] 0 2 0) 16
          = Outcome.ret 0x0102 (windowAt [1, 2, 3, 4] 0 2 16)
      ∧ ¬ (windowAt [1, 2, 3, 4] 0 2 16).buffer_offset
          < 8 * (windowAt [1, 2, 3, 4] 0 2 16).buffer_size := by
  exact ⟨by rfl, by decide, by rfl, by decide⟩

/-- C27 (amended): with `BITSTREAM_BUFFER_SIZE` between 1 and `2^32 - 1`, from
a state with `buffer_offset <= 8 * buffer_size` whose allocation holds no byte
past the buffer and at most `BITSTREAM_BUFFER_SIZE` bytes, every state
`read_bit`, `read_bits(n)`, `read_bits_64(n)` with `n` from 1 to 64, or
`read_byte_aligned` on a byte-aligned cursor, returns in has
`buffer_offset <= 8 * buffer_size`. -/
theorem read_leaves_cursor_within_buffer (cfg : Build) (bs : Bitstream_t) (n v : Nat)
    (s1 : Bitstream_t)
    (hcap1 : 1 ≤ cfg.BITSTREAM_BUFFER_SIZE) (hcap : cfg.BITSTREAM_BUFFER_SIZE < 2 ^ 32)
    (hlen : bs.buffer.length ≤ bs.buffer_size)
    (hlenc : bs.buffer.length ≤ cfg.BITSTREAM_BUFFER_SIZE)
    (hoff : bs.buffer_offset ≤ 8 * bs.buffer_size)
    (hn1 : 1 ≤ n) (hn : n ≤ 64)
    (h : read_bit cfg bs = Outcome.ret v s1 ∨ read_bits cfg bs n = Outcome.ret v s1
      ∨ read_bits_64 cfg bs n = Outcome.ret v s1
      ∨ (bs.buffer_offset % 8 = 0 ∧ read_byte_aligned cfg bs = Outcome.ret v s1)) :
    s1.buffer_offset ≤ 8 * s1.buffer_size := by
  have hfail : ∀ s, buffer_feed_dynamic cfg bs (-1) = Outcome.ret FAILURE s →
      s.buffer_offset ≤ 8 * s.buffer_size := by
    intro s hs
    obtain ⟨-, h2, h3, -⟩ := buffer_feed_dynamic_cursor cfg bs FAILURE s hcap1 hcap hlenc hs
    omega
  have hadv : ∀ (s : Bitstream_t) (k : Nat),
      (s = bs ∨ buffer_feed_dynamic cfg bs (-1) = Outcome.ret SUCCESS s) →
      s.buffer_offset + k ≤ 8 * s.buffer.length →
      s1 = { s with buffer_offset := (s.buffer_offset + k) % 2 ^ 32 } →
      s1.buffer_offset ≤ 8 * s1.buffer_size := by
    intro s k hs hin hs1
    have hsl : s.buffer.length ≤ s.buffer_size := by
      rcases hs with hs | hs
      · rw [hs]
        exact hlen
      · exact (buffer_feed_dynamic_cursor cfg bs SUCCESS s hcap1 hcap hlenc hs).1
    have hmod : (s.buffer_offset + k) % 2 ^ 32 ≤ s.buffer_offset + k := Nat.mod_le _ _
    rw [hs1]
    show (s.buffer_offset + k) % 2 ^ 32 ≤ 8 * s.buffer_size
    omega
  have hbody : ∀ w, read_bits_body w cfg bs n = Outcome.ret v s1 →
      s1.buffer_offset ≤ 8 * s1.buffer_size := by
    intro w hw
    rcases read_bits_body_ret w cfg bs n hn1 hn v s1 hw with ⟨-, hf⟩ | ⟨s, hs, hin, hs1⟩
    · exact hfail s1 hf
    · exact hadv s n hs hin hs1
  rcases h with h | h | h | ⟨hal, h⟩
  · rcases read_bit_ret cfg bs v s1 h with ⟨-, hf⟩ | ⟨s, hs, hin, hs1⟩
    · exact hfail s1 hf
    · exact hadv s 1 hs (by omega) hs1
  · unfold read_bits at h
    split_ifs at h
    · cases h
      exact hoff
    · cases h
      exact hoff
    · exact hbody 32 h
  · unfold read_bits_64 at h
    split_ifs at h
    · cases h
      exact hoff
    · cases h
      exact hoff
    · exact hbody 64 h
  · rcases read_byte_aligned_ret cfg bs v s1 h with ⟨-, hf⟩ | ⟨s, hs, hr⟩
    · exact hfail s1 hf
    · have hmod8 : s.buffer_offset % 8 = 0 := by
        rcases hs with hs | hs
        · rw [hs]
          exact hal
        · rw [(buffer_feed_dynamic_cursor cfg bs SUCCESS s hcap1 hcap hlenc hs).2.2.2]
          exact hal
      rcases hr with ⟨-, hne, -, -⟩ | ⟨hin, hs1⟩
      · exact absurd hmod8 hne
      · exact hadv s 8 hs (by omega) hs1

/-- Witness for C27: the read of the counter-example, which ends at the end
of the buffer. -/
theorem read_leaves_cursor_within_buffer_witness :
    (windowAt [1, 2, 3, 4] 0 2 16).buffer_offset
      ≤ 8 * (windowAt [1, 2, 3, 4] 0 2 16).buffer_size :=
  read_leaves_cursor_within_buffer ⟨2, false, 0⟩ (windowAt [1, 2, 3, 4] 0 2 0) 16 0x0102
    (windowAt [1, 2, 3, 4] 0 2 16) (by decide) (by decide) (by decide) (by decide) (by decide)
    (by decide) (by decide) (Or.inr (Or.inl (by rfl)))

/-- C28: a window slide, `buffer_feed_dynamic` with a negative offset, that
returns leaves the absolute bit offset as it was. On a source whose recorded
size is the size of its content, read from a non-negative offset with
`BITSTREAM_BUFFER_SIZE < 2^32` and a cursor that does not wrap, every state
`read_bits(n)` for `n` from 1 to 32, `read_bits_64(n)` for `n` from 1 to 64,
or `read_byte_aligned` on a byte-aligned cursor, returns in has the absolute
bit offset of the state on entry plus `n`, respectively 8, after a refill or
not. In every state reached from `init_bitstream` the absolute byte offset is
`bitstream_offset + buffer_offset / 8`. -/
theorem absolute_offset_through_refill (cfg : Build) :
    (∀ (bs : Bitstream_t) (k : Int) (r : Nat) (s1 : Bitstream_t), k < 0 →
        buffer_feed_dynamic cfg bs k = Outcome.ret r s1 →
        bitstream_get_absolute_bit_offset s1 = bitstream_get_absolute_bit_offset bs)
      ∧ (∀ (bs : Bitstream_t) (n v : Nat) (s1 : Bitstream_t),
          bs.bitstream_size = (bs.bitstream_file.length : Int) →
          cfg.BITSTREAM_BUFFER_SIZE < 2 ^ 32 → 0 ≤ bs.bitstream_offset →
          1 ≤ n → bs.buffer_offset + n < 2 ^ 32 →
          (n ≤ 32 ∧ read_bits cfg bs n = Outcome.ret v s1)
            ∨ (n ≤ 64 ∧ read_bits_64 cfg bs n = Outcome.ret v s1)
            ∨ (n = 8 ∧ bs.buffer_offset % 8 = 0 ∧ read_byte_aligned cfg bs = Outcome.ret v s1) →
          bitstream_get_absolute_bit_offset s1
            = bitstream_get_absolute_bit_offset bs + (n : Int))
      ∧ (∀ bs : Bitstream_t, Reachable cfg bs →
          bitstream_get_absolute_byte_offset bs
            = bs.bitstream_offset + ((bs.buffer_offset / 8 : Nat) : Int)) := by
  refine ⟨fun bs k r s1 hk h => buffer_feed_dynamic_absolute_bit_offset cfg bs k hk r s1 h,
    ?_, ?_⟩
  · intro bs n v s1 hfile hcap hoff hn1 hwrap h
    have hno : ∀ s, buffer_feed_dynamic cfg bs (-1) ≠ Outcome.ret FAILURE s :=
      buffer_feed_dynamic_no_failure cfg bs (-1) hfile hcap (by
        rw [if_neg (by decide)]
        unfold bitstream_get_absolute_byte_offset
        omega)
    have hbody : ∀ w, n ≤ 64 → read_bits_body w cfg bs n = Outcome.ret v s1 →
        bitstream_get_absolute_bit_offset s1
          = bitstream_get_absolute_bit_offset bs + (n : Int) := by
      intro w hn hw
      rcases read_bits_body_ret w cfg bs n hn1 hn v s1 hw with ⟨-, hf⟩ | ⟨s, hs, -, hs1⟩
      · exact absurd hf (hno s1)
      · exact absolute_bit_offset_after_read cfg bs s s1 n hn hwrap hs hs1
    rcases h with ⟨hn, h⟩ | ⟨hn, h⟩ | ⟨hn, hal, h⟩
    · unfold read_bits at h
      rw [if_neg (fun hc => absurd hc.2 (by omega)),
        if_neg (fun hc => absurd hc.2 (by omega))] at h
      exact hbody 32 (by omega) h
    · unfold read_bits_64 at h
      rw [if_neg (fun hc => absurd hc.2 (by omega)),
        if_neg (fun hc => absurd hc.2 (by omega))] at h
      exact hbody 64 hn h
    · subst hn
      rcases read_byte_aligned_ret cfg bs v s1 h with ⟨-, hf⟩ | ⟨s, hs, hr⟩
      · exact absurd hf (hno s1)
      · have hmod8 : s.buffer_offset % 8 = 0 := by
          rcases hs with hs | hs
          · rw [hs]
            exact hal
          · obtain ⟨-, -, -, -, -, -, hbo, -⟩ :=
              buffer_feed_dynamic_frame cfg bs (-1) SUCCESS s hs
            rw [if_neg (by decide)] at hbo
            omega
        rcases hr with ⟨-, hne, -, -⟩ | ⟨-, hs1⟩
        · exact absurd hmod8 hne
        · exact absolute_bit_offset_after_read cfg bs s s1 8 (by decide) hwrap hs hs1
  · intro bs hbs
    unfold bitstream_get_absolute_byte_offset
    rw [reachable_discarded cfg bs hbs]
    simp

/-- Witness for C28: a 6-byte source read through a window of 4 bytes; the
read of 8 bits at the end of the window slides the window to byte 4. -/
theorem absolute_offset_through_refill_witness :
    bitstream_get_absolute_bit_offset (windowAt [1, 2, 3, 4, 5, 6] 4 2 0)
        = bitstream_get_absolute_bit_offset (windowAt [1, 2, 3, 4, 5, 6] 0 4 32)
      ∧ bitstream_get_absolute_bit_offset (windowAt [1, 2, 3, 4, 5, 6] 4 2 8)
        = bitstream_get_absolute_bit_offset (windowAt [1, 2, 3, 4, 5, 6] 0 4 32) + ((8 : Nat) : Int)
      ∧ bitstream_get_absolute_byte_offset (windowAt [1, 2, 3, 4, 5, 6] 0 4 0)
        = (windowAt [1, 2, 3, 4, 5, 6] 0 4 0).bitstream_offset
          + (((windowAt [1, 2, 3, 4, 5, 6] 0 4 0).buffer_offset / 8 : Nat) : Int) :=
  ⟨(absolute_offset_through_refill ⟨4, false, 0⟩).1 (windowAt [1, 2, 3, 4, 5, 6] 0 4 32) (-1)
      SUCCESS (windowAt [1, 2, 3, 4, 5, 6] 4 2 0) (by decide) (by rfl),
    (absolute_offset_through_refill ⟨4, false, 0⟩).2.1 (windowAt [1, 2, 3, 4, 5, 6] 0 4 32) 8 5
      (windowAt [1, 2, 3, 4, 5, 6] 4 2 8) (by rfl) (by decide) (by decide) (by decide)
      (by decide) (Or.inl ⟨by decide, by rfl⟩),
    (absolute_offset_through_refill ⟨4, false, 0⟩).2.2 (windowAt [1, 2, 3, 4, 5, 6] 0 4 0)
      (Reachable.init [1, 2, 3, 4, 5, 6] 6 none _ (by rfl))⟩

/-- C29: with `BITSTREAM_BUFFER_SIZE` between 1 and `2^32 - 1`,
`init_bitstream` without a sample table on a non-empty source returns a reader
whose window starts at byte 0 of the source, with the cursor at bit 0; and a
reader `bs1` that `buffer_feed_dynamic` returned `SUCCESS` with has
`buffer_size = min(BITSTREAM_BUFFER_SIZE, bitstream_size - bitstream_offset)`,
at least 1, the window ends inside the source, and the buffer holds the source
bytes from `bitstream_offset` to `bitstream_offset + buffer_size`. The reader
`init_bitstream` returns is itself one left by a successful
`buffer_feed_dynamic`. -/
theorem window_after_init_and_feed (cfg : Build) (file : List Byte) (bs : Bitstream_t)
    (k : Int) (bs1 : Bitstream_t)
    (hcap1 : 1 ≤ cfg.BITSTREAM_BUFFER_SIZE) (hcap : cfg.BITSTREAM_BUFFER_SIZE < 2 ^ 32)
    (hfile : file ≠ [])
    (hfeed : buffer_feed_dynamic cfg bs k = Outcome.ret SUCCESS bs1) :
    (∃ b0 b, buffer_feed_dynamic cfg b0 (-1) = Outcome.ret SUCCESS b
        ∧ init_bitstream cfg file file.length none = Outcome.ret SUCCESS b
        ∧ b.bitstream_file = file ∧ b.bitstream_size = file.length
        ∧ b.bitstream_offset = 0 ∧ b.buffer_offset = 0
        ∧ b.buffer_size = min cfg.BITSTREAM_BUFFER_SIZE file.length
        ∧ b.buffer.take b.buffer_size = file.take b.buffer_size)
      ∧ 0 ≤ bs1.bitstream_offset
      ∧ (bs1.buffer_size : Int)
          = min (cfg.BITSTREAM_BUFFER_SIZE : Int) (bs1.bitstream_size - bs1.bitstream_offset)
      ∧ 1 ≤ bs1.buffer_size
      ∧ bs1.bitstream_offset + (bs1.buffer_size : Int) ≤ bs1.bitstream_size
      ∧ bs1.bitstream_offset.toNat + bs1.buffer_size ≤ bs1.bitstream_file.length
      ∧ bs1.buffer_size ≤ bs1.buffer.length
      ∧ bs1.buffer.take bs1.buffer_size
          = (bs1.bitstream_file.drop bs1.bitstream_offset.toNat).take bs1.buffer_size := by
  refine ⟨?_, buffer_feed_dynamic_success cfg bs k bs1 hcap1 hcap hfeed⟩
  obtain ⟨b0, b, hb, hinit, h1, h2, h3, h4⟩ := init_bitstream_continuous cfg file hcap hfile
  obtain ⟨-, hsz, -, -, -, -, htake⟩ := buffer_feed_dynamic_success cfg b0 (-1) b hcap1 hcap hb
  rw [h1, h3] at htake
  rw [h2, h3] at hsz
  refine ⟨b0, b, hb, hinit, h1, h2, h3, h4, by omega, ?_⟩
  rw [htake]
  rfl

/-- Witness for C29: a 6-byte source read through a window of 4 bytes; the
slide after 32 bits leaves the 2 bytes from byte 4 on. -/
theorem window_after_init_and_feed_witness :
    (∃ b0 b, buffer_feed_dynamic ⟨4, false, 0⟩ b0 (-1) = Outcome.ret SUCCESS b
        ∧ init_bitstream ⟨4, false, 0⟩ [1, 2, 3, 4, 5, 6] ([1, 2, 3, 4, 5, 6] : List Byte).length
            none = Outcome.ret SUCCESS b
        ∧ b.bitstream_file = [1, 2, 3, 4, 5, 6]
        ∧ b.bitstream_size = ([1, 2, 3, 4, 5, 6] : List Byte).length
        ∧ b.bitstream_offset = 0 ∧ b.buffer_offset = 0
        ∧ b.buffer_size = min 4 ([1, 2, 3, 4, 5, 6] : List Byte).length
        ∧ b.buffer.take b.buffer_size = ([1, 2, 3, 4, 5, 6] : List Byte).take b.buffer_size)
      ∧ 0 ≤ (windowAt [1, 2, 3, 4, 5, 6] 4 2 0).bitstream_offset
      ∧ ((windowAt [1, 2, 3, 4, 5, 6] 4 2 0).buffer_size : Int)
          = min ((4 : Nat) : Int) ((windowAt [1, 2, 3, 4, 5, 6] 4 2 0).bitstream_size
              - (windowAt [1, 2, 3, 4, 5, 6] 4 2 0).bitstream_offset)
      ∧ 1 ≤ (windowAt [1, 2, 3, 4, 5, 6] 4 2 0).buffer_size
      ∧ (windowAt [1, 2, 3, 4, 5, 6] 4 2 0).bitstream_offset
          + ((windowAt [1, 2, 3, 4, 5, 6] 4 2 0).buffer_size : Int)
          ≤ (windowAt [1, 2, 3, 4, 5, 6] 4 2 0).bitstream_size
      ∧ (windowAt [1, 2, 3, 4, 5, 6] 4 2 0).bitstream_offset.toNat
          + (windowAt [1, 2, 3, 4, 5, 6] 4 2 0).buffer_size
          ≤ (windowAt [1, 2, 3, 4, 5, 6] 4 2 0).bitstream_file.length
      ∧ (windowAt [1, 2, 3, 4, 5, 6] 4 2 0).buffer_size
          ≤ (windowAt [1, 2, 3, 4, 5, 6] 4 2 0).buffer.length
      ∧ (windowAt [1, 2, 3, 4, 5, 6] 4 2 0).buffer.take
            (windowAt [1, 2, 3, 4, 5, 6] 4 2 0).buffer_size
          = ((windowAt [1, 2, 3, 4, 5, 6] 4 2 0).bitstream_file.drop
              (windowAt [1, 2, 3, 4, 5, 6] 4 2 0).bitstream_offset.toNat).take
            (windowAt [1, 2, 3, 4, 5, 6] 4 2 0).buffer_size :=
  window_after_init_and_feed ⟨4, false, 0⟩ [1, 2, 3, 4, 5, 6]
    (windowAt [1, 2, 3, 4, 5, 6] 0 4 32) (-1) (windowAt [1, 2, 3, 4, 5, 6] 4 2 0)
    (by decide) (by decide) (by decide) (by rfl)

/-- C30: for a size of 1 to 8 bytes and a byte-aligned cursor with that many
bytes inside the buffer, `read_ebml_data_uint` returns the big-endian integer
formed by the next `size` bytes of the buffer and moves the cursor by `size`
bytes, the rest of the reader being left as it was. -/
theorem read_ebml_data_uint_is_big_endian (cfg : Build) (bs : Bitstream_t) (size : Nat)
    (h1 : 1 ≤ size) (h8 : size ≤ 8) (halign : bs.buffer_offset % 8 = 0)
    (hin : InBuffer bs (8 * size)) :
    read_ebml_data_uint cfg bs (size : Int)
        = Outcome.ret (beInt ((bs.buffer.drop (bs.buffer_offset / 8)).take size))
            { bs with buffer_offset := bs.buffer_offset + 8 * size }
      ∧ bitstream_get_absolute_byte_offset
            { bs with buffer_offset := bs.buffer_offset + 8 * size }
          = bitstream_get_absolute_byte_offset bs + (size : Int) := by
  have hbits : (((size : Int) * 8) % 2 ^ 32).toNat = 8 * size := by
    rw [Int.emod_eq_of_lt (by omega) (by omega)]
    omega
  have hq : bs.buffer_offset = 8 * (bs.buffer_offset / 8) := by omega
  obtain ⟨ha, hb, hc⟩ := hin
  constructor
  · unfold read_ebml_data_uint
    rw [hbits, read_bits_64_spec cfg bs (8 * size) (by omega) (by omega) (Or.inl halign)
      ⟨ha, hb, hc⟩]
    congr 1
    conv_lhs => rw [hq]
    exact bitsValue_bytes bs.buffer (bs.buffer_offset / 8) size (by omega)
  · unfold bitstream_get_absolute_byte_offset
    dsimp only
    omega

/-- Witness for C30: an 8-byte integer read from the second byte of a buffer
of 9 bytes. -/
theorem read_ebml_data_uint_is_big_endian_witness :
    read_ebml_data_uint ⟨4, false, 0⟩ (readerAt [1, 2, 3, 4, 5, 6, 7, 8, 9] 8) ((8 : Nat) : Int)
        = Outcome.ret
            (beInt ((([1, 2, 3, 4, 5, 6, 7, 8, 9] : List Byte).drop (8 / 8)).take 8))
            { readerAt [1, 2, 3, 4, 5, 6, 7, 8, 9] 8 with buffer_offset := 8 + 8 * 8 }
      ∧ bitstream_get_absolute_byte_offset
            { readerAt [1, 2, 3, 4, 5, 6, 7, 8, 9] 8 with buffer_offset := 8 + 8 * 8 }
          = bitstream_get_absolute_byte_offset (readerAt [1, 2, 3, 4, 5, 6, 7, 8, 9] 8)
            + ((8 : Nat) : Int) :=
  read_ebml_data_uint_is_big_endian ⟨4, false, 0⟩ (readerAt [1, 2, 3, 4, 5, 6, 7, 8, 9] 8) 8
    (by decide) (by decide) (by decide) (by decide)

/-- C31 (the code departs from the claim): `read_ebml_data_float` returns 0
and leaves the reader where it was, for every reader and size. On a 4-byte
float leaf at byte 0 the absolute byte offset stays 0 instead of becoming 4,
where `read_ebml_data_uint` with the same size moves the reader to byte 4. -/
theorem read_ebml_data_float_reads_nothing (bs : Bitstream_t) (size : Int) :
    read_ebml_data_float bs size = Outcome.ret (Double.finite 0) bs
      ∧ read_ebml_data_float (readerAt [0x3F, 0x80, 0x00, 0x00] 0) 4
          = Outcome.ret (Double.finite 0) (readerAt [0x3F, 0x80, 0x00, 0x00] 0)
      ∧ bitstream_get_absolute_byte_offset (readerAt [0x3F, 0x80, 0x00, 0x00] 0) = 0
      ∧ read_ebml_data_uint ⟨4, false, 0⟩ (readerAt [0x3F, 0x80, 0x00, 0x00] 0) 4
          = Outcome.ret 0x3F800000 (readerAt [0x3F, 0x80, 0x00, 0x00] 32)
      ∧ bitstream_get_absolute_byte_offset (readerAt [0x3F, 0x80, 0x00, 0x00] 32) = 4 :=
  ⟨rfl, rfl, by decide, by rfl, by decide⟩

/-- C32 (the code departs from the claim): for a size of 1 to 8 bytes at a
byte-aligned cursor inside the buffer, `read_ebml_data_int` returns the
unsigned big-endian integer of the bytes converted to `int64_t` and moves the
cursor by `size` bytes. For fewer than 8 bytes the result is that unsigned
integer, never negative: when the top bit of the payload is set the
two's-complement value is negative and the result is not. -/
theorem read_ebml_data_int_is_not_sign_extended (cfg : Build) (bs : Bitstream_t) (size : Nat)
    (h1 : 1 ≤ size) (h8 : size ≤ 8) (halign : bs.buffer_offset % 8 = 0)
    (hin : InBuffer bs (8 * size)) :
    read_ebml_data_int cfg bs (size : Int)
        = Outcome.ret (to_int64 (beInt ((bs.buffer.drop (bs.buffer_offset / 8)).take size)))
            { bs with buffer_offset := bs.buffer_offset + 8 * size }
      ∧ (size < 8 →
          to_int64 (beInt ((bs.buffer.drop (bs.buffer_offset / 8)).take size))
              = (beInt ((bs.buffer.drop (bs.buffer_offset / 8)).take size) : Int)
            ∧ (2 ^ (8 * size - 1) ≤ beInt ((bs.buffer.drop (bs.buffer_offset / 8)).take size) →
                beSigned ((bs.buffer.drop (bs.buffer_offset / 8)).take size) < 0))
      ∧ (size = 8 →
          to_int64 (beInt ((bs.buffer.drop (bs.buffer_offset / 8)).take size))
            = beSigned ((bs.buffer.drop (bs.buffer_offset / 8)).take size)) := by
  have hbits : (((size : Int) * 8) % 2 ^ 32).toNat = 8 * size := by
    rw [Int.emod_eq_of_lt (by omega) (by omega)]
    omega
  have hq : bs.buffer_offset = 8 * (bs.buffer_offset / 8) := by omega
  obtain ⟨ha, hb, hc⟩ := hin
  have hlen : ((bs.buffer.drop (bs.buffer_offset / 8)).take size).length = size := by
    rw [List.length_take, List.length_drop]
    omega
  have hlt := beInt_lt ((bs.buffer.drop (bs.buffer_offset / 8)).take size)
  rw [hlen] at hlt
  generalize hv : beInt ((bs.buffer.drop (bs.buffer_offset / 8)).take size) = v at hlt
  refine ⟨?_, ?_, ?_⟩
  · unfold read_ebml_data_int
    rw [hbits, read_bits_64_spec cfg bs (8 * size) (by omega) (by omega) (Or.inl halign)
      ⟨ha, hb, hc⟩]
    dsimp only
    congr 2
    conv_lhs => rw [hq]
    rw [bitsValue_bytes bs.buffer (bs.buffer_offset / 8) size (by omega), hv]
  · intro h7
    have hp : (2 : Nat) ^ (8 * size) ≤ 2 ^ 56 := Nat.pow_le_pow_right (by decide) (by omega)
    have hv63 : v < 2 ^ 63 := by omega
    refine ⟨?_, fun htop => ?_⟩
    · unfold to_int64
      rw [Nat.mod_eq_of_lt (by omega), if_pos hv63]
    · unfold beSigned
      rw [hv, hlen]
      have hpow : (2 : Nat) ^ (8 * size) = 2 * 2 ^ (8 * size - 1) := by
        rw [← pow_succ']
        congr 1
        omega
      rw [if_neg (by omega)]
      have : (v : Int) < ((2 ^ (8 * size) : Nat) : Int) := by exact_mod_cast hlt
      push_cast at this
      omega
  · intro h
    subst h
    unfold to_int64 beSigned
    rw [hv, hlen, Nat.mod_eq_of_lt (by omega)]
    norm_num
    split_ifs <;> omega

/-- Witness for C32: the single byte `FF`, which is -1 in two's complement,
is returned as 255. -/
theorem read_ebml_data_int_is_not_sign_extended_witness :
    read_ebml_data_int ⟨4, false, 0⟩ (readerAt [0xFF] 0) ((1 : Nat) : Int)
        = Outcome.ret (to_int64 (beInt (([0xFF] : List Byte).drop (0 / 8) |>.take 1)))
            { readerAt [0xFF] 0 with buffer_offset := 0 + 8 * 1 }
      ∧ to_int64 (beInt (([0xFF] : List Byte).drop (0 / 8) |>.take 1)) = 255
      ∧ beSigned (([0xFF] : List Byte).drop (0 / 8) |>.take 1) = -1 :=
  ⟨(read_ebml_data_int_is_not_sign_extended ⟨4, false, 0⟩ (readerAt [0xFF] 0) 1 (by decide)
      (by decide) (by decide) (by decide)).1, by decide, by decide⟩

/-- C33: two different well-formed identifier encodings of 1 to 4 bytes, each
read from a reader that holds it, decode to different values; an encoding of
`n` bytes decodes to a value from `2^(7n)` up to but not including
`2^(7n+1)`, and the range of a shorter encoding ends before the range of a
longer one starts. -/
theorem read_ebml_eid_injective (cfg : Build) (a b : List Byte) (ha : WellFormedEid a)
    (hb : WellFormedEid b) (hne : a ≠ b) :
    ∃ va vb : Nat,
      read_ebml_eid cfg (readerAt a 0) = Outcome.ret va (readerAt a (8 * a.length))
        ∧ read_ebml_eid cfg (readerAt b 0) = Outcome.ret vb (readerAt b (8 * b.length))
        ∧ va ≠ vb
        ∧ 2 ^ (7 * a.length) ≤ va ∧ va < 2 ^ (7 * a.length + 1)
        ∧ 2 ^ (7 * b.length) ≤ vb ∧ vb < 2 ^ (7 * b.length + 1)
        ∧ (a.length < b.length → 2 ^ (7 * a.length + 1) ≤ 2 ^ (7 * b.length)) := by
  obtain ⟨hra, hla, hua⟩ := read_ebml_eid_of_encoding cfg a ha
  obtain ⟨hrb, hlb, hub⟩ := read_ebml_eid_of_encoding cfg b hb
  have hmono : ∀ m n : Nat, m < n → 2 ^ (7 * m + 1) ≤ 2 ^ (7 * n) := fun m n hmn =>
    Nat.pow_le_pow_right (by decide) (by omega)
  refine ⟨beInt a, beInt b, hra, hrb, ?_, hla, hua, hlb, hub, hmono _ _⟩
  intro heq
  rcases Nat.lt_trichotomy a.length b.length with hlt | hlen | hgt
  · have := hmono _ _ hlt
    omega
  · exact hne (beInt_injective a b hlen heq)
  · have := hmono _ _ hgt
    omega

/-- Witness for C33: the one-byte identifier `81` and the four-byte identifier
`1A 45 DF A3`. -/
theorem read_ebml_eid_injective_witness :
    ∃ va vb : Nat,
      read_ebml_eid ⟨4, false, 0⟩ (readerAt [0x81] 0)
          = Outcome.ret va (readerAt [0x81] (8 * ([0x81] : List Byte).length))
        ∧ read_ebml_eid ⟨4, false, 0⟩ (readerAt [0x1A, 0x45, 0xDF, 0xA3] 0)
          = Outcome.ret vb
              (readerAt [0x1A, 0x45, 0xDF, 0xA3]
                (8 * ([0x1A, 0x45, 0xDF, 0xA3] : List Byte).length))
        ∧ va ≠ vb
        ∧ 2 ^ (7 * ([0x81] : List Byte).length) ≤ va
        ∧ va < 2 ^ (7 * ([0x81] : List Byte).length + 1)
        ∧ 2 ^ (7 * ([0x1A, 0x45, 0xDF, 0xA3] : List Byte).length) ≤ vb
        ∧ vb < 2 ^ (7 * ([0x1A, 0x45, 0xDF, 0xA3] : List Byte).length + 1)
        ∧ (([0x81] : List Byte).length < ([0x1A, 0x45, 0xDF, 0xA3] : List Byte).length →
            2 ^ (7 * ([0x81] : List Byte).length + 1)
              ≤ 2 ^ (7 * ([0x1A, 0x45, 0xDF, 0xA3] : List Byte).length)) :=
  read_ebml_eid_injective ⟨4, false, 0⟩ [0x81] [0x1A, 0x45, 0xDF, 0xA3] (by decide) (by decide)
    (by decide)

/-- C34: `ebml_parse_void`, `read_ebml_data_uint2` and `read_ebml_data_int2`
return the same value and leave the same reader whether a sink is attached or
not, whatever it holds, and with or without a trace name. -/
theorem xml_sink_does_not_influence_parsing (cfg : Build) (bs : Bitstream_t)
    (element : EbmlElement_t) (xml : Option (List XmlLine)) (name : Option String) :
    (ebml_parse_void cfg bs element xml).1 = (ebml_parse_void cfg bs element none).1
      ∧ (read_ebml_data_uint2 cfg bs element xml name).1
          = (read_ebml_data_uint2 cfg bs element none none).1
      ∧ (read_ebml_data_int2 cfg bs element xml name).1
          = (read_ebml_data_int2 cfg bs element none none).1 := by
  refine ⟨rfl, ?_, ?_⟩
  · unfold read_ebml_data_uint2
    cases read_bits_64 cfg bs ((element.size * 8) % 2 ^ 32).toNat with
    | ret value bs1 => cases name <;> cases xml <;> rfl
    | terminated => rfl
    | undefined => rfl
  · unfold read_ebml_data_int2
    cases read_bits_64 cfg bs ((element.size * 8) % 2 ^ 32).toNat with
    | ret value bs1 => cases name <;> cases xml <;> rfl
    | terminated => rfl
    | undefined => rfl

/-- C35 (the code departs from the claim): on a source of `S >= 2` bytes,
with an allocation of `BITSTREAM_BUFFER_SIZE` bytes, `bitstream_goto_offset`
to the last byte `S - 1` returns `SUCCESS`: the reload starts before the end
of the source, so the end-of-file test does not fire, the window is shrunk to
one byte and holds the last byte of the source. -/
theorem bitstream_goto_offset_reaches_last_byte (cfg : Build) (bs : Bitstream_t) (S : Nat)
    (hS : 2 ≤ S) (hsize : bs.bitstream_size = (S : Int)) (hfile : bs.bitstream_file.length = S)
    (halloc : cfg.BITSTREAM_BUFFER_SIZE ≤ bs.buffer.length)
    (hcap1 : 1 ≤ cfg.BITSTREAM_BUFFER_SIZE) (hcap : cfg.BITSTREAM_BUFFER_SIZE < 2 ^ 32) :
    ∃ bs1, bitstream_goto_offset cfg bs ((S - 1 : Nat) : Int) = Outcome.ret SUCCESS bs1
      ∧ bs1.bitstream_offset = ((S - 1 : Nat) : Int) ∧ bs1.buffer_offset = 0
      ∧ bs1.buffer_size = 1
      ∧ bs1.buffer.take 1 = (bs.bitstream_file.drop (S - 1)).take 1 := by
  obtain ⟨bs1, hrun, h1, h2, -, h4, -, -, h7⟩ :=
    bitstream_goto_offset_in_range cfg bs (S - 1) (by omega) (by omega)
      (by rw [hsize, hfile]) halloc hcap
  have hone : bs1.buffer_size = 1 := by
    rw [h4, hfile]
    omega
  rw [hone] at h7
  exact ⟨bs1, hrun, h1, h2, hone, h7⟩

/-- Witness for C35: a 6-byte source opened with a window of 4 bytes; the jump
to byte 5 succeeds. -/
theorem bitstream_goto_offset_reaches_last_byte_witness :
    ∃ bs1, bitstream_goto_offset ⟨4, false, 0⟩ (windowAt [1, 2, 3, 4, 5, 6] 0 4 0)
          (((6 : Nat) - 1 : Nat) : Int) = Outcome.ret SUCCESS bs1
      ∧ bs1.bitstream_offset = (((6 : Nat) - 1 : Nat) : Int) ∧ bs1.buffer_offset = 0
      ∧ bs1.buffer_size = 1
      ∧ bs1.buffer.take 1
          = ((windowAt [1, 2, 3, 4, 5, 6] 0 4 0).bitstream_file.drop (6 - 1)).take 1 :=
  bitstream_goto_offset_reaches_last_byte ⟨4, false, 0⟩ (windowAt [1, 2, 3, 4, 5, 6] 0 4 0) 6
    (by decide) (by decide) (by decide) (by decide) (by decide) (by decide)

/-- C36: for a field of 2 to 64 bits inside the buffer, with the cursor
byte-aligned or `n + (buffer_offset mod 8) <= 32`, `read_bits_64(n)` returns
the big-endian value of the `n` bits at the cursor and moves the cursor by `n`
bits; for `n <= 32`, `read_bits(n)` does the same and `next_bits(n)` returns
that value and leaves the reader as it was. -/
theorem reads_return_field_value (cfg : Build) (bs : Bitstream_t) (n : Nat) (hn2 : 2 ≤ n)
    (hn : n ≤ 64) (hcase : bs.buffer_offset % 8 = 0 ∨ n + bs.buffer_offset % 8 ≤ 32)
    (hin : InBuffer bs n) :
    read_bits_64 cfg bs n
        = Outcome.ret (bitsValue bs.buffer bs.buffer_offset n)
            { bs with buffer_offset := bs.buffer_offset + n }
      ∧ (n ≤ 32 →
          read_bits cfg bs n
              = Outcome.ret (bitsValue bs.buffer bs.buffer_offset n)
                  { bs with buffer_offset := bs.buffer_offset + n }
            ∧ next_bits cfg bs n = Outcome.ret (bitsValue bs.buffer bs.buffer_offset n) bs) :=
  ⟨read_bits_64_spec cfg bs n (by omega) hn hcase hin,
    fun h32 => ⟨read_bits_spec cfg bs n (by omega) h32 hcase hin,
      next_bits_spec cfg bs n hn2 h32 hcase hin⟩⟩

/-- Witness for C36: a 24-bit field at a byte boundary and the same field
seen by the three functions. -/
theorem reads_return_field_value_witness :
    read_bits_64 ⟨4, false, 0⟩ (readerAt [1, 2, 3, 4] 8) 24
        = Outcome.ret (bitsValue [1, 2, 3, 4] 8 24) { readerAt [1, 2, 3, 4] 8 with
            buffer_offset := 8 + 24 }
      ∧ read_bits ⟨4, false, 0⟩ (readerAt [1, 2, 3, 4] 8) 24
        = Outcome.ret (bitsValue [1, 2, 3, 4] 8 24) { readerAt [1, 2, 3, 4] 8 with
            buffer_offset := 8 + 24 }
      ∧ next_bits ⟨4, false, 0⟩ (readerAt [1, 2, 3, 4] 8) 24
        = Outcome.ret (bitsValue [1, 2, 3, 4] 8 24) (readerAt [1, 2, 3, 4] 8)
      ∧ bitsValue [1, 2, 3, 4] 8 24 = 0x020304 :=
  ⟨(reads_return_field_value ⟨4, false, 0⟩ (readerAt [1, 2, 3, 4] 8) 24 (by decide) (by decide)
      (by decide) (by decide)).1,
    ((reads_return_field_value ⟨4, false, 0⟩ (readerAt [1, 2, 3, 4] 8) 24 (by decide)
      (by decide) (by decide) (by decide)).2 (by decide)).1,
    ((reads_return_field_value ⟨4, false, 0⟩ (readerAt [1, 2, 3, 4] 8) 24 (by decide)
      (by decide) (by decide) (by decide)).2 (by decide)).2, by decide⟩

/-- C37 (the code departs from the claim): the sample loop reads
`sample_size[10]` on every pass. For a track with at least one sample whose
`sample_size` array holds 10 entries or fewer the read falls outside the
array. With 16 entries allocated and two populated samples of 100 bytes the
track is classified by the unpopulated entry 10: `BITRATE_VBR` when it holds
0, `BITRATE_CBR` when it holds 100. -/
theorem computeSamplesDatasTrack_reads_entry_10 (p : Platform) (track : BitstreamMap_t)
    (hcount : 1 ≤ track.sample_count) (hshort : track.sample_size.length ≤ 10)
    (hdts : track.sample_count ≤ track.sample_dts.length) :
    computeSamplesDatasTrack p track = none
      ∧ (∃ t, computeSamplesDatasTrack p
              { sampleTrack (100 :: 100 :: List.replicate 14 0) with sample_count := 2 } = some t
          ∧ t.bitrate_mode = BitrateMode_e.BITRATE_VBR)
      ∧ (∃ t, computeSamplesDatasTrack p
              { sampleTrack (100 :: 100 :: List.replicate 8 0 ++ 100 :: List.replicate 5 0) with
                  sample_count := 2 } = some t
          ∧ t.bitrate_mode = BitrateMode_e.BITRATE_CBR) := by
  refine ⟨?_, ?_, ?_⟩
  · obtain ⟨t, hframes, hc, hs, -⟩ := computeSamplesDatasTrack_frames_spec track hdts
    unfold computeSamplesDatasTrack
    rw [hframes]
    dsimp only
    obtain ⟨m, hm⟩ : ∃ m, t.sample_count = m + 1 := ⟨t.sample_count - 1, by omega⟩
    have hnone : t.sample_size[10]? = none := List.getElem?_eq_none (by rw [hs]; omega)
    rw [hm, computeSamplesDatasTrack_loop, hnone]
    cases t.sample_size[0]? <;> rfl
  · obtain ⟨t, h, hm, -, -⟩ := computeSamplesDatasTrack_run p
      { sampleTrack (100 :: 100 :: List.replicate 14 0) with sample_count := 2 } 0
      (fun _ => by decide) (by decide) (by decide) (by decide) (by decide) (by decide)
    exact ⟨t, h, by rw [hm]; decide⟩
  · obtain ⟨t, h, hm, -, -⟩ := computeSamplesDatasTrack_run p
      { sampleTrack (100 :: 100 :: List.replicate 8 0 ++ 100 :: List.replicate 5 0) with
          sample_count := 2 } 100
      (fun _ => by decide) (by decide) (by decide) (by decide) (by decide) (by decide)
    exact ⟨t, h, by rw [hm]; decide⟩

/-- Witness for C37: a track of one sample with one entry allocated. -/
theorem computeSamplesDatasTrack_reads_entry_10_witness :
    computeSamplesDatasTrack ⟨0, 0⟩ (sampleTrack [100]) = none :=
  (computeSamplesDatasTrack_reads_entry_10 ⟨0, 0⟩ (sampleTrack [100]) (by decide) (by decide)
    (by decide)).1

/-- C38: for a linear-PCM description with `c >= 1` channels, `b >= 8` bits
per sample and a data region of at least one frame `f = c * (b / 8)`, on a
media without audio track, `wave_indexer_initmap` returns: its sample-filling
loop ends within `D` passes without writing outside an array. The track it
leaves has `floor(D / f)` samples, capped at `UINT32_MAX`, which is the number
of entries of each of its five sample arrays; the samples cover at most `D`
bytes, so a trailing partial frame gives no sample; and every state of the
loop from which the rest of the run leads to the final table has a
`sample_count` at or below that capacity and a `sample_size` array of that
capacity. -/
theorem wave_indexer_initmap_capacity (env : WaveEnv) (media : MediaFile_t) (wave : wave_t)
    (htyped : wave.WellTyped)
    (htag : wave.fmt.wFormatTag = env.WAVE_FORMAT_MS_PCM ∨
      wave.fmt.wFormatTag = env.WAVE_FORMAT_EXTENSIBLE)
    (hc : 1 ≤ wave.fmt.nChannels) (hb : 8 ≤ wave.fmt.wBitsPerSample)
    (hD : (wave.frame : Int) ≤ wave.data.datasSize)
    (hnone : media.tracks_audio[0]? = some none) (hcount : media.tracks_audio_count = 0) :
    ∃ (media' : MediaFile_t) (track : BitstreamMap_t),
      wave_indexer_initmap env media wave = some (SUCCESS, media')
        ∧ media'.track 0 = some track
        ∧ track.sample_count = min (wave.data.datasSize / (wave.frame : Int)).toNat UINT32_MAX
        ∧ track.sample_type.length = track.sample_count
        ∧ track.sample_size.length = track.sample_count
        ∧ track.sample_offset.length = track.sample_count
        ∧ track.sample_pts.length = track.sample_count
        ∧ track.sample_dts.length = track.sample_count
        ∧ (track.sample_count : Int) * (wave.frame : Int) ≤ wave.data.datasSize
        ∧ ∀ (tick : Double) (fuel : Nat) (i : Int) (t : BitstreamMap_t),
            wave_pcm_loop env.invalid_int64 wave.data wave.frame track.sample_count tick fuel i t
                = some { track with duration_ms := t.duration_ms } →
            t.sample_count ≤ track.sample_count
              ∧ t.sample_size.length = track.sample_count := by
  obtain ⟨tick, filled, hloop, hrun, hcnt, h1, h2, h3, h4, h5, hroom, -⟩ :=
    wave_indexer_initmap_pcm_loop_run env media wave htyped htag hc hb hD hnone hcount
  obtain ⟨b1, b2, b3, b4, b5, -, -⟩ := wave_pcm_loop_bounds _ _ _ _ _ _ _ _ _ hloop
  have hlen : 0 < media.tracks_audio.length := by
    rcases Nat.lt_or_ge 0 media.tracks_audio.length with h | h
    · exact h
    · rw [List.getElem?_eq_none (by omega)] at hnone; cases hnone
  refine ⟨_,
    { filled with
        duration_ms :=
          dbl_to_int64 env.invalid_int64
            (dbl_mul (dbl_of_int filled.sample_count)
              (dbl_div (dbl_of_int 1000) (dbl_of_int wave.fmt.nSamplesPerSec))) },
    hrun, ?_, hcnt, ?_, ?_, ?_, ?_, ?_, ?_, ?_⟩
  · simp only [MediaFile_t.track, List.getElem?_set_self hlen]
  · show filled.sample_type.length = filled.sample_count
    rw [b1, hcnt]
    exact h1
  · show filled.sample_size.length = filled.sample_count
    rw [b2, hcnt]
    exact h2
  · show filled.sample_offset.length = filled.sample_count
    rw [b3, hcnt]
    exact h3
  · show filled.sample_pts.length = filled.sample_count
    rw [b4, hcnt]
    exact h4
  · show filled.sample_dts.length = filled.sample_count
    rw [b5, hcnt]
    exact h5
  · show (filled.sample_count : Int) * (wave.frame : Int) ≤ wave.data.datasSize
    rw [hcnt]
    exact hroom
  · intro tick2 fuel i t hsub
    obtain ⟨-, c2, -, -, -, c6, -⟩ := wave_pcm_loop_bounds _ _ _ _ _ _ _ _ _ hsub
    have hfl : filled.sample_size.length = filled.sample_count := by
      rw [b2, hcnt]
      exact h2
    have c2a : filled.sample_size.length = t.sample_size.length := c2
    have c6a : t.sample_count ≤ filled.sample_count := c6
    exact ⟨c6a, by show t.sample_size.length = filled.sample_count; omega⟩

/-- Witness for C38: two channels of 16 bits and 10 data bytes, two whole
frames and a trailing half frame. -/
theorem wave_indexer_initmap_capacity_witness :
    ∃ (media' : MediaFile_t) (track : BitstreamMap_t),
      wave_indexer_initmap ⟨1, 0xFFFE, fun _ => 0, -(2 ^ 63)⟩
          { tracks_audio := [none, none], tracks_audio_count := 0 }
          ⟨⟨1, 2, 8000, 32000, 16⟩, ⟨0⟩, ⟨44, 10⟩⟩ = some (SUCCESS, media')
        ∧ media'.track 0 = some track
        ∧ track.sample_count = 2
        ∧ track.sample_size.length = track.sample_count
        ∧ (track.sample_count : Int) * 4 ≤ 10 := by
  obtain ⟨media', track, h1, h2, h3, -, h5, -, -, -, h9, -⟩ :=
    wave_indexer_initmap_capacity ⟨1, 0xFFFE, fun _ => 0, -(2 ^ 63)⟩
      { tracks_audio := [none, none], tracks_audio_count := 0 }
      ⟨⟨1, 2, 8000, 32000, 16⟩, ⟨0⟩, ⟨44, 10⟩⟩
      (by decide) (Or.inl rfl) (by decide) (by decide) (by decide) rfl rfl
  exact ⟨media', track, h1, h2, by rw [h3]; decide, h5, h9⟩

/-- C39 (the code departs from the claim): two channels of 16 bits, 8 data
bytes, so two frames of 4 bytes. Without a fact chunk the stream size is 8,
the data size and the sum of the two sample sizes. With a fact chunk whose
`dwSampleLength` is 2, the number of frames, the stream size is
`2 * (16 * 8) * 2 = 512`: the bit depth is multiplied by 8 where the frame
size divides it by 8. -/
theorem wave_indexer_initmap_fact_stream_size :
    (wave_indexer_initmap ⟨1, 0xFFFE, fun _ => 0, -(2 ^ 63)⟩
          { tracks_audio := [none, none], tracks_audio_count := 0 }
          ⟨⟨1, 2, 8000, 32000, 16⟩, ⟨0⟩, ⟨44, 8⟩⟩).map
        (fun p =>
          (p.1, (p.2.track 0).map fun t => (t.stream_size, t.sample_count, t.sample_size)))
        = some (SUCCESS, some (8, 2, [4, 4]))
      ∧ (wave_indexer_initmap ⟨1, 0xFFFE, fun _ => 0, -(2 ^ 63)⟩
          { tracks_audio := [none, none], tracks_audio_count := 0 }
          ⟨⟨1, 2, 8000, 32000, 16⟩, ⟨2⟩, ⟨44, 8⟩⟩).map
        (fun p =>
          (p.1, (p.2.track 0).map fun t => (t.stream_size, t.sample_count, t.sample_size)))
        = some (SUCCESS, some (512, 2, [4, 4]))
      ∧ (8 : Int) / ((2 * (16 / 8) : Nat) : Int) = 2
      ∧ ([4, 4] : List Nat).sum = 8 := by
  refine ⟨by decide!, by decide!, by decide, by decide⟩

/-- C40: on a track whose `sample_size` array holds its samples,
`computePCMSettings` returns a track that a second call leaves as it is; in
that track `sample_count` is 0 or `sample_size[0]` is the `uint32_t` product
`channel_count * (bit_per_sample / 8)`, which is the product itself when it
is below `2^32`. -/
theorem computePCMSettings_idempotent (track : BitstreamMap_t)
    (hlen : track.sample_count ≤ track.sample_size.length) :
    ∃ t1, computePCMSettings track = some (SUCCESS, t1)
      ∧ computePCMSettings t1 = some (SUCCESS, t1)
      ∧ (t1.sample_count = 0
        ∨ t1.sample_size[0]? = some (t1.channel_count * (t1.bit_per_sample / 8) % 2 ^ 32))
      ∧ (t1.channel_count * (t1.bit_per_sample / 8) < 2 ^ 32 →
          t1.sample_count = 0
            ∨ t1.sample_size[0]? = some (t1.channel_count * (t1.bit_per_sample / 8))) := by
  have hfinal : ∀ t1 : BitstreamMap_t,
      (t1.sample_count = 0
        ∨ t1.sample_size[0]? = some (t1.channel_count * (t1.bit_per_sample / 8) % 2 ^ 32)) →
      computePCMSettings t1 = some (SUCCESS, t1)
        ∧ (t1.sample_count = 0
          ∨ t1.sample_size[0]? = some (t1.channel_count * (t1.bit_per_sample / 8) % 2 ^ 32))
        ∧ (t1.channel_count * (t1.bit_per_sample / 8) < 2 ^ 32 →
            t1.sample_count = 0
              ∨ t1.sample_size[0]? = some (t1.channel_count * (t1.bit_per_sample / 8))) := by
    intro t1 h
    refine ⟨computePCMSettings_idle t1 h, h, fun hlt => ?_⟩
    rw [Nat.mod_eq_of_lt hlt] at h
    exact h
  by_cases hpos : 0 < track.sample_count
  · have h0 : track.sample_size[0]? = some track.sample_size[0] :=
      List.getElem?_eq_getElem (by omega)
    by_cases hne : track.sample_size[0]
        = track.channel_count * (track.bit_per_sample / 8) % 2 ^ 32
    · have hidle : track.sample_count = 0
          ∨ track.sample_size[0]?
            = some (track.channel_count * (track.bit_per_sample / 8) % 2 ^ 32) :=
        Or.inr (by rw [h0, hne])
      exact ⟨track, computePCMSettings_idle track hidle, hfinal track hidle⟩
    · obtain ⟨sizes, hrun, -, hk⟩ := computePCMSettings_hack track _ hpos hlen h0 hne
      refine ⟨_, hrun, hfinal _ (Or.inr ?_)⟩
      show sizes[0]? = _
      rw [hk 0, if_pos hpos]
  · have hidle : track.sample_count = 0
        ∨ track.sample_size[0]?
          = some (track.channel_count * (track.bit_per_sample / 8) % 2 ^ 32) :=
      Or.inl (by omega)
    exact ⟨track, computePCMSettings_idle track hidle, hfinal track hidle⟩

/-- Witness for C40: three samples of 3 bytes on a track of two channels of
16 bits, which the first call sets to 4 bytes. -/
theorem computePCMSettings_idempotent_witness :
    ∃ t1, computePCMSettings
          { sampleTrack [3, 3, 3] with channel_count := 2, bit_per_sample := 16 }
          = some (SUCCESS, t1)
      ∧ computePCMSettings t1 = some (SUCCESS, t1)
      ∧ (t1.sample_count = 0 ∨ t1.sample_size[0]? = some (t1.channel_count * (t1.bit_per_sample / 8))) := by
  obtain ⟨t1, h1, h2, h3, h4⟩ := computePCMSettings_idempotent
    { sampleTrack [3, 3, 3] with channel_count := 2, bit_per_sample := 16 } (by decide)
  have hrun : computePCMSettings
      { sampleTrack [3, 3, 3] with channel_count := 2, bit_per_sample := 16 }
      = some (SUCCESS,
          { sampleTrack [4, 4, 4] with
              channel_count := 2, bit_per_sample := 16, sample_per_frames := 1,
              stream_size := 12 }) := by decide
  rw [hrun] at h1
  cases h1
  exact ⟨_, hrun, h2, h4 (by decide)⟩

end MiniVideo
